import Mathlib

/-!
# shpdbf: a shallow embedding of the `.shp` / `.shx` / `.dbf` codecs

The definitions below follow `src/shputil.cpp`, `src/shputil.h`, `src/dbfutil.cpp`
and `src/dbfutil.h` function by function, for the little-endian build
(`BYTE_ORDER == LITTLE_ENDIAN`).

Conventions of the embedding.

* A byte, and every `uint8_t` member, is a `Nat` below 256; a file or buffer is a
  `List Nat`, and so is a `std::string`.
* A `double` is its 64-bit IEEE-754 pattern, a `Nat` below `2 ^ 64`; the codecs only copy
  doubles, and compare them when a bounding box is computed.
* An `int32_t` value is an `Int`; every assignment to an `int32_t` goes through `to_int32`,
  every assignment to a `uint32_t` through `to_uint32`, a `uint16_t` is taken modulo 65536.
* `fopen`, `fwrite`, `malloc` and `ftell` are assumed to succeed; `fread` fails exactly when
  fewer bytes remain than requested.
* A function whose C++ execution would have undefined behaviour (a cast of a shape to the
  wrong class, a read or write outside a buffer) returns `none`.
-/

/-! ## Machine integers and byte order -/

/-- Conversion of an integer to `int32_t`: two's complement wrap-around. -/
def to_int32 (z : Int) : Int := (z + 2147483648) % 4294967296 - 2147483648

/-- Conversion of an integer to `uint32_t`. -/
def to_uint32 (z : Int) : Nat := (z % 4294967296).toNat

/-- The `w` little-endian bytes of `n`. -/
def le_bytes : Nat → Nat → List Nat
  | 0, _ => []
  | w + 1, n => n % 256 :: le_bytes w (n / 256)

/-- The number whose little-endian bytes are given. -/
def from_le : List Nat → Nat
  | [] => 0
  | b :: bs => b + 256 * from_le bs

/-- The four bytes of an `int32_t` stored in host (little-endian) order. -/
def int32_LE (z : Int) : List Nat := le_bytes 4 (to_uint32 z)

/-- The four bytes of an `int32_t` after `__builtin_bswap32`: big-endian order. -/
def int32_BE (z : Int) : List Nat := (le_bytes 4 (to_uint32 z)).reverse

/-- The eight bytes of a `double` stored in host (little-endian) order. -/
def double_LE (d : Nat) : List Nat := le_bytes 8 d

/-- An `int32_t` read from four bytes in host order. -/
def int32_of_LE (bs : List Nat) : Int := to_int32 (from_le bs)

/-- An `int32_t` read from four bytes and passed through `__builtin_bswap32`. -/
def int32_of_BE (bs : List Nat) : Int := to_int32 (from_le bs.reverse)

/-- Model of `fread(buf, n, 1, fp) == 1`: the `n` bytes read and the rest of the file, or
`none` when fewer than `n` bytes remain. -/
def fread (n : Nat) (fp : List Nat) : Option (List Nat × List Nat) :=
  if n ≤ fp.length then some (fp.take n, fp.drop n) else none

/-! ## Comparison of doubles -/

/-- The pattern is a NaN: exponent all ones and a non-zero fraction. -/
def dbl_is_nan (d : Nat) : Bool :=
  decide ((d / 4503599627370496) % 2048 = 2047) && decide (d % 4503599627370496 ≠ 0)

/-- Sign-magnitude reading of a pattern; it orders all non-NaN doubles, both zeros at 0. -/
def dbl_key (d : Nat) : Int :=
  if (d / 9223372036854775808) % 2 = 1 then -((d % 9223372036854775808 : Nat) : Int)
  else ((d % 9223372036854775808 : Nat) : Int)

/-- The C++ `a < b` on doubles. -/
def dbl_lt (a b : Nat) : Bool :=
  !dbl_is_nan a && !dbl_is_nan b && decide (dbl_key a < dbl_key b)

/-- The C++ `a > b` on doubles. -/
def dbl_gt (a b : Nat) : Bool := dbl_lt b a

namespace shputil

/-! ## Data model (`shputil.h`) -/

/-- The enum class `shape_type`. -/
inductive shape_type where
  | null_shape | point | polyline | polygon | multipoint
  | pointz | polylinez | polygonz | multipointz
  | pointm | polylinem | multipointm | multipatch
  deriving DecidableEq, Repr

/-- The integer value of each enumerator. -/
def shape_type.code : shape_type → Int
  | .null_shape => 0 | .point => 1 | .polyline => 3 | .polygon => 5 | .multipoint => 8
  | .pointz => 11 | .polylinez => 13 | .polygonz => 15 | .multipointz => 18
  | .pointm => 21 | .polylinem => 23 | .multipointm => 28 | .multipatch => 31

/-- The class `pointshape`: two doubles. -/
structure pointshape where
  x : Nat
  y : Nat
  deriving DecidableEq, Repr

/-- The class `polypart`. -/
structure polypart where
  points : List pointshape
  deriving DecidableEq, Repr

/-- The class `shape` with its four subclasses; `null` is an object of the base class,
whose `stype()` is `null_shape`. -/
inductive shape where
  | null
  | point (ps : pointshape)
  | multipoint (points : List pointshape)
  | polyline (parts : List polypart)
  | polygon (rings : List polypart)
  deriving DecidableEq, Repr

/-- The virtual method `stype()`. -/
def shape.stype : shape → shape_type
  | .null => .null_shape
  | .point _ => .point
  | .multipoint _ => .multipoint
  | .polyline _ => .polyline
  | .polygon _ => .polygon

/-- The class `shapefile`. -/
structure shapefile where
  shapes : List shape
  deriving DecidableEq, Repr

/-! ## Headers -/

def SHAPEFILE_FILE_CODE : Int := 9994
def SHAPEFILE_VERSION : Int := 1000
def POLY_BASE_RECORD_SIZE : Int := 44

/-- The struct `shapefile_main_header_base` (36 bytes; `unused` stays zero). -/
structure shapefile_main_header_base where
  file_code : Int
  file_length : Int
  version : Int
  shape_type : Int
  deriving DecidableEq, Repr

/-- The struct `shapefile_main_header_boundingbox` (64 bytes). -/
structure shapefile_main_header_boundingbox where
  xmin : Nat
  ymin : Nat
  xmax : Nat
  ymax : Nat
  zmin : Nat
  zmax : Nat
  mmin : Nat
  mmax : Nat
  deriving DecidableEq, Repr

/-- The struct `shapefile_record_header`. -/
structure shapefile_record_header where
  record_number : Int
  content_length : Int
  deriving DecidableEq, Repr

/-- The result of `memset(&header_bb, 0, ...)`. -/
def zero_bb : shapefile_main_header_boundingbox := ⟨0, 0, 0, 0, 0, 0, 0, 0⟩

/-- The bytes `write_main_header` emits: `file_code` and `file_length` byte-swapped to
big-endian, everything else in host order. -/
def write_main_header (header_base : shapefile_main_header_base)
    (header_bb : shapefile_main_header_boundingbox) : List Nat :=
  int32_BE header_base.file_code ++ List.replicate 20 0 ++ int32_BE header_base.file_length
    ++ int32_LE header_base.version ++ int32_LE header_base.shape_type
    ++ double_LE header_bb.xmin ++ double_LE header_bb.ymin
    ++ double_LE header_bb.xmax ++ double_LE header_bb.ymax
    ++ double_LE header_bb.zmin ++ double_LE header_bb.zmax
    ++ double_LE header_bb.mmin ++ double_LE header_bb.mmax

/-- The eight bytes of a record header (or `.shx` entry) after `handle_endianness`. -/
def write_record_header (rh : shapefile_record_header) : List Nat :=
  int32_BE rh.record_number ++ int32_BE rh.content_length

/-! ## Bounding boxes -/

/-- One iteration of the bounding-box loops: the four guarded assignments and
`first = false`. -/
def bb_step (st : Bool × shapefile_main_header_boundingbox) (ps : pointshape) :
    Bool × shapefile_main_header_boundingbox :=
  let first := st.1
  let bb := st.2
  let bb := if first || dbl_lt ps.x bb.xmin then { bb with xmin := ps.x } else bb
  let bb := if first || dbl_gt ps.x bb.xmax then { bb with xmax := ps.x } else bb
  let bb := if first || dbl_lt ps.y bb.ymin then { bb with ymin := ps.y } else bb
  let bb := if first || dbl_gt ps.y bb.ymax then { bb with ymax := ps.y } else bb
  (false, bb)

/-- One iteration of the loop of `determine_point_shape_bb`: a shape that is not a point is
skipped. -/
def point_bb_step (st : Bool × shapefile_main_header_boundingbox) (s : shape) :
    Bool × shapefile_main_header_boundingbox :=
  match s with
  | .point ps => bb_step st ps
  | _ => st

/-- The function `determine_point_shape_bb`. -/
def determine_point_shape_bb (shpfile : shapefile) : shapefile_main_header_boundingbox :=
  (shpfile.shapes.foldl point_bb_step (true, zero_bb)).2

/-- The function `determine_multipoint_bb`. -/
def determine_multipoint_bb (points : List pointshape) : shapefile_main_header_boundingbox :=
  (points.foldl bb_step (true, zero_bb)).2

/-- One iteration of the loop of `determine_multipoint_shape_bb` on `numpoints` and
`points`: a shape that is not a multipoint is skipped. -/
def multipoint_collect_step (st : Int × List pointshape) (s : shape) : Int × List pointshape :=
  match s with
  | .multipoint pts => (to_int32 (st.1 + pts.length), st.2 ++ pts)
  | _ => st

/-- The function `determine_multipoint_shape_bb`: the point count (an `int32_t`) and the box
of all points of the multipoint shapes. -/
def determine_multipoint_shape_bb (shpfile : shapefile) :
    Int × shapefile_main_header_boundingbox :=
  let acc := shpfile.shapes.foldl multipoint_collect_step (0, [])
  (acc.1, determine_multipoint_bb acc.2)

/-- One iteration of the outer loop of `determine_polypart_bb` on `numpoints`, `first` and
the box. -/
def polypart_bb_step (st : Int × Bool × shapefile_main_header_boundingbox) (part : polypart) :
    Int × Bool × shapefile_main_header_boundingbox :=
  (to_int32 (st.1 + part.points.length), part.points.foldl bb_step st.2)

/-- The function `determine_polypart_bb` on a vector of parts: the point count (an
`int32_t`) and the box of all their points. -/
def determine_polypart_bb (parts : List polypart) : Int × shapefile_main_header_boundingbox :=
  let acc := parts.foldl polypart_bb_step (0, true, zero_bb)
  (acc.1, acc.2.2)

/-- One iteration of the loop of `determine_polypart_bb` on a shapefile: the parts of a
polyline and the rings of a polygon are appended to `parts`. -/
def polypart_collect_step (acc : List polypart) (s : shape) : List polypart :=
  match s with
  | .polyline ps => acc ++ ps
  | .polygon rs => acc ++ rs
  | _ => acc

/-- The function `determine_polypart_bb` on a shapefile: the bytes required by the records
(an `int32_t`) and the box over the parts of all polylines and polygons. -/
def determine_polypart_bb_file (shpfile : shapefile) :
    Int × shapefile_main_header_boundingbox :=
  let parts := shpfile.shapes.foldl polypart_collect_step []
  let r := determine_polypart_bb parts
  (to_int32 ((shpfile.shapes.length : Int) * (POLY_BASE_RECORD_SIZE + 8)
      + 4 * (parts.length : Int) + 2 * 8 * r.1), r.2)

/-! ## Writer -/

/-- The function `determine_shape_type`: the loop over the shapes, `stype` being the kind
found so far. -/
def determine_shape_type_loop : List shape → shape_type → shape_type
  | [], stype => stype
  | s :: rest, stype =>
    if s.stype = shape_type.null_shape then determine_shape_type_loop rest stype
    else if stype = shape_type.null_shape then determine_shape_type_loop rest s.stype
    else if stype ≠ s.stype then shape_type.null_shape
    else determine_shape_type_loop rest stype

/-- The function `determine_shape_type`. -/
def determine_shape_type (shpfile : shapefile) : shape_type :=
  determine_shape_type_loop shpfile.shapes shape_type.null_shape

/-- The 16 bytes of a point: `x` then `y`. -/
def write_xy (ps : pointshape) : List Nat := double_LE ps.x ++ double_LE ps.y

/-- The record loop of `write_point_shapes`. `pos` is `ftell(fp)` and `recnum` the next
record number; the result is the bytes appended to the `.shp` and to the `.shx`. Every
element is cast to `pointshape`, which is undefined for any other object. -/
def write_point_records : List shape → Nat → Int → Option (List Nat × List Nat)
  | [], _, _ => some ([], [])
  | s :: rest, pos, recnum =>
    match s with
    | .point ps =>
      let rh : shapefile_record_header := ⟨recnum, 20 / 2⟩
      let shx_rh : shapefile_record_header := ⟨to_int32 ((pos : Int) / 2), rh.content_length⟩
      let record_content := int32_LE shape_type.point.code ++ write_xy ps
      match write_point_records rest (pos + 8 + 20) (to_int32 (recnum + 1)) with
      | some (fp, shxfp) =>
        some (write_record_header rh ++ record_content ++ fp, write_record_header shx_rh ++ shxfp)
      | none => none
    | _ => none

/-- The function `write_point_shapes`: status, bytes of the `.shp`, bytes of the `.shx`. -/
def write_point_shapes (shpfile : shapefile) : Option (Bool × List Nat × List Nat) :=
  let file_length : Int := to_int32 (36 + 64 + (shpfile.shapes.length : Int) * (20 + 8))
  let header_base : shapefile_main_header_base :=
    ⟨SHAPEFILE_FILE_CODE, Int.tdiv file_length 2, SHAPEFILE_VERSION, shape_type.point.code⟩
  let header_bb := determine_point_shape_bb shpfile
  let shx_base : shapefile_main_header_base :=
    { header_base with file_length := to_int32 ((36 + 64 + 2 * 4 * (shpfile.shapes.length : Int)) / 2) }
  match write_point_records shpfile.shapes 100 1 with
  | some (fp, shxfp) =>
    some (true, write_main_header header_base header_bb ++ fp,
      write_main_header shx_base header_bb ++ shxfp)
  | none => none

/-- The record loop of `write_multipoint_shapes`; every element is cast to
`multipointshape`. -/
def write_multipoint_records : List shape → Nat → Int → Option (List Nat × List Nat)
  | [], _, _ => some ([], [])
  | s :: rest, pos, recnum =>
    match s with
    | .multipoint points =>
      let shape_bb := determine_multipoint_bb points
      let numpoints : Int := to_int32 points.length
      let content_bytes : Int := to_int32 (40 + 2 * 8 * numpoints)
      let rh : shapefile_record_header := ⟨recnum, Int.tdiv content_bytes 2⟩
      let shx_rh : shapefile_record_header := ⟨to_int32 ((pos : Int) / 2), rh.content_length⟩
      let content := int32_LE shape_type.multipoint.code
        ++ double_LE shape_bb.xmin ++ double_LE shape_bb.ymin
        ++ double_LE shape_bb.xmax ++ double_LE shape_bb.ymax
        ++ int32_LE numpoints ++ points.flatMap write_xy
      match write_multipoint_records rest (pos + 8 + content.length) (to_int32 (recnum + 1)) with
      | some (fp, shxfp) =>
        some (write_record_header rh ++ content ++ fp, write_record_header shx_rh ++ shxfp)
      | none => none
    | _ => none

/-- The function `write_multipoint_shapes`. -/
def write_multipoint_shapes (shpfile : shapefile) : Option (Bool × List Nat × List Nat) :=
  let r := determine_multipoint_shape_bb shpfile
  let numpoints := r.1
  let header_bb := r.2
  let file_length : Int :=
    to_int32 (36 + 64 + (shpfile.shapes.length : Int) * (40 + 8) + numpoints * 2 * 8)
  let header_base : shapefile_main_header_base :=
    ⟨SHAPEFILE_FILE_CODE, Int.tdiv file_length 2, SHAPEFILE_VERSION, shape_type.multipoint.code⟩
  let shx_base : shapefile_main_header_base :=
    { header_base with file_length := to_int32 ((36 + 64 + 2 * 4 * (shpfile.shapes.length : Int)) / 2) }
  match write_multipoint_records shpfile.shapes 100 1 with
  | some (fp, shxfp) =>
    some (true, write_main_header header_base header_bb ++ fp,
      write_main_header shx_base header_bb ++ shxfp)
  | none => none

/-- The loop that writes the starting point index of each part; `start_idx` is an
`int32_t`. -/
def write_part_indices : List polypart → Int → List Nat
  | [], _ => []
  | part :: rest, start_idx =>
    int32_LE start_idx ++ write_part_indices rest (to_int32 (start_idx + part.points.length))

/-- The parts a record of `write_polypart_shapes` is written from: the element is cast to
`polyline` when `stype` is `polyline` and to `polygon` otherwise. -/
def polypart_cast (stype : shape_type) (s : shape) : Option (List polypart) :=
  if stype = shape_type.polyline then
    match s with
    | .polyline parts => some parts
    | _ => none
  else
    match s with
    | .polygon rings => some rings
    | _ => none

/-- The record loop of `write_polypart_shapes`. -/
def write_polypart_records (stype : shape_type) :
    List shape → Nat → Int → Option (List Nat × List Nat)
  | [], _, _ => some ([], [])
  | s :: rest, pos, recnum =>
    match polypart_cast stype s with
    | some parts =>
      let r := determine_polypart_bb parts
      let numpoints : Int := r.1
      let shape_bb := r.2
      let numparts : Int := to_int32 parts.length
      let content_bytes : Int := to_int32 (POLY_BASE_RECORD_SIZE + 4 * numparts + 2 * 8 * numpoints)
      let rh : shapefile_record_header := ⟨recnum, Int.tdiv content_bytes 2⟩
      let shx_rh : shapefile_record_header := ⟨to_int32 ((pos : Int) / 2), rh.content_length⟩
      let content := int32_LE stype.code
        ++ double_LE shape_bb.xmin ++ double_LE shape_bb.ymin
        ++ double_LE shape_bb.xmax ++ double_LE shape_bb.ymax
        ++ int32_LE numparts ++ int32_LE numpoints
        ++ write_part_indices parts 0
        ++ parts.flatMap (fun part => part.points.flatMap write_xy)
      match write_polypart_records stype rest (pos + 8 + content.length) (to_int32 (recnum + 1)) with
      | some (fp, shxfp) =>
        some (write_record_header rh ++ content ++ fp, write_record_header shx_rh ++ shxfp)
      | none => none
    | none => none

/-- The function `write_polypart_shapes`. -/
def write_polypart_shapes (shpfile : shapefile) (stype : shape_type) :
    Option (Bool × List Nat × List Nat) :=
  let r := determine_polypart_bb_file shpfile
  let bytes_required := r.1
  let header_bb := r.2
  let file_length : Int := to_int32 (36 + 64 + bytes_required)
  let header_base : shapefile_main_header_base :=
    ⟨SHAPEFILE_FILE_CODE, Int.tdiv file_length 2, SHAPEFILE_VERSION, stype.code⟩
  let shx_base : shapefile_main_header_base :=
    { header_base with file_length := to_int32 ((36 + 64 + 2 * 4 * (shpfile.shapes.length : Int)) / 2) }
  match write_polypart_records stype shpfile.shapes 100 1 with
  | some (fp, shxfp) =>
    some (true, write_main_header header_base header_bb ++ fp,
      write_main_header shx_base header_bb ++ shxfp)
  | none => none

/-- The function `write_polyline_shapes`. -/
def write_polyline_shapes (shpfile : shapefile) : Option (Bool × List Nat × List Nat) :=
  write_polypart_shapes shpfile shape_type.polyline

/-- The function `write_polygon_shapes`. -/
def write_polygon_shapes (shpfile : shapefile) : Option (Bool × List Nat × List Nat) :=
  write_polypart_shapes shpfile shape_type.polygon

/-- The scan of `std::regex_replace(path, std::regex(".shp"), ".shx")`. `skip` counts the
characters of the current match that are still to be consumed. At a character that is not
a line terminator and is followed by `shp`, the match is replaced by `.shx`. -/
def regex_replace_scan : Nat → List Nat → List Nat
  | _, [] => []
  | skip + 1, _ :: tl => regex_replace_scan skip tl
  | 0, c :: tl =>
    if c ≠ 10 ∧ c ≠ 13 ∧ tl.take 3 = [115, 104, 112] then
      [46, 115, 104, 120] ++ regex_replace_scan 3 tl
    else c :: regex_replace_scan 0 tl

/-- The call `std::regex_replace(path, std::regex(".shp"), ".shx")` on the bytes of the
path. -/
def regex_replace_shp (path : List Nat) : List Nat := regex_replace_scan 0 path

/-- What a call of `write_shp` leaves behind: the returned status, the path computed for the
index file, and the contents of the two files (`none`: the file was never opened). -/
structure write_shp_result where
  status : Bool
  shxpath : List Nat
  shp : Option (List Nat)
  shx : Option (List Nat)
  deriving DecidableEq, Repr

/-- The function `write_shp`. -/
def write_shp (path : List Nat) (shpfile : shapefile) : Option write_shp_result :=
  let shxpath := regex_replace_shp path
  if shxpath = path then some ⟨false, shxpath, none, none⟩
  else
    let stype := determine_shape_type shpfile
    let written : Option (Bool × List Nat × List Nat) :=
      match stype with
      | .point => write_point_shapes shpfile
      | .polyline => write_polyline_shapes shpfile
      | .polygon => write_polygon_shapes shpfile
      | .multipoint => write_multipoint_shapes shpfile
      | _ => some (false, [], [])
    match written with
    | some (status, fp, shxfp) => some ⟨status, shxpath, some fp, some shxfp⟩
    | none => none

/-! ## Reader -/

/-- The struct `shapefile_record_reader`. `record_buf` holds the `alloc_size` bytes of the
reusable buffer (empty while the pointer is null) and `fp` the unread rest of the file. -/
structure shapefile_record_reader where
  file_length_bytes : Nat
  total_bytes_read : Nat
  alloc_size : Nat
  record_buf : List Nat
  current_content_bytes : Nat
  current_record_header : shapefile_record_header
  fp : List Nat
  deriving DecidableEq, Repr

/-- The function `init_record_reader`. -/
def init_record_reader (fp : List Nat) (header_base : shapefile_main_header_base) :
    shapefile_record_reader :=
  { file_length_bytes := to_uint32 (2 * header_base.file_length)
    total_bytes_read := 36 + 64
    alloc_size := 0
    record_buf := []
    current_content_bytes := 0
    current_record_header := ⟨0, 0⟩
    fp := fp }

/-- The function `read_main_header`: the two header blocks and the rest of the file, or
`none` where the function returns `false` (short file, wrong file code, wrong version). -/
def read_main_header (fp : List Nat) :
    Option (shapefile_main_header_base × shapefile_main_header_boundingbox × List Nat) :=
  match fread 36 fp with
  | none => none
  | some (b, fp1) =>
    match fread 64 fp1 with
    | none => none
    | some (bb, fp2) =>
      let header_base : shapefile_main_header_base :=
        { file_code := int32_of_BE (b.take 4)
          file_length := int32_of_BE ((b.drop 24).take 4)
          version := int32_of_LE ((b.drop 28).take 4)
          shape_type := int32_of_LE ((b.drop 32).take 4) }
      let header_bb : shapefile_main_header_boundingbox :=
        { xmin := from_le (bb.take 8)
          ymin := from_le ((bb.drop 8).take 8)
          xmax := from_le ((bb.drop 16).take 8)
          ymax := from_le ((bb.drop 24).take 8)
          zmin := from_le ((bb.drop 32).take 8)
          zmax := from_le ((bb.drop 40).take 8)
          mmin := from_le ((bb.drop 48).take 8)
          mmax := from_le ((bb.drop 56).take 8) }
      if header_base.file_code ≠ SHAPEFILE_FILE_CODE then none
      else if header_base.version ≠ SHAPEFILE_VERSION then none
      else some (header_base, header_bb, fp2)

/-- The function `read_record_header`: the header and the rest of the file, or `none` where
the function returns `false` (short read, content length not positive). -/
def read_record_header (fp : List Nat) : Option (shapefile_record_header × List Nat) :=
  match fread 8 fp with
  | none => none
  | some (b, fp1) =>
    let record_header : shapefile_record_header :=
      ⟨int32_of_BE (b.take 4), int32_of_BE ((b.drop 4).take 4)⟩
    if record_header.content_length ≤ 0 then none
    else some (record_header, fp1)

/-- The function `read_shape_record`: the reader after one more record, or `none` where the
function returns `false`. A newly allocated buffer is exactly as long as the content that
is read into it; a buffer that is kept has its first bytes overwritten. -/
def read_shape_record (reader : shapefile_record_reader) : Option shapefile_record_reader :=
  if reader.total_bytes_read ≥ reader.file_length_bytes then none
  else
    match read_record_header reader.fp with
    | none => none
    | some (rh, fp1) =>
      let current_content_bytes := to_uint32 (rh.content_length * 2)
      let grow := decide (current_content_bytes > reader.alloc_size)
      let alloc_size := if grow then current_content_bytes else reader.alloc_size
      let old_buf := if grow then [] else reader.record_buf
      match fread current_content_bytes fp1 with
      | none => none
      | some (content, fp2) =>
        some { file_length_bytes := reader.file_length_bytes
               total_bytes_read :=
                 to_uint32 ((reader.total_bytes_read : Int) + current_content_bytes + 8)
               alloc_size := alloc_size
               record_buf := content ++ old_buf.drop current_content_bytes
               current_content_bytes := current_content_bytes
               current_record_header := rh
               fp := fp2 }

/-- The function `fetch_LEint32` applied to `content + off`; `none` when the four bytes are
not all inside the buffer. -/
def fetch_LEint32 (content : List Nat) (off : Nat) : Option Int :=
  if off + 4 ≤ content.length then some (int32_of_LE ((content.drop off).take 4)) else none

/-- The function `fetch_LEdouble` applied to `content + off`; `none` when the eight bytes are
not all inside the buffer. -/
def fetch_LEdouble (content : List Nat) (off : Nat) : Option Nat :=
  if off + 8 ≤ content.length then some (from_le ((content.drop off).take 8)) else none

/-- The function `read_point_shapes`. The first argument bounds the number of iterations of
the `while` loop; `none` stands for undefined behaviour, or for a bound that was too
small. -/
def read_point_shapes :
    Nat → shapefile_record_reader → List shape → Option (Bool × List shape)
  | 0, _, _ => none
  | fuel + 1, reader, shapes =>
    match read_shape_record reader with
    | none => some (true, shapes)
    | some reader =>
      if reader.current_record_header.content_length ≠ 10 then some (false, shapes)
      else
        match fetch_LEint32 reader.record_buf 0 with
        | none => none
        | some stype =>
          if stype = shape_type.null_shape.code then read_point_shapes fuel reader shapes
          else if stype ≠ shape_type.point.code then some (false, shapes)
          else
            match fetch_LEdouble reader.record_buf 4, fetch_LEdouble reader.record_buf (4 + 8) with
            | some x, some y => read_point_shapes fuel reader (shapes ++ [shape.point ⟨x, y⟩])
            | _, _ => none

/-- The loop that reads `n` points, 16 bytes each, starting at `content + off`. -/
def read_points (content : List Nat) : Nat → Nat → Option (List pointshape)
  | 0, _ => some []
  | n + 1, off =>
    match fetch_LEdouble content off, fetch_LEdouble content (off + 8),
      read_points content n (off + 16) with
    | some x, some y, some rest => some (⟨x, y⟩ :: rest)
    | _, _, _ => none

/-- The vector built from the iterator pair `{begin() + first, begin() + last}`; `none` when
the pair is not a valid range of the vector. -/
def points_range (points : List pointshape) (first last : Int) : Option (List pointshape) :=
  if 0 ≤ first ∧ first ≤ last ∧ last ≤ points.length then
    some ((points.drop first.toNat).take (last - first).toNat)
  else none

/-- The splitting loop of the polyline and polygon readers (the branch `num_parts != 1`):
`n` more iterations from index `idx` with `prev_part_start`, then the final part, which
runs from `prev_part_start` to the end. -/
def split_parts (content : List Nat) (parts_offset : Nat) (allparts : List pointshape) :
    Nat → Int → Int → Option (List polypart)
  | 0, _, prev_part_start =>
    match points_range allparts prev_part_start allparts.length with
    | some final_part => some [⟨final_part⟩]
    | none => none
  | n + 1, idx, prev_part_start =>
    match fetch_LEint32 content (parts_offset + (idx * 4).toNat) with
    | none => none
    | some part_start =>
      match points_range allparts prev_part_start part_start,
        split_parts content parts_offset allparts n (idx + 1) part_start with
      | some part, some rest => some (⟨part⟩ :: rest)
      | _, _ => none

/-- The body shared by `read_polyline_shapes` and `read_polygon_shapes` after the check of
the shape type: the parts (rings) decoded from the record buffer. -/
def read_polyparts (content : List Nat) : Option (List polypart) :=
  match fetch_LEint32 content (4 + 4 * 8), fetch_LEint32 content (4 + 4 * 8 + 4) with
  | some num_parts, some num_points =>
    let parts_offset : Nat := 4 + 4 * 8 + 4 + 4
    let points_offset : Nat := to_uint32 ((parts_offset : Int) + num_parts * 4)
    match read_points content num_points.toNat points_offset with
    | none => none
    | some allparts =>
      if num_parts = 1 then some [⟨allparts⟩]
      else split_parts content parts_offset allparts (num_parts - 1).toNat 1 0
  | _, _ => none

/-- The function `read_polyline_shapes`. -/
def read_polyline_shapes :
    Nat → shapefile_record_reader → List shape → Option (Bool × List shape)
  | 0, _, _ => none
  | fuel + 1, reader, shapes =>
    match read_shape_record reader with
    | none => some (true, shapes)
    | some reader =>
      match fetch_LEint32 reader.record_buf 0 with
      | none => none
      | some stype =>
        if stype = shape_type.null_shape.code then read_polyline_shapes fuel reader shapes
        else if stype ≠ shape_type.polyline.code then some (false, shapes)
        else
          match read_polyparts reader.record_buf with
          | none => none
          | some parts => read_polyline_shapes fuel reader (shapes ++ [shape.polyline parts])

/-- The function `read_polygon_shapes`. -/
def read_polygon_shapes :
    Nat → shapefile_record_reader → List shape → Option (Bool × List shape)
  | 0, _, _ => none
  | fuel + 1, reader, shapes =>
    match read_shape_record reader with
    | none => some (true, shapes)
    | some reader =>
      match fetch_LEint32 reader.record_buf 0 with
      | none => none
      | some stype =>
        if stype = shape_type.null_shape.code then read_polygon_shapes fuel reader shapes
        else if stype ≠ shape_type.polygon.code then some (false, shapes)
        else
          match read_polyparts reader.record_buf with
          | none => none
          | some rings => read_polygon_shapes fuel reader (shapes ++ [shape.polygon rings])

/-- The function `read_multipoint_shapes`. -/
def read_multipoint_shapes :
    Nat → shapefile_record_reader → List shape → Option (Bool × List shape)
  | 0, _, _ => none
  | fuel + 1, reader, shapes =>
    match read_shape_record reader with
    | none => some (true, shapes)
    | some reader =>
      match fetch_LEint32 reader.record_buf 0 with
      | none => none
      | some stype =>
        if stype = shape_type.null_shape.code then read_multipoint_shapes fuel reader shapes
        else if stype ≠ shape_type.multipoint.code then some (false, shapes)
        else
          match fetch_LEint32 reader.record_buf (4 + 4 * 8) with
          | none => none
          | some num_points =>
            match read_points reader.record_buf num_points.toNat (4 + 4 * 8 + 4) with
            | none => none
            | some points =>
              read_multipoint_shapes fuel reader (shapes ++ [shape.multipoint points])

/-- The function `read_shp` on the bytes of the file: the returned status and the shapes
left in `shpfile`. Every iteration of a record loop consumes at least ten bytes of the
file, so the number of unread bytes bounds the number of iterations. -/
def read_shp (file : List Nat) : Option (Bool × shapefile) :=
  match read_main_header file with
  | none => some (false, ⟨[]⟩)
  | some (header_base, _, fp) =>
    let reader := init_record_reader fp header_base
    let fuel := fp.length + 1
    let r : Option (Bool × List shape) :=
      if header_base.shape_type = shape_type.point.code then read_point_shapes fuel reader []
      else if header_base.shape_type = shape_type.polyline.code then
        read_polyline_shapes fuel reader []
      else if header_base.shape_type = shape_type.polygon.code then
        read_polygon_shapes fuel reader []
      else if header_base.shape_type = shape_type.multipoint.code then
        read_multipoint_shapes fuel reader []
      else some (false, [])
    match r with
    | some (status, shapes) => some (status, ⟨shapes⟩)
    | none => none

end shputil

/-! ## C library functions used by the table codec -/

/-- The C string held by a `std::string` (`c_str()` read up to the first NUL), and also the
`std::string` built from a NUL-terminated buffer. -/
def c_str (s : List Nat) : List Nat := s.takeWhile (fun c => c ≠ 0)

/-- The text `sprintf(buf, "%*s", width, text)` produces for a positive `width`: the text
right-justified, padded on the left with spaces, never truncated. -/
def sprintf_pad (width : Nat) (text : List Nat) : List Nat :=
  List.replicate (width - text.length) 32 ++ text

/-- The decimal digits of `n`, least significant first; `fuel` bounds their number. -/
def decimal_digits : Nat → Nat → List Nat
  | 0, _ => []
  | fuel + 1, n => if n = 0 then [] else n % 10 :: decimal_digits fuel (n / 10)

/-- The text of `sprintf(temp, "%u", n)`. -/
def sprintf_u (n : Nat) : List Nat :=
  if n = 0 then [48] else ((decimal_digits n n).map (fun d => d + 48)).reverse

/-- The text of `sprintf(temp, "%d", z)`. -/
def sprintf_d (z : Int) : List Nat :=
  if z < 0 then 45 :: sprintf_u (-z).toNat else sprintf_u z.toNat

/-- The C function `isspace` in the C locale. -/
def isspace (c : Nat) : Bool := decide (c = 32) || (decide (9 ≤ c) && decide (c ≤ 13))

/-- The value of a character as a digit in the given base, if it is one. -/
def digit_value (base c : Nat) : Option Nat :=
  let v : Option Nat :=
    if 48 ≤ c ∧ c ≤ 57 then some (c - 48)
    else if 97 ≤ c ∧ c ≤ 122 then some (c - 87)
    else if 65 ≤ c ∧ c ≤ 90 then some (c - 55)
    else none
  match v with
  | some d => if d < base then some d else none
  | none => none

/-- The longest run of digits of the base at the start of the text: the number it denotes
(continuing from `acc`) and its length. -/
def scan_digits (base : Nat) : List Nat → Nat → Nat × Nat
  | [], acc => (acc, 0)
  | c :: rest, acc =>
    match digit_value base c with
    | some d => let r := scan_digits base rest (acc * base + d); (r.1, r.2 + 1)
    | none => (acc, 0)

/-- The subject sequence `strtol` and `strtoul` recognise with base 0: white space, an
optional sign, then a hexadecimal (`0x`), octal (leading `0`) or decimal number. The result
is the sign, the magnitude and the offset of the first character after the number; `none`
when no conversion can be performed. -/
def strto_subject (str : List Nat) : Option (Bool × Nat × Nat) :=
  let ws := (str.takeWhile isspace).length
  let s1 := str.drop ws
  let sign : Bool × Nat := match s1 with
    | 45 :: _ => (true, 1)
    | 43 :: _ => (false, 1)
    | _ => (false, 0)
  let s2 := s1.drop sign.2
  let is_hex : Bool := match s2 with
    | 48 :: x :: h :: _ => (decide (x = 120) || decide (x = 88)) && (digit_value 16 h).isSome
    | _ => false
  if is_hex then
    let r := scan_digits 16 (s2.drop 2) 0
    some (sign.1, r.1, ws + sign.2 + 2 + r.2)
  else
    let base : Nat := match s2 with
      | 48 :: _ => 8
      | _ => 10
    let r := scan_digits base s2 0
    if r.2 = 0 then none else some (sign.1, r.1, ws + sign.2 + r.2)

/-- What a conversion function of the `strto` family reports: the returned value, the offset
`endptr - str`, and whether `errno` is `ERANGE` afterwards. -/
structure strto_result (α : Type) where
  value : α
  endptr : Nat
  erange : Bool

/-- The C function `strtol(str, &temp, 0)` with a 64-bit `long`. -/
def strtol (str : List Nat) : strto_result Int :=
  match strto_subject str with
  | none => ⟨0, 0, false⟩
  | some (neg, mag, e) =>
    if neg then
      if mag > 9223372036854775808 then ⟨-9223372036854775808, e, true⟩ else ⟨-(mag : Int), e, false⟩
    else
      if mag > 9223372036854775807 then ⟨9223372036854775807, e, true⟩ else ⟨(mag : Int), e, false⟩

/-- The C function `strtoul(str, &temp, 0)` with a 64-bit `unsigned long`: a negative number
is negated in the unsigned type. -/
def strtoul (str : List Nat) : strto_result Nat :=
  match strto_subject str with
  | none => ⟨0, 0, false⟩
  | some (neg, mag, e) =>
    if mag > 18446744073709551615 then ⟨18446744073709551615, e, true⟩
    else if neg then ⟨(18446744073709551616 - mag) % 18446744073709551616, e, false⟩
    else ⟨mag, e, false⟩

/-- The parts of the environment the table codec depends on and that are not part of the
repository: the result of `localtime` (`tm_year`, `tm_mon`, `tm_mday`, or `none` for a null
pointer), the indeterminate bytes of the uninitialised buffer `fname` (per field and
position), and the floating-point conversions `sprintf(temp, "%.*e", prec, d)` and
`strtod(str, &temp)` on doubles given by their bit patterns. -/
structure libc where
  localtime : Option (Int × Int × Int)
  fname_uninit : Nat → Nat → Nat
  sprintf_e : Nat → Nat → List Nat
  strtod : List Nat → strto_result Nat

namespace dbfutil

/-! ## Data model (`dbfutil.h`) -/

/-- The class `dbffield_def`. -/
structure dbffield_def where
  field_name : List Nat
  field_type : List Nat
  field_length : Nat
  field_decimal_count : Nat
  deriving DecidableEq, Repr

/-- The constructor `dbffield_def(fname, ftype, flen)`. -/
def dbffield_def.of_type (fname ftype : List Nat) (flen : Nat) : dbffield_def :=
  ⟨fname, ftype, flen, 0⟩

/-- The constructor `dbffield_def(fname, flen, fdc)`: a float column. -/
def dbffield_def.of_float (fname : List Nat) (flen fdc : Nat) : dbffield_def :=
  ⟨fname, [70], flen, fdc⟩

/-- The constructor `dbffield_def(fname, flen)`: a character column. The constructor leaves
`field_decimal_count` uninitialised; `fdc` is its indeterminate value. -/
def dbffield_def.of_length (fname : List Nat) (flen fdc : Nat) : dbffield_def :=
  ⟨fname, [67], flen, fdc⟩

/-- The class `dbfheader`. -/
structure dbfheader where
  fields : List dbffield_def
  deriving DecidableEq, Repr

/-- The class `dbffield_value`, as the variant selected by `_vtype`: the member that belongs
to the variant, and the text member `value`, which every variant has. The members of the
other variants are never initialised and never read. -/
inductive dbffield_value where
  | str (value : List Nat)
  | sint (_s32_val : Int) (value : List Nat)
  | uint (_u32_val : Nat) (value : List Nat)
  | dbl (_dbl_val : Nat) (value : List Nat)
  deriving DecidableEq, Repr

/-- The member `value`. -/
def dbffield_value.value : dbffield_value → List Nat
  | .str v => v
  | .sint _ v => v
  | .uint _ v => v
  | .dbl _ v => v

/-- The assignment `fval.value = str`. -/
def dbffield_value.set_value : dbffield_value → List Nat → dbffield_value
  | .str _, v => .str v
  | .sint i _, v => .sint i v
  | .uint u _, v => .uint u v
  | .dbl d _, v => .dbl d v

/-- The class `dbfrow`. -/
structure dbfrow where
  values : List dbffield_value
  deriving DecidableEq, Repr

/-- The class `dbftable`. -/
structure dbftable where
  header : dbfheader
  rows : List dbfrow
  deriving DecidableEq, Repr

/-- The struct `dBASE_header` (32 bytes). -/
structure dBASE_header where
  version : Nat
  lastupdate : Nat × Nat × Nat
  table_records : Nat
  header_bytes : Nat
  record_bytes : Nat
  deriving DecidableEq, Repr

/-- The 32 bytes `fwrite(&raw_header, sizeof(dBASE_header), 1, fp)` emits. -/
def write_header (h : dBASE_header) : List Nat :=
  [h.version, h.lastupdate.1, h.lastupdate.2.1, h.lastupdate.2.2]
    ++ le_bytes 4 h.table_records ++ le_bytes 2 h.header_bytes ++ le_bytes 2 h.record_bytes
    ++ List.replicate 20 0

/-! ## Table writer -/

/-- The 11 bytes copied from `fname` into `fdesc.field_name` for the field with index `idx`:
`sprintf(fname, "%.11s", ...)` stores at most 11 characters of the name and a NUL, and the
bytes of `fname` behind the NUL keep their indeterminate values. -/
def write_field_name (env : libc) (idx : Nat) (field_name : List Nat) : List Nat :=
  let name := (c_str field_name).take 11
  (List.range 11).map (fun i =>
    if i < name.length then name.getD i 0
    else if i = name.length then 0
    else env.fname_uninit idx i)

/-- The 32 bytes of the struct `dBASE_fielddesc` written for a field definition. -/
def write_fielddesc (env : libc) (idx : Nat) (fielddef : dbffield_def) : List Nat :=
  write_field_name env idx fielddef.field_name
    ++ [(c_str fielddef.field_type).getD 0 0]
    ++ List.replicate 4 0
    ++ [fielddef.field_length, fielddef.field_decimal_count]
    ++ List.replicate 14 0

/-- The loop of `write_field_descriptors` from the field with index `idx` on: the status
and the bytes written. -/
def write_field_descriptors_loop (env : libc) : Nat → List dbffield_def → Bool × List Nat
  | _, [] => (true, [])
  | idx, fielddef :: rest =>
    if fielddef.field_name = [] then (false, [])
    else if fielddef.field_length = 0 then (false, [])
    else if fielddef.field_type ≠ [67] ∧ fielddef.field_type ≠ [78] ∧ fielddef.field_type ≠ [70]
    then (false, [])
    else
      let r := write_field_descriptors_loop env (idx + 1) rest
      (r.1, write_fielddesc env idx fielddef ++ r.2)

/-- The function `write_field_descriptors`: the status and the bytes written. -/
def write_field_descriptors (env : libc) (table : dbftable) : Bool × List Nat :=
  let r := write_field_descriptors_loop env 0 table.header.fields
  if r.1 then (true, r.2 ++ [0x0d]) else (false, r.2)

/-- The text formatted into `buf` for one cell, in three cases: `some (some text)`, the cell
is formatted; `some none`, the value does not have the type of the column and the writer
returns `false`; `none`, a `sprintf` writes past the end of its 512-byte buffer. A column
whose type is none of `C`, `N`, `F` leaves `buf` filled with spaces. -/
def format_cell (env : libc) (fielddef : dbffield_def) (val : dbffield_value) :
    Option (Option (List Nat)) :=
  let pad (temp : List Nat) : Option (Option (List Nat)) :=
    let text := sprintf_pad fielddef.field_length temp
    if text.length + 1 ≤ 512 then some (some (text ++ [0] ++ List.replicate (511 - text.length) 32))
    else none
  if fielddef.field_type = [67] then
    match val with
    | .str value => pad (c_str value)
    | _ => some none
  else if fielddef.field_type = [78] then
    match val with
    | .sint s32 _ => pad (sprintf_d s32)
    | .uint u32 _ => pad (sprintf_u u32)
    | _ => some none
  else if fielddef.field_type = [70] then
    match val with
    | .dbl d _ =>
      let temp := env.sprintf_e fielddef.field_decimal_count d
      if temp.length + 1 ≤ 512 then pad temp else none
    | _ => some none
  else some (some (List.replicate 512 32))

/-- The inner loop of `write_table_rows` over the fields of one row: `record_buf` after the
cells are copied in, `some none` where the writer returns `false`, `none` where a `memcpy`
writes past the end of `record_buf`. `recoff` is a `uint16_t`. -/
def write_row_fields (env : libc) :
    List dbffield_def → List dbffield_value → Nat → List Nat → Option (Option (List Nat))
  | [], _, _, record_buf => some (some record_buf)
  | _ :: _, [], _, _ => none
  | fielddef :: fields, val :: values, recoff, record_buf =>
    match format_cell env fielddef val with
    | none => none
    | some none => some none
    | some (some buf) =>
      if recoff + fielddef.field_length ≤ record_buf.length then
        write_row_fields env fields values ((recoff + fielddef.field_length) % 65536)
          (record_buf.take recoff ++ buf.take fielddef.field_length
            ++ record_buf.drop (recoff + fielddef.field_length))
      else none

/-- The outer loop of `write_table_rows`: the status and the bytes written for the rows. -/
def write_rows_loop (env : libc) (record_bytes : Nat) (fields : List dbffield_def) :
    List dbfrow → Option (Bool × List Nat)
  | [] => some (true, [])
  | row :: rows =>
    let record_buf := 32 :: List.replicate (record_bytes - 1) 0
    if row.values.length ≠ fields.length then some (false, [])
    else
      match write_row_fields env fields row.values 1 record_buf with
      | none => none
      | some none => some (false, [])
      | some (some record) =>
        match write_rows_loop env record_bytes fields rows with
        | none => none
        | some (status, rest) => some (status, record ++ rest)

/-- The function `write_table_rows`: the status and the bytes written. -/
def write_table_rows (env : libc) (record_bytes : Nat) (table : dbftable) :
    Option (Bool × List Nat) :=
  if record_bytes = 0 then some (false, [])
  else
    match write_rows_loop env record_bytes table.header.fields table.rows with
    | none => none
    | some (true, written) => some (true, written ++ [0x1a])
    | some (false, written) => some (false, written)

/-- The loop of `write_dbf` that adds the field lengths to the `uint16_t` member
`record_bytes`. -/
def sum_record_bytes : List dbffield_def → Nat → Nat
  | [], record_bytes => record_bytes
  | fielddef :: rest, record_bytes =>
    sum_record_bytes rest ((record_bytes + fielddef.field_length) % 65536)

/-- The header `write_dbf` builds. -/
def make_header (env : libc) (table : dbftable) : dBASE_header :=
  { version := 0x03
    lastupdate := match env.localtime with
      | some (tm_year, tm_mon, tm_mday) =>
        ((tm_year % 256).toNat, ((tm_mon + 1) % 256).toNat, (tm_mday % 256).toNat)
      | none => (2022 - 1900, 1, 1)
    table_records := table.rows.length % 4294967296
    header_bytes := (1 + 32 + 32 * table.header.fields.length) % 65536
    record_bytes := sum_record_bytes table.header.fields 1 }

/-- What a call of `write_dbf` leaves behind: the returned status and the contents of the
file (`none`: the file was never opened). -/
structure write_dbf_result where
  status : Bool
  file : Option (List Nat)
  deriving DecidableEq, Repr

/-- The function `write_dbf`. -/
def write_dbf (env : libc) (table : dbftable) : Option write_dbf_result :=
  if table.header.fields = [] then some ⟨false, none⟩
  else if table.rows = [] then some ⟨false, none⟩
  else
    let raw_header := make_header env table
    let record_bytes := raw_header.record_bytes
    let header := write_header raw_header
    let fd := write_field_descriptors env table
    if !fd.1 then some ⟨false, some (header ++ fd.2)⟩
    else
      match write_table_rows env record_bytes table with
      | none => none
      | some (status, rows) => some ⟨status, some (header ++ fd.2 ++ rows)⟩

/-! ## Table reader -/

/-- The function `trim_leading_and_trailing_whitespace`: the text between the first and the
last character that is not a space, or the empty text. -/
def trim_leading_and_trailing_whitespace (str : List Nat) : List Nat :=
  ((str.dropWhile (fun c => c = 32)).reverse.dropWhile (fun c => c = 32)).reverse

/-- The function `parse_int32`: the status and the value stored through `val`. -/
def parse_int32 (str : List Nat) : Bool × Int :=
  let r := strtol str
  (!(decide (r.endptr = 0) || decide (r.endptr ≠ str.length) || r.erange), to_int32 r.value)

/-- The function `parse_uint32`: the status and the value stored through `val`. -/
def parse_uint32 (str : List Nat) : Bool × Nat :=
  let r := strtoul str
  (!(decide (r.endptr = 0) || decide (r.endptr ≠ str.length) || r.erange), r.value % 4294967296)

/-- The function `parse_dbl`: the status and the value stored through `val`. -/
def parse_dbl (env : libc) (str : List Nat) : Bool × Nat :=
  let r := env.strtod str
  (!(decide (r.endptr = 0) || decide (r.endptr ≠ str.length) || r.erange), r.value)

/-- The field definition `read_field_descriptors` builds from the 32 bytes of a
descriptor. -/
def read_fielddesc (fdesc : List Nat) : dbffield_def :=
  let field_type := fdesc.getD 11 0
  let field_decimal_count := fdesc.getD 17 0
  let ftype : List Nat :=
    if field_type = 78 ∧ field_decimal_count > 0 then [70, 0] else [field_type, 0]
  { field_name := trim_leading_and_trailing_whitespace (c_str (fdesc.take 11))
    field_type := c_str ftype
    field_length := fdesc.getD 16 0
    field_decimal_count := field_decimal_count }

/-- The descriptor loop of `read_field_descriptors`, `n` more iterations: whether every
descriptor could be read, the fields pushed onto the table, and the rest of the file. -/
def read_field_descriptors_loop : Nat → List Nat → Bool × List dbffield_def × List Nat
  | 0, fp => (true, [], fp)
  | n + 1, fp =>
    match fread 32 fp with
    | none => (false, [], fp)
    | some (fdesc, fp1) =>
      let r := read_field_descriptors_loop n fp1
      (r.1, read_fielddesc fdesc :: r.2.1, r.2.2)

/-- The function `read_field_descriptors`: the status, the fields pushed onto the table and
the rest of the file. The number of fields is computed in `size_t` and converted to
`int`. -/
def read_field_descriptors (raw_header : dBASE_header) (fp : List Nat) :
    Bool × List dbffield_def × List Nat :=
  let number_fields : Int :=
    to_int32 ((((raw_header.header_bytes : Int) - 32 - 1) % 18446744073709551616) / 32)
  let r := read_field_descriptors_loop number_fields.toNat fp
  if !r.1 then (false, r.2.1, r.2.2)
  else
    match fread 1 r.2.2 with
    | none => (false, r.2.1, r.2.2)
    | some (terminator, fp2) => (decide (terminator = [0x0d]), r.2.1, fp2)

/-- The value `read_table_rows` decodes from the trimmed text of a cell: `none` where the
function returns `false`. -/
def read_cell (env : libc) (fdef : dbffield_def) (str : List Nat) : Option dbffield_value :=
  if fdef.field_type = [78] then
    if 45 ∈ str then
      let r := parse_int32 str
      if r.1 then some (.sint r.2 str) else none
    else
      let r := parse_uint32 str
      if r.1 then some (.uint r.2 str) else none
  else if fdef.field_type = [70] then
    let r := parse_dbl env str
    if r.1 then some (.dbl r.2 str) else none
  else some (.str str)

/-- The inner loop of `read_table_rows` over the fields of one record: the values,
`some none` where the function returns `false`, `none` where the `memcpy` reads past the
end of `record_buf`. -/
def read_row_fields (env : libc) (read_size : Nat) (record_buf : List Nat) :
    List dbffield_def → Nat → Option (Option (List dbffield_value))
  | [], _ => some (some [])
  | fdef :: fields, foffset =>
    if foffset ≥ read_size then some none
    else if foffset + fdef.field_length > read_size then none
    else
      let vbuf := (record_buf.drop foffset).take fdef.field_length ++ [0]
      let str := trim_leading_and_trailing_whitespace (c_str vbuf)
      match read_cell env fdef str with
      | none => some none
      | some fval =>
        match read_row_fields env read_size record_buf fields (foffset + fdef.field_length) with
        | none => none
        | some none => some none
        | some (some values) => some (some (fval :: values))

/-- The record loop of `read_table_rows`, `n` more records: the status and the rows
appended to the table. An `fread` of a zero-sized record does not return 1. -/
def read_rows_loop (env : libc) (read_size : Nat) (fields : List dbffield_def) :
    Nat → List Nat → Option (Bool × List dbfrow)
  | 0, _ => some (true, [])
  | n + 1, fp =>
    if read_size = 0 then some (false, [])
    else
      match fread read_size fp with
      | none => some (false, [])
      | some (record_buf, fp1) =>
        if record_buf.getD 0 0 ≠ 0x20 then read_rows_loop env read_size fields n fp1
        else
          match read_row_fields env read_size record_buf fields 1 with
          | none => none
          | some none => some (false, [])
          | some (some values) =>
            match read_rows_loop env read_size fields n fp1 with
            | none => none
            | some (status, rows) => some (status, ⟨values⟩ :: rows)

/-- The function `read_dbf` on the bytes of the file: the returned status and the table. -/
def read_dbf (env : libc) (file : List Nat) : Option (Bool × dbftable) :=
  match fread 32 file with
  | none => some (false, ⟨⟨[]⟩, []⟩)
  | some (h, fp) =>
    let raw_header : dBASE_header :=
      { version := h.getD 0 0
        lastupdate := (h.getD 1 0, h.getD 2 0, h.getD 3 0)
        table_records := from_le ((h.drop 4).take 4)
        header_bytes := from_le ((h.drop 8).take 2)
        record_bytes := from_le ((h.drop 10).take 2) }
    let fd := read_field_descriptors raw_header fp
    if !fd.1 then some (false, ⟨⟨fd.2.1⟩, []⟩)
    else
      match read_rows_loop env raw_header.record_bytes fd.2.1 raw_header.table_records fd.2.2 with
      | none => none
      | some (status, rows) => some (status, ⟨⟨fd.2.1⟩, rows⟩)

end dbfutil

/-! ## Vocabulary of the statements -/

namespace shputil

/-- The number of content bytes of the record of a shape, as the format prescribes it:
20 for a point, 40 + 16 per point for a multipoint, 44 + 4 per part + 16 per point for a
polyline or polygon. -/
def content_bytes : shape → Nat
  | .null => 0
  | .point _ => 20
  | .multipoint points => 40 + 16 * points.length
  | .polyline parts => 44 + 4 * parts.length + 16 * (parts.map (fun p => p.points.length)).sum
  | .polygon rings => 44 + 4 * rings.length + 16 * (rings.map (fun p => p.points.length)).sum

/-- The bytes of the records of the shapes: 8 bytes of record header and the content, for
each shape. -/
def records_size (shapes : List shape) : Nat :=
  (shapes.map (fun s => 8 + content_bytes s)).sum

/-- The size of the `.shp` file of the shapes: 100 bytes of header and the records. -/
def shp_size (shapes : List shape) : Nat := 100 + records_size shapes

/-- The byte position in the `.shp` at which the record header of the shape with index `k`
(from 0) begins. -/
def record_offset (shapes : List shape) (k : Nat) : Nat := shp_size (shapes.take k)

/-- The `file_length` field of the main header of a file, as `read_main_header` reads it. -/
def stored_file_length (file : List Nat) : Int := int32_of_BE ((file.drop 24).take 4)

/-- The big-endian `int32_t` at a byte position of a file. -/
def stored_BE (file : List Nat) (pos : Nat) : Int := int32_of_BE ((file.drop pos).take 4)

/-- Every coordinate of the point is the bit pattern of a double. -/
def pointshape.wf (ps : pointshape) : Prop := ps.x < 2 ^ 64 ∧ ps.y < 2 ^ 64

/-- Every coordinate of the shape is the bit pattern of a double. -/
def shape.wf : shape → Prop
  | .null => True
  | .point ps => ps.wf
  | .multipoint points => ∀ ps ∈ points, ps.wf
  | .polyline parts => ∀ part ∈ parts, ∀ ps ∈ part.points, ps.wf
  | .polygon rings => ∀ part ∈ rings, ∀ ps ∈ part.points, ps.wf

/-- A polyline has at least one part and a polygon at least one ring. -/
def shape.has_part : shape → Prop
  | .polyline parts => parts ≠ []
  | .polygon rings => rings ≠ []
  | _ => True

instance (ps : pointshape) : Decidable ps.wf := by
  unfold pointshape.wf; infer_instance

instance (s : shape) : Decidable s.wf := by
  cases s <;> unfold shape.wf <;> infer_instance

instance (s : shape) : Decidable s.has_part := by
  cases s <;> unfold shape.has_part <;> infer_instance

/-- The record loop common to the three writers: `enc` gives the content length (in 16-bit
words, as stored) and the content of the record of a shape, or `none` where the cast of
the shape is undefined. -/
def write_records (enc : shape → Option (Int × List Nat)) :
    List shape → Nat → Int → Option (List Nat × List Nat)
  | [], _, _ => some ([], [])
  | s :: rest, pos, recnum =>
    match enc s with
    | some (content_length, content) =>
      match write_records enc rest (pos + 8 + content.length) (to_int32 (recnum + 1)) with
      | some (fp, shxfp) =>
        some (write_record_header ⟨recnum, content_length⟩ ++ content ++ fp,
          write_record_header ⟨to_int32 ((pos : Int) / 2), content_length⟩ ++ shxfp)
      | none => none
    | none => none

/-- The content length and content `write_point_shapes` gives the record of a shape. -/
def encode_point : shape → Option (Int × List Nat)
  | .point ps => some (20 / 2, int32_LE shape_type.point.code ++ write_xy ps)
  | _ => none

/-- The content length and content `write_multipoint_shapes` gives the record of a shape. -/
def encode_multipoint : shape → Option (Int × List Nat)
  | .multipoint points =>
    let shape_bb := determine_multipoint_bb points
    let numpoints : Int := to_int32 points.length
    some (Int.tdiv (to_int32 (40 + 2 * 8 * numpoints)) 2,
      int32_LE shape_type.multipoint.code
        ++ double_LE shape_bb.xmin ++ double_LE shape_bb.ymin
        ++ double_LE shape_bb.xmax ++ double_LE shape_bb.ymax
        ++ int32_LE numpoints ++ points.flatMap write_xy)
  | _ => none

/-- The content length and content `write_polypart_shapes` gives the record of a shape. -/
def encode_polypart (stype : shape_type) (s : shape) : Option (Int × List Nat) :=
  match polypart_cast stype s with
  | some parts =>
    let r := determine_polypart_bb parts
    let numparts : Int := to_int32 parts.length
    some (Int.tdiv (to_int32 (POLY_BASE_RECORD_SIZE + 4 * numparts + 2 * 8 * r.1)) 2,
      int32_LE stype.code
        ++ double_LE r.2.xmin ++ double_LE r.2.ymin
        ++ double_LE r.2.xmax ++ double_LE r.2.ymax
        ++ int32_LE numparts ++ int32_LE r.1
        ++ write_part_indices parts 0
        ++ parts.flatMap (fun part => part.points.flatMap write_xy))
  | none => none

/-- What the body of a record loop of the reader does with the record just read: it runs
into undefined behaviour, returns `false`, skips the record, or pushes a shape. -/
inductive record_action where
  | undefined
  | fail
  | skip
  | push (s : shape)
  deriving DecidableEq, Repr

/-- The `while` loop common to the four readers, with the body as a parameter. -/
def read_loop (body : shapefile_record_reader → record_action) :
    Nat → shapefile_record_reader → List shape → Option (Bool × List shape)
  | 0, _, _ => none
  | fuel + 1, reader, shapes =>
    match read_shape_record reader with
    | none => some (true, shapes)
    | some reader =>
      match body reader with
      | .undefined => none
      | .fail => some (false, shapes)
      | .skip => read_loop body fuel reader shapes
      | .push s => read_loop body fuel reader (shapes ++ [s])

/-- The body of the loop of `read_point_shapes`. -/
def point_body (reader : shapefile_record_reader) : record_action :=
  if reader.current_record_header.content_length ≠ 10 then .fail
  else
    match fetch_LEint32 reader.record_buf 0 with
    | none => .undefined
    | some stype =>
      if stype = shape_type.null_shape.code then .skip
      else if stype ≠ shape_type.point.code then .fail
      else
        match fetch_LEdouble reader.record_buf 4, fetch_LEdouble reader.record_buf (4 + 8) with
        | some x, some y => .push (shape.point ⟨x, y⟩)
        | _, _ => .undefined

/-- The body of the loop of `read_multipoint_shapes`. -/
def multipoint_body (reader : shapefile_record_reader) : record_action :=
  match fetch_LEint32 reader.record_buf 0 with
  | none => .undefined
  | some stype =>
    if stype = shape_type.null_shape.code then .skip
    else if stype ≠ shape_type.multipoint.code then .fail
    else
      match fetch_LEint32 reader.record_buf (4 + 4 * 8) with
      | none => .undefined
      | some num_points =>
        match read_points reader.record_buf num_points.toNat (4 + 4 * 8 + 4) with
        | none => .undefined
        | some points => .push (shape.multipoint points)

/-- The body of the loops of `read_polyline_shapes` and `read_polygon_shapes`, for the type
code the loop expects and the class it builds. -/
def polypart_body (code : Int) (build : List polypart → shape)
    (reader : shapefile_record_reader) : record_action :=
  match fetch_LEint32 reader.record_buf 0 with
  | none => .undefined
  | some stype =>
    if stype = shape_type.null_shape.code then .skip
    else if stype ≠ code then .fail
    else
      match read_polyparts reader.record_buf with
      | none => .undefined
      | some parts => .push (build parts)

/-- The body of the record loop that `read_shp` selects for a shape kind. -/
def body_of : shape_type → shapefile_record_reader → record_action
  | .point => point_body
  | .multipoint => multipoint_body
  | .polyline => polypart_body shape_type.polyline.code shape.polyline
  | .polygon => polypart_body shape_type.polygon.code shape.polygon
  | _ => fun _ => .fail

/-- The record encoding of the writer that `write_shp` selects for a shape kind. -/
def encode_of : shape_type → shape → Option (Int × List Nat)
  | .point => encode_point
  | .multipoint => encode_multipoint
  | .polyline => encode_polypart shape_type.polyline
  | .polygon => encode_polypart shape_type.polygon
  | _ => fun _ => none

/-- The parts of a polyline, the rings of a polygon, nothing for another shape. -/
def shape_parts : shape → List polypart
  | .polyline parts => parts
  | .polygon rings => rings
  | _ => []

/-- The points of a multipoint, nothing for another shape. -/
def shape_points : shape → List pointshape
  | .multipoint points => points
  | _ => []

end shputil

namespace dbfutil

/-- The `header_bytes` field of the header of a file, as `read_dbf` reads it. -/
def stored_header_bytes (file : List Nat) : Nat := from_le ((file.drop 8).take 2)

/-- The `record_bytes` field of the header of a file, as `read_dbf` reads it. -/
def stored_record_bytes (file : List Nat) : Nat := from_le ((file.drop 10).take 2)

/-- The `table_records` field of the header of a file, as `read_dbf` reads it. -/
def stored_table_records (file : List Nat) : Nat := from_le ((file.drop 4).take 4)

/-- The sum of the field lengths of a table. -/
def fields_length (fields : List dbffield_def) : Nat :=
  (fields.map (fun fd => fd.field_length)).sum

/-- The members of the value have the range of their C++ types: `int32_t`, `uint32_t`, and a
64-bit pattern for a `double`. -/
def dbffield_value.wf : dbffield_value → Prop
  | .str _ => True
  | .sint i _ => -2147483648 ≤ i ∧ i < 2147483648
  | .uint u _ => u < 4294967296
  | .dbl d _ => d < 2 ^ 64

/-- The members of the table have the range of their C++ types: the `uint8_t` members of the
field definitions are below 256, and the values are well-formed. -/
def dbftable.wf (table : dbftable) : Prop :=
  (∀ fd ∈ table.header.fields, fd.field_length < 256 ∧ fd.field_decimal_count < 256)
    ∧ ∀ row ∈ table.rows, ∀ v ∈ row.values, v.wf

instance (v : dbffield_value) : Decidable v.wf := by
  cases v <;> unfold dbffield_value.wf <;> infer_instance

instance (table : dbftable) : Decidable table.wf := by
  unfold dbftable.wf; infer_instance

/-- A field definition passes the validation of the writer: the name is not empty, the
length is positive, the kind is one of `C`, `N`, `F`. -/
def field_valid (fd : dbffield_def) : Prop :=
  fd.field_name ≠ [] ∧ 0 < fd.field_length
    ∧ (fd.field_type = [67] ∨ fd.field_type = [78] ∨ fd.field_type = [70])

/-- The variant of a cell is compatible with the kind of its column: `C` with `str`, `N` with
`sint` or `uint`, `F` with `dbl`. -/
def cell_compatible (fd : dbffield_def) : dbffield_value → Prop
  | .str _ => fd.field_type = [67]
  | .sint _ _ => fd.field_type = [78]
  | .uint _ _ => fd.field_type = [78]
  | .dbl _ _ => fd.field_type = [70]

instance (fd : dbffield_def) : Decidable (field_valid fd) := by
  unfold field_valid; infer_instance

instance (fd : dbffield_def) (v : dbffield_value) : Decidable (cell_compatible fd v) := by
  cases v <;> unfold cell_compatible <;> infer_instance

/-- The conditions under which the writer is said to accept a table: at least one column
and one row, every field definition valid, every row as long as the header, every cell
compatible with its column. -/
def write_preconditions (table : dbftable) : Prop :=
  table.header.fields ≠ [] ∧ table.rows ≠ []
    ∧ (∀ fd ∈ table.header.fields, field_valid fd)
    ∧ ∀ row ∈ table.rows, row.values.length = table.header.fields.length
        ∧ ∀ p ∈ table.header.fields.zip row.values, cell_compatible p.1 p.2

instance (table : dbftable) : Decidable (write_preconditions table) := by
  unfold write_preconditions; infer_instance

/-- The text formatted for a cell fits the 512-byte buffers `temp` and `buf` with its
terminating NUL: a `str` value has at most 511 bytes before its first NUL, the text
`sprintf` produces for a `dbl` value has at most 511 characters. -/
def text_fits (env : libc) (fd : dbffield_def) : dbffield_value → Prop
  | .str value => (c_str value).length ≤ 511
  | .dbl d _ => (env.sprintf_e fd.field_decimal_count d).length ≤ 511
  | _ => True

instance (env : libc) (fd : dbffield_def) (v : dbffield_value) :
    Decidable (text_fits env fd v) := by
  cases v <;> unfold text_fits <;> infer_instance

/-- The text written into the column of a cell: the first `field_length` bytes of `buf`. -/
def cell_bytes (env : libc) (fd : dbffield_def) (v : dbffield_value) : List Nat :=
  match format_cell env fd v with
  | some (some buf) => buf.take fd.field_length
  | _ => []

/-- The record of a row: the status byte 0x20 and the cells. -/
def row_record (env : libc) (fields : List dbffield_def) (row : dbfrow) : List Nat :=
  32 :: (fields.zip row.values).flatMap (fun p => cell_bytes env p.1 p.2)

/-- The bytes of a successfully written table: header, field descriptors, the terminator
0x0D, the records and the end-of-file marker 0x1A. -/
def dbf_file (env : libc) (table : dbftable) : List Nat :=
  write_header (make_header env table)
    ++ (write_field_descriptors_loop env 0 table.header.fields).2 ++ [0x0d]
    ++ table.rows.flatMap (row_record env table.header.fields) ++ [0x1a]

/-- The name of a field passes through the 11-byte name field of a descriptor unchanged: at
most 11 bytes, no NUL, no space at either end. -/
def name_plain (name : List Nat) : Prop :=
  name.length ≤ 11 ∧ 0 ∉ name ∧ name.head? ≠ some 32 ∧ name.getLast? ≠ some 32

instance (name : List Nat) : Decidable (name_plain name) := by
  unfold name_plain; infer_instance

/-- The text formatted for a cell is not longer than its column, and for a `dbl` value the
text `sprintf` produces is not empty, has no NUL and no space, and `strtod` converts all of
it back to the same double. -/
def cell_fits (env : libc) (fd : dbffield_def) : dbffield_value → Prop
  | .str value => (c_str value).length ≤ fd.field_length
  | .sint i _ => (sprintf_d i).length ≤ fd.field_length
  | .uint u _ => (sprintf_u u).length ≤ fd.field_length
  | .dbl d _ =>
    env.sprintf_e fd.field_decimal_count d ≠ []
      ∧ (env.sprintf_e fd.field_decimal_count d).length ≤ fd.field_length
      ∧ 0 ∉ env.sprintf_e fd.field_decimal_count d
      ∧ 32 ∉ env.sprintf_e fd.field_decimal_count d
      ∧ (env.strtod (env.sprintf_e fd.field_decimal_count d)).value = d
      ∧ (env.strtod (env.sprintf_e fd.field_decimal_count d)).endptr
          = (env.sprintf_e fd.field_decimal_count d).length
      ∧ (env.strtod (env.sprintf_e fd.field_decimal_count d)).erange = false

instance (env : libc) (fd : dbffield_def) (v : dbffield_value) :
    Decidable (cell_fits env fd v) := by
  cases v <;> unfold cell_fits <;> infer_instance

/-- The cell expected back from the reader for a written cell. A `str` value comes back as
its text up to the first NUL, without the spaces at either end. A negative `sint` value
comes back as the same `sint`, a non-negative one as the `uint` of the same number; a
`uint` and a `dbl` value come back as they are. The raw text of a numeric cell is the text
that was written. -/
def read_back_cell (env : libc) (fd : dbffield_def) : dbffield_value → dbffield_value
  | .str value => .str (trim_leading_and_trailing_whitespace (c_str value))
  | .sint i _ => if i < 0 then .sint i (sprintf_d i) else .uint i.toNat (sprintf_d i)
  | .uint u _ => .uint u (sprintf_u u)
  | .dbl d _ => .dbl d (env.sprintf_e fd.field_decimal_count d)

/-- The row expected back from the reader for a written row. -/
def read_back_row (env : libc) (fields : List dbffield_def) (row : dbfrow) : dbfrow :=
  ⟨(fields.zip row.values).map (fun p => read_back_cell env p.1 p.2)⟩

/-- The text `write_table_rows` formats for a cell before it is padded to the column: the
value of a `str` up to its first NUL, and what `sprintf` prints for a number. -/
def cell_text (env : libc) (fd : dbffield_def) : dbffield_value → List Nat
  | .str value => c_str value
  | .sint i _ => sprintf_d i
  | .uint u _ => sprintf_u u
  | .dbl d _ => env.sprintf_e fd.field_decimal_count d

/-- The table expected back from the reader for a written table: the same field
definitions, and the rows cell by cell. -/
def read_back_table (env : libc) (table : dbftable) : dbftable :=
  ⟨table.header, table.rows.map (read_back_row env table.header.fields)⟩

end dbfutil

namespace shputil
/-- Whether `std::regex_search(path, std::regex(".shp"))` finds a match: some character
other than a line feed or carriage return is followed by `shp`. -/
def regex_search : List Nat → Bool
  | [] => false
  | c :: tl => decide (c ≠ 10 ∧ c ≠ 13 ∧ tl.take 3 = [115, 104, 112]) || regex_search tl
end shputil

namespace dbfutil
/-- The record is active: its first byte, the status byte, is 0x20. -/
def record_active (record : List Nat) : Bool := decide (record.getD 0 0 = 0x20)

/-- The row `read_table_rows` decodes from the fields of a record, where it decodes one. -/
def decode_record (env : libc) (read_size : Nat) (fields : List dbffield_def)
    (record : List Nat) : Option dbfrow :=
  match read_row_fields env read_size record fields 1 with
  | some (some values) => some ⟨values⟩
  | _ => none
end dbfutil

namespace shputil
/-- The `file_code` field of the main header of a file, as `read_main_header` reads it. -/
def stored_file_code (file : List Nat) : Int := int32_of_BE (file.take 4)

/-- The `version` field of the main header of a file, as `read_main_header` reads it. -/
def stored_version (file : List Nat) : Int := int32_of_LE ((file.drop 28).take 4)

/-- The `shape_type` field of the main header of a file, as `read_main_header` reads it. -/
def stored_shape_type (file : List Nat) : Int := int32_of_LE ((file.drop 32).take 4)
end shputil

namespace dbfutil
/-- The offset in the file of the cell of the row with index `row` in the column that
follows the columns `before`: behind the header, the descriptors and the terminator, the
earlier records, the status byte of the record and the earlier cells. -/
def cell_offset (fields before : List dbffield_def) (row : Nat) : Nat :=
  32 + 32 * fields.length + 1 + row * (1 + fields_length fields) + 1 + fields_length before
end dbfutil

/-- Whether `strtol` and `strtoul` with base 0 convert the text in its entirety: they
recognise a number and it ends where the text ends. -/
def strto_whole (str : List Nat) : Bool :=
  match strto_subject str with
  | some (_, _, e) => decide (e = str.length)
  | none => false

namespace shputil
/-- The bounding box a writer puts into the main header of a collection of the given
kind. -/
def main_header_bb (k : shape_type) (shpfile : shapefile) : shapefile_main_header_boundingbox :=
  match k with
  | .point => determine_point_shape_bb shpfile
  | .multipoint => (determine_multipoint_shape_bb shpfile).2
  | _ => (determine_polypart_bb_file shpfile).2

/-- The Z and M slots of a bounding box. -/
def zm_slots (bb : shapefile_main_header_boundingbox) : List Nat :=
  [bb.zmin, bb.zmax, bb.mmin, bb.mmax]
end shputil

namespace shputil
/-- The index of the first point of each part among the points of all parts: for the part
with index `k`, the number of points of the parts before it. -/
def part_starts (parts : List polypart) : List Nat :=
  (List.range parts.length).map (fun k => ((parts.take k).map (fun p => p.points.length)).sum)
end shputil

/-- The C++ `a <= b` on doubles. -/
def dbl_le (a b : Nat) : Bool :=
  !dbl_is_nan a && !dbl_is_nan b && decide (dbl_key a ≤ dbl_key b)

namespace shputil
/-- The points of the point shapes of a collection, in order. -/
def point_shapes (shpfile : shapefile) : List pointshape :=
  shpfile.shapes.filterMap (fun s => match s with
    | .point ps => some ps
    | _ => none)

/-- The points of all parts, in order. -/
def part_points (parts : List polypart) : List pointshape :=
  parts.flatMap (fun part => part.points)

/-- The point lies inside the box, borders included. -/
def inside_bb (bb : shapefile_main_header_boundingbox) (ps : pointshape) : Bool :=
  dbl_le bb.xmin ps.x && dbl_le ps.x bb.xmax && dbl_le bb.ymin ps.y && dbl_le ps.y bb.ymax
end shputil

namespace shputil
/-- The straightforward slicing of the flat point array by the part indices: part `i` is
the array restricted to `[index[i], index[i+1])`, and the last part ends at `num_points`. -/
def slice_parts : List Int → Int → List pointshape → List polypart
  | [], _, _ => []
  | [i], num_points, flat => [⟨(flat.drop i.toNat).take (num_points - i).toNat⟩]
  | i :: j :: rest, num_points, flat =>
    ⟨(flat.drop i.toNat).take (j - i).toNat⟩ :: slice_parts (j :: rest) num_points flat
end shputil

namespace shputil
/-- The shape the reader builds from the record of a written shape: a polyline without
parts and a polygon without rings come back with one empty part, every other shape as it
is. -/
def read_back_shape : shape → shape
  | .polyline [] => .polyline [⟨[]⟩]
  | .polygon [] => .polygon [⟨[]⟩]
  | s => s
end shputil

namespace shputil
/-- The rest of a file ends before the next record can be read in full: fewer than the 8
bytes of a record header remain, or a header with a positive content length is followed by
fewer bytes than the content it announces. -/
def truncated_record (trunc : List Nat) : Prop :=
  trunc.length < 8
    ∨ ∃ num cl part, trunc = write_record_header ⟨num, cl⟩ ++ part
        ∧ 0 < cl ∧ cl < 1073741824 ∧ (part.length : Int) < 2 * cl
end shputil

namespace dbfutil
/-- The value `read_table_rows` decodes from the bytes stored for a cell of a column: the
bytes are copied to `vbuf`, terminated with a NUL, read as a C string and trimmed; `none`
where the function returns `false`. -/
def decoded_cell (env : libc) (fdef : dbffield_def) (stored : List Nat) :
    Option dbffield_value :=
  read_cell env fdef (trim_leading_and_trailing_whitespace (c_str (stored ++ [0])))

/-- The cell of a table in the row and column with the given indices (from 0). -/
def cell_at (table : dbftable) (row column : Nat) : Option dbffield_value :=
  match table.rows.get? row with
  | some r => r.values.get? column
  | none => none

/-- The field definitions `read_field_descriptors` builds from the descriptors
`write_field_descriptors` writes for the fields, the first of them with index `idx`. -/
def read_back_fields (env : libc) (idx : Nat) (fields : List dbffield_def) :
    List dbffield_def :=
  (fields.enumFrom idx).map (fun p => read_fielddesc (write_fielddesc env p.1 p.2))
end dbfutil

namespace dbfutil
/-- The bytes stored for the cell decode to a value. -/
def cell_reads (env : libc) (fd : dbffield_def) (v : dbffield_value) : Prop :=
  (decoded_cell env fd (cell_bytes env fd v)).isSome = true

instance (env : libc) (fd : dbffield_def) (v : dbffield_value) :
    Decidable (cell_reads env fd v) := by
  unfold cell_reads; infer_instance
end dbfutil

namespace shputil
/-- The vertices of a shape, in order: the point itself, the points of a multipoint, the
points of all parts of a polyline or of all rings of a polygon. -/
def shape_vertices : shape → List pointshape
  | .null => []
  | .point ps => [ps]
  | .multipoint points => points
  | .polyline parts => part_points parts
  | .polygon rings => part_points rings

/-- The vertices of all shapes of a collection, in order. -/
def collection_vertices (shpfile : shapefile) : List pointshape :=
  shpfile.shapes.flatMap shape_vertices
end shputil

/-! ## Inputs used in witnesses and counterexamples -/

/-- The bytes of an ASCII text. -/
def str_bytes (s : String) : List Nat := s.toList.map Char.toNat

namespace shputil

/-- The collection with the single point x = -74.006, y = 40.7128. -/
def single_point : shapefile :=
  ⟨[shape.point ⟨0xc05280624dd2f1aa, 0x40445b3d07c84b5e⟩]⟩

/-- The collection with one polyline of two parts, [(0,0),(1,0)] and [(5,5),(5,6),(5,7)]. -/
def two_part_polyline : shapefile :=
  ⟨[shape.polyline
    [⟨[⟨0, 0⟩, ⟨0x3ff0000000000000, 0⟩]⟩,
     ⟨[⟨0x4014000000000000, 0x4014000000000000⟩, ⟨0x4014000000000000, 0x4018000000000000⟩,
       ⟨0x4014000000000000, 0x401c000000000000⟩]⟩]]⟩

/-- The collection of `n` points at the origin. -/
def origin_points (n : Nat) : shapefile := ⟨List.replicate n (shape.point ⟨0, 0⟩)⟩

/-- The collection with one multipoint of `n` points at the origin. -/
def origin_multipoint (n : Nat) : shapefile :=
  ⟨[shape.multipoint (List.replicate n ⟨0, 0⟩)]⟩

/-- The collection with one polyline that has no part. -/
def empty_polyline : shapefile := ⟨[shape.polyline []]⟩

end shputil

namespace dbfutil

/-- A row of the table of the sample program, as `append_city` builds it. -/
def city_row (city country : String) (longitude latitude : Nat) : dbfrow :=
  ⟨[.str (str_bytes city), .str (str_bytes country), .dbl longitude [], .dbl latitude []]⟩

/-- The table of seven cities that `main` of the sample program writes. -/
def world_cities_dbf : dbftable :=
  { header := ⟨[dbffield_def.of_type (str_bytes "City") (str_bytes "C") 50,
      dbffield_def.of_type (str_bytes "Country") (str_bytes "C") 50,
      dbffield_def.of_float (str_bytes "Longitude") 19 11,
      dbffield_def.of_float (str_bytes "Latitude") 19 11]⟩
    rows := [city_row "New York" "USA" 0xc05280624dd2f1aa 0x40445b3d07c84b5e,
      city_row "London" "England" 0xbfc05532617c1bda 0x4049c0ebedfa43fe,
      city_row "Tokyo" "Japan" 0x406174cf41f212d7 0x4041d68db8bac711,
      city_row "Sydney" "Australia" 0x4062e6b295e9e1b1 0xc040ef34d6a161e5,
      city_row "Rio de Janeiro" "Brazil" 0xc04596219652bd3c 0xc036e8240b780347,
      city_row "Cairo" "Egypt" 0x403f3c56d5cfaace 0x403e0b5dcc63f141,
      city_row "Honolulu" "USA" 0xc063bb77318fc505 0x40354e90ff972474] }

/-- The table with `n` character columns of length `len` and `m` rows of empty texts. -/
def wide_table (n len m : Nat) : dbftable :=
  { header := ⟨List.replicate n (dbffield_def.of_type [102] [67] len)⟩
    rows := List.replicate m ⟨List.replicate n (.str [])⟩ }

/-- An environment to run the table writer in: `localtime` returns a null pointer, the
uninitialised bytes are zero, every double is formatted as the text `0.0e+00` and `strtod`
converts nothing. -/
def null_libc : libc :=
  { localtime := none
    fname_uninit := fun _ _ => 0
    sprintf_e := fun _ _ => str_bytes "0.0e+00"
    strtod := fun _ => ⟨0, 0, false⟩ }

/-- An environment in which doubles convert both ways: `localtime` returns a null pointer,
the uninitialised bytes are zero, every double is formatted as the text `0.0e+00` and
`strtod` converts every text, whole, to the double 0.0. -/
def zero_libc : libc :=
  { localtime := none
    fname_uninit := fun _ _ => 0
    sprintf_e := fun _ _ => str_bytes "0.0e+00"
    strtod := fun s => ⟨0, s.length, false⟩ }

/-- A table with a column of each kind and two rows. -/
def survey_table : dbftable :=
  { header := ⟨[dbffield_def.of_type (str_bytes "Name") (str_bytes "C") 8,
      dbffield_def.of_type (str_bytes "Count") (str_bytes "N") 5,
      dbffield_def.of_type (str_bytes "Delta") (str_bytes "N") 5,
      dbffield_def.of_float (str_bytes "Height") 10 1]⟩
    rows := [⟨[.str (str_bytes "Oslo"), .uint 3 [], .sint (-7) [], .dbl 0 []]⟩,
      ⟨[.str (str_bytes " Rio "), .uint 120 [], .sint 45 [], .dbl 0 []]⟩] }

/-- The table with one column and one row. -/
def one_cell_table (fd : dbffield_def) (v : dbffield_value) : dbftable :=
  ⟨⟨[fd]⟩, [⟨[v]⟩]⟩

end dbfutil

namespace shputil
/-- The collection of a point and a polyline: two kinds. -/
def point_and_polyline : shapefile :=
  ⟨[shape.point ⟨0, 0⟩, shape.polyline [⟨[⟨0, 0⟩, ⟨0x3ff0000000000000, 0x3ff0000000000000⟩]⟩]]⟩
end shputil

namespace dbfutil
/-- A hand-made table file with one `N` column of length 4 and the three cells ` -42`,
`42  ` and ` 42 `. -/
def numeric_cells_file : List Nat :=
  write_header ⟨3, (122, 1, 1), 3, 65, 5⟩
    ++ write_fielddesc zero_libc 0 ⟨str_bytes "n", str_bytes "N", 4, 0⟩ ++ [0x0d]
    ++ (32 :: str_bytes " -42") ++ (32 :: str_bytes "42  ") ++ (32 :: str_bytes " 42 ")
    ++ [0x1a]

/-- A hand-made table file with one `N` column of length 11 and the three cells `042`,
`4294967296` and `-2147483649`. -/
def wide_numeric_cells_file : List Nat :=
  write_header ⟨3, (122, 1, 1), 3, 65, 12⟩
    ++ write_fielddesc zero_libc 0 ⟨str_bytes "n", str_bytes "N", 11, 0⟩ ++ [0x0d]
    ++ (32 :: str_bytes "        042") ++ (32 :: str_bytes " 4294967296")
    ++ (32 :: str_bytes "-2147483649") ++ [0x1a]
end dbfutil

namespace dbfutil
/-- The records of a hand-made table with one `N` column of length 4: the cells ` -42`,
`42  ` and ` 42 `, the second record marked deleted (0x2A). -/
def deleted_second_records : List (List Nat) :=
  [32 :: str_bytes " -42", 0x2a :: str_bytes "42  ", 32 :: str_bytes " 42 "]
end dbfutil

namespace shputil
/-- A hand-made `.shp` file of the given kind with three records: the record the writer
gives the shape `s`, a null shape record in its standard form (content length 2, the type
code 0), and the record of the shape `t`. -/
def null_middle_file (k : shape_type) (s t : shape) : Option (List Nat) :=
  match encode_of k s, encode_of k t with
  | some (cl1, c1), some (cl2, c2) =>
    some (write_main_header ⟨SHAPEFILE_FILE_CODE,
        ((100 + (8 + c1.length) + 12 + (8 + c2.length) : Nat) : Int) / 2,
        SHAPEFILE_VERSION, k.code⟩ zero_bb
      ++ write_record_header ⟨1, cl1⟩ ++ c1
      ++ write_record_header ⟨2, 2⟩ ++ int32_LE shape_type.null_shape.code
      ++ write_record_header ⟨3, cl2⟩ ++ c2)
  | _, _ => none

/-- A hand-made point file with three records of content length 10: a point, a null shape
padded to 20 bytes, a point. -/
def padded_null_file : List Nat :=
  write_main_header ⟨SHAPEFILE_FILE_CODE, 92, SHAPEFILE_VERSION, shape_type.point.code⟩ zero_bb
    ++ write_record_header ⟨1, 10⟩ ++ int32_LE 1
    ++ write_xy ⟨0x3ff0000000000000, 0x4000000000000000⟩
    ++ write_record_header ⟨2, 10⟩ ++ int32_LE 0 ++ List.replicate 16 0
    ++ write_record_header ⟨3, 10⟩ ++ int32_LE 1
    ++ write_xy ⟨0x4008000000000000, 0x4010000000000000⟩
end shputil

namespace dbfutil
/-- A table with three character columns of length 3 and one row whose middle text,
`abcdefg`, is longer than its column. -/
def long_text_table : dbftable :=
  { header := ⟨[dbffield_def.of_type (str_bytes "a") (str_bytes "C") 3,
      dbffield_def.of_type (str_bytes "b") (str_bytes "C") 3,
      dbffield_def.of_type (str_bytes "c") (str_bytes "C") 3]⟩
    rows := [⟨[.str (str_bytes "x"), .str (str_bytes "abcdefg"), .str (str_bytes "yz")]⟩] }
end dbfutil

namespace dbfutil
/-- A hand-made table file with one `N` column of length 4 and two records with the given
status bytes and cells. -/
def two_cells_file (status1 : Nat) (cell1 : String) (status2 : Nat) (cell2 : String) :
    List Nat :=
  write_header ⟨3, (122, 1, 1), 2, 65, 5⟩
    ++ [write_fielddesc zero_libc 0 ⟨str_bytes "n", str_bytes "N", 4, 0⟩].flatten ++ [0x0d]
    ++ [status1 :: str_bytes cell1, status2 :: str_bytes cell2].flatten ++ [0x1a]
end dbfutil

namespace shputil
/-- A hand-made point file: the record of the point (1, 2), then a record header with the
content length 0 and 20 more bytes, the content of the point (3, 4). -/
def bogus_length_file : List Nat :=
  write_main_header ⟨SHAPEFILE_FILE_CODE, 78, SHAPEFILE_VERSION, shape_type.point.code⟩ zero_bb
    ++ write_record_header ⟨1, 10⟩ ++ int32_LE 1
    ++ write_xy ⟨0x3ff0000000000000, 0x4000000000000000⟩
    ++ write_record_header ⟨2, 0⟩ ++ int32_LE 1
    ++ write_xy ⟨0x4008000000000000, 0x4010000000000000⟩
end shputil

namespace shputil
/-- Two parts: `n` points at the origin, and one point. -/
def long_first_part (n : Nat) : List polypart :=
  [⟨List.replicate n ⟨0, 0⟩⟩, ⟨[⟨0, 0⟩]⟩]
end shputil

namespace dbfutil
/-- A header that announces a header length of 80 bytes, which leaves room for one
descriptor and 15 bytes more, one record, and a record length of 5. -/
def header_of_80_bytes : List Nat := write_header ⟨3, (122, 1, 1), 1, 80, 5⟩
end dbfutil

namespace shputil
/-- A hand-made polyline record with three parts, the middle one empty: the part indices
are 0, 2, 2 and the five points are (0,0), (1,0), (5,5), (5,6), (5,7). -/
def three_part_record : List Nat :=
  int32_LE 3 ++ List.replicate 32 0 ++ int32_LE 3 ++ int32_LE 5
    ++ int32_LE 0 ++ int32_LE 2 ++ int32_LE 2
    ++ [(⟨0, 0⟩ : pointshape), ⟨0x3ff0000000000000, 0⟩,
      ⟨0x4014000000000000, 0x4014000000000000⟩, ⟨0x4014000000000000, 0x4018000000000000⟩,
      ⟨0x4014000000000000, 0x401c000000000000⟩].flatMap write_xy
end shputil

namespace shputil
/-- The collection with one polygon that has no ring, between two triangles. -/
def empty_polygon_between : shapefile :=
  ⟨[shape.polygon [⟨[⟨0, 0⟩, ⟨0x3ff0000000000000, 0⟩, ⟨0, 0x3ff0000000000000⟩, ⟨0, 0⟩]⟩],
    shape.polygon [],
    shape.polygon [⟨[⟨0, 0⟩, ⟨0x4000000000000000, 0⟩, ⟨0, 0x4000000000000000⟩, ⟨0, 0⟩]⟩]]⟩
end shputil

namespace shputil
/-- A point file cut off inside its second record: the header announces 156 bytes, the
record of the point (1, 2) is complete, and of the record of the point (3, 4) the header
and the first 12 bytes of the content are left. -/
def cut_point_file : List Nat :=
  write_main_header ⟨SHAPEFILE_FILE_CODE, 78, SHAPEFILE_VERSION, shape_type.point.code⟩ zero_bb
    ++ (write_record_header ⟨1, 10⟩ ++ (int32_LE 1
        ++ write_xy ⟨0x3ff0000000000000, 0x4000000000000000⟩) ++ []
      ++ (write_record_header ⟨2, 10⟩ ++ (int32_LE 1 ++ double_LE 0x4008000000000000)))
end shputil

namespace dbfutil
/-- A table with two numeric columns of the lengths 2 and 3 and two rows; the texts of the
values of the first row, `123` and `-4567`, are longer than their columns. -/
def long_numbers_table : dbftable :=
  { header := ⟨[dbffield_def.of_type (str_bytes "a") (str_bytes "N") 2,
      dbffield_def.of_type (str_bytes "b") (str_bytes "N") 3]⟩
    rows := [⟨[.uint 123 [], .sint (-4567) []]⟩, ⟨[.uint 7 [], .sint 12 []]⟩] }
end dbfutil

namespace shputil
/-- A hand-made file of 128 bytes: the main header of a file of the given kind (file length
64 words) and one record, whose header holds the record number 1 and the content length
`cl`, and whose 20 bytes of content start with the type code `stype`. -/
def stray_record_file (k : shape_type) (cl stype : Int) : List Nat :=
  write_main_header ⟨SHAPEFILE_FILE_CODE, 64, SHAPEFILE_VERSION, k.code⟩ zero_bb
    ++ write_record_header ⟨1, cl⟩ ++ int32_LE stype ++ List.replicate 16 0
end shputil

/-! # Theorems -/

open shputil dbfutil

/-! ## Machine integers and byte order -/

theorem le_bytes_length (w n : Nat) : (le_bytes w n).length = w := by
  induction w generalizing n with
  | zero => rfl
  | succ w ih => simp [le_bytes, ih]

theorem from_le_le_bytes (w n : Nat) : from_le (le_bytes w n) = n % 256 ^ w := by
  induction w generalizing n with
  | zero => simp [le_bytes, from_le, Nat.mod_one]
  | succ w ih =>
    simp only [le_bytes, from_le, ih]
    rw [pow_succ', Nat.mod_mul]

theorem to_int32_of_range (z : Int) (h1 : -2147483648 ≤ z) (h2 : z < 2147483648) : to_int32 z = z := by
  unfold to_int32; omega

theorem to_int32_idem_add (a b : Int) : to_int32 (to_int32 a + b) = to_int32 (a + b) := by
  unfold to_int32; omega

theorem to_uint32_cast (z : Int) : ((to_uint32 z : Nat) : Int) = z % 4294967296 := by
  unfold to_uint32
  rw [Int.toNat_of_nonneg]; omega

theorem to_int32_to_uint32 (z : Int) : to_int32 (to_uint32 z : Nat) = to_int32 z := by
  rw [to_uint32_cast]; unfold to_int32; omega

theorem to_uint32_lt (z : Int) : to_uint32 z < 4294967296 := by
  have := to_uint32_cast z
  omega

@[simp] theorem int32_LE_length (z : Int) : (int32_LE z).length = 4 := le_bytes_length _ _

@[simp] theorem int32_BE_length (z : Int) : (int32_BE z).length = 4 := by
  simp [int32_BE, le_bytes_length]

@[simp] theorem double_LE_length (d : Nat) : (double_LE d).length = 8 := le_bytes_length _ _

@[simp] theorem write_record_header_length (rh : shapefile_record_header) :
    (write_record_header rh).length = 8 := by
  simp [write_record_header]

theorem tdiv_two (a : Int) : Int.tdiv a 2 = if 0 ≤ a then a / 2 else -((-a) / 2) := by
  split
  · exact Int.tdiv_eq_ediv ‹_› (by decide)
  · have h : a = -(-a) := by omega
    rw [h, Int.neg_tdiv, Int.tdiv_eq_ediv (by omega) (by decide)]
    simp

theorem int32_of_LE_int32_LE (z : Int) : int32_of_LE (int32_LE z) = to_int32 z := by
  unfold int32_of_LE int32_LE
  rw [from_le_le_bytes, Nat.mod_eq_of_lt (by have := to_uint32_lt z; omega)]
  exact to_int32_to_uint32 z

theorem int32_of_BE_int32_BE (z : Int) : int32_of_BE (int32_BE z) = to_int32 z := by
  unfold int32_of_BE int32_BE
  rw [List.reverse_reverse]
  exact int32_of_LE_int32_LE z

theorem stored_BE_append (a b : List Nat) (p : Nat) :
    stored_BE (a ++ b) (a.length + p) = stored_BE b p := by
  unfold stored_BE
  rw [List.drop_append]

theorem stored_BE_head (z : Int) (r : List Nat) : stored_BE (int32_BE z ++ r) 0 = to_int32 z := by
  unfold stored_BE
  rw [List.drop_zero, List.take_left' (int32_BE_length z)]
  exact int32_of_BE_int32_BE z

theorem stored_BE_record_header (rh : shapefile_record_header) (r : List Nat) :
    stored_BE (write_record_header rh ++ r) 0 = to_int32 rh.record_number
    ∧ stored_BE (write_record_header rh ++ r) 4 = to_int32 rh.content_length := by
  unfold write_record_header
  constructor
  · rw [List.append_assoc]; exact stored_BE_head _ _
  · rw [List.append_assoc]
    have := stored_BE_append (int32_BE rh.record_number) (int32_BE rh.content_length ++ r) 0
    rw [int32_BE_length] at this
    rw [this]; exact stored_BE_head _ _

@[simp] theorem write_xy_length (ps : pointshape) : (write_xy ps).length = 16 := by
  simp [write_xy]

@[simp] theorem write_main_header_length (hb : shapefile_main_header_base)
    (bb : shapefile_main_header_boundingbox) : (write_main_header hb bb).length = 100 := by
  simp [write_main_header]

theorem flatMap_write_xy_length (points : List pointshape) :
    (points.flatMap write_xy).length = 16 * points.length := by
  induction points with
  | nil => rfl
  | cons p ps ih => simp [List.flatMap_cons, ih]; omega

theorem write_part_indices_length (parts : List polypart) (i : Int) :
    (write_part_indices parts i).length = 4 * parts.length := by
  induction parts generalizing i with
  | nil => rfl
  | cons p ps ih => simp [write_part_indices, ih]; omega

theorem flatMap_parts_length (parts : List polypart) :
    (parts.flatMap (fun part => part.points.flatMap write_xy)).length
      = 16 * (parts.map (fun p => p.points.length)).sum := by
  induction parts with
  | nil => rfl
  | cons p ps ih =>
    simp only [List.flatMap_cons, List.length_append, ih, flatMap_write_xy_length,
      List.map_cons, List.sum_cons]
    omega

theorem write_point_records_eq (shapes : List shape) (pos : Nat) (recnum : Int) :
    write_point_records shapes pos recnum = write_records encode_point shapes pos recnum := by
  induction shapes generalizing pos recnum with
  | nil => rfl
  | cons s rest ih =>
    cases s <;> simp [write_point_records, write_records, encode_point, ih]

theorem write_multipoint_records_eq (shapes : List shape) (pos : Nat) (recnum : Int) :
    write_multipoint_records shapes pos recnum
      = write_records encode_multipoint shapes pos recnum := by
  induction shapes generalizing pos recnum with
  | nil => rfl
  | cons s rest ih =>
    cases s <;> simp [write_multipoint_records, write_records, encode_multipoint, ih]

theorem write_polypart_records_eq (stype : shape_type) (shapes : List shape) (pos : Nat)
    (recnum : Int) :
    write_polypart_records stype shapes pos recnum
      = write_records (encode_polypart stype) shapes pos recnum := by
  induction shapes generalizing pos recnum with
  | nil => rfl
  | cons s rest ih =>
    simp only [write_polypart_records, write_records, encode_polypart]
    cases h : polypart_cast stype s <;> simp [ih]

/-! ## The record loop of the shape writers -/

theorem records_size_cons (s : shape) (rest : List shape) :
    records_size (s :: rest) = 8 + content_bytes s + records_size rest := by
  simp [records_size]

theorem write_records_spec (enc : shape → Option (Int × List Nat))
    (henc : ∀ s cl c, enc s = some (cl, c) →
      c.length = content_bytes s ∧ cl = Int.tdiv (to_int32 (content_bytes s)) 2)
    (shapes : List shape) :
    ∀ (pos : Nat) (recnum : Int) (fp shx : List Nat),
      write_records enc shapes pos recnum = some (fp, shx) →
      fp.length = records_size shapes ∧ shx.length = 8 * shapes.length ∧
      ∀ i, i < shapes.length →
        stored_BE fp (records_size (shapes.take i)) = to_int32 (recnum + i)
        ∧ stored_BE fp (records_size (shapes.take i) + 4)
            = to_int32 (Int.tdiv (to_int32 (content_bytes (shapes.getD i shape.null))) 2)
        ∧ stored_BE shx (8 * i)
            = to_int32 (((pos + records_size (shapes.take i) : Nat) : Int) / 2)
        ∧ stored_BE shx (8 * i + 4)
            = to_int32 (Int.tdiv (to_int32 (content_bytes (shapes.getD i shape.null))) 2) := by
  induction shapes with
  | nil =>
    intro pos recnum fp shx h
    simp only [write_records, Option.some.injEq, Prod.mk.injEq] at h
    obtain ⟨rfl, rfl⟩ := h
    simp [records_size]
  | cons s rest ih =>
    intro pos recnum fp shx h
    simp only [write_records] at h
    cases he : enc s with
    | none => simp [he] at h
    | some p =>
      obtain ⟨cl, c⟩ := p
      obtain ⟨hlen, hcl⟩ := henc s cl c he
      simp only [he] at h
      cases hr : write_records enc rest (pos + 8 + c.length) (to_int32 (recnum + 1)) with
      | none => simp [hr] at h
      | some q =>
        obtain ⟨fp', shx'⟩ := q
        simp only [hr, Option.some.injEq, Prod.mk.injEq] at h
        obtain ⟨rfl, rfl⟩ := h
        obtain ⟨h1, h2, h3⟩ := ih _ _ _ _ hr
        refine ⟨?_, ?_, ?_⟩
        · simp [records_size_cons, h1, hlen]; omega
        · simp [h2]; omega
        · intro i hi
          cases i with
          | zero =>
            simp only [List.take_zero, List.getD_cons_zero, Nat.cast_zero, add_zero, mul_zero,
              zero_add]
            have e0 : records_size ([] : List shape) = 0 := rfl
            rw [e0, List.append_assoc]
            have a := stored_BE_record_header ⟨recnum, cl⟩ (c ++ fp')
            have b := stored_BE_record_header ⟨to_int32 ((pos : Int) / 2), cl⟩ shx'
            simp only at a b
            refine ⟨?_, ?_, ?_, ?_⟩
            · rw [a.1]
            · rw [a.2, hcl]
            · rw [b.1]; simp [to_int32_idem_add, to_int32]
            · rw [b.2, hcl]
          | succ j =>
            have hj : j < rest.length := by simpa using hi
            obtain ⟨g1, g2, g3, g4⟩ := h3 j hj
            simp only [List.take_succ_cons, List.getD_cons_succ, records_size_cons]
            have ea : 8 + content_bytes s + records_size (List.take j rest)
                = (write_record_header ⟨recnum, cl⟩ ++ c).length
                  + records_size (List.take j rest) := by
              simp [hlen]
            have eb : 8 * (j + 1) = (write_record_header ⟨to_int32 ((pos : Int) / 2), cl⟩).length + 8 * j := by
              simp; omega
            refine ⟨?_, ?_, ?_, ?_⟩
            · rw [ea, stored_BE_append, g1, to_int32_idem_add,
                show recnum + 1 + (j : Int) = recnum + ((j + 1 : Nat) : Int) by push_cast; ring]
            · rw [ea, add_assoc, stored_BE_append, g2]
            · rw [eb, stored_BE_append, g3,
                show pos + 8 + c.length + records_size (List.take j rest)
                  = pos + (8 + content_bytes s + records_size (List.take j rest)) by omega]
            · rw [eb, add_assoc, stored_BE_append, g4]

/-! ## The shape kind of a collection -/

theorem dst_loop_of_ne (l : List shape) (k : shape_type) (hk : k ≠ shape_type.null_shape) :
    (determine_shape_type_loop l k = k ∨ determine_shape_type_loop l k = shape_type.null_shape)
    ∧ (determine_shape_type_loop l k = k ↔ ∀ s ∈ l, s.stype ≠ shape_type.null_shape → s.stype = k) := by
  induction l with
  | nil => simp [determine_shape_type_loop]
  | cons s rest ih =>
    simp only [determine_shape_type_loop, List.mem_cons, forall_eq_or_imp]
    by_cases h0 : s.stype = shape_type.null_shape
    · simp only [h0, if_true]
      exact ⟨ih.1, by simpa using ih.2⟩
    · simp only [h0, hk, if_false]
      by_cases h1 : k = s.stype
      · subst h1
        simp only [ne_eq, not_true_eq_false, if_false]
        exact ⟨ih.1, by simpa using ih.2⟩
      · have h1' : ¬ s.stype = k := fun h => h1 h.symm
        simp only [ne_eq, h1, not_false_eq_true, if_true]
        refine ⟨Or.inr trivial, ?_⟩
        constructor
        · intro e; exact absurd e.symm hk
        · intro h; exact absurd (h.1 h0) h1'

theorem dst_loop_null (l : List shape) (k : shape_type) (hk : k ≠ shape_type.null_shape) :
    determine_shape_type_loop l shape_type.null_shape = k ↔
      (∃ s ∈ l, s.stype ≠ shape_type.null_shape)
        ∧ ∀ s ∈ l, s.stype ≠ shape_type.null_shape → s.stype = k := by
  induction l with
  | nil => simp [determine_shape_type_loop, hk.symm]
  | cons s rest ih =>
    simp only [determine_shape_type_loop, List.mem_cons, forall_eq_or_imp, exists_eq_or_imp]
    by_cases h0 : s.stype = shape_type.null_shape
    · simp [h0, ih]
    · simp only [h0, if_false, if_true, ne_eq, not_false_eq_true, true_or, true_and, forall_const]
      have h := dst_loop_of_ne rest s.stype h0
      constructor
      · intro e
        rcases h.1 with h2 | h2
        · rw [h2] at e; subst e; exact ⟨rfl, h.2.1 h2⟩
        · rw [h2] at e; exact absurd e.symm hk
      · rintro ⟨e, hall⟩
        subst e
        exact h.2.2 hall

theorem dst_first (l : List shape) (k : shape_type) (hk : k ≠ shape_type.null_shape)
    (h : determine_shape_type_loop l shape_type.null_shape = k) :
    (l.find? (fun s => decide (s.stype ≠ shape_type.null_shape))).map shape.stype = some k := by
  induction l with
  | nil => simp [determine_shape_type_loop] at h; exact absurd h.symm hk
  | cons s rest ih =>
    by_cases h0 : s.stype = shape_type.null_shape
    · simp only [determine_shape_type_loop, h0, if_true] at h
      rw [List.find?_cons_of_neg _ (by simp [h0])]
      exact ih h
    · have := (dst_loop_null (s :: rest) k hk).1 h
      have e := this.2 s (List.mem_cons_self _ _) h0
      rw [List.find?_cons_of_pos _ (by simp [h0])]
      simp [e]

theorem stype_supported (s : shape) (h : s.stype ≠ shape_type.null_shape) :
    s.stype ∈ [shape_type.point, shape_type.polyline, shape_type.polygon, shape_type.multipoint] := by
  cases s <;> simp [shape.stype] at h ⊢

theorem write_shp_of_null (path : List Nat) (shpfile : shapefile)
    (h : determine_shape_type shpfile = shape_type.null_shape) :
    ∃ r, write_shp path shpfile = some r ∧ r.status = false := by
  unfold write_shp
  by_cases hp : regex_replace_shp path = path
  · simp [hp]
  · simp [hp, h]

/-- Claim C10. `determine_shape_type` returns the kind `k` (which is not `null_shape`)
exactly when the collection has a shape that is not null and every such shape has kind
`k`; `k` is then the kind of the first shape that is not null and one of the four supported
kinds. It returns `null_shape` exactly when every shape is null (the empty collection
included) or two shapes that are not null differ in kind, and then `write_shp` returns
`false` for every path. -/
theorem determine_shape_type_spec (shpfile : shapefile) :
    (∀ k, k ≠ shape_type.null_shape →
      (determine_shape_type shpfile = k ↔
        (∃ s ∈ shpfile.shapes, s.stype ≠ shape_type.null_shape)
          ∧ ∀ s ∈ shpfile.shapes, s.stype ≠ shape_type.null_shape → s.stype = k))
    ∧ (∀ k, k ≠ shape_type.null_shape → determine_shape_type shpfile = k →
        (shpfile.shapes.find? (fun s => decide (s.stype ≠ shape_type.null_shape))).map shape.stype
            = some k
          ∧ k ∈ [shape_type.point, shape_type.polyline, shape_type.polygon,
              shape_type.multipoint])
    ∧ (determine_shape_type shpfile = shape_type.null_shape ↔
        (∀ s ∈ shpfile.shapes, s.stype = shape_type.null_shape)
          ∨ ∃ s ∈ shpfile.shapes, ∃ t ∈ shpfile.shapes,
              s.stype ≠ shape_type.null_shape ∧ t.stype ≠ shape_type.null_shape
                ∧ s.stype ≠ t.stype)
    ∧ (determine_shape_type shpfile = shape_type.null_shape →
        ∀ path, ∃ r, write_shp path shpfile = some r ∧ r.status = false) := by
  refine ⟨fun k hk => dst_loop_null _ k hk, ?_, ?_, fun h path => write_shp_of_null path shpfile h⟩
  · intro k hk h
    refine ⟨dst_first _ k hk h, ?_⟩
    obtain ⟨⟨s, hs, hn⟩, hall⟩ := (dst_loop_null _ k hk).1 h
    rw [← hall s hs hn]
    exact stype_supported s hn
  · constructor
    · intro h
      by_cases hall : ∀ s ∈ shpfile.shapes, s.stype = shape_type.null_shape
      · exact Or.inl hall
      · right
        push_neg at hall
        obtain ⟨s, hs, hn⟩ := hall
        refine ⟨s, hs, ?_⟩
        by_contra hcon
        push_neg at hcon
        have : determine_shape_type shpfile = s.stype :=
          (dst_loop_null _ s.stype hn).2 ⟨⟨s, hs, hn⟩, fun t ht htn => (hcon t ht hn htn).symm⟩
        exact hn (this ▸ h)
    · intro h
      by_contra hne
      obtain ⟨⟨s, hs, hn⟩, hall⟩ := (dst_loop_null _ _ hne).1 rfl
      rcases h with h | ⟨a, ha, b, hb, han, hbn, hab⟩
      · exact hn (h s hs)
      · exact hab ((hall a ha han).trans (hall b hb hbn).symm)

/-! ## The writers of the shape codec -/

theorem to_int32_idem (a : Int) : to_int32 (to_int32 a) = to_int32 a := by
  unfold to_int32; omega

theorem polypart_fold_count (parts : List polypart) :
    ∀ (a : Int) (st : Bool × shapefile_main_header_boundingbox), to_int32 a = a →
      (parts.foldl polypart_bb_step (a, st)).1 = to_int32 (a + ((parts.map (fun p => p.points.length)).sum : Nat)) := by
  induction parts with
  | nil => intro a st h; simpa using h.symm
  | cons p ps ih =>
    intro a st h
    simp only [List.foldl_cons, List.map_cons, List.sum_cons, polypart_bb_step]
    rw [ih _ _ (to_int32_idem _), to_int32_idem_add]
    congr 1; push_cast; ring

theorem determine_polypart_bb_count (parts : List polypart) :
    (determine_polypart_bb parts).1
      = to_int32 (((parts.map (fun p => p.points.length)).sum : Nat) : Int) := by
  unfold determine_polypart_bb
  have := polypart_fold_count parts 0 (true, zero_bb) (by decide)
  simpa using this

theorem encode_point_spec (s : shape) (cl : Int) (c : List Nat)
    (h : encode_point s = some (cl, c)) :
    s.stype = shape_type.point ∧ c.length = content_bytes s
      ∧ cl = Int.tdiv (to_int32 (content_bytes s)) 2 := by
  cases s <;> simp [encode_point] at h
  obtain ⟨rfl, rfl⟩ := h
  refine ⟨rfl, by simp [content_bytes], ?_⟩
  show (20 / 2 : Int) = Int.tdiv (to_int32 ((20 : Nat) : Int)) 2
  decide

theorem encode_multipoint_spec (s : shape) (cl : Int) (c : List Nat)
    (h : encode_multipoint s = some (cl, c)) :
    s.stype = shape_type.multipoint ∧ c.length = content_bytes s
      ∧ cl = Int.tdiv (to_int32 (content_bytes s)) 2 := by
  cases s <;> simp [encode_multipoint] at h
  obtain ⟨rfl, rfl⟩ := h
  refine ⟨rfl, ?_, ?_⟩
  · simp only [content_bytes, List.length_append, int32_LE_length, double_LE_length,
      flatMap_write_xy_length]
    omega
  · have e : to_int32 (40 + 16 * to_int32 (↑(List.length ‹List pointshape›)))
        = to_int32 ((content_bytes (shape.multipoint ‹List pointshape›) : Nat) : Int) := by
      simp only [content_bytes]
      unfold to_int32; push_cast; omega
    rw [e]

theorem encode_polypart_spec (k : shape_type)
    (hk : k = shape_type.polyline ∨ k = shape_type.polygon) (s : shape) (cl : Int)
    (c : List Nat) (h : encode_polypart k s = some (cl, c)) :
    s.stype = k ∧ c.length = content_bytes s
      ∧ cl = Int.tdiv (to_int32 (content_bytes s)) 2 := by
  unfold encode_polypart at h
  have key : ∀ parts : List polypart, polypart_cast k s = some parts →
      s.stype = k ∧ content_bytes s
        = 44 + 4 * parts.length + 16 * (parts.map (fun p => p.points.length)).sum := by
    intro parts hp
    rcases hk with rfl | rfl <;> cases s <;> simp [polypart_cast] at hp <;>
      subst hp <;> exact ⟨rfl, rfl⟩
  cases hp : polypart_cast k s with
  | none => simp [hp] at h
  | some parts =>
    obtain ⟨h1, h2⟩ := key parts hp
    simp only [hp, Option.some.injEq, Prod.mk.injEq] at h
    obtain ⟨rfl, rfl⟩ := h
    refine ⟨h1, ?_, ?_⟩
    · simp only [h2, List.length_append, int32_LE_length, double_LE_length,
        write_part_indices_length, flatMap_parts_length]
    · have e : to_int32 (POLY_BASE_RECORD_SIZE + 4 * to_int32 ↑parts.length
          + 2 * 8 * (determine_polypart_bb parts).1)
          = to_int32 ((content_bytes s : Nat) : Int) := by
        rw [h2, determine_polypart_bb_count]
        simp only [POLY_BASE_RECORD_SIZE]
        unfold to_int32; push_cast; omega
      rw [e]

theorem encode_of_spec (k : shape_type) (s : shape) (cl : Int) (c : List Nat)
    (h : encode_of k s = some (cl, c)) :
    s.stype = k ∧ c.length = content_bytes s
      ∧ cl = Int.tdiv (to_int32 (content_bytes s)) 2 := by
  cases k <;> simp only [encode_of] at h
  · exact absurd h (by simp)
  · exact encode_point_spec s cl c h
  · exact encode_polypart_spec _ (Or.inl rfl) s cl c h
  · exact encode_polypart_spec _ (Or.inr rfl) s cl c h
  · exact encode_multipoint_spec s cl c h
  all_goals exact absurd h (by simp)

theorem write_records_all (enc : shape → Option (Int × List Nat)) (shapes : List shape) :
    ∀ (pos : Nat) (recnum : Int) (r : List Nat × List Nat),
      write_records enc shapes pos recnum = some r → ∀ s ∈ shapes, (enc s).isSome := by
  induction shapes with
  | nil => intro _ _ _ _ s hs; simp at hs
  | cons a rest ih =>
    intro pos recnum r h s hs
    simp only [write_records] at h
    cases he : enc a with
    | none => simp [he] at h
    | some p =>
      simp only [he] at h
      cases hr : write_records enc rest (pos + 8 + p.2.length) (to_int32 (recnum + 1)) with
      | none => simp [hr] at h
      | some q =>
        rcases List.mem_cons.1 hs with rfl | hs'
        · simp [he]
        · exact ih _ _ _ hr s hs'

theorem write_records_kind (k : shape_type) (shapes : List shape) (pos : Nat) (recnum : Int)
    (r : List Nat × List Nat) (h : write_records (encode_of k) shapes pos recnum = some r) :
    ∀ s ∈ shapes, s.stype = k := by
  intro s hs
  have := write_records_all _ _ _ _ _ h s hs
  obtain ⟨⟨cl, c⟩, hc⟩ := Option.isSome_iff_exists.1 this
  exact (encode_of_spec k s cl c hc).1

theorem multipoint_fold_count (shapes : List shape) :
    ∀ (a : Int) (pts : List pointshape), to_int32 a = a →
      (shapes.foldl multipoint_collect_step (a, pts)).1
        = to_int32 (a + ((shapes.map (fun s => (shape_points s).length)).sum : Nat)) := by
  induction shapes with
  | nil => intro a pts h; simpa using h.symm
  | cons s rest ih =>
    intro a pts h
    simp only [List.foldl_cons, List.map_cons, List.sum_cons]
    cases s with
    | multipoint p =>
      simp only [shape_points, multipoint_collect_step]
      rw [ih _ _ (to_int32_idem _), to_int32_idem_add, Nat.cast_add, add_assoc]
      rfl
    | _ =>
      simp only [shape_points, multipoint_collect_step, List.length_nil, zero_add]
      exact ih _ _ h

theorem polypart_fold_parts (shapes : List shape) :
    ∀ acc : List polypart,
      shapes.foldl polypart_collect_step acc = acc ++ shapes.flatMap shape_parts := by
  induction shapes with
  | nil => intro acc; simp
  | cons s rest ih =>
    intro acc
    simp only [List.foldl_cons, List.flatMap_cons]
    cases s <;> simp [shape_parts, polypart_collect_step, ih]

theorem records_size_point (shapes : List shape)
    (h : ∀ s ∈ shapes, s.stype = shape_type.point) : records_size shapes = 28 * shapes.length := by
  induction shapes with
  | nil => rfl
  | cons s rest ih =>
    have hs := h s (List.mem_cons_self _ _)
    rw [records_size_cons, ih (fun t ht => h t (List.mem_cons_of_mem _ ht))]
    cases s <;> simp [shape.stype] at hs
    simp [content_bytes]; omega

theorem records_size_multipoint (shapes : List shape)
    (h : ∀ s ∈ shapes, s.stype = shape_type.multipoint) :
    records_size shapes
      = 48 * shapes.length + 16 * (shapes.map (fun s => (shape_points s).length)).sum := by
  induction shapes with
  | nil => rfl
  | cons s rest ih =>
    have hs := h s (List.mem_cons_self _ _)
    rw [records_size_cons, ih (fun t ht => h t (List.mem_cons_of_mem _ ht))]
    cases s <;> simp [shape.stype] at hs
    simp [content_bytes, shape_points]; omega

theorem records_size_polypart (k : shape_type)
    (hk : k = shape_type.polyline ∨ k = shape_type.polygon) (shapes : List shape)
    (h : ∀ s ∈ shapes, s.stype = k) :
    records_size shapes
      = 52 * shapes.length + 4 * (shapes.flatMap shape_parts).length
        + 16 * ((shapes.flatMap shape_parts).map (fun p => p.points.length)).sum := by
  induction shapes with
  | nil => rfl
  | cons s rest ih =>
    have hs := h s (List.mem_cons_self _ _)
    rw [records_size_cons, ih (fun t ht => h t (List.mem_cons_of_mem _ ht))]
    simp only [List.flatMap_cons, List.length_append, List.map_append, List.sum_append,
      List.length_cons]
    rcases hk with rfl | rfl <;> cases s <;> simp [shape.stype] at hs <;>
      simp only [content_bytes, shape_parts] <;> omega

theorem stored_file_length_header (hb : shapefile_main_header_base)
    (bb : shapefile_main_header_boundingbox) (r : List Nat) :
    stored_file_length (write_main_header hb bb ++ r) = to_int32 hb.file_length := by
  have e : stored_file_length (write_main_header hb bb ++ r)
      = stored_BE (write_main_header hb bb ++ r) 24 := rfl
  rw [e]
  unfold write_main_header
  simp only [List.append_assoc]
  rw [← List.append_assoc]
  have := stored_BE_append (int32_BE hb.file_code ++ List.replicate 20 0)
    (int32_BE hb.file_length ++
      (int32_LE hb.version ++ (int32_LE hb.shape_type ++ (double_LE bb.xmin ++ (double_LE bb.ymin
        ++ (double_LE bb.xmax ++ (double_LE bb.ymax ++ (double_LE bb.zmin ++ (double_LE bb.zmax
        ++ (double_LE bb.mmin ++ (double_LE bb.mmax ++ r))))))))))) 0
  simp only [List.length_append, int32_BE_length, List.length_replicate] at this
  rw [this]
  exact stored_BE_head _ _

theorem file_length_point (shapes : List shape)
    (h : ∀ s ∈ shapes, s.stype = shape_type.point) :
    to_int32 (36 + 64 + (shapes.length : Int) * (20 + 8)) = to_int32 ((shp_size shapes : Nat) : Int) := by
  rw [shp_size, records_size_point shapes h]
  congr 1; push_cast; ring

theorem file_length_multipoint (shpfile : shapefile)
    (h : ∀ s ∈ shpfile.shapes, s.stype = shape_type.multipoint) :
    to_int32 (36 + 64 + (shpfile.shapes.length : Int) * (40 + 8)
        + (determine_multipoint_shape_bb shpfile).1 * 2 * 8)
      = to_int32 ((shp_size shpfile.shapes : Nat) : Int) := by
  rw [shp_size, records_size_multipoint _ h]
  have e : (determine_multipoint_shape_bb shpfile).1
      = to_int32 (((shpfile.shapes.map (fun s => (shape_points s).length)).sum : Nat) : Int) := by
    unfold determine_multipoint_shape_bb
    have := multipoint_fold_count shpfile.shapes 0 [] (by decide)
    simpa using this
  rw [e]
  unfold to_int32; push_cast; omega

theorem file_length_polypart (k : shape_type)
    (hk : k = shape_type.polyline ∨ k = shape_type.polygon) (shpfile : shapefile)
    (h : ∀ s ∈ shpfile.shapes, s.stype = k) :
    to_int32 (36 + 64 + (determine_polypart_bb_file shpfile).1)
      = to_int32 ((shp_size shpfile.shapes : Nat) : Int) := by
  rw [shp_size, records_size_polypart k hk _ h]
  have e : (determine_polypart_bb_file shpfile).1
      = to_int32 ((shpfile.shapes.length : Int) * (44 + 8)
          + 4 * ((shpfile.shapes.flatMap shape_parts).length : Int)
          + 2 * 8 * to_int32 ((((shpfile.shapes.flatMap shape_parts).map
              (fun p => p.points.length)).sum : Nat) : Int)) := by
    unfold determine_polypart_bb_file
    have := polypart_fold_parts shpfile.shapes []
    rw [List.nil_append] at this
    simp only [this, determine_polypart_bb_count, POLY_BASE_RECORD_SIZE]
  rw [e]
  unfold to_int32; push_cast; omega

theorem write_shp_form (path : List Nat) (shpfile : shapefile) (r : write_shp_result)
    (h : write_shp path shpfile = some r) (hst : r.status = true) :
    ∃ k bb fp shx,
      (k = shape_type.point ∨ k = shape_type.polyline ∨ k = shape_type.polygon
        ∨ k = shape_type.multipoint)
      ∧ regex_replace_shp path ≠ path
      ∧ determine_shape_type shpfile = k
      ∧ write_records (encode_of k) shpfile.shapes 100 1 = some (fp, shx)
      ∧ r.shp = some (write_main_header
          ⟨SHAPEFILE_FILE_CODE, Int.tdiv (to_int32 ((shp_size shpfile.shapes : Nat) : Int)) 2,
            SHAPEFILE_VERSION, k.code⟩ bb ++ fp)
      ∧ r.shx = some (write_main_header
          ⟨SHAPEFILE_FILE_CODE, to_int32 ((36 + 64 + 2 * 4 * (shpfile.shapes.length : Int)) / 2),
            SHAPEFILE_VERSION, k.code⟩ bb ++ shx) := by
  unfold write_shp at h
  by_cases hp : regex_replace_shp path = path
  · simp [hp] at h; subst h; simp at hst
  · simp only [hp, if_false] at h
    cases hk : determine_shape_type shpfile <;> simp only [hk] at h <;>
      try (simp only [Option.some.injEq] at h; subst h; simp at hst)
    ·
      simp only [write_point_shapes, write_point_records_eq] at h
      cases hw : write_records encode_point shpfile.shapes 100 1 with
      | none => simp [hw] at h
      | some p =>
        obtain ⟨fp, shx⟩ := p
        simp only [hw, Option.some.injEq] at h
        subst h
        have hall := write_records_kind shape_type.point _ _ _ _ hw
        refine ⟨_, determine_point_shape_bb shpfile, fp, shx, Or.inl rfl, hp, rfl, hw, ?_, rfl⟩
        simp only [file_length_point _ hall]
    ·
      simp only [write_polyline_shapes, write_polypart_shapes, write_polypart_records_eq] at h
      cases hw : write_records (encode_polypart shape_type.polyline) shpfile.shapes 100 1 with
      | none => simp [hw] at h
      | some p =>
        obtain ⟨fp, shx⟩ := p
        simp only [hw, Option.some.injEq] at h
        subst h
        have hall := write_records_kind shape_type.polyline _ _ _ _ hw
        refine ⟨_, (determine_polypart_bb_file shpfile).2, fp, shx,
          Or.inr (Or.inl rfl), hp, rfl, hw, ?_, rfl⟩
        simp only [file_length_polypart _ (Or.inl rfl) _ hall]
    ·
      simp only [write_polygon_shapes, write_polypart_shapes, write_polypart_records_eq] at h
      cases hw : write_records (encode_polypart shape_type.polygon) shpfile.shapes 100 1 with
      | none => simp [hw] at h
      | some p =>
        obtain ⟨fp, shx⟩ := p
        simp only [hw, Option.some.injEq] at h
        subst h
        have hall := write_records_kind shape_type.polygon _ _ _ _ hw
        refine ⟨_, (determine_polypart_bb_file shpfile).2, fp, shx,
          Or.inr (Or.inr (Or.inl rfl)), hp, rfl, hw, ?_, rfl⟩
        simp only [file_length_polypart _ (Or.inr rfl) _ hall]
    ·
      simp only [write_multipoint_shapes, write_multipoint_records_eq] at h
      cases hw : write_records encode_multipoint shpfile.shapes 100 1 with
      | none => simp [hw] at h
      | some p =>
        obtain ⟨fp, shx⟩ := p
        simp only [hw, Option.some.injEq] at h
        subst h
        have hall := write_records_kind shape_type.multipoint _ _ _ _ hw
        refine ⟨_, (determine_multipoint_shape_bb shpfile).2, fp, shx,
          Or.inr (Or.inr (Or.inr rfl)), hp, rfl, hw, ?_, rfl⟩
        simp only [file_length_multipoint _ hall]

theorem write_records_total (enc : shape → Option (Int × List Nat)) (shapes : List shape)
    (h : ∀ s ∈ shapes, (enc s).isSome) :
    ∀ (pos : Nat) (recnum : Int), ∃ r, write_records enc shapes pos recnum = some r := by
  induction shapes with
  | nil => intro _ _; exact ⟨_, rfl⟩
  | cons a rest ih =>
    intro pos recnum
    obtain ⟨⟨cl, c⟩, hc⟩ := Option.isSome_iff_exists.1 (h a (List.mem_cons_self _ _))
    obtain ⟨⟨fp, shx⟩, hr⟩ := ih (fun s hs => h s (List.mem_cons_of_mem _ hs))
      (pos + 8 + c.length) (to_int32 (recnum + 1))
    simp only [write_records, hc, hr]
    exact ⟨_, rfl⟩

theorem write_shp_of_records (path : List Nat) (shpfile : shapefile) (k : shape_type)
    (fp shx : List Nat)
    (hk4 : k = shape_type.point ∨ k = shape_type.polyline ∨ k = shape_type.polygon
        ∨ k = shape_type.multipoint)
    (hp : regex_replace_shp path ≠ path)
    (hk : determine_shape_type shpfile = k)
    (hw : write_records (encode_of k) shpfile.shapes 100 1 = some (fp, shx)) :
    ∃ r, write_shp path shpfile = some r ∧ r.status = true ∧ ∃ bb,
      r.shp = some (write_main_header
          ⟨SHAPEFILE_FILE_CODE, Int.tdiv (to_int32 ((shp_size shpfile.shapes : Nat) : Int)) 2,
            SHAPEFILE_VERSION, k.code⟩ bb ++ fp) := by
  have hall := write_records_kind k _ _ _ _ hw
  unfold write_shp
  simp only [hp, if_false, hk]
  rcases hk4 with rfl | rfl | rfl | rfl
  · simp only [encode_of] at hw
    simp only [write_point_shapes, write_point_records_eq, hw, file_length_point _ hall]
    exact ⟨_, rfl, rfl, _, rfl⟩
  · simp only [encode_of] at hw
    simp only [write_polyline_shapes, write_polypart_shapes, write_polypart_records_eq, hw,
      file_length_polypart _ (Or.inl rfl) _ hall]
    exact ⟨_, rfl, rfl, _, rfl⟩
  · simp only [encode_of] at hw
    simp only [write_polygon_shapes, write_polypart_shapes, write_polypart_records_eq, hw,
      file_length_polypart _ (Or.inr rfl) _ hall]
    exact ⟨_, rfl, rfl, _, rfl⟩
  · simp only [encode_of] at hw
    simp only [write_multipoint_shapes, write_multipoint_records_eq, hw,
      file_length_multipoint _ hall]
    exact ⟨_, rfl, rfl, _, rfl⟩

theorem content_bytes_even (s : shape) : content_bytes s % 2 = 0 := by
  cases s <;> simp only [content_bytes] <;> omega

theorem records_size_even (shapes : List shape) : records_size shapes % 2 = 0 := by
  induction shapes with
  | nil => rfl
  | cons s rest ih =>
    rw [records_size_cons]
    have := content_bytes_even s
    omega

theorem records_size_ge (shapes : List shape) : 8 * shapes.length ≤ records_size shapes := by
  induction shapes with
  | nil => simp [records_size]
  | cons s rest ih => rw [records_size_cons]; simp only [List.length_cons]; omega

theorem records_size_take_le (shapes : List shape) (i : Nat) :
    records_size (shapes.take i) + 8 * (shapes.length - i)
      + (if i < shapes.length then content_bytes (shapes.getD i shape.null) else 0)
      ≤ records_size shapes := by
  induction shapes generalizing i with
  | nil => simp [records_size]
  | cons s rest ih =>
    cases i with
    | zero =>
      have := records_size_ge rest
      simp [records_size_cons, records_size]; omega
    | succ j =>
      have := ih j
      simp only [List.take_succ_cons, records_size_cons, List.length_cons, List.getD_cons_succ,
        Nat.add_lt_add_iff_right, Nat.add_sub_add_right]
      omega

theorem half_small (n : Nat) (h : n < 2147483648) :
    to_int32 (Int.tdiv (to_int32 (n : Int)) 2) = (n : Int) / 2 := by
  have a1 : to_int32 (n : Int) = n := to_int32_of_range _ (by omega) (by omega)
  rw [a1, tdiv_two, if_pos (by omega)]
  exact to_int32_of_range _ (by omega) (by omega)

/-- Claim C3, amended. When `write_shp` succeeds on a collection whose `.shp` file stays
below `2 ^ 31` bytes, the bytes emitted to the `.shp` are 100 plus, for every record, 8 plus
its content bytes, and that number is twice the `file_length` stored in the main header. -/
theorem shp_length_matches_header (path : List Nat) (shpfile : shapefile)
    (r : write_shp_result) (shp : List Nat)
    (h : write_shp path shpfile = some r) (hst : r.status = true) (hshp : r.shp = some shp)
    (hsmall : shp_size shpfile.shapes < 2147483648) :
    shp.length = shp_size shpfile.shapes
      ∧ (shp.length : Int) = 2 * stored_file_length shp := by
  obtain ⟨k, bb, fp, shx, -, -, -, hw, e1, -⟩ := write_shp_form path shpfile r h hst
  rw [hshp, Option.some.injEq] at e1
  subst e1
  obtain ⟨hlen, -, -⟩ := write_records_spec (encode_of k)
    (fun s cl c hc => (encode_of_spec k s cl c hc).2) _ _ _ _ _ hw
  have hsz : (write_main_header ⟨SHAPEFILE_FILE_CODE,
      Int.tdiv (to_int32 ((shp_size shpfile.shapes : Nat) : Int)) 2, SHAPEFILE_VERSION,
      k.code⟩ bb ++ fp).length = shp_size shpfile.shapes := by
    simp [hlen, shp_size]
  refine ⟨hsz, ?_⟩
  rw [hsz, stored_file_length_header]
  have hev := records_size_even shpfile.shapes
  simp only [shp_size] at hsmall ⊢
  rw [half_small _ hsmall]
  omega

/-! ## Sizes and index of the written shape files -/

set_option maxRecDepth 100000 in
/-- Witness of claim C3 (amended): the single point of the first seed scenario, whose
`.shp` has 128 bytes. -/
theorem shp_length_matches_header_witness :
    ∃ r shp, write_shp (str_bytes "p.shp") single_point = some r ∧ r.status = true
      ∧ r.shp = some shp ∧ shp_size single_point.shapes < 2147483648
      ∧ shp.length = shp_size single_point.shapes
      ∧ (shp.length : Int) = 2 * stored_file_length shp := by
  have hst : (write_shp (str_bytes "p.shp") single_point).map (fun r => r.status)
      = some true := by decide
  have hshp : ((write_shp (str_bytes "p.shp") single_point).bind (fun r => r.shp)).isSome
      = true := by decide
  cases hr : write_shp (str_bytes "p.shp") single_point with
  | none => rw [hr] at hst; simp at hst
  | some r =>
    rw [hr] at hst hshp
    simp only [Option.map_some', Option.some.injEq, Option.some_bind] at hst hshp
    obtain ⟨shp, hs⟩ := Option.isSome_iff_exists.1 hshp
    exact ⟨r, shp, rfl, hst, hs, by decide,
      shp_length_matches_header _ _ r shp hr hst hs (by decide)⟩

theorem determine_shape_type_origin_points (n : Nat) (hn : 0 < n) :
    determine_shape_type (origin_points n) = shape_type.point := by
  refine (dst_loop_null _ _ (by decide)).2 ⟨⟨shape.point ⟨0, 0⟩, ?_, by decide⟩, ?_⟩
  · simp [origin_points]; omega
  · intro s hs _
    simp [origin_points] at hs
    rw [hs.2]; rfl

theorem write_shp_origin_points (n : Nat) (hn : 0 < n) :
    ∃ r shp shx, write_shp (str_bytes "p.shp") (origin_points n) = some r ∧ r.status = true
      ∧ r.shp = some shp ∧ r.shx = some shx := by
  have hall : ∀ s ∈ (origin_points n).shapes, (encode_of shape_type.point s).isSome := by
    intro s hs
    simp [origin_points] at hs
    rw [hs.2]; rfl
  obtain ⟨⟨fp, shx⟩, hw⟩ := write_records_total _ _ hall 100 1
  obtain ⟨r, h1, h2, bb, h3⟩ := write_shp_of_records (str_bytes "p.shp") (origin_points n)
    shape_type.point fp shx (Or.inl rfl) (by decide) (determine_shape_type_origin_points n hn) hw
  obtain ⟨k, bb', fp', shx', -, -, -, -, -, h4⟩ := write_shp_form _ _ r h1 h2
  exact ⟨r, _, _, h1, h2, h3, h4⟩

theorem shp_size_origin_points (n : Nat) : shp_size (origin_points n).shapes = 100 + 28 * n := by
  rw [shp_size, records_size_point]
  · simp [origin_points]
  · intro s hs
    simp [origin_points] at hs
    rw [hs.2]; rfl

theorem write_shp_layout (path : List Nat) (shpfile : shapefile) (r : write_shp_result)
    (shp shx : List Nat) (h : write_shp path shpfile = some r) (hst : r.status = true)
    (hshp : r.shp = some shp) (hshx : r.shx = some shx) :
    shp.length = shp_size shpfile.shapes
    ∧ stored_file_length shp
        = to_int32 (Int.tdiv (to_int32 ((shp_size shpfile.shapes : Nat) : Int)) 2)
    ∧ shx.length = 100 + 8 * shpfile.shapes.length
    ∧ stored_file_length shx = to_int32 ((100 + 8 * (shpfile.shapes.length : Int)) / 2)
    ∧ ∀ i, i < shpfile.shapes.length →
        stored_BE shp (record_offset shpfile.shapes i) = to_int32 (1 + i)
        ∧ stored_BE shp (record_offset shpfile.shapes i + 4)
            = to_int32 (Int.tdiv
                (to_int32 (content_bytes (shpfile.shapes.getD i shape.null))) 2)
        ∧ stored_BE shx (100 + 8 * i)
            = to_int32 (((record_offset shpfile.shapes i : Nat) : Int) / 2)
        ∧ stored_BE shx (100 + 8 * i + 4)
            = to_int32 (Int.tdiv
                (to_int32 (content_bytes (shpfile.shapes.getD i shape.null))) 2) := by
  obtain ⟨k, bb, fp, shx', -, -, -, hw, e1, e2⟩ := write_shp_form path shpfile r h hst
  rw [hshp, Option.some.injEq] at e1
  rw [hshx, Option.some.injEq] at e2
  subst e1 e2
  obtain ⟨hlen, hlen2, hent⟩ := write_records_spec (encode_of k)
    (fun s cl c hc => (encode_of_spec k s cl c hc).2) _ _ _ _ _ hw
  refine ⟨?_, ?_, ?_, ?_, ?_⟩
  · rw [List.length_append, write_main_header_length, hlen, shp_size]
  · rw [stored_file_length_header]
  · rw [List.length_append, write_main_header_length, hlen2]
  · rw [stored_file_length_header, to_int32_idem]
    rfl
  · intro i hi
    obtain ⟨g1, g2, g3, g4⟩ := hent i hi
    have hh : ∀ (hb : shapefile_main_header_base) (l : List Nat) (p : Nat),
        stored_BE (write_main_header hb bb ++ l) (100 + p) = stored_BE l p := by
      intro hb l p
      have := stored_BE_append (write_main_header hb bb) l p
      rwa [write_main_header_length] at this
    simp only [record_offset, shp_size]
    refine ⟨?_, ?_, ?_, ?_⟩
    · rw [hh, g1]
    · rw [add_assoc, hh, g2]
    · rw [hh, g3]
    · rw [show 100 + 8 * i + 4 = 100 + (8 * i + 4) by omega, hh, g4]

/-- Counterexample to claim C3 as stated: 76 695 842 points are written successfully, the
`.shp` has 2 147 483 676 bytes, and the `file_length` stored in its header is the negative
number -1 073 741 810 (the byte count wrapped to `int32_t` before it was halved). -/
theorem shp_length_header_overflow :
    ∃ r shp, write_shp (str_bytes "p.shp") (origin_points 76695842) = some r
      ∧ r.status = true ∧ r.shp = some shp
      ∧ shp.length = 2147483676 ∧ stored_file_length shp = -1073741810
      ∧ (shp.length : Int) ≠ 2 * stored_file_length shp := by
  obtain ⟨r, shp, shx, h, hst, hshp, hshx⟩ := write_shp_origin_points 76695842 (by decide)
  obtain ⟨h1, h2, -⟩ := write_shp_layout _ _ r shp shx h hst hshp hshx
  rw [shp_size_origin_points] at h1 h2
  have e : to_int32 (Int.tdiv (to_int32 ((100 + 28 * 76695842 : Nat) : Int)) 2)
      = -1073741810 := by decide
  rw [e] at h2
  refine ⟨r, shp, h, hst, hshp, h1, h2, ?_⟩
  rw [h1, h2]
  decide

/-- Claim C4, amended. When `write_shp` succeeds on a collection of `n` shapes whose `.shp`
file stays below `2 ^ 32` bytes, the `.shx` is a 100-byte header followed by `n` entries of 8
bytes, its header stores the file length `(100 + 8 n) / 2`, and for every record (index `i`
from 0) the offset field of its entry, doubled, is the byte position `100 + Σ (8 +
content_bytes)` over the earlier records; the `.shp` holds the record header with record
number `i + 1` at that position, and the entry repeats the content length of that record
header. -/
theorem shx_matches_shp (path : List Nat) (shpfile : shapefile) (r : write_shp_result)
    (shp shx : List Nat) (h : write_shp path shpfile = some r) (hst : r.status = true)
    (hshp : r.shp = some shp) (hshx : r.shx = some shx)
    (hsmall : shp_size shpfile.shapes < 4294967296) :
    shx.length = 100 + 8 * shpfile.shapes.length
    ∧ stored_file_length shx = ((100 + 8 * shpfile.shapes.length : Nat) : Int) / 2
    ∧ ∀ i, i < shpfile.shapes.length →
        2 * stored_BE shx (100 + 8 * i) = (record_offset shpfile.shapes i : Nat)
        ∧ stored_BE shp (record_offset shpfile.shapes i) = (i : Int) + 1
        ∧ stored_BE shx (100 + 8 * i + 4)
            = stored_BE shp (record_offset shpfile.shapes i + 4) := by
  obtain ⟨-, -, h3, h4, h5⟩ := write_shp_layout path shpfile r shp shx h hst hshp hshx
  have hge := records_size_ge shpfile.shapes
  simp only [shp_size] at hsmall
  refine ⟨h3, ?_, ?_⟩
  · rw [h4, to_int32_of_range _ (by omega) (by omega)]
    push_cast; rfl
  · intro i hi
    obtain ⟨g1, g2, g3, g4⟩ := h5 i hi
    have hle := records_size_take_le shpfile.shapes i
    have hev := records_size_even (shpfile.shapes.take i)
    refine ⟨?_, ?_, ?_⟩
    · rw [g3, to_int32_of_range _ (by simp only [record_offset, shp_size]; omega)
        (by simp only [record_offset, shp_size]; omega)]
      simp only [record_offset, shp_size]
      omega
    · rw [g1, to_int32_of_range _ (by omega) (by omega)]
      ring
    · rw [g4, g2]

theorem origin_points_length (n : Nat) : (origin_points n).shapes.length = n := by
  simp [origin_points]

theorem record_offset_origin_points (n i : Nat) (h : i ≤ n) :
    record_offset (origin_points n).shapes i = 100 + 28 * i := by
  have e : (origin_points n).shapes.take i = (origin_points i).shapes := by
    simp [origin_points, List.take_replicate, Nat.min_eq_left h]
  rw [record_offset, e, shp_size_origin_points]

/-- Counterexample to claim C4 as stated: with 153 391 687 points the last record header
begins at byte 4 294 967 308 of the `.shp`, and the offset stored in its `.shx` entry (the
position halved and wrapped to `int32_t`) doubles to -4 294 967 284. -/
theorem shx_offset_overflow :
    ∃ r shp shx, write_shp (str_bytes "p.shp") (origin_points 153391687) = some r
      ∧ r.status = true ∧ r.shp = some shp ∧ r.shx = some shx
      ∧ stored_BE shp (record_offset (origin_points 153391687).shapes 153391686) = 153391687
      ∧ record_offset (origin_points 153391687).shapes 153391686 = 4294967308
      ∧ 2 * stored_BE shx (100 + 8 * 153391686) = -4294967284 := by
  obtain ⟨r, shp, shx, h, hst, hshp, hshx⟩ := write_shp_origin_points 153391687 (by decide)
  obtain ⟨-, -, -, -, h5⟩ := write_shp_layout _ _ r shp shx h hst hshp hshx
  obtain ⟨g1, -, g3, -⟩ := h5 153391686
    (by rw [origin_points_length]; exact Nat.lt_succ_self _)
  have e := record_offset_origin_points 153391687 153391686 (by decide)
  refine ⟨r, shp, shx, h, hst, hshp, hshx, ?_, ?_, ?_⟩
  · rw [g1]; decide
  · rw [e]
  · rw [g3, e]; decide

set_option maxRecDepth 100000 in
/-- Witness of claim C4 (amended): the two-part polyline of the third seed scenario. -/
theorem shx_matches_shp_witness :
    ∃ r shp shx, write_shp (str_bytes "p.shp") two_part_polyline = some r ∧ r.status = true
      ∧ r.shp = some shp ∧ r.shx = some shx
      ∧ shp_size two_part_polyline.shapes < 4294967296
      ∧ shx.length = 100 + 8 * two_part_polyline.shapes.length
      ∧ stored_file_length shx = ((100 + 8 * two_part_polyline.shapes.length : Nat) : Int) / 2
      ∧ ∀ i, i < two_part_polyline.shapes.length →
          2 * stored_BE shx (100 + 8 * i) = (record_offset two_part_polyline.shapes i : Nat)
          ∧ stored_BE shp (record_offset two_part_polyline.shapes i) = (i : Int) + 1
          ∧ stored_BE shx (100 + 8 * i + 4)
              = stored_BE shp (record_offset two_part_polyline.shapes i + 4) := by
  have hst : (write_shp (str_bytes "p.shp") two_part_polyline).map (fun r => r.status)
      = some true := by decide
  have hshp : ((write_shp (str_bytes "p.shp") two_part_polyline).bind
      (fun r => r.shp)).isSome = true := by decide
  have hshx : ((write_shp (str_bytes "p.shp") two_part_polyline).bind
      (fun r => r.shx)).isSome = true := by decide
  cases hr : write_shp (str_bytes "p.shp") two_part_polyline with
  | none => rw [hr] at hst; simp at hst
  | some r =>
    rw [hr] at hst hshp hshx
    simp only [Option.map_some', Option.some.injEq, Option.some_bind] at hst hshp hshx
    obtain ⟨shp, hs⟩ := Option.isSome_iff_exists.1 hshp
    obtain ⟨shx, hx⟩ := Option.isSome_iff_exists.1 hshx
    exact ⟨r, shp, shx, rfl, hst, hs, hx, by decide,
      shx_matches_shp _ _ r shp shx hr hst hs hx (by decide)⟩

/-! ## The table writer -/

@[simp] theorem write_header_length (h : dBASE_header) : (write_header h).length = 32 := by
  simp [write_header, le_bytes_length]

theorem stored_fields_header (h : dBASE_header) (rest : List Nat) :
    stored_table_records (write_header h ++ rest) = h.table_records % 4294967296
    ∧ stored_header_bytes (write_header h ++ rest) = h.header_bytes % 65536
    ∧ stored_record_bytes (write_header h ++ rest) = h.record_bytes % 65536 := by
  have e : write_header h ++ rest
      = [h.version, h.lastupdate.1, h.lastupdate.2.1, h.lastupdate.2.2]
        ++ (le_bytes 4 h.table_records ++ (le_bytes 2 h.header_bytes
          ++ (le_bytes 2 h.record_bytes ++ (List.replicate 20 0 ++ rest)))) := by
    simp [write_header]
  refine ⟨?_, ?_, ?_⟩
  · unfold stored_table_records
    rw [e, List.drop_left' (by rfl), List.take_left' (le_bytes_length _ _), from_le_le_bytes]
    rfl
  · unfold stored_header_bytes
    rw [e, ← List.append_assoc, List.drop_left' (by simp [le_bytes_length]),
      List.take_left' (le_bytes_length _ _), from_le_le_bytes]
    rfl
  · unfold stored_record_bytes
    rw [e, ← List.append_assoc, ← List.append_assoc,
      List.drop_left' (by simp [le_bytes_length]),
      List.take_left' (le_bytes_length _ _), from_le_le_bytes]
    rfl

@[simp] theorem write_fielddesc_length (env : libc) (idx : Nat) (fd : dbffield_def) :
    (write_fielddesc env idx fd).length = 32 := by
  simp [write_fielddesc, write_field_name]

theorem write_field_descriptors_loop_ok (env : libc) (fields : List dbffield_def) :
    ∀ idx, ((write_field_descriptors_loop env idx fields).1 = true
        ↔ ∀ fd ∈ fields, field_valid fd)
      ∧ ((write_field_descriptors_loop env idx fields).1 = true →
        (write_field_descriptors_loop env idx fields).2.length = 32 * fields.length) := by
  induction fields with
  | nil => intro idx; simp [write_field_descriptors_loop]
  | cons fd rest ih =>
    intro idx
    simp only [write_field_descriptors_loop, List.mem_cons, forall_eq_or_imp]
    by_cases h1 : fd.field_name = []
    · simp [h1, field_valid]
    · by_cases h2 : fd.field_length = 0
      · simp [h1, h2, field_valid]
      · by_cases h3 : fd.field_type ≠ [67] ∧ fd.field_type ≠ [78] ∧ fd.field_type ≠ [70]
        · simp only [h1, h2, h3, if_true, if_false]
          simp only [ne_eq] at h3
          simp [h3.1, h3.2.1, h3.2.2, field_valid]
        · simp only [h1, h2, h3, if_false]
          have h3' : fd.field_type = [67] ∨ fd.field_type = [78] ∨ fd.field_type = [70] := by
            by_contra hc; push_neg at hc; exact h3 hc
          have hv : field_valid fd := ⟨h1, Nat.pos_of_ne_zero h2, h3'⟩
          refine ⟨?_, ?_⟩
          · rw [(ih (idx + 1)).1]
            simp [hv]
          · intro h
            rw [List.length_append, write_fielddesc_length, (ih (idx + 1)).2 h]
            simp only [List.length_cons]; omega

theorem sum_record_bytes_eq (fields : List dbffield_def) :
    ∀ acc, acc < 65536 → sum_record_bytes fields acc = (acc + fields_length fields) % 65536 := by
  induction fields with
  | nil => intro acc h; simp [sum_record_bytes, fields_length, Nat.mod_eq_of_lt h]
  | cons fd rest ih =>
    intro acc h
    simp only [sum_record_bytes]
    rw [ih _ (Nat.mod_lt _ (by decide))]
    simp only [fields_length, List.map_cons, List.sum_cons]
    omega

theorem format_cell_length (env : libc) (fd : dbffield_def) (v : dbffield_value)
    (b : List Nat) (h : format_cell env fd v = some (some b)) : b.length = 512 := by
  have pad : ∀ temp : List Nat,
      (if (sprintf_pad fd.field_length temp).length + 1 ≤ 512 then
        some (some (sprintf_pad fd.field_length temp ++ [0]
          ++ List.replicate (511 - (sprintf_pad fd.field_length temp).length) 32))
      else none) = some (some b) → b.length = 512 := by
    intro temp ht
    split at ht
    · simp only [Option.some.injEq] at ht
      subst ht
      simp only [List.length_append, List.length_replicate, List.length_singleton]
      omega
    · simp at ht
  unfold format_cell at h
  simp only at h
  by_cases hC : fd.field_type = [67]
  · simp only [hC, if_true] at h
    cases v with
    | str value => exact pad _ h
    | _ => simp at h
  · by_cases hN : fd.field_type = [78]
    · simp only [hN, if_true] at h
      cases v with
      | sint i value => exact pad _ (by simpa using h)
      | uint u value => exact pad _ (by simpa using h)
      | _ => simp at h
    · by_cases hF : fd.field_type = [70]
      · simp only [hF, if_true] at h
        cases v with
        | dbl d value =>
          by_cases ht : (env.sprintf_e fd.field_decimal_count d).length + 1 ≤ 512
          · exact pad _ (by simpa [ht] using h)
          · simp [ht] at h
        | _ => simp at h
      · simp only [hC, hN, hF, if_false, Option.some.injEq] at h
        subst h
        exact List.length_replicate _ _

theorem fields_length_cons (fd : dbffield_def) (rest : List dbffield_def) :
    fields_length (fd :: rest) = fd.field_length + fields_length rest := by
  simp [fields_length]

theorem write_row_fields_ok (env : libc) (fields : List dbffield_def) :
    ∀ (values : List dbffield_value) (recoff : Nat) (record_buf rec : List Nat),
      write_row_fields env fields values recoff record_buf = some (some rec) →
      record_buf.length < 65536 → recoff ≤ record_buf.length →
      (∀ fd ∈ fields, fd.field_length ≤ 512) →
      rec.length = record_buf.length
        ∧ recoff + fields_length fields ≤ record_buf.length
        ∧ (fields.length ≤ values.length)
        ∧ ∀ p ∈ fields.zip values, ∃ b, format_cell env p.1 p.2 = some (some b) := by
  induction fields with
  | nil =>
    intro values recoff record_buf rec h _ hro _
    simp only [write_row_fields, Option.some.injEq] at h
    subst h
    simp [fields_length, hro]
  | cons fd rest ih =>
    intro values recoff record_buf rec h hlt hro hL
    cases values with
    | nil => simp [write_row_fields] at h
    | cons v vs =>
      simp only [write_row_fields] at h
      cases hf : format_cell env fd v with
      | none => simp [hf] at h
      | some o =>
        cases o with
        | none => simp [hf] at h
        | some b =>
          simp only [hf] at h
          have hb := format_cell_length env fd v b hf
          have hfd := hL fd (List.mem_cons_self _ _)
          by_cases hin : recoff + fd.field_length ≤ record_buf.length
          · simp only [hin, if_true] at h
            have hmod : (recoff + fd.field_length) % 65536 = recoff + fd.field_length :=
              Nat.mod_eq_of_lt (by omega)
            rw [hmod] at h
            have hlen : (List.take recoff record_buf ++ List.take fd.field_length b
                ++ List.drop (recoff + fd.field_length) record_buf).length
                = record_buf.length := by
              simp only [List.length_append, List.length_take, List.length_drop]
              omega
            obtain ⟨g1, g2, g3, g4⟩ := ih vs _ _ rec h (by rw [hlen]; exact hlt)
              (by rw [hlen]; exact hin) (fun f hf' => hL f (List.mem_cons_of_mem _ hf'))
            rw [hlen] at g1 g2
            refine ⟨g1, by rw [fields_length_cons]; omega, by simpa using g3, ?_⟩
            intro p hp
            simp only [List.zip_cons_cons, List.mem_cons] at hp
            rcases hp with rfl | hp
            · exact ⟨b, hf⟩
            · exact g4 p hp
          · simp [hin] at h

theorem write_row_fields_eq (env : libc) (fields : List dbffield_def) :
    ∀ (values : List dbffield_value) (recoff : Nat) (record_buf : List Nat),
      values.length = fields.length →
      recoff + fields_length fields ≤ record_buf.length → record_buf.length < 65536 →
      (∀ fd ∈ fields, fd.field_length ≤ 512) →
      (∀ p ∈ fields.zip values, ∃ b, format_cell env p.1 p.2 = some (some b)) →
      write_row_fields env fields values recoff record_buf
        = some (some (record_buf.take recoff
            ++ (fields.zip values).flatMap (fun p => cell_bytes env p.1 p.2)
            ++ record_buf.drop (recoff + fields_length fields))) := by
  induction fields with
  | nil =>
    intro values recoff record_buf _ _ _ _ _
    simp [write_row_fields, fields_length]
  | cons fd rest ih =>
    intro values recoff record_buf hlen hin hlt hL hfmt
    cases values with
    | nil => simp at hlen
    | cons v vs =>
      obtain ⟨b, hf⟩ := hfmt (fd, v) (by simp)
      have hb := format_cell_length env fd v b hf
      have hfd := hL fd (List.mem_cons_self _ _)
      rw [fields_length_cons] at hin
      simp only [write_row_fields, hf]
      rw [if_pos (by omega), Nat.mod_eq_of_lt (by omega)]
      have hlen' : (List.take recoff record_buf ++ List.take fd.field_length b
          ++ List.drop (recoff + fd.field_length) record_buf).length
          = record_buf.length := by
        simp only [List.length_append, List.length_take, List.length_drop]
        omega
      rw [ih vs _ _ (by simpa using hlen) (by rw [hlen']; omega) (by rw [hlen']; exact hlt)
        (fun f hf' => hL f (List.mem_cons_of_mem _ hf'))
        (fun p hp => hfmt p (by simp [hp]))]
      have ecell : cell_bytes env fd v = List.take fd.field_length b := by
        simp [cell_bytes, hf]
      have etake : List.take (recoff + fd.field_length)
          (List.take recoff record_buf ++ List.take fd.field_length b
            ++ List.drop (recoff + fd.field_length) record_buf)
          = List.take recoff record_buf ++ List.take fd.field_length b := by
        apply List.take_left'
        simp only [List.length_append, List.length_take]
        omega
      have edrop : List.drop (recoff + fd.field_length + fields_length rest)
          (List.take recoff record_buf ++ List.take fd.field_length b
            ++ List.drop (recoff + fd.field_length) record_buf)
          = List.drop (recoff + (fd.field_length + fields_length rest)) record_buf := by
        have e1 : recoff + fd.field_length + fields_length rest
            = (List.take recoff record_buf ++ List.take fd.field_length b).length
              + fields_length rest := by
          simp only [List.length_append, List.length_take]
          omega
        rw [e1, List.drop_append, List.drop_drop]
        congr 1; omega
      rw [etake, edrop, fields_length_cons]
      simp only [List.zip_cons_cons, List.flatMap_cons, ecell, List.append_assoc]

theorem first_record (env : libc) (fields : List dbffield_def) (row : dbfrow) (rb : Nat)
    (hrb : rb = 1 + fields_length fields) (hlt : rb < 65536)
    (hL : ∀ fd ∈ fields, fd.field_length ≤ 512)
    (harity : row.values.length = fields.length)
    (hfmt : ∀ p ∈ fields.zip row.values, ∃ b, format_cell env p.1 p.2 = some (some b)) :
    write_row_fields env fields row.values 1 (32 :: List.replicate (rb - 1) 0)
      = some (some (row_record env fields row)) := by
  have hlen : (32 :: List.replicate (rb - 1) 0).length = rb := by
    simp only [List.length_cons, List.length_replicate]; omega
  rw [write_row_fields_eq env fields row.values 1 _ harity (by rw [hlen]; omega)
    (by rw [hlen]; exact hlt) hL hfmt]
  have e1 : List.take 1 (32 :: List.replicate (rb - 1) 0) = [32] := rfl
  have e2 : List.drop (1 + fields_length fields) (32 :: List.replicate (rb - 1) 0) = [] := by
    apply List.drop_eq_nil_of_le
    rw [hlen]; omega
  rw [e1, e2]
  simp [row_record]

theorem write_rows_loop_eq (env : libc) (fields : List dbffield_def) (rb : Nat)
    (hrb : rb = 1 + fields_length fields) (hlt : rb < 65536)
    (hL : ∀ fd ∈ fields, fd.field_length ≤ 512) (rows : List dbfrow)
    (hrows : ∀ row ∈ rows, row.values.length = fields.length
      ∧ ∀ p ∈ fields.zip row.values, ∃ b, format_cell env p.1 p.2 = some (some b)) :
    write_rows_loop env rb fields rows = some (true, rows.flatMap (row_record env fields)) := by
  induction rows with
  | nil => rfl
  | cons row rest ih =>
    obtain ⟨ha, hf⟩ := hrows row (List.mem_cons_self _ _)
    simp only [write_rows_loop, ha, ne_eq, not_true_eq_false, if_false,
      first_record env fields row rb hrb hlt hL ha hf,
      ih (fun r hr => hrows r (List.mem_cons_of_mem _ hr)), List.flatMap_cons]

theorem write_rows_loop_ok (env : libc) (fields : List dbffield_def) (rb : Nat)
    (hpos : 0 < rb) (hlt : rb < 65536) (hL : ∀ fd ∈ fields, fd.field_length ≤ 512)
    (rows : List dbfrow) :
    ∀ written, write_rows_loop env rb fields rows = some (true, written) →
      written.length = rows.length * rb
      ∧ ∀ row ∈ rows, row.values.length = fields.length
          ∧ 1 + fields_length fields ≤ rb
          ∧ ∀ p ∈ fields.zip row.values, ∃ b, format_cell env p.1 p.2 = some (some b) := by
  induction rows with
  | nil =>
    intro written h
    simp only [write_rows_loop, Option.some.injEq, Prod.mk.injEq, true_and] at h
    subst h; simp
  | cons row rest ih =>
    intro written h
    simp only [write_rows_loop] at h
    by_cases ha : row.values.length = fields.length
    · simp only [ha, ne_eq, not_true_eq_false, if_false] at h
      have hlen : (32 :: List.replicate (rb - 1) 0).length = rb := by
        simp only [List.length_cons, List.length_replicate]; omega
      cases hw : write_row_fields env fields row.values 1 (32 :: List.replicate (rb - 1) 0) with
      | none => simp [hw] at h
      | some o =>
        cases o with
        | none => simp [hw] at h
        | some rec =>
          simp only [hw] at h
          cases hr : write_rows_loop env rb fields rest with
          | none => simp [hr] at h
          | some q =>
            obtain ⟨st, w⟩ := q
            simp only [hr, Option.some.injEq, Prod.mk.injEq] at h
            obtain ⟨rfl, rfl⟩ := h
            obtain ⟨g1, g2, -, g4⟩ := write_row_fields_ok env fields _ _ _ _ hw
              (by rw [hlen]; exact hlt) (by rw [hlen]; exact hpos) hL
            rw [hlen] at g1 g2
            obtain ⟨i1, i2⟩ := ih w hr
            refine ⟨?_, ?_⟩
            · simp only [List.length_append, List.length_cons, g1, i1]; ring
            · intro r hr'
              rcases List.mem_cons.1 hr' with rfl | hr'
              · exact ⟨ha, g2, g4⟩
              · exact i2 r hr'
    · simp [ha] at h

theorem write_dbf_success (env : libc) (table : dbftable) (file : List Nat)
    (hL : ∀ fd ∈ table.header.fields, fd.field_length ≤ 512) :
    write_dbf env table = some ⟨true, some file⟩ ↔
      table.header.fields ≠ [] ∧ table.rows ≠ []
      ∧ (∀ fd ∈ table.header.fields, field_valid fd)
      ∧ 1 + fields_length table.header.fields ≤ 65535
      ∧ (∀ row ∈ table.rows, row.values.length = table.header.fields.length
          ∧ ∀ p ∈ table.header.fields.zip row.values,
              ∃ b, format_cell env p.1 p.2 = some (some b))
      ∧ file = dbf_file env table := by
  have hsum := sum_record_bytes_eq table.header.fields 1 (by decide)
  constructor
  · intro h
    unfold write_dbf at h
    by_cases h1 : table.header.fields = []
    · simp [h1] at h
    by_cases h2 : table.rows = []
    · simp [h1, h2] at h
    simp only [h1, h2, if_false] at h
    by_cases h3 : (write_field_descriptors env table).1 = true
    · simp only [h3, Bool.not_true, Bool.false_eq_true, if_false] at h
      have h3' : (write_field_descriptors_loop env 0 table.header.fields).1 = true := by
        unfold write_field_descriptors at h3
        by_contra hc
        simp [hc] at h3
      have hfd : (write_field_descriptors env table).2
          = (write_field_descriptors_loop env 0 table.header.fields).2 ++ [0x0d] := by
        unfold write_field_descriptors
        simp [h3']
      have hvalid := (write_field_descriptors_loop_ok env table.header.fields 0).1.1 h3'
      unfold write_table_rows at h
      by_cases h4 : (make_header env table).record_bytes = 0
      · simp [h4] at h
      simp only [h4, if_false] at h
      have hrb : (make_header env table).record_bytes
          = (1 + fields_length table.header.fields) % 65536 := hsum
      cases hw : write_rows_loop env (make_header env table).record_bytes table.header.fields
          table.rows with
      | none => simp [hw] at h
      | some q =>
        obtain ⟨st, w⟩ := q
        cases st with
        | false => simp [hw] at h
        | true =>
          simp only [hw, Option.some.injEq, write_dbf_result.mk.injEq, true_and] at h
          obtain ⟨-, hrows⟩ := write_rows_loop_ok env table.header.fields _
            (Nat.pos_of_ne_zero h4) (by rw [hrb]; exact Nat.mod_lt _ (by decide)) hL
            table.rows w hw
          obtain ⟨row, hrow⟩ := List.exists_mem_of_ne_nil _ h2
          have hle := (hrows row hrow).2.1
          have hbound : 1 + fields_length table.header.fields ≤ 65535 := by
            rw [hrb] at hle; omega
          have hrb' : (make_header env table).record_bytes
              = 1 + fields_length table.header.fields := by
            rw [hrb]; exact Nat.mod_eq_of_lt (by omega)
          refine ⟨h1, h2, hvalid, hbound, fun r hr => ⟨(hrows r hr).1, (hrows r hr).2.2⟩, ?_⟩
          have := write_rows_loop_eq env table.header.fields _ hrb' (by omega) hL table.rows
            (fun r hr => ⟨(hrows r hr).1, (hrows r hr).2.2⟩)
          rw [this, Option.some.injEq, Prod.mk.injEq] at hw
          rw [← h, hfd, ← hw.2]
          simp [dbf_file]
    · simp [h3] at h
  · rintro ⟨h1, h2, hvalid, hbound, hrows, rfl⟩
    have h3' : (write_field_descriptors_loop env 0 table.header.fields).1 = true :=
      (write_field_descriptors_loop_ok env table.header.fields 0).1.2 hvalid
    have hrb' : (make_header env table).record_bytes
        = 1 + fields_length table.header.fields := by
      have : (make_header env table).record_bytes
          = (1 + fields_length table.header.fields) % 65536 := hsum
      rw [this]; exact Nat.mod_eq_of_lt (by omega)
    have hw := write_rows_loop_eq env table.header.fields _ hrb' (by omega) hL table.rows hrows
    unfold write_dbf
    simp only [h1, h2, if_false, write_field_descriptors, h3', if_true, Bool.not_true,
      Bool.false_eq_true, write_table_rows, hw]
    rw [if_neg (by omega)]
    simp [dbf_file]

theorem decimal_digits_length_le (fuel : Nat) :
    ∀ n k, n < 10 ^ k → (decimal_digits fuel n).length ≤ k := by
  induction fuel with
  | zero => intro n k _; simp [decimal_digits]
  | succ f ih =>
    intro n k h
    simp only [decimal_digits]
    by_cases h0 : n = 0
    · simp [h0]
    · simp only [h0, if_false, List.length_cons]
      cases k with
      | zero => simp at h; omega
      | succ k =>
        have : n / 10 < 10 ^ k := by
          rw [pow_succ] at h
          omega
        have := ih (n / 10) k this
        omega

theorem sprintf_u_length_le (u : Nat) (h : u < 4294967296) : (sprintf_u u).length ≤ 10 := by
  unfold sprintf_u
  split
  · simp
  · simp only [List.length_reverse, List.length_map]
    exact decimal_digits_length_le _ _ _ (by omega)

theorem sprintf_d_length_le (z : Int) (h1 : -2147483648 ≤ z) (h2 : z < 2147483648) :
    (sprintf_d z).length ≤ 11 := by
  unfold sprintf_d
  split
  · have := sprintf_u_length_le (-z).toNat (by omega)
    simp only [List.length_cons]; omega
  · have := sprintf_u_length_le z.toNat (by omega)
    omega

theorem sprintf_pad_length (width : Nat) (text : List Nat) :
    (sprintf_pad width text).length = max width text.length := by
  simp only [sprintf_pad, List.length_append, List.length_replicate]
  omega

theorem format_ok_iff (env : libc) (fd : dbffield_def) (v : dbffield_value)
    (hfd : field_valid fd) (hL : fd.field_length < 256) (hv : v.wf) :
    (∃ b, format_cell env fd v = some (some b)) ↔ cell_compatible fd v ∧ text_fits env fd v := by
  have pad : ∀ temp : List Nat, temp.length ≤ 511 →
      ∃ b, (if (sprintf_pad fd.field_length temp).length + 1 ≤ 512 then
        some (some (sprintf_pad fd.field_length temp ++ [0]
          ++ List.replicate (511 - (sprintf_pad fd.field_length temp).length) 32))
      else none) = some (some b) := by
    intro temp ht
    rw [if_pos (by rw [sprintf_pad_length]; omega)]
    exact ⟨_, rfl⟩
  have pad' : ∀ (temp : List Nat) (b : List Nat),
      (if (sprintf_pad fd.field_length temp).length + 1 ≤ 512 then
        some (some (sprintf_pad fd.field_length temp ++ [0]
          ++ List.replicate (511 - (sprintf_pad fd.field_length temp).length) 32))
      else none) = some (some b) → temp.length ≤ 511 := by
    intro temp b ht
    split at ht
    · rename_i hh; rw [sprintf_pad_length] at hh; omega
    · simp at ht
  unfold format_cell
  simp only
  rcases hfd.2.2 with hC | hN | hF
  · simp only [hC, if_true]
    cases v with
    | str value =>
      simp only [cell_compatible, hC, text_fits, true_and]
      exact ⟨fun ⟨b, hb⟩ => pad' _ b hb, fun h => pad _ h⟩
    | _ => simp [cell_compatible, hC]
  · have e1 : ¬ ([78] : List Nat) = [67] := by decide
    simp only [hN, e1, if_true, if_false]
    cases v with
    | sint i value =>
      simp only [cell_compatible, hN, text_fits, and_self, iff_true]
      exact pad _ (by have := sprintf_d_length_le i hv.1 hv.2; omega)
    | uint u value =>
      simp only [cell_compatible, hN, text_fits, and_self, iff_true]
      exact pad _ (by have := sprintf_u_length_le u hv; omega)
    | _ => simp [cell_compatible, hN]
  · have e1 : ¬ ([70] : List Nat) = [67] := by decide
    have e2 : ¬ ([70] : List Nat) = [78] := by decide
    simp only [hF, e1, e2, if_true, if_false]
    cases v with
    | dbl d value =>
      simp only [cell_compatible, hF, text_fits, true_and]
      by_cases ht : (env.sprintf_e fd.field_decimal_count d).length + 1 ≤ 512
      · simp only [ht, if_true]
        exact ⟨fun _ => by omega, fun h => pad _ h⟩
      · simp only [ht, if_false]
        exact ⟨fun ⟨b, hb⟩ => by simp at hb, fun h => absurd (by omega) ht⟩
    | _ => simp [cell_compatible, hF]

/-! ## Sizes, header fields and acceptance of the table writer -/

theorem wf_field_length_le (table : dbftable) (hwf : table.wf) :
    ∀ fd ∈ table.header.fields, fd.field_length ≤ 512 :=
  fun fd hfd => by have := (hwf.1 fd hfd).1; omega

theorem dbf_file_length (env : libc) (table : dbftable) (file : List Nat)
    (hL : ∀ fd ∈ table.header.fields, fd.field_length ≤ 512)
    (h : write_dbf env table = some ⟨true, some file⟩) :
    file.length = 32 + 32 * table.header.fields.length + 1
      + table.rows.length * (1 + fields_length table.header.fields) + 1 := by
  obtain ⟨-, -, hvalid, hbound, hrows, rfl⟩ := (write_dbf_success env table file hL).1 h
  have h3 := (write_field_descriptors_loop_ok env table.header.fields 0).1.2 hvalid
  have hd := (write_field_descriptors_loop_ok env table.header.fields 0).2 h3
  have hw := write_rows_loop_eq env table.header.fields
    (1 + fields_length table.header.fields) rfl (by omega) hL table.rows hrows
  obtain ⟨hlen, -⟩ := write_rows_loop_ok env table.header.fields _ (by omega) (by omega) hL
    table.rows _ hw
  simp only [dbf_file, List.length_append, write_header_length, hd, hlen, List.length_singleton]

theorem stored_fields_dbf_file (env : libc) (table : dbftable) (file : List Nat)
    (hL : ∀ fd ∈ table.header.fields, fd.field_length ≤ 512)
    (h : write_dbf env table = some ⟨true, some file⟩) :
    stored_table_records file = table.rows.length % 4294967296
    ∧ stored_header_bytes file = (32 + 32 * table.header.fields.length + 1) % 65536
    ∧ stored_record_bytes file = 1 + fields_length table.header.fields := by
  obtain ⟨-, -, hvalid, hbound, hrows, rfl⟩ := (write_dbf_success env table file hL).1 h
  have e := stored_fields_header (make_header env table)
    ((write_field_descriptors_loop env 0 table.header.fields).2 ++ [0x0d]
      ++ table.rows.flatMap (row_record env table.header.fields) ++ [0x1a])
  simp only [dbf_file, List.append_assoc] at e ⊢
  obtain ⟨e1, e2, e3⟩ := e
  have hsum := sum_record_bytes_eq table.header.fields 1 (by decide)
  refine ⟨?_, ?_, ?_⟩
  · rw [e1]; simp [make_header]
  · rw [e2]; simp only [make_header, Nat.mod_mod]; congr 1; omega
  · rw [e3]
    show sum_record_bytes table.header.fields 1 % 65536 = _
    rw [hsum, Nat.mod_mod, Nat.mod_eq_of_lt (by omega)]

/-- Claim C8. `write_dbf` returns `false` for every table without columns and for every
table without rows, and the output file is never opened. -/
theorem write_dbf_empty_table (env : libc) (table : dbftable)
    (h : table.header.fields = [] ∨ table.rows = []) :
    write_dbf env table = some ⟨false, none⟩ := by
  unfold write_dbf
  rcases h with h | h
  · simp [h]
  · by_cases h1 : table.header.fields = [] <;> simp [h, h1]

/-- Witness of claim C8: a table with one column and no row. -/
theorem write_dbf_empty_table_witness :
    ((wide_table 1 1 0).header.fields = [] ∨ (wide_table 1 1 0).rows = [])
      ∧ write_dbf null_libc (wide_table 1 1 0) = some ⟨false, none⟩ :=
  ⟨by decide, write_dbf_empty_table null_libc (wide_table 1 1 0) (by decide)⟩

theorem write_dbf_file_header (env : libc) (table : dbftable) (r : write_dbf_result)
    (file : List Nat) (h : write_dbf env table = some r) (hf : r.file = some file) :
    ∃ rest, file = write_header (make_header env table) ++ rest := by
  unfold write_dbf at h
  by_cases h1 : table.header.fields = []
  · simp [h1] at h; subst h; simp at hf
  by_cases h2 : table.rows = []
  · simp [h1, h2] at h; subst h; simp at hf
  simp only [h1, h2, if_false] at h
  by_cases h3 : (write_field_descriptors env table).1 = true
  · simp only [h3, Bool.not_true, Bool.false_eq_true, if_false] at h
    cases hw : write_table_rows env (make_header env table).record_bytes table with
    | none => simp [hw] at h
    | some q =>
      simp only [hw, Option.some.injEq] at h
      subst h
      simp only [Option.some.injEq] at hf
      exact ⟨_, by rw [← hf, List.append_assoc]⟩
  · simp only [h3, Bool.not_false, if_true, Option.some.injEq] at h
    subst h
    simp only [Option.some.injEq] at hf
    exact ⟨_, hf.symm⟩

/-- Claim C7. In every file `write_dbf` writes a header to, whatever the number of fields
and whether or not the 16-bit field wrapped, the stored header length minus 33 is divisible
by 32 (as integers). -/
theorem header_bytes_divisible (env : libc) (table : dbftable) (r : write_dbf_result)
    (file : List Nat) (h : write_dbf env table = some r) (hf : r.file = some file) :
    (32 : Int) ∣ (stored_header_bytes file : Int) - 33 := by
  obtain ⟨rest, rfl⟩ := write_dbf_file_header env table r file h hf
  rw [(stored_fields_header _ rest).2.1]
  simp only [make_header, Nat.mod_mod]
  omega

theorem write_dbf_accepts (env : libc) (table : dbftable) (hwf : table.wf)
    (hpre : write_preconditions table)
    (hbound : 1 + fields_length table.header.fields ≤ 65535)
    (hfits : ∀ row ∈ table.rows, ∀ p ∈ table.header.fields.zip row.values,
      text_fits env p.1 p.2) :
    write_dbf env table = some ⟨true, some (dbf_file env table)⟩ := by
  obtain ⟨h1, h2, hvalid, hrows⟩ := hpre
  refine (write_dbf_success env table _ (wf_field_length_le table hwf)).2
    ⟨h1, h2, hvalid, hbound, ?_, rfl⟩
  intro row hrow
  refine ⟨(hrows row hrow).1, ?_⟩
  intro p hp
  have hp1 := (List.of_mem_zip hp).1
  have hp2 := (List.of_mem_zip hp).2
  exact (format_ok_iff env p.1 p.2 (hvalid _ hp1) (hwf.1 _ hp1).1 (hwf.2 row hrow _ hp2)).2
    ⟨(hrows row hrow).2 p hp, hfits row hrow p hp⟩

theorem write_dbf_success_cases (env : libc) (table : dbftable) (hwf : table.wf) :
    (∃ file, write_dbf env table = some ⟨true, some file⟩) ↔
      write_preconditions table ∧ 1 + fields_length table.header.fields ≤ 65535
        ∧ ∀ row ∈ table.rows, ∀ p ∈ table.header.fields.zip row.values,
            text_fits env p.1 p.2 := by
  constructor
  · rintro ⟨file, h⟩
    obtain ⟨h1, h2, hvalid, hbound, hrows, -⟩ :=
      (write_dbf_success env table file (wf_field_length_le table hwf)).1 h
    have key : ∀ row ∈ table.rows, ∀ p ∈ table.header.fields.zip row.values,
        cell_compatible p.1 p.2 ∧ text_fits env p.1 p.2 := by
      intro row hrow p hp
      have hp1 := (List.of_mem_zip hp).1
      have hp2 := (List.of_mem_zip hp).2
      exact (format_ok_iff env p.1 p.2 (hvalid _ hp1) (hwf.1 _ hp1).1
        (hwf.2 row hrow _ hp2)).1 ((hrows row hrow).2 p hp)
    exact ⟨⟨h1, h2, hvalid, fun row hrow => ⟨(hrows row hrow).1,
      fun p hp => (key row hrow p hp).1⟩⟩, hbound, fun row hrow p hp => (key row hrow p hp).2⟩
  · rintro ⟨hpre, hbound, hfits⟩
    exact ⟨_, write_dbf_accepts env table hwf hpre hbound hfits⟩

theorem text_fits_of_short (env env' : libc) (fd fd' : dbffield_def) (v : dbffield_value)
    (henv : ∀ prec d, (env.sprintf_e prec d).length ≤ 511) (h : text_fits env' fd' v) :
    text_fits env fd v := by
  cases v <;> simp only [text_fits] at h ⊢
  · exact h
  · exact henv _ _

set_option maxRecDepth 100000 in
theorem world_cities_accepted (env : libc)
    (henv : ∀ prec d, (env.sprintf_e prec d).length ≤ 511) :
    write_dbf env world_cities_dbf = some ⟨true, some (dbf_file env world_cities_dbf)⟩ := by
  refine write_dbf_accepts env world_cities_dbf (by decide) (by decide) (by decide) ?_
  have h : ∀ row ∈ world_cities_dbf.rows, ∀ p ∈ world_cities_dbf.header.fields.zip row.values,
      text_fits null_libc p.1 p.2 := by decide
  exact fun row hrow p hp => text_fits_of_short env null_libc _ _ _ henv (h row hrow p hp)

theorem getLast?_append_singleton (l : List Nat) (a : Nat) : (l ++ [a]).getLast? = some a := by
  simp

theorem null_libc_short (prec d : Nat) : (null_libc.sprintf_e prec d).length ≤ 511 := by
  show (str_bytes "0.0e+00").length ≤ 511
  decide

theorem wide_table_facts (n len m : Nat) (hn : 0 < n) (hm : 0 < m)
    (hlen : 0 < len) (hlen' : len < 256) :
    (wide_table n len m).wf ∧ write_preconditions (wide_table n len m)
    ∧ (wide_table n len m).header.fields.length = n
    ∧ (wide_table n len m).rows.length = m
    ∧ fields_length (wide_table n len m).header.fields = n * len
    ∧ ∀ (env : libc), ∀ row ∈ (wide_table n len m).rows,
        ∀ p ∈ (wide_table n len m).header.fields.zip row.values, text_fits env p.1 p.2 := by
  have hfl : fields_length (wide_table n len m).header.fields = n * len := by
    simp [fields_length, wide_table, dbffield_def.of_type]
  have hmem : ∀ fd ∈ (wide_table n len m).header.fields,
      fd = dbffield_def.of_type [102] [67] len := by
    intro fd hfd
    simp only [wide_table, List.mem_replicate] at hfd
    exact hfd.2
  have hrow : ∀ row ∈ (wide_table n len m).rows,
      row = ⟨List.replicate n (.str [])⟩ := by
    intro row hr
    simp only [wide_table, List.mem_replicate] at hr
    exact hr.2
  have hval : ∀ v ∈ List.replicate n (dbffield_value.str []), v = dbffield_value.str [] := by
    intro v hv
    simp only [List.mem_replicate] at hv
    exact hv.2
  refine ⟨⟨fun fd hfd => ?_, fun row hr v hv => ?_⟩,
    ⟨?_, ?_, fun fd hfd => ?_, fun row hr => ?_⟩, by simp [wide_table],
    by simp [wide_table], hfl, ?_⟩
  · rw [hmem fd hfd]; exact ⟨hlen', by show (0 : Nat) < 256; decide⟩
  · rw [hrow row hr] at hv
    rw [hval v hv]; trivial
  · intro h
    have := congrArg List.length h
    simp [wide_table] at this; omega
  · intro h
    have := congrArg List.length h
    simp [wide_table] at this; omega
  · rw [hmem fd hfd]
    exact ⟨by show ([102] : List Nat) ≠ []; decide, hlen, Or.inl rfl⟩
  · rw [hrow row hr]
    refine ⟨by simp [wide_table], fun p hp => ?_⟩
    rw [hval _ (List.of_mem_zip hp).2]
    rw [show p.1 = dbffield_def.of_type [102] [67] len from hmem _ (List.of_mem_zip hp).1]
    rfl
  · intro env row hr p hp
    rw [hrow row hr] at hp
    rw [hval _ (List.of_mem_zip hp).2]
    simp [text_fits, c_str]

theorem wide_table_written (env : libc) (n len m : Nat) (hn : 0 < n) (hm : 0 < m)
    (hlen : 0 < len) (hlen' : len < 256) (hb : 1 + n * len ≤ 65535) :
    write_dbf env (wide_table n len m)
      = some ⟨true, some (dbf_file env (wide_table n len m))⟩
    ∧ (wide_table n len m).header.fields.length = n
    ∧ (wide_table n len m).rows.length = m
    ∧ fields_length (wide_table n len m).header.fields = n * len := by
  obtain ⟨hwf, hpre, h1, h2, h3, h4⟩ := wide_table_facts n len m hn hm hlen hlen'
  exact ⟨write_dbf_accepts env _ hwf hpre (by rw [h3]; exact hb) (h4 env), h1, h2, h3⟩

theorem write_dbf_zero_record (env : libc) (table : dbftable)
    (h1 : table.header.fields ≠ []) (h2 : table.rows ≠ [])
    (hvalid : ∀ fd ∈ table.header.fields, field_valid fd)
    (hz : (1 + fields_length table.header.fields) % 65536 = 0) :
    ∃ file, write_dbf env table = some ⟨false, some file⟩ := by
  have h3 := (write_field_descriptors_loop_ok env table.header.fields 0).1.2 hvalid
  have hrb : (make_header env table).record_bytes = 0 := by
    have : (make_header env table).record_bytes
        = (1 + fields_length table.header.fields) % 65536 :=
      sum_record_bytes_eq table.header.fields 1 (by decide)
    rw [this, hz]
  unfold write_dbf
  simp only [h1, h2, if_false, write_field_descriptors, h3, if_true, Bool.not_true,
    Bool.false_eq_true, write_table_rows, hrb]
  exact ⟨_, rfl⟩

/-- Claim C5, amended. For every table (with members in the range of their types) that
`write_dbf` writes successfully and that has at most 2046 fields and fewer than `2 ^ 32`
rows, the number of bytes emitted is `headerLength + recordCount * recordLength + 1` for the
three values stored in the header, and the last byte is the marker 0x1A. -/
theorem dbf_size_matches_header (env : libc) (table : dbftable) (file : List Nat)
    (hwf : table.wf) (h : write_dbf env table = some ⟨true, some file⟩)
    (hfields : table.header.fields.length ≤ 2046)
    (hrows : table.rows.length < 4294967296) :
    file.length = stored_header_bytes file
        + stored_table_records file * stored_record_bytes file + 1
      ∧ file.getLast? = some 0x1a := by
  have hL := wf_field_length_le table hwf
  obtain ⟨e1, e2, e3⟩ := stored_fields_dbf_file env table file hL h
  have hlen := dbf_file_length env table file hL h
  refine ⟨?_, ?_⟩
  · rw [e1, e2, e3, hlen, Nat.mod_eq_of_lt hrows, Nat.mod_eq_of_lt (by omega)]
  · obtain ⟨-, -, -, -, -, rfl⟩ := (write_dbf_success env table file hL).1 h
    rw [dbf_file]
    exact getLast?_append_singleton _ _

/-- Witness of claim C5 (amended): the seven-city table, 1168 bytes. -/
theorem dbf_size_matches_header_witness :
    world_cities_dbf.wf
      ∧ write_dbf null_libc world_cities_dbf
          = some ⟨true, some (dbf_file null_libc world_cities_dbf)⟩
      ∧ (dbf_file null_libc world_cities_dbf).length
          = stored_header_bytes (dbf_file null_libc world_cities_dbf)
            + stored_table_records (dbf_file null_libc world_cities_dbf)
              * stored_record_bytes (dbf_file null_libc world_cities_dbf) + 1
      ∧ (dbf_file null_libc world_cities_dbf).getLast? = some 0x1a :=
  ⟨by decide, world_cities_accepted null_libc (null_libc_short),
    dbf_size_matches_header null_libc world_cities_dbf _ (by decide)
      (world_cities_accepted null_libc (null_libc_short)) (by decide) (by decide)⟩

/-- Counterexample to claim C5 as stated: a table of 2047 character columns of length 1
and one row is written successfully; the file has 67 586 bytes, while the header stores the
header length 1 (65 537 wrapped to 16 bits), the record count 1 and the record length 2048,
which give 2050. -/
theorem dbf_size_header_wrap :
    ∃ file, write_dbf null_libc (wide_table 2047 1 1) = some ⟨true, some file⟩
      ∧ file.length = 67586
      ∧ stored_header_bytes file + stored_table_records file * stored_record_bytes file + 1
          = 2050 := by
  obtain ⟨h, hn, hm, hfl⟩ := wide_table_written null_libc 2047 1 1 (by decide) (by decide)
    (by decide) (by decide) (by decide)
  have hL : ∀ fd ∈ (wide_table 2047 1 1).header.fields, fd.field_length ≤ 512 := by
    intro fd hfd
    simp only [wide_table, List.mem_replicate] at hfd
    rw [hfd.2]; decide
  obtain ⟨e1, e2, e3⟩ := stored_fields_dbf_file _ _ _ hL h
  have hlen := dbf_file_length _ _ _ hL h
  rw [hn, hm, hfl] at hlen
  rw [hm] at e1
  rw [hn] at e2
  rw [hfl] at e3
  exact ⟨_, h, hlen, by rw [e1, e2, e3]⟩

/-- Claim C6, amended. For every table (with members in the range of their types) that
`write_dbf` writes successfully, the 16-bit header-length field equals `32 + 32 *
fieldCount + 1` modulo 65536, which is `32 + 32 * fieldCount + 1` itself when there are at
most 2046 fields, and the 16-bit record-length field equals 1 plus the sum of all field
lengths. -/
theorem dbf_header_fields (env : libc) (table : dbftable) (file : List Nat)
    (hwf : table.wf) (h : write_dbf env table = some ⟨true, some file⟩) :
    stored_header_bytes file = (32 + 32 * table.header.fields.length + 1) % 65536
      ∧ (table.header.fields.length ≤ 2046 →
          stored_header_bytes file = 32 + 32 * table.header.fields.length + 1)
      ∧ stored_record_bytes file = 1 + fields_length table.header.fields := by
  obtain ⟨-, e2, e3⟩ := stored_fields_dbf_file env table file (wf_field_length_le table hwf) h
  exact ⟨e2, fun hn => by rw [e2]; exact Nat.mod_eq_of_lt (by omega), e3⟩

/-- Witness of claim C6 (amended): the seven-city table. -/
theorem dbf_header_fields_witness :
    world_cities_dbf.wf
      ∧ write_dbf null_libc world_cities_dbf
          = some ⟨true, some (dbf_file null_libc world_cities_dbf)⟩
      ∧ stored_header_bytes (dbf_file null_libc world_cities_dbf)
          = (32 + 32 * world_cities_dbf.header.fields.length + 1) % 65536
      ∧ (world_cities_dbf.header.fields.length ≤ 2046 →
          stored_header_bytes (dbf_file null_libc world_cities_dbf)
            = 32 + 32 * world_cities_dbf.header.fields.length + 1)
      ∧ stored_record_bytes (dbf_file null_libc world_cities_dbf)
          = 1 + fields_length world_cities_dbf.header.fields :=
  ⟨by decide, world_cities_accepted null_libc null_libc_short,
    dbf_header_fields null_libc world_cities_dbf _ (by decide)
      (world_cities_accepted null_libc null_libc_short)⟩

/-- Counterexample to claim C6 as stated: a table of 2047 character columns of length 1
and one row is written successfully, and its header-length field holds 1, not
`32 + 32 * 2047 + 1 = 65537`. -/
theorem dbf_header_bytes_wrap :
    ∃ file, write_dbf null_libc (wide_table 2047 1 1) = some ⟨true, some file⟩
      ∧ stored_header_bytes file = 1
      ∧ 32 + 32 * (wide_table 2047 1 1).header.fields.length + 1 = 65537 := by
  obtain ⟨h, hn, -, -⟩ := wide_table_written null_libc 2047 1 1 (by decide) (by decide)
    (by decide) (by decide) (by decide)
  have hL : ∀ fd ∈ (wide_table 2047 1 1).header.fields, fd.field_length ≤ 512 := by
    intro fd hfd
    simp only [wide_table, List.mem_replicate] at hfd
    rw [hfd.2]; decide
  obtain ⟨-, e2, -⟩ := stored_fields_dbf_file _ _ _ hL h
  rw [hn] at e2
  exact ⟨_, h, e2, by rw [hn]⟩

/-- Witness of claim C7: the seven-city table, whose header stores the length 161. -/
theorem header_bytes_divisible_witness :
    write_dbf null_libc world_cities_dbf
        = some ⟨true, some (dbf_file null_libc world_cities_dbf)⟩
      ∧ (32 : Int) ∣ (stored_header_bytes (dbf_file null_libc world_cities_dbf) : Int) - 33 :=
  ⟨world_cities_accepted null_libc null_libc_short,
    header_bytes_divisible null_libc world_cities_dbf _ _
      (world_cities_accepted null_libc null_libc_short) rfl⟩

/-- Claim C9, amended. For a table with members in the range of their types, `write_dbf`
returns success if and only if the table has at least one column and one row, every field
definition has a non-empty name, a positive length and a kind in C, N, F, every row has as
many values as there are columns, every cell's variant is compatible with its column kind,
and moreover the record length `1 + Σ field lengths` fits 16 bits and every text to format
fits the 512-byte buffers. In particular the seven-city table of the sample program is
accepted, whatever `sprintf` prints for a double within 511 characters. -/
theorem write_dbf_success_iff (env : libc) (table : dbftable) (hwf : table.wf) :
    ((∃ file, write_dbf env table = some ⟨true, some file⟩) ↔
      write_preconditions table ∧ 1 + fields_length table.header.fields ≤ 65535
        ∧ ∀ row ∈ table.rows, ∀ p ∈ table.header.fields.zip row.values,
            text_fits env p.1 p.2)
    ∧ ((∀ prec d, (env.sprintf_e prec d).length ≤ 511) →
        ∃ file, write_dbf env world_cities_dbf = some ⟨true, some file⟩) :=
  ⟨write_dbf_success_cases env table hwf, fun henv => ⟨_, world_cities_accepted env henv⟩⟩

/-- Witness of claim C9 (amended): the seven-city table satisfies the hypothesis. -/
theorem write_dbf_success_iff_witness :
    world_cities_dbf.wf
      ∧ (((∃ file, write_dbf null_libc world_cities_dbf = some ⟨true, some file⟩) ↔
          write_preconditions world_cities_dbf
            ∧ 1 + fields_length world_cities_dbf.header.fields ≤ 65535
            ∧ ∀ row ∈ world_cities_dbf.rows,
                ∀ p ∈ world_cities_dbf.header.fields.zip row.values,
                  text_fits null_libc p.1 p.2)
        ∧ ((∀ prec d, (null_libc.sprintf_e prec d).length ≤ 511) →
            ∃ file, write_dbf null_libc world_cities_dbf = some ⟨true, some file⟩)) :=
  ⟨by decide, write_dbf_success_iff null_libc world_cities_dbf (by decide)⟩

/-- Counterexample to claim C9 as stated: the table of 257 character columns of length 255
and one row of empty texts meets every condition of the claim, yet `write_dbf` returns
`false`: the record length 65 536 wraps to 0 in the 16-bit field and `write_table_rows`
refuses a record length of 0. -/
theorem write_dbf_rejects_wrapped_record :
    (wide_table 257 255 1).wf ∧ write_preconditions (wide_table 257 255 1)
      ∧ ∃ file, write_dbf null_libc (wide_table 257 255 1) = some ⟨false, some file⟩ := by
  obtain ⟨hwf, hpre, -, -, h3, -⟩ := wide_table_facts 257 255 1 (by decide) (by decide)
    (by decide) (by decide)
  refine ⟨hwf, hpre, write_dbf_zero_record null_libc _ hpre.1 hpre.2.1 hpre.2.2.1 ?_⟩
  rw [h3]

/-! ## Reading back a written shape file -/

theorem read_point_shapes_eq (fuel : Nat) :
    ∀ reader shapes, read_point_shapes fuel reader shapes = read_loop point_body fuel reader shapes := by
  induction fuel with
  | zero => intro _ _; rfl
  | succ f ih =>
    intro reader shapes
    simp only [read_point_shapes, read_loop]
    cases hr : read_shape_record reader with
    | none => rfl
    | some rd =>
      simp only [point_body]
      by_cases h1 : rd.current_record_header.content_length ≠ 10
      · rw [if_pos h1, if_pos h1]
      · rw [if_neg h1, if_neg h1]
        cases h2 : fetch_LEint32 rd.record_buf 0 with
        | none => rfl
        | some stype =>
          simp only
          by_cases h3 : stype = shape_type.null_shape.code
          · rw [if_pos h3, if_pos h3, ih]
          · rw [if_neg h3, if_neg h3]
            by_cases h4 : stype ≠ shape_type.point.code
            · rw [if_pos h4, if_pos h4]
            · rw [if_neg h4, if_neg h4]
              cases fetch_LEdouble rd.record_buf 4 <;>
                cases fetch_LEdouble rd.record_buf (4 + 8) <;> simp only [ih]

theorem read_multipoint_shapes_eq (fuel : Nat) :
    ∀ reader shapes,
      read_multipoint_shapes fuel reader shapes = read_loop multipoint_body fuel reader shapes := by
  induction fuel with
  | zero => intro _ _; rfl
  | succ f ih =>
    intro reader shapes
    simp only [read_multipoint_shapes, read_loop]
    cases hr : read_shape_record reader with
    | none => rfl
    | some rd =>
      simp only [multipoint_body]
      cases h2 : fetch_LEint32 rd.record_buf 0 with
      | none => rfl
      | some stype =>
        simp only
        by_cases h3 : stype = shape_type.null_shape.code
        · rw [if_pos h3, if_pos h3, ih]
        · rw [if_neg h3, if_neg h3]
          by_cases h4 : stype ≠ shape_type.multipoint.code
          · rw [if_pos h4, if_pos h4]
          · rw [if_neg h4, if_neg h4]
            cases h5 : fetch_LEint32 rd.record_buf (4 + 4 * 8) with
            | none => rfl
            | some n =>
              simp only
              cases read_points rd.record_buf n.toNat (4 + 4 * 8 + 4) <;> simp only [ih]

theorem read_polyline_shapes_eq (fuel : Nat) :
    ∀ reader shapes,
      read_polyline_shapes fuel reader shapes
        = read_loop (polypart_body shape_type.polyline.code shape.polyline) fuel reader shapes := by
  induction fuel with
  | zero => intro _ _; rfl
  | succ f ih =>
    intro reader shapes
    simp only [read_polyline_shapes, read_loop]
    cases hr : read_shape_record reader with
    | none => rfl
    | some rd =>
      simp only [polypart_body]
      cases h2 : fetch_LEint32 rd.record_buf 0 with
      | none => rfl
      | some stype =>
        simp only
        by_cases h3 : stype = shape_type.null_shape.code
        · rw [if_pos h3, if_pos h3, ih]
        · rw [if_neg h3, if_neg h3]
          by_cases h4 : stype ≠ shape_type.polyline.code
          · rw [if_pos h4, if_pos h4]
          · rw [if_neg h4, if_neg h4]
            cases read_polyparts rd.record_buf <;> simp only [ih]

theorem read_polygon_shapes_eq (fuel : Nat) :
    ∀ reader shapes,
      read_polygon_shapes fuel reader shapes
        = read_loop (polypart_body shape_type.polygon.code shape.polygon) fuel reader shapes := by
  induction fuel with
  | zero => intro _ _; rfl
  | succ f ih =>
    intro reader shapes
    simp only [read_polygon_shapes, read_loop]
    cases hr : read_shape_record reader with
    | none => rfl
    | some rd =>
      simp only [polypart_body]
      cases h2 : fetch_LEint32 rd.record_buf 0 with
      | none => rfl
      | some stype =>
        simp only
        by_cases h3 : stype = shape_type.null_shape.code
        · rw [if_pos h3, if_pos h3, ih]
        · rw [if_neg h3, if_neg h3]
          by_cases h4 : stype ≠ shape_type.polygon.code
          · rw [if_pos h4, if_pos h4]
          · rw [if_neg h4, if_neg h4]
            cases read_polyparts rd.record_buf <;> simp only [ih]

theorem fread_append (a b : List Nat) (n : Nat) (h : a.length = n) :
    fread n (a ++ b) = some (a, b) := by
  unfold fread
  rw [if_pos (by rw [List.length_append]; omega), List.take_left' h, List.drop_left' h]

theorem fetch_LEint32_at (pre post : List Nat) (z : Int) (off : Nat) (h : pre.length = off) :
    fetch_LEint32 (pre ++ (int32_LE z ++ post)) off = some (to_int32 z) := by
  unfold fetch_LEint32
  rw [if_pos (by simp only [List.length_append, int32_LE_length]; omega),
    List.drop_left' h, List.take_left' (int32_LE_length z), int32_of_LE_int32_LE]

theorem fetch_LEint32_head (post : List Nat) (z : Int) :
    fetch_LEint32 (int32_LE z ++ post) 0 = some (to_int32 z) :=
  fetch_LEint32_at [] post z 0 rfl

theorem fetch_LEdouble_at (pre post : List Nat) (d : Nat) (off : Nat) (h : pre.length = off)
    (hd : d < 2 ^ 64) :
    fetch_LEdouble (pre ++ (double_LE d ++ post)) off = some d := by
  unfold fetch_LEdouble
  rw [if_pos (by simp only [List.length_append, double_LE_length]; omega),
    List.drop_left' h, List.take_left' (double_LE_length d)]
  unfold double_LE
  rw [from_le_le_bytes, Nat.mod_eq_of_lt (by
    have : (256 : Nat) ^ 8 = 2 ^ 64 := by norm_num
    rw [this]; exact hd)]

theorem read_points_at (pts : List pointshape) (hwf : ∀ ps ∈ pts, ps.wf) :
    ∀ (pre post : List Nat) (off : Nat), pre.length = off →
      read_points (pre ++ (pts.flatMap write_xy ++ post)) pts.length off = some pts := by
  induction pts with
  | nil => intro _ _ _ _; rfl
  | cons p ps ih =>
    intro pre post off h
    have hp := hwf p (List.mem_cons_self _ _)
    simp only [List.flatMap_cons, List.length_cons, read_points]
    rw [show write_xy p = double_LE p.x ++ double_LE p.y from rfl]
    simp only [List.append_assoc]
    rw [fetch_LEdouble_at pre _ p.x off h hp.1]
    have e1 : pre ++ (double_LE p.x ++ (double_LE p.y ++ (ps.flatMap write_xy ++ post)))
        = (pre ++ double_LE p.x) ++ (double_LE p.y ++ (ps.flatMap write_xy ++ post)) := by
      simp only [List.append_assoc]
    rw [e1, fetch_LEdouble_at _ _ p.y (off + 8)
      (by simp only [List.length_append, double_LE_length]; omega) hp.2]
    have e2 : (pre ++ double_LE p.x) ++ (double_LE p.y ++ (ps.flatMap write_xy ++ post))
        = (pre ++ double_LE p.x ++ double_LE p.y) ++ (ps.flatMap write_xy ++ post) := by
      simp only [List.append_assoc]
    rw [e2, ih (fun q hq => hwf q (List.mem_cons_of_mem _ hq)) _ _ (off + 16)
      (by simp only [List.length_append, double_LE_length]; omega)]

theorem to_uint32_of_range (z : Int) (h1 : 0 ≤ z) (h2 : z < 4294967296) :
    ((to_uint32 z : Nat) : Int) = z := by
  rw [to_uint32_cast]; omega

theorem read_shape_record_written (reader : shapefile_record_reader) (num cl : Int)
    (c fp' : List Nat) (h : reader.fp = write_record_header ⟨num, cl⟩ ++ c ++ fp')
    (hcl : 0 < cl) (hcl2 : cl < 1073741824) (hlen : (c.length : Int) = 2 * cl)
    (hlt : reader.total_bytes_read < reader.file_length_bytes)
    (hbound : reader.total_bytes_read + 8 + c.length < 4294967296) :
    ∃ rd, read_shape_record reader = some rd ∧ (∃ tail, rd.record_buf = c ++ tail)
      ∧ rd.current_record_header.content_length = cl ∧ rd.fp = fp'
      ∧ rd.total_bytes_read = reader.total_bytes_read + 8 + c.length
      ∧ rd.file_length_bytes = reader.file_length_bytes := by
  have hrh : read_record_header reader.fp = some (⟨to_int32 num, cl⟩, c ++ fp') := by
    unfold read_record_header
    rw [h, List.append_assoc, fread_append _ _ 8 (write_record_header_length _)]
    simp only [write_record_header]
    rw [List.take_left' (int32_BE_length _), List.drop_left' (int32_BE_length _),
      List.take_of_length_le (by rw [int32_BE_length]), int32_of_BE_int32_BE,
      int32_of_BE_int32_BE, to_int32_of_range cl (by omega) (by omega)]
    rw [if_neg (by omega)]
  have hccb : to_uint32 (cl * 2) = c.length := by
    have := to_uint32_of_range (cl * 2) (by omega) (by omega)
    omega
  unfold read_shape_record
  rw [if_neg (by omega), hrh]
  simp only [hccb]
  rw [fread_append c fp' c.length rfl]
  refine ⟨_, rfl, ⟨_, rfl⟩, rfl, rfl, ?_, rfl⟩
  simp only
  have := to_uint32_of_range ((reader.total_bytes_read : Int) + (c.length : Nat) + 8)
    (by omega) (by omega)
  omega

theorem read_loop_write_records (enc : shape → Option (Int × List Nat))
    (body : shapefile_record_reader → record_action) (shapes : List shape)
    (hspec : ∀ s ∈ shapes, ∀ cl c, enc s = some (cl, c) →
      0 < cl ∧ cl < 1073741824 ∧ (c.length : Int) = 2 * cl
      ∧ ∀ rd : shapefile_record_reader, (∃ tail, rd.record_buf = c ++ tail) →
          rd.current_record_header.content_length = cl → body rd = record_action.push s) :
    ∀ (pos : Nat) (recnum : Int) (fp shx : List Nat),
      write_records enc shapes pos recnum = some (fp, shx) →
      ∀ (reader : shapefile_record_reader) (acc : List shape) (fuel : Nat),
        reader.fp = fp → reader.total_bytes_read + fp.length = reader.file_length_bytes →
        reader.file_length_bytes < 4294967296 → shapes.length < fuel →
        read_loop body fuel reader acc = some (true, acc ++ shapes) := by
  induction shapes with
  | nil =>
    intro pos recnum fp shx hw reader acc fuel hfp htot _ hfuel
    simp only [write_records, Option.some.injEq, Prod.mk.injEq] at hw
    obtain ⟨rfl, rfl⟩ := hw
    cases fuel with
    | zero => simp at hfuel
    | succ f =>
      have : read_shape_record reader = none := by
        unfold read_shape_record
        rw [if_pos (by simp at htot; omega)]
      simp only [read_loop, this, List.append_nil]
  | cons s rest ih =>
    intro pos recnum fp shx hw reader acc fuel hfp htot hflb hfuel
    simp only [write_records] at hw
    cases he : enc s with
    | none => simp [he] at hw
    | some p =>
      obtain ⟨cl, c⟩ := p
      simp only [he] at hw
      cases hr : write_records enc rest (pos + 8 + c.length) (to_int32 (recnum + 1)) with
      | none => simp [hr] at hw
      | some q =>
        obtain ⟨fp', shx'⟩ := q
        simp only [hr, Option.some.injEq, Prod.mk.injEq] at hw
        obtain ⟨rfl, rfl⟩ := hw
        obtain ⟨h1, h2, h3, h4⟩ := hspec s (List.mem_cons_self _ _) cl c he
        simp only [List.length_append, write_record_header_length] at htot
        obtain ⟨rd, e1, e2, e3, e4, e5, e6⟩ := read_shape_record_written reader recnum cl c fp'
          hfp h1 h2 h3 (by omega) (by omega)
        cases fuel with
        | zero => simp at hfuel
        | succ f =>
          simp only [read_loop, e1, h4 rd e2 e3]
          rw [ih (fun t ht => hspec t (List.mem_cons_of_mem _ ht)) _ _ _ _ hr rd _ f e4
            (by rw [e5, e6]; omega) (by rw [e6]; exact hflb)
            (by simp only [List.length_cons] at hfuel; omega)]
          simp

theorem slice_mid (a b c : List Nat) (m n : Nat) (ha : a.length = m) (hb : b.length = n) :
    ((a ++ (b ++ c)).drop m).take n = b := by
  rw [List.drop_left' ha, List.take_left' hb]

theorem read_main_header_written (fl code : Int) (bb : shapefile_main_header_boundingbox)
    (fp : List Nat) :
    ∃ bb', read_main_header
        (write_main_header ⟨SHAPEFILE_FILE_CODE, fl, SHAPEFILE_VERSION, code⟩ bb ++ fp)
      = some (⟨SHAPEFILE_FILE_CODE, to_int32 fl, SHAPEFILE_VERSION, to_int32 code⟩, bb', fp) := by
  have e : write_main_header ⟨SHAPEFILE_FILE_CODE, fl, SHAPEFILE_VERSION, code⟩ bb ++ fp
      = (int32_BE SHAPEFILE_FILE_CODE ++ (List.replicate 20 0 ++ (int32_BE fl
          ++ (int32_LE SHAPEFILE_VERSION ++ int32_LE code))))
        ++ ((double_LE bb.xmin ++ double_LE bb.ymin ++ double_LE bb.xmax ++ double_LE bb.ymax
          ++ double_LE bb.zmin ++ double_LE bb.zmax ++ double_LE bb.mmin ++ double_LE bb.mmax)
          ++ fp) := by
    simp only [write_main_header, List.append_assoc]
  unfold read_main_header
  rw [e, fread_append _ _ 36 (by simp)]
  dsimp only
  rw [fread_append _ _ 64 (by simp)]
  dsimp only
  have f1 : int32_of_BE (List.take 4 (int32_BE SHAPEFILE_FILE_CODE ++ (List.replicate 20 0
      ++ (int32_BE fl ++ (int32_LE SHAPEFILE_VERSION ++ int32_LE code)))))
      = SHAPEFILE_FILE_CODE := by
    rw [List.take_left' (int32_BE_length _), int32_of_BE_int32_BE]; decide
  have f2 : int32_of_BE (List.take 4 (List.drop 24 (int32_BE SHAPEFILE_FILE_CODE
      ++ (List.replicate 20 0 ++ (int32_BE fl
        ++ (int32_LE SHAPEFILE_VERSION ++ int32_LE code)))))) = to_int32 fl := by
    rw [← List.append_assoc, slice_mid _ _ _ 24 4 (by simp) (int32_BE_length _),
      int32_of_BE_int32_BE]
  have f3 : int32_of_LE (List.take 4 (List.drop 28 (int32_BE SHAPEFILE_FILE_CODE
      ++ (List.replicate 20 0 ++ (int32_BE fl
        ++ (int32_LE SHAPEFILE_VERSION ++ int32_LE code)))))) = SHAPEFILE_VERSION := by
    rw [← List.append_assoc, ← List.append_assoc,
      slice_mid _ _ _ 28 4 (by simp) (int32_LE_length _), int32_of_LE_int32_LE]; decide
  have f4 : int32_of_LE (List.take 4 (List.drop 32 (int32_BE SHAPEFILE_FILE_CODE
      ++ (List.replicate 20 0 ++ (int32_BE fl
        ++ (int32_LE SHAPEFILE_VERSION ++ int32_LE code)))))) = to_int32 code := by
    rw [← List.append_assoc, ← List.append_assoc, ← List.append_assoc,
      List.drop_left' (by simp), List.take_of_length_le (by simp), int32_of_LE_int32_LE]
  rw [f1, f2, f3, f4]
  simp only [ne_eq, not_true_eq_false, if_false]
  exact ⟨_, rfl⟩

theorem file_length_bytes_written (n : Nat) (h : n < 4294967296) (hev : n % 2 = 0) :
    to_uint32 (2 * to_int32 (Int.tdiv (to_int32 (n : Int)) 2)) = n := by
  have key : (2 * to_int32 (Int.tdiv (to_int32 (n : Int)) 2)) % 4294967296 = (n : Int) := by
    rw [tdiv_two]
    unfold to_int32
    split <;> omega
  unfold to_uint32
  rw [key]
  simp

theorem half_content (n : Nat) (h : n < 2147483648) (hev : n % 2 = 0) (hpos : 0 < n) :
    0 < Int.tdiv (to_int32 (n : Int)) 2 ∧ Int.tdiv (to_int32 (n : Int)) 2 < 1073741824
      ∧ (n : Int) = 2 * Int.tdiv (to_int32 (n : Int)) 2 := by
  rw [to_int32_of_range _ (by omega) (by omega), tdiv_two, if_pos (by omega)]
  omega

theorem point_body_spec (ps : pointshape) (hwf : ps.wf) (rd : shapefile_record_reader)
    (tail : List Nat)
    (hbuf : rd.record_buf = (int32_LE shape_type.point.code ++ write_xy ps) ++ tail)
    (hcl : rd.current_record_header.content_length = 20 / 2) :
    point_body rd = record_action.push (shape.point ps) := by
  have e0 : rd.record_buf
      = (int32_LE shape_type.point.code ++ (write_xy ps ++ tail)) := by
    rw [hbuf]; simp only [List.append_assoc]
  have e1 : rd.record_buf
      = int32_LE shape_type.point.code ++ (double_LE ps.x ++ (double_LE ps.y ++ tail)) := by
    rw [hbuf]; simp only [write_xy, List.append_assoc]
  have e2 : rd.record_buf
      = (int32_LE shape_type.point.code ++ double_LE ps.x) ++ (double_LE ps.y ++ tail) := by
    rw [hbuf]; simp only [write_xy, List.append_assoc]
  have f0 : fetch_LEint32 rd.record_buf 0 = some 1 := by
    rw [e0, fetch_LEint32_head]; rfl
  have f1 : fetch_LEdouble rd.record_buf 4 = some ps.x := by
    rw [e1, fetch_LEdouble_at _ _ _ 4 (int32_LE_length _) hwf.1]
  have f2 : fetch_LEdouble rd.record_buf (4 + 8) = some ps.y := by
    rw [e2, fetch_LEdouble_at _ _ _ (4 + 8) (by simp) hwf.2]
  unfold point_body
  rw [if_neg (by rw [hcl]; decide), f0]
  dsimp only
  rw [if_neg (by decide), if_neg (by decide), f1, f2]

theorem multipoint_body_spec (points : List pointshape) (hwf : ∀ ps ∈ points, ps.wf)
    (hn : points.length < 134217728) (rd : shapefile_record_reader) (tail : List Nat)
    (bx bz bX bY : Nat)
    (hbuf : rd.record_buf = (int32_LE shape_type.multipoint.code
        ++ double_LE bx ++ double_LE bz ++ double_LE bX ++ double_LE bY
        ++ int32_LE (to_int32 points.length) ++ points.flatMap write_xy) ++ tail) :
    multipoint_body rd = record_action.push (shape.multipoint points) := by
  have e0 : rd.record_buf
      = (int32_LE shape_type.multipoint.code ++ (double_LE bx ++ double_LE bz
          ++ double_LE bX ++ double_LE bY ++ int32_LE (to_int32 points.length)
          ++ points.flatMap write_xy ++ tail)) := by
    rw [hbuf]; simp only [List.append_assoc]
  have e1 : rd.record_buf
      = (int32_LE shape_type.multipoint.code ++ double_LE bx ++ double_LE bz
          ++ double_LE bX ++ double_LE bY)
        ++ (int32_LE (to_int32 points.length) ++ (points.flatMap write_xy ++ tail)) := by
    rw [hbuf]; simp only [List.append_assoc]
  have e2 : rd.record_buf
      = (int32_LE shape_type.multipoint.code ++ double_LE bx ++ double_LE bz
          ++ double_LE bX ++ double_LE bY ++ int32_LE (to_int32 points.length))
        ++ (points.flatMap write_xy ++ tail) := by
    rw [hbuf]; simp only [List.append_assoc]
  have f0 : fetch_LEint32 rd.record_buf 0 = some 8 := by
    rw [e0, fetch_LEint32_head]; rfl
  have f1 : fetch_LEint32 rd.record_buf (4 + 4 * 8) = some (points.length : Int) := by
    rw [e1, fetch_LEint32_at _ _ _ (4 + 4 * 8) (by simp), to_int32_idem,
      to_int32_of_range _ (by omega) (by omega)]
  have f2 : read_points rd.record_buf points.length (4 + 4 * 8 + 4) = some points := by
    rw [e2, read_points_at points hwf _ _ _ (by simp)]
  unfold multipoint_body
  rw [f0]
  dsimp only
  rw [if_neg (by decide), if_neg (by decide), f1]
  dsimp only
  rw [Int.toNat_ofNat, f2]

theorem fetch_part_index (parts : List polypart) :
    ∀ (s0 : Int) (pre post : List Nat) (j : Nat), j < parts.length →
      fetch_LEint32 (pre ++ (write_part_indices parts s0 ++ post)) (pre.length + 4 * j)
        = some (to_int32 (s0 + (((parts.take j).map (fun p => p.points.length)).sum : Nat))) := by
  induction parts with
  | nil => intro _ _ _ j hj; simp at hj
  | cons p ps ih =>
    intro s0 pre post j hj
    cases j with
    | zero =>
      simp only [write_part_indices, List.append_assoc, Nat.mul_zero, Nat.add_zero,
        List.take_zero, List.map_nil, List.sum_nil, Nat.cast_zero, add_zero]
      exact fetch_LEint32_at pre _ s0 pre.length rfl
    | succ j =>
      have hj' : j < ps.length := by simpa using hj
      have e : pre ++ (write_part_indices (p :: ps) s0 ++ post)
          = (pre ++ int32_LE s0)
            ++ (write_part_indices ps (to_int32 (s0 + p.points.length)) ++ post) := by
        simp only [write_part_indices, List.append_assoc]
      have e2 : pre.length + 4 * (j + 1) = (pre ++ int32_LE s0).length + 4 * j := by
        simp only [List.length_append, int32_LE_length]; omega
      rw [e, e2, ih _ _ _ j hj', to_int32_idem_add]
      simp only [List.take_succ_cons, List.map_cons, List.sum_cons, Nat.cast_add, add_assoc]

theorem polypart_eta (q : polypart) : (⟨q.points⟩ : polypart) = q := by
  cases q; rfl

theorem split_parts_spec (content : List Nat) (allparts : List pointshape)
    (qs : List polypart) :
    ∀ (q : polypart) (before : List pointshape) (idx : Nat),
      allparts = before ++ q.points ++ qs.flatMap (fun p => p.points) →
      (∀ j, j < qs.length →
        fetch_LEint32 content (44 + 4 * (idx + j))
          = some (((before.length + q.points.length
              + ((qs.take j).map (fun p => p.points.length)).sum : Nat) : Int))) →
      split_parts content 44 allparts qs.length (idx : Int) (before.length : Int)
        = some (q :: qs) := by
  induction qs with
  | nil =>
    intro q before idx hsplit _
    simp only [List.flatMap_nil, List.append_nil] at hsplit
    simp only [List.length_nil, split_parts, points_range]
    rw [if_pos ⟨by omega, by rw [hsplit, List.length_append]; omega, le_refl _⟩]
    have : (List.drop ((before.length : Int)).toNat allparts).take
        (((allparts.length : Int) - (before.length : Int))).toNat = q.points := by
      rw [Int.toNat_ofNat, hsplit, List.drop_left' rfl]
      apply List.take_of_length_le
      simp only [List.length_append]; omega
    rw [this]
  | cons q' qs' ih =>
    intro q before idx hsplit hfetch
    have h0 := hfetch 0 (by simp)
    simp only [Nat.add_zero, List.take_zero, List.map_nil, List.sum_nil] at h0
    have hlen : before.length + q.points.length ≤ allparts.length := by
      rw [hsplit]; simp only [List.length_append]; omega
    simp only [List.length_cons, split_parts]
    have eoff : 44 + ((idx : Int) * 4).toNat = 44 + 4 * idx := by
      have : ((idx : Int) * 4).toNat = 4 * idx := by omega
      rw [this]
    rw [eoff, h0]
    dsimp only
    have hrange : points_range allparts (before.length : Int)
        ((before.length + q.points.length : Nat) : Int) = some q.points := by
      unfold points_range
      rw [if_pos ⟨by omega, by push_cast; omega, by exact_mod_cast hlen⟩]
      have e1 : (((before.length + q.points.length : Nat) : Int) - (before.length : Int)).toNat
          = q.points.length := by push_cast; omega
      rw [Int.toNat_ofNat, e1, hsplit, List.append_assoc, List.drop_left' rfl,
        List.take_left' rfl]
    have hrec := ih q' (before ++ q.points) (idx + 1)
      (by rw [hsplit]; simp only [List.flatMap_cons, List.append_assoc])
      (by
        intro j hj
        have := hfetch (j + 1) (by simp only [List.length_cons]; omega)
        rw [show 44 + 4 * (idx + 1 + j) = 44 + 4 * (idx + (j + 1)) by omega, this]
        simp only [List.take_succ_cons, List.map_cons, List.sum_cons, List.length_append]
        congr 2; omega)
    simp only [List.length_append] at hrec
    have ecast : ((idx + 1 : Nat) : Int) = (idx : Int) + 1 := by push_cast; rfl
    rw [ecast] at hrec
    rw [hrange, hrec]

theorem sum_take_le (l : List Nat) (j : Nat) : (l.take j).sum ≤ l.sum := by
  induction l generalizing j with
  | nil => simp
  | cons a as ih =>
    cases j with
    | zero => simp
    | succ j => simp only [List.take_succ_cons, List.sum_cons]; have := ih j; omega

theorem length_flatMap_points (parts : List polypart) :
    (parts.flatMap (fun p => p.points)).length = (parts.map (fun p => p.points.length)).sum := by
  induction parts with
  | nil => rfl
  | cons p ps ih => simp only [List.flatMap_cons, List.length_append, ih, List.map_cons,
      List.sum_cons]

theorem read_polyparts_spec (parts : List polypart) (hne : parts ≠ [])
    (hwf : ∀ part ∈ parts, ∀ ps ∈ part.points, ps.wf)
    (hsmall : 44 + 4 * parts.length + 16 * (parts.map (fun p => p.points.length)).sum
      < 2147483648)
    (content tail : List Nat) (code : Int) (bx bz bX bY : Nat)
    (hbuf : content = (int32_LE code
        ++ double_LE bx ++ double_LE bz ++ double_LE bX ++ double_LE bY
        ++ int32_LE (to_int32 parts.length) ++ int32_LE (determine_polypart_bb parts).1
        ++ write_part_indices parts 0
        ++ parts.flatMap (fun part => part.points.flatMap write_xy)) ++ tail) :
    fetch_LEint32 content 0 = some (to_int32 code) ∧ read_polyparts content = some parts := by
  have hall : ∀ ps ∈ parts.flatMap (fun p => p.points), ps.wf := by
    intro ps hps
    obtain ⟨part, hpart, hmem⟩ := List.mem_flatMap.1 hps
    exact hwf part hpart ps hmem
  have hflat : parts.flatMap (fun part => part.points.flatMap write_xy)
      = (parts.flatMap (fun p => p.points)).flatMap write_xy := by
    rw [List.flatMap_assoc]
  have hlen := length_flatMap_points parts
  have e0 : content = (int32_LE code ++ (double_LE bx ++ double_LE bz ++ double_LE bX
      ++ double_LE bY ++ int32_LE (to_int32 parts.length)
      ++ int32_LE (determine_polypart_bb parts).1 ++ write_part_indices parts 0
      ++ parts.flatMap (fun part => part.points.flatMap write_xy) ++ tail)) := by
    rw [hbuf]; simp only [List.append_assoc]
  have e1 : content = (int32_LE code ++ double_LE bx ++ double_LE bz ++ double_LE bX
      ++ double_LE bY) ++ (int32_LE (to_int32 parts.length)
        ++ (int32_LE (determine_polypart_bb parts).1 ++ write_part_indices parts 0
        ++ parts.flatMap (fun part => part.points.flatMap write_xy) ++ tail)) := by
    rw [hbuf]; simp only [List.append_assoc]
  have e2 : content = (int32_LE code ++ double_LE bx ++ double_LE bz ++ double_LE bX
      ++ double_LE bY ++ int32_LE (to_int32 parts.length))
      ++ (int32_LE (determine_polypart_bb parts).1 ++ (write_part_indices parts 0
        ++ parts.flatMap (fun part => part.points.flatMap write_xy) ++ tail)) := by
    rw [hbuf]; simp only [List.append_assoc]
  have e3 : content = (int32_LE code ++ double_LE bx ++ double_LE bz ++ double_LE bX
      ++ double_LE bY ++ int32_LE (to_int32 parts.length)
      ++ int32_LE (determine_polypart_bb parts).1)
      ++ (write_part_indices parts 0
        ++ (parts.flatMap (fun part => part.points.flatMap write_xy) ++ tail)) := by
    rw [hbuf]; simp only [List.append_assoc]
  have e4 : content = (int32_LE code ++ double_LE bx ++ double_LE bz ++ double_LE bX
      ++ double_LE bY ++ int32_LE (to_int32 parts.length)
      ++ int32_LE (determine_polypart_bb parts).1 ++ write_part_indices parts 0)
      ++ ((parts.flatMap (fun p => p.points)).flatMap write_xy ++ tail) := by
    rw [hbuf, hflat]; simp only [List.append_assoc]
  have f0 : fetch_LEint32 content 0 = some (to_int32 code) := by
    rw [e0, fetch_LEint32_head]
  have f1 : fetch_LEint32 content (4 + 4 * 8) = some (parts.length : Int) := by
    rw [e1, fetch_LEint32_at _ _ _ (4 + 4 * 8) (by simp), to_int32_idem,
      to_int32_of_range _ (by omega) (by omega)]
  have f2 : fetch_LEint32 content (4 + 4 * 8 + 4)
      = some (((parts.flatMap (fun p => p.points)).length : Nat) : Int) := by
    rw [e2, fetch_LEint32_at _ _ _ (4 + 4 * 8 + 4) (by simp), determine_polypart_bb_count,
      to_int32_idem, to_int32_of_range _ (by omega) (by omega), hlen]
  have f3 : read_points content (parts.flatMap (fun p => p.points)).length
      (44 + 4 * parts.length) = some (parts.flatMap (fun p => p.points)) := by
    rw [e4, read_points_at _ hall _ _ _
      (by simp only [List.length_append, int32_LE_length, double_LE_length,
        write_part_indices_length])]
  have f4 : ∀ j, j < parts.length → fetch_LEint32 content (44 + 4 * j)
      = some ((((parts.take j).map (fun p => p.points.length)).sum : Nat) : Int) := by
    intro j hj
    have := fetch_part_index parts 0 (int32_LE code ++ double_LE bx ++ double_LE bz
      ++ double_LE bX ++ double_LE bY ++ int32_LE (to_int32 parts.length)
      ++ int32_LE (determine_polypart_bb parts).1)
      (parts.flatMap (fun part => part.points.flatMap write_xy) ++ tail) j hj
    rw [← e3] at this
    simp only [List.length_append, int32_LE_length, double_LE_length] at this
    rw [this, zero_add]
    have hle := sum_take_le (parts.map (fun p => p.points.length)) j
    rw [← List.map_take] at hle
    rw [to_int32_of_range _ (by omega) (by omega)]
  refine ⟨f0, ?_⟩
  unfold read_polyparts
  rw [f1, f2]
  dsimp only
  have eoff : to_uint32 (((4 + 4 * 8 + 4 + 4 : Nat) : Int) + (parts.length : Int) * 4)
      = 44 + 4 * parts.length := by
    have := to_uint32_of_range (((4 + 4 * 8 + 4 + 4 : Nat) : Int) + (parts.length : Int) * 4)
      (by omega) (by omega)
    omega
  rw [eoff, Int.toNat_ofNat, f3]
  dsimp only
  cases parts with
  | nil => exact absurd rfl hne
  | cons p0 rest =>
    cases rest with
    | nil =>
      rw [if_pos (by simp)]
      simp only [List.flatMap_cons, List.flatMap_nil, List.append_nil, polypart_eta]
    | cons p1 rest' =>
      rw [if_neg (by simp only [List.length_cons]; push_cast; omega)]
      have hcount : (((p0 :: p1 :: rest').length : Int) - 1).toNat = (p1 :: rest').length := by
        simp only [List.length_cons]; push_cast; omega
      rw [hcount]
      have := split_parts_spec content ((p0 :: p1 :: rest').flatMap (fun p => p.points))
        (p1 :: rest') p0 [] 1
        (by simp only [List.flatMap_cons, List.nil_append])
        (by
          intro j hj
          rw [show 44 + 4 * (1 + j) = 44 + 4 * (j + 1) by omega,
            f4 (j + 1) (by simp only [List.length_cons] at hj ⊢; omega)]
          simp only [List.take_succ_cons, List.map_cons, List.sum_cons, List.length_nil,
            Nat.zero_add])
      simpa using this

theorem body_of_spec (k : shape_type) (s : shape) (hwf : s.wf) (hpart : s.has_part)
    (hsmall : content_bytes s < 2147483648) (cl : Int) (c : List Nat)
    (henc : encode_of k s = some (cl, c)) :
    0 < cl ∧ cl < 1073741824 ∧ (c.length : Int) = 2 * cl
      ∧ ∀ rd : shapefile_record_reader, (∃ tail, rd.record_buf = c ++ tail) →
          rd.current_record_header.content_length = cl →
          body_of k rd = record_action.push s := by
  obtain ⟨hk, hlen, hcl⟩ := encode_of_spec k s cl c henc
  have hpos : 0 < content_bytes s := by
    cases s <;> simp only [content_bytes] <;> first | omega | (rw [← hk] at henc; simp [encode_of, shape.stype] at henc)
  obtain ⟨g1, g2, g3⟩ := half_content (content_bytes s) hsmall (content_bytes_even s) hpos
  rw [← hcl] at g1 g2 g3
  refine ⟨g1, g2, by rw [hlen]; exact g3, ?_⟩
  rintro rd ⟨tail, hbuf⟩ hrd
  cases s with
  | null => rw [← hk] at henc; simp [encode_of, shape.stype] at henc
  | point ps =>
    simp only [shape.stype] at hk
    subst hk
    simp only [encode_of, encode_point, Option.some.injEq, Prod.mk.injEq] at henc
    obtain ⟨rfl, rfl⟩ := henc
    exact point_body_spec ps hwf rd tail hbuf hrd
  | multipoint points =>
    simp only [shape.stype] at hk
    subst hk
    simp only [encode_of, encode_multipoint, Option.some.injEq, Prod.mk.injEq] at henc
    obtain ⟨rfl, rfl⟩ := henc
    simp only [content_bytes] at hsmall
    exact multipoint_body_spec points hwf (by omega) rd tail _ _ _ _ hbuf
  | polyline parts =>
    simp only [shape.stype] at hk
    subst hk
    simp only [encode_of, encode_polypart, polypart_cast, if_true, Option.some.injEq,
      Prod.mk.injEq] at henc
    obtain ⟨rfl, rfl⟩ := henc
    simp only [content_bytes] at hsmall
    obtain ⟨f0, f1⟩ := read_polyparts_spec parts hpart hwf hsmall rd.record_buf tail _ _ _ _ _
      hbuf
    simp only [body_of, polypart_body, f0, f1]
    rw [if_neg (by decide), if_neg (by decide)]
  | polygon rings =>
    simp only [shape.stype] at hk
    subst hk
    have hc : polypart_cast shape_type.polygon (shape.polygon rings) = some rings := by
      simp [polypart_cast]
    simp only [encode_of, encode_polypart, hc, Option.some.injEq, Prod.mk.injEq] at henc
    obtain ⟨rfl, rfl⟩ := henc
    simp only [content_bytes] at hsmall
    obtain ⟨f0, f1⟩ := read_polyparts_spec rings hpart hwf hsmall rd.record_buf tail _ _ _ _ _
      hbuf
    simp only [body_of, polypart_body, f0, f1]
    rw [if_neg (by decide), if_neg (by decide)]

theorem read_shp_dispatch (k : shape_type)
    (hk4 : k = shape_type.point ∨ k = shape_type.polyline ∨ k = shape_type.polygon
      ∨ k = shape_type.multipoint)
    (fl : Int) (bb : shapefile_main_header_boundingbox) (fp : List Nat) :
    read_shp (write_main_header ⟨SHAPEFILE_FILE_CODE, fl, SHAPEFILE_VERSION, k.code⟩ bb ++ fp)
      = match read_loop (body_of k) (fp.length + 1)
          (init_record_reader fp ⟨SHAPEFILE_FILE_CODE, to_int32 fl, SHAPEFILE_VERSION,
            to_int32 k.code⟩) [] with
        | some (status, shapes) => some (status, ⟨shapes⟩)
        | none => none := by
  obtain ⟨bb', hh⟩ := read_main_header_written fl k.code bb fp
  unfold read_shp
  rw [hh]
  dsimp only
  rcases hk4 with rfl | rfl | rfl | rfl
  · rw [if_pos (by decide), read_point_shapes_eq]; rfl
  · rw [if_neg (by decide), if_pos (by decide), read_polyline_shapes_eq]; rfl
  · rw [if_neg (by decide), if_neg (by decide), if_pos (by decide), read_polygon_shapes_eq]; rfl
  · rw [if_neg (by decide), if_neg (by decide), if_neg (by decide), if_pos (by decide),
      read_multipoint_shapes_eq]; rfl

/-- Claim C1, amended. For every non-empty collection whose shapes are all of one supported
kind, with coordinates that are 64-bit patterns, with at least one part in every polyline
and one ring in every polygon, with records of fewer than `2 ^ 31` content bytes and a
`.shp` of fewer than `2 ^ 32` bytes, and for every path that `write_shp` accepts: `write_shp`
succeeds, and `read_shp` applied to the bytes of the `.shp` succeeds and returns the same
collection. -/
theorem read_shp_write_shp (path : List Nat) (shpfile : shapefile) (k : shape_type)
    (hk4 : k = shape_type.point ∨ k = shape_type.polyline ∨ k = shape_type.polygon
      ∨ k = shape_type.multipoint)
    (hpath : regex_replace_shp path ≠ path)
    (hne : shpfile.shapes ≠ [])
    (hall : ∀ s ∈ shpfile.shapes, s.stype = k)
    (hwf : ∀ s ∈ shpfile.shapes, s.wf)
    (hpart : ∀ s ∈ shpfile.shapes, s.has_part)
    (hrec : ∀ s ∈ shpfile.shapes, content_bytes s < 2147483648)
    (hsize : shp_size shpfile.shapes < 4294967296) :
    ∃ r shp, write_shp path shpfile = some r ∧ r.status = true ∧ r.shp = some shp
      ∧ read_shp shp = some (true, shpfile) := by
  have hknull : k ≠ shape_type.null_shape := by
    rcases hk4 with rfl | rfl | rfl | rfl <;> decide
  obtain ⟨s0, hs0⟩ := List.exists_mem_of_ne_nil _ hne
  have hdst : determine_shape_type shpfile = k :=
    (dst_loop_null _ k hknull).2 ⟨⟨s0, hs0, by rw [hall s0 hs0]; exact hknull⟩,
      fun s hs _ => hall s hs⟩
  have hsome : ∀ s ∈ shpfile.shapes, (encode_of k s).isSome := by
    intro s hs
    have hst := hall s hs
    rcases hk4 with rfl | rfl | rfl | rfl <;> cases s <;>
      simp [shape.stype] at hst <;>
      simp [encode_of, encode_point, encode_multipoint, encode_polypart, polypart_cast]
  obtain ⟨⟨fp, shx⟩, hw⟩ := write_records_total _ _ hsome 100 1
  obtain ⟨r, h1, h2, bb, h3⟩ := write_shp_of_records path shpfile k fp shx hk4 hpath hdst hw
  refine ⟨r, _, h1, h2, h3, ?_⟩
  obtain ⟨hlen, -, -⟩ := write_records_spec (encode_of k)
    (fun s cl c hc => (encode_of_spec k s cl c hc).2) _ _ _ _ _ hw
  rw [read_shp_dispatch k hk4]
  have hflb : (init_record_reader fp ⟨SHAPEFILE_FILE_CODE,
      to_int32 (Int.tdiv (to_int32 ((shp_size shpfile.shapes : Nat) : Int)) 2),
      SHAPEFILE_VERSION, to_int32 k.code⟩).file_length_bytes = shp_size shpfile.shapes := by
    simp only [init_record_reader]
    exact file_length_bytes_written _ hsize
      (by have := records_size_even shpfile.shapes; simp only [shp_size]; omega)
  have hge := records_size_ge shpfile.shapes
  rw [read_loop_write_records (encode_of k) (body_of k) shpfile.shapes
    (fun s hs cl c hc => body_of_spec k s (hwf s hs) (hpart s hs) (hrec s hs) cl c hc)
    100 1 fp shx hw _ [] (fp.length + 1) rfl
    (by rw [hflb, hlen]; simp only [init_record_reader, shp_size])
    (by rw [hflb]; exact hsize) (by rw [hlen]; omega)]
  rfl

/-! ## Limits of the shape round trip -/

set_option maxRecDepth 100000 in
/-- Witness of claim C1 (amended): the two-part polyline of the third seed scenario. -/
theorem read_shp_write_shp_witness :
    regex_replace_shp (str_bytes "p.shp") ≠ str_bytes "p.shp"
      ∧ two_part_polyline.shapes ≠ []
      ∧ (∀ s ∈ two_part_polyline.shapes, s.stype = shape_type.polyline)
      ∧ (∀ s ∈ two_part_polyline.shapes, s.wf)
      ∧ (∀ s ∈ two_part_polyline.shapes, s.has_part)
      ∧ (∀ s ∈ two_part_polyline.shapes, content_bytes s < 2147483648)
      ∧ shp_size two_part_polyline.shapes < 4294967296
      ∧ ∃ r shp, write_shp (str_bytes "p.shp") two_part_polyline = some r ∧ r.status = true
          ∧ r.shp = some shp ∧ read_shp shp = some (true, two_part_polyline) :=
  ⟨by decide, by decide, by decide, by decide, by decide, by decide, by decide,
    read_shp_write_shp (str_bytes "p.shp") two_part_polyline shape_type.polyline
      (Or.inr (Or.inl rfl)) (by decide) (by decide) (by decide) (by decide) (by decide)
      (by decide) (by decide)⟩

theorem read_loop_stop (body : shapefile_record_reader → record_action) (fuel : Nat)
    (reader : shapefile_record_reader) (acc : List shape)
    (h : read_shape_record reader = none) :
    read_loop body (fuel + 1) reader acc = some (true, acc) := by
  simp only [read_loop, h]

set_option maxRecDepth 100000 in
theorem empty_collection_round_trip :
    write_shp (str_bytes "p.shp") ⟨[]⟩ = some ⟨false, str_bytes "p.shx", some [], some []⟩
      ∧ read_shp [] = some (false, ⟨[]⟩) := by
  decide

set_option maxRecDepth 100000 in
theorem empty_polyline_round_trip :
    ∃ r shp, write_shp (str_bytes "p.shp") empty_polyline = some r ∧ r.status = true
      ∧ r.shp = some shp
      ∧ read_shp shp = some (true, ⟨[shape.polyline [⟨[]⟩]]⟩) := by
  have hst : (write_shp (str_bytes "p.shp") empty_polyline).map (fun r => r.status)
      = some true := by decide
  have hrd : ((write_shp (str_bytes "p.shp") empty_polyline).bind (fun r => r.shp)).bind
      read_shp = some (true, ⟨[shape.polyline [⟨[]⟩]]⟩) := by decide
  cases hr : write_shp (str_bytes "p.shp") empty_polyline with
  | none => rw [hr] at hst; simp at hst
  | some r =>
    rw [hr] at hst hrd
    simp only [Option.map_some', Option.some.injEq, Option.some_bind] at hst hrd
    cases hs : r.shp with
    | none => rw [hs] at hrd; simp at hrd
    | some shp =>
      rw [hs] at hrd
      exact ⟨r, shp, rfl, hst, hs, hrd⟩

theorem read_shape_record_budget (reader : shapefile_record_reader)
    (h : reader.file_length_bytes ≤ reader.total_bytes_read) :
    read_shape_record reader = none := by
  unfold read_shape_record
  rw [if_pos h]

theorem origin_points_overflow :
    ∃ r shp, write_shp (str_bytes "p.shp") (origin_points 153391689) = some r
      ∧ r.status = true ∧ r.shp = some shp ∧ read_shp shp = some (true, ⟨[]⟩) := by
  obtain ⟨r, shp, shx, h, hst, hshp, -⟩ := write_shp_origin_points 153391689 (by decide)
  obtain ⟨k, bb, fp, shx', hk4, -, hk, -, e1, -⟩ := write_shp_form _ _ r h hst
  rw [determine_shape_type_origin_points 153391689 (by decide)] at hk
  subst hk
  rw [hshp, Option.some.injEq] at e1
  refine ⟨r, shp, h, hst, hshp, ?_⟩
  rw [e1, read_shp_dispatch _ hk4, shp_size_origin_points,
    read_loop_stop _ _ _ _ (read_shape_record_budget _ (by
      simp only [init_record_reader]
      decide))]

theorem read_record_header_nonpositive (num cl : Int) (rest : List Nat)
    (h : to_int32 cl ≤ 0) :
    read_record_header (write_record_header ⟨num, cl⟩ ++ rest) = none := by
  unfold read_record_header
  rw [fread_append _ _ 8 (write_record_header_length _)]
  simp only [write_record_header]
  rw [List.drop_left' (int32_BE_length _), List.take_of_length_le (by rw [int32_BE_length]),
    int32_of_BE_int32_BE, if_pos h]

theorem origin_multipoint_written (n : Nat) :
    ∃ r fp, write_shp (str_bytes "p.shp") (origin_multipoint n) = some r ∧ r.status = true
      ∧ (∃ bb, r.shp = some (write_main_header ⟨SHAPEFILE_FILE_CODE,
          Int.tdiv (to_int32 ((100 + (8 + (40 + 16 * n)) : Nat) : Int)) 2, SHAPEFILE_VERSION,
          shape_type.multipoint.code⟩ bb ++ fp))
      ∧ ∃ num c, fp = write_record_header ⟨num,
          Int.tdiv (to_int32 ((40 + 16 * n : Nat) : Int)) 2⟩ ++ c := by
  have hsome : ∀ s ∈ (origin_multipoint n).shapes,
      (encode_of shape_type.multipoint s).isSome := by
    intro s hs
    simp only [origin_multipoint, List.mem_singleton] at hs
    rw [hs]; rfl
  obtain ⟨⟨fp, shx⟩, hw⟩ := write_records_total _ _ hsome 100 1
  obtain ⟨r, h1, h2, bb, h3⟩ := write_shp_of_records (str_bytes "p.shp") (origin_multipoint n)
    shape_type.multipoint fp shx (Or.inr (Or.inr (Or.inr rfl))) (by decide) (by rfl) hw
  have hsz : shp_size (origin_multipoint n).shapes = 100 + (8 + (40 + 16 * n)) := by
    simp [shp_size, records_size, origin_multipoint, content_bytes]
  rw [hsz] at h3
  refine ⟨r, fp, h1, h2, ⟨bb, h3⟩, ?_⟩
  simp only [origin_multipoint, write_records] at hw
  cases he : encode_of shape_type.multipoint (shape.multipoint (List.replicate n ⟨0, 0⟩)) with
  | none => simp [he] at hw
  | some p =>
    obtain ⟨cl, c⟩ := p
    obtain ⟨-, -, hcl⟩ := encode_of_spec _ _ cl c he
    simp only [content_bytes, List.length_replicate] at hcl
    simp only [he, Option.some.injEq, Prod.mk.injEq] at hw
    exact ⟨1, c, by rw [← hw.1, hcl]; simp⟩

theorem origin_multipoint_overflow :
    ∃ r shp, write_shp (str_bytes "p.shp") (origin_multipoint 134217726) = some r
      ∧ r.status = true ∧ r.shp = some shp ∧ read_shp shp = some (true, ⟨[]⟩) := by
  obtain ⟨r, fp, h, hst, ⟨bb, hshp⟩, num, c, hfp⟩ := origin_multipoint_written 134217726
  refine ⟨r, _, h, hst, hshp, ?_⟩
  rw [read_shp_dispatch _ (Or.inr (Or.inr (Or.inr rfl)))]
  have hrec : read_shape_record (init_record_reader fp ⟨SHAPEFILE_FILE_CODE,
      to_int32 (Int.tdiv (to_int32 ((100 + (8 + (40 + 16 * 134217726)) : Nat) : Int)) 2),
      SHAPEFILE_VERSION, to_int32 shape_type.multipoint.code⟩) = none := by
    unfold read_shape_record
    simp only [init_record_reader]
    rw [if_neg (by decide), hfp, read_record_header_nonpositive _ _ _ (by decide)]
  rw [read_loop_stop _ _ _ _ hrec]

/-- Counterexample to claim C1 as stated, in four cases. The empty collection is not
written at all. A polyline without parts is written and read back as a polyline with one
empty part. 153 391 689 points are written to a `.shp` of `2 ^ 32 + 96` bytes whose header
stores the length 48, and one multipoint of 134 217 726 points is written with a negative
content length; both files are read back, with success, as the empty collection. -/
theorem read_shp_write_shp_fails :
    (write_shp (str_bytes "p.shp") ⟨[]⟩ = some ⟨false, str_bytes "p.shx", some [], some []⟩
      ∧ read_shp [] = some (false, ⟨[]⟩))
    ∧ (∃ r shp, write_shp (str_bytes "p.shp") empty_polyline = some r ∧ r.status = true
        ∧ r.shp = some shp ∧ read_shp shp = some (true, ⟨[shape.polyline [⟨[]⟩]]⟩)
        ∧ (⟨[shape.polyline [⟨[]⟩]]⟩ : shapefile) ≠ empty_polyline)
    ∧ (∃ r shp, write_shp (str_bytes "p.shp") (origin_points 153391689) = some r
        ∧ r.status = true ∧ r.shp = some shp ∧ read_shp shp = some (true, ⟨[]⟩)
        ∧ (origin_points 153391689).shapes.length = 153391689)
    ∧ (∃ r shp, write_shp (str_bytes "p.shp") (origin_multipoint 134217726) = some r
        ∧ r.status = true ∧ r.shp = some shp ∧ read_shp shp = some (true, ⟨[]⟩)
        ∧ (origin_multipoint 134217726).shapes.length = 1) := by
  refine ⟨empty_collection_round_trip, ?_, ?_, ?_⟩
  · obtain ⟨r, shp, h1, h2, h3, h4⟩ := empty_polyline_round_trip
    exact ⟨r, shp, h1, h2, h3, h4, by decide⟩
  · obtain ⟨r, shp, h1, h2, h3, h4⟩ := origin_points_overflow
    exact ⟨r, shp, h1, h2, h3, h4, origin_points_length _⟩
  · obtain ⟨r, shp, h1, h2, h3, h4⟩ := origin_multipoint_overflow
    exact ⟨r, shp, h1, h2, h3, h4, rfl⟩

/-! ## Reading back a written table -/

theorem decimal_digits_eq_digits (fuel : Nat) :
    ∀ n, n ≤ fuel → decimal_digits fuel n = Nat.digits 10 n := by
  induction fuel with
  | zero => intro n h; have : n = 0 := by omega
            subst this; simp [decimal_digits]
  | succ fuel ih =>
    intro n h
    by_cases hn : n = 0
    · subst hn; simp [decimal_digits]
    · rw [decimal_digits, if_neg hn, Nat.digits_def' (by decide) (by omega),
        ih (n / 10) (by omega)]

theorem digit_value_decimal (d : Nat) (h : d < 10) : digit_value 10 (d + 48) = some d := by
  interval_cases d <;> rfl

theorem scan_digits_decimal (ds : List Nat) (h : ∀ d ∈ ds, d < 10) (acc : Nat) :
    scan_digits 10 (ds.map (fun d => d + 48)) acc
      = (ds.foldl (fun a d => a * 10 + d) acc, ds.length) := by
  induction ds generalizing acc with
  | nil => rfl
  | cons d ds ih =>
    simp only [List.map_cons, scan_digits, digit_value_decimal d (h d (List.mem_cons_self _ _)),
      ih (fun x hx => h x (List.mem_cons_of_mem _ hx)), List.foldl_cons, List.length_cons]

theorem foldl_reverse_digits (L : List Nat) :
    L.reverse.foldl (fun a d => a * 10 + d) 0 = Nat.ofDigits 10 L := by
  induction L with
  | nil => rfl
  | cons x L ih =>
    rw [List.reverse_cons, List.foldl_append, ih, Nat.ofDigits_cons]
    simp only [List.foldl_cons, List.foldl_nil]
    ring

/-- The text of a positive number: a first digit that is not `0`, then digits, and the
decimal scan of it gives the number back. -/
theorem sprintf_u_pos (u : Nat) (hu : 0 < u) :
    ∃ c rest, sprintf_u u = c :: rest ∧ 49 ≤ c ∧ c ≤ 57
      ∧ scan_digits 10 (sprintf_u u) 0 = (u, (sprintf_u u).length)
      ∧ (∀ x ∈ sprintf_u u, 48 ≤ x ∧ x ≤ 57) := by
  have hne : u ≠ 0 := by omega
  have hd : sprintf_u u = ((Nat.digits 10 u).reverse).map (fun d => d + 48) := by
    rw [sprintf_u, if_neg hne, decimal_digits_eq_digits u u (le_refl _), List.map_reverse]
  have hlt : ∀ d ∈ (Nat.digits 10 u).reverse, d < 10 := by
    intro d hd'
    exact Nat.digits_lt_base (by decide) (List.mem_reverse.mp hd')
  have hscan := scan_digits_decimal _ hlt 0
  rw [foldl_reverse_digits, Nat.ofDigits_digits] at hscan
  have hnil : Nat.digits 10 u ≠ [] := by
    rw [Ne, Nat.digits_eq_nil_iff_eq_zero]; exact hne
  have hlast := Nat.getLast_digit_ne_zero 10 hne
  cases hr : (Nat.digits 10 u).reverse with
  | nil => simp at hr; exact absurd hr hnil
  | cons c rest =>
    have hc : c = (Nat.digits 10 u).getLast hnil := by
      have := List.head_reverse (l := Nat.digits 10 u) (by simpa using hnil)
      simp only [hr, List.head_cons] at this
      exact this
    have hc10 : c < 10 := hlt c (by rw [hr]; exact List.mem_cons_self _ _)
    have hc0 : c ≠ 0 := by rw [hc]; exact hlast
    refine ⟨c + 48, rest.map (fun d => d + 48), ?_, by omega, by omega, ?_, ?_⟩
    · rw [hd, hr]; rfl
    · rw [hd]; simpa using hscan
    · intro x hx
      rw [hd, List.mem_map] at hx
      obtain ⟨d, hd1, hd2⟩ := hx
      have := hlt d hd1
      omega

theorem strto_subject_decimal (c : Nat) (rest : List Nat) (h1 : 49 ≤ c) (h2 : c ≤ 57) :
    strto_subject (c :: rest)
      = if (scan_digits 10 (c :: rest) 0).2 = 0 then none
        else some (false, (scan_digits 10 (c :: rest) 0).1, 0 + 0 + (scan_digits 10 (c :: rest) 0).2) := by
  interval_cases c <;> rfl

theorem strto_subject_negative (c : Nat) (rest : List Nat) (h1 : 49 ≤ c) (h2 : c ≤ 57) :
    strto_subject (45 :: c :: rest)
      = if (scan_digits 10 (c :: rest) 0).2 = 0 then none
        else some (true, (scan_digits 10 (c :: rest) 0).1, 0 + 1 + (scan_digits 10 (c :: rest) 0).2) := by
  interval_cases c <;> rfl

theorem strto_subject_sprintf_u (u : Nat) :
    strto_subject (sprintf_u u) = some (false, u, (sprintf_u u).length) := by
  by_cases hu : u = 0
  · subst hu; rfl
  · obtain ⟨c, rest, hcr, h1, h2, hscan, -⟩ := sprintf_u_pos u (by omega)
    have hlen : (sprintf_u u).length ≠ 0 := by rw [hcr]; simp
    rw [hcr, strto_subject_decimal c rest h1 h2, ← hcr, hscan]
    simp only [hlen, if_false, Nat.zero_add]

theorem strto_subject_minus_sprintf_u (u : Nat) (hu : 0 < u) :
    strto_subject (45 :: sprintf_u u) = some (true, u, (45 :: sprintf_u u).length) := by
  obtain ⟨c, rest, hcr, h1, h2, hscan, -⟩ := sprintf_u_pos u hu
  have hlen : (sprintf_u u).length ≠ 0 := by rw [hcr]; simp
  rw [hcr, strto_subject_negative c rest h1 h2, ← hcr, hscan]
  simp only [hlen, if_false, Nat.zero_add, List.length_cons]
  rw [Nat.add_comm]

theorem sprintf_u_length_pos (u : Nat) : (sprintf_u u).length ≠ 0 := by
  by_cases hu : u = 0
  · subst hu; decide
  · obtain ⟨c, rest, hcr, -⟩ := sprintf_u_pos u (by omega)
    rw [hcr]; simp

theorem strtoul_sprintf_u (u : Nat) (h : u < 4294967296) :
    strtoul (sprintf_u u) = ⟨u, (sprintf_u u).length, false⟩ := by
  unfold strtoul
  rw [strto_subject_sprintf_u]
  dsimp only
  rw [if_neg (by omega), if_neg (by decide)]

theorem strtol_sprintf_d (i : Int) (h1 : -2147483648 ≤ i) (h2 : i < 0) :
    strtol (sprintf_d i) = ⟨i, (sprintf_d i).length, false⟩ := by
  have hd : sprintf_d i = 45 :: sprintf_u (-i).toNat := by
    unfold sprintf_d; rw [if_pos h2]
  unfold strtol
  rw [hd, strto_subject_minus_sprintf_u _ (by omega)]
  dsimp only
  rw [if_pos rfl, if_neg (by omega)]
  have e : -(((-i).toNat : Nat) : Int) = i := by omega
  rw [e]

theorem parse_uint32_sprintf_u (u : Nat) (h : u < 4294967296) :
    parse_uint32 (sprintf_u u) = (true, u) := by
  unfold parse_uint32
  rw [strtoul_sprintf_u u h]
  simp only [sprintf_u_length_pos u, decide_False, ne_eq, not_true_eq_false,
    Bool.or_self, Bool.not_false, Nat.mod_eq_of_lt h]

theorem parse_int32_sprintf_d (i : Int) (h1 : -2147483648 ≤ i) (h2 : i < 0) :
    parse_int32 (sprintf_d i) = (true, i) := by
  have hlen : (sprintf_d i).length ≠ 0 := by
    unfold sprintf_d; rw [if_pos h2]; simp
  unfold parse_int32
  rw [strtol_sprintf_d i h1 h2]
  simp only [hlen, decide_False, ne_eq, not_true_eq_false,
    Bool.or_self, Bool.not_false, to_int32_of_range i h1 (by omega)]

theorem format_cell_text (env : libc) (fd : dbffield_def) (v : dbffield_value)
    (hc : cell_compatible fd v) (hL : fd.field_length ≤ 511)
    (ht : (cell_text env fd v).length ≤ 511) :
    format_cell env fd v = some (some (sprintf_pad fd.field_length (cell_text env fd v) ++ [0]
      ++ List.replicate (511 - (sprintf_pad fd.field_length (cell_text env fd v)).length) 32)) := by
  have hp : (sprintf_pad fd.field_length (cell_text env fd v)).length + 1 ≤ 512 := by
    rw [sprintf_pad_length]; omega
  have e1 : ¬ ([78] : List Nat) = [67] := by decide
  have e2 : ¬ ([70] : List Nat) = [67] := by decide
  have e3 : ¬ ([70] : List Nat) = [78] := by decide
  unfold format_cell
  cases v with
  | str value =>
    simp only [cell_compatible] at hc
    simp only [cell_text] at hp ht ⊢
    simp only [hc, if_true]
    rw [if_pos hp]
  | sint i value =>
    simp only [cell_compatible] at hc
    simp only [cell_text] at hp ht ⊢
    simp only [hc, e1, if_true, if_false]
    rw [if_pos hp]
  | uint u value =>
    simp only [cell_compatible] at hc
    simp only [cell_text] at hp ht ⊢
    simp only [hc, e1, if_true, if_false]
    rw [if_pos hp]
  | dbl d value =>
    simp only [cell_compatible] at hc
    simp only [cell_text] at hp ht ⊢
    simp only [hc, e2, e3, if_true, if_false]
    rw [if_pos (by omega), if_pos hp]

theorem cell_bytes_text (env : libc) (fd : dbffield_def) (v : dbffield_value)
    (hc : cell_compatible fd v) (hL : fd.field_length ≤ 511)
    (ht : (cell_text env fd v).length ≤ 511) :
    cell_bytes env fd v
      = (sprintf_pad fd.field_length (cell_text env fd v)).take fd.field_length := by
  unfold cell_bytes
  rw [format_cell_text env fd v hc hL ht]
  dsimp only
  rw [List.append_assoc, List.take_append_of_le_length (by rw [sprintf_pad_length]; omega)]

theorem cell_bytes_short (env : libc) (fd : dbffield_def) (v : dbffield_value)
    (hc : cell_compatible fd v) (hL : fd.field_length ≤ 511)
    (ht : (cell_text env fd v).length ≤ fd.field_length) :
    cell_bytes env fd v
      = List.replicate (fd.field_length - (cell_text env fd v).length) 32
          ++ cell_text env fd v := by
  rw [cell_bytes_text env fd v hc hL (by omega)]
  unfold sprintf_pad
  rw [List.take_of_length_le]
  simp only [List.length_append, List.length_replicate]
  omega

theorem cell_bytes_long (env : libc) (fd : dbffield_def) (v : dbffield_value)
    (hc : cell_compatible fd v) (hL : fd.field_length ≤ 511)
    (ht : (cell_text env fd v).length ≤ 511)
    (hlong : fd.field_length ≤ (cell_text env fd v).length) :
    cell_bytes env fd v = (cell_text env fd v).take fd.field_length := by
  rw [cell_bytes_text env fd v hc hL ht]
  unfold sprintf_pad
  rw [Nat.sub_eq_zero_of_le hlong]
  rfl

theorem c_str_append_nul (t rest : List Nat) (h : 0 ∉ t) : c_str (t ++ 0 :: rest) = t := by
  unfold c_str
  induction t with
  | nil => simp
  | cons a t ih =>
    have ha : a ≠ 0 := fun e => h (by rw [e]; exact List.mem_cons_self _ _)
    have ht : 0 ∉ t := fun e => h (List.mem_cons_of_mem _ e)
    simp only [List.cons_append, List.takeWhile_cons, ha, ne_eq, not_false_eq_true, decide_True,
      if_true, ih ht]

theorem c_str_of_no_nul (t : List Nat) (h : 0 ∉ t) : c_str t = t := by
  unfold c_str
  rw [List.takeWhile_eq_self_iff]
  intro x hx
  have : x ≠ 0 := fun e => h (e ▸ hx)
  simpa using this

theorem c_str_no_nul (s : List Nat) : 0 ∉ c_str s := by
  unfold c_str
  intro h
  have := List.mem_takeWhile_imp h
  simp at this

theorem trim_pad (k : Nat) (t : List Nat) :
    trim_leading_and_trailing_whitespace (List.replicate k 32 ++ t)
      = trim_leading_and_trailing_whitespace t := by
  unfold trim_leading_and_trailing_whitespace
  congr 3
  induction k with
  | zero => rfl
  | succ k ih => simp [List.replicate_succ, ih]

theorem trim_plain (t : List Nat) (h1 : t.head? ≠ some 32) (h2 : t.getLast? ≠ some 32) :
    trim_leading_and_trailing_whitespace t = t := by
  unfold trim_leading_and_trailing_whitespace
  have e1 : t.dropWhile (fun c => decide (c = 32)) = t := by
    cases t with
    | nil => rfl
    | cons a t =>
      have : a ≠ 32 := by simpa using h1
      simp [List.dropWhile_cons, this]
  rw [e1]
  have e2 : t.reverse.dropWhile (fun c => decide (c = 32)) = t.reverse := by
    cases hr : t.reverse with
    | nil => rfl
    | cons a r =>
      have : a ≠ 32 := by
        intro e
        apply h2
        rw [← List.head?_reverse, hr, e]; rfl
      simp [List.dropWhile_cons, this]
  rw [e2, List.reverse_reverse]

theorem trim_no_space (t : List Nat) (h : 32 ∉ t) :
    trim_leading_and_trailing_whitespace t = t := by
  apply trim_plain
  · intro e
    exact h (List.mem_of_mem_head? e)
  · intro e
    exact h (List.mem_of_mem_getLast? e)

theorem sprintf_u_chars (u : Nat) : ∀ x ∈ sprintf_u u, 48 ≤ x ∧ x ≤ 57 := by
  by_cases hu : u = 0
  · subst hu; decide
  · obtain ⟨c, rest, -, -, -, -, h⟩ := sprintf_u_pos u (by omega)
    exact h

theorem sprintf_d_chars (i : Int) : ∀ x ∈ sprintf_d i, x = 45 ∨ (48 ≤ x ∧ x ≤ 57) := by
  intro x hx
  unfold sprintf_d at hx
  split at hx
  · rcases List.mem_cons.mp hx with h | h
    · exact Or.inl h
    · exact Or.inr (sprintf_u_chars _ x h)
  · exact Or.inr (sprintf_u_chars _ x hx)

theorem read_vbuf_written (env : libc) (fd : dbffield_def) (v : dbffield_value)
    (hc : cell_compatible fd v) (hL : fd.field_length ≤ 511)
    (ht : (cell_text env fd v).length ≤ fd.field_length)
    (hnul : 0 ∉ cell_text env fd v) :
    trim_leading_and_trailing_whitespace (c_str (cell_bytes env fd v ++ [0]))
      = trim_leading_and_trailing_whitespace (cell_text env fd v) := by
  rw [cell_bytes_short env fd v hc hL ht, c_str_append_nul, trim_pad]
  intro h
  rcases List.mem_append.mp h with h | h
  · have := List.eq_of_mem_replicate h
    omega
  · exact hnul h

theorem read_cell_written (env : libc) (fd : dbffield_def) (v : dbffield_value)
    (hL : fd.field_length ≤ 511) (hv : v.wf)
    (hc : cell_compatible fd v) (hf : cell_fits env fd v) :
    read_cell env fd (trim_leading_and_trailing_whitespace (c_str (cell_bytes env fd v ++ [0])))
      = some (read_back_cell env fd v) := by
  have e1 : ¬ ([67] : List Nat) = [78] := by decide
  have e2 : ¬ ([67] : List Nat) = [70] := by decide
  have e3 : ¬ ([70] : List Nat) = [78] := by decide
  cases v with
  | str value =>
    have hty := hc
    simp only [cell_compatible] at hty
    simp only [cell_fits] at hf
    rw [read_vbuf_written env fd _ hc hL hf (c_str_no_nul _)]
    unfold read_cell
    rw [if_neg (by rw [hty]; exact e1), if_neg (by rw [hty]; exact e2)]
    rfl
  | sint i value =>
    have hty := hc
    simp only [cell_compatible] at hty
    simp only [cell_fits] at hf
    have hch := sprintf_d_chars i
    rw [read_vbuf_written env fd _ hc hL hf (fun h => by
      have := hch 0 h; omega)]
    simp only [cell_text]
    rw [trim_no_space _ (fun h => by have := hch 32 h; omega)]
    unfold read_cell
    rw [if_pos hty]
    by_cases hi : i < 0
    · have hm : 45 ∈ sprintf_d i := by
        unfold sprintf_d; rw [if_pos hi]; exact List.mem_cons_self _ _
      rw [if_pos hm]
      dsimp only
      rw [parse_int32_sprintf_d i hv.1 hi]
      simp only [if_true, read_back_cell, hi]
    · have hd : sprintf_d i = sprintf_u i.toNat := by
        unfold sprintf_d; rw [if_neg hi]
      have hm : 45 ∉ sprintf_d i := by
        rw [hd]; intro h
        have := sprintf_u_chars _ 45 h; omega
      rw [if_neg hm]
      dsimp only
      rw [hd, parse_uint32_sprintf_u _ (by have := hv.2; omega)]
      simp only [if_true, read_back_cell, hi, if_false, hd]
  | uint u value =>
    have hty := hc
    simp only [cell_compatible] at hty
    simp only [cell_fits] at hf
    have hch := sprintf_u_chars u
    rw [read_vbuf_written env fd _ hc hL hf (fun h => by
      have := hch 0 h; omega)]
    simp only [cell_text]
    rw [trim_no_space _ (fun h => by have := hch 32 h; omega)]
    unfold read_cell
    rw [if_pos hty, if_neg (fun h => by have := hch 45 h; omega)]
    dsimp only
    rw [parse_uint32_sprintf_u u hv]
    simp only [if_true, read_back_cell]
  | dbl d value =>
    have hty := hc
    simp only [cell_compatible] at hty
    simp only [cell_fits] at hf
    obtain ⟨hne, hlen, h0, h32, hval, hend, herr⟩ := hf
    rw [read_vbuf_written env fd _ hc hL hlen h0]
    simp only [cell_text]
    rw [trim_no_space _ h32]
    unfold read_cell
    rw [if_neg (by rw [hty]; exact e3), if_pos hty]
    have hl : (env.sprintf_e fd.field_decimal_count d).length ≠ 0 := by
      rw [Ne, List.length_eq_zero]; exact hne
    simp only [parse_dbl, hval, hend, herr, hl, decide_False, ne_eq, not_true_eq_false,
      Bool.or_self, Bool.not_false, if_true, read_back_cell]

theorem cell_fits_text_le (env : libc) (fd : dbffield_def) (v : dbffield_value)
    (hf : cell_fits env fd v) : (cell_text env fd v).length ≤ fd.field_length := by
  cases v with
  | str value => exact hf
  | sint i value => exact hf
  | uint u value => exact hf
  | dbl d value => exact hf.2.1

theorem cell_bytes_length (env : libc) (fd : dbffield_def) (v : dbffield_value)
    (hL : fd.field_length ≤ 511) (hc : cell_compatible fd v) (hf : cell_fits env fd v) :
    (cell_bytes env fd v).length = fd.field_length := by
  have ht := cell_fits_text_le env fd v hf
  rw [cell_bytes_short env fd v hc hL ht]
  simp only [List.length_append, List.length_replicate]
  omega

theorem read_row_fields_written (env : libc) (fields : List dbffield_def) :
    ∀ (values : List dbffield_value) (pre : List Nat) (read_size : Nat),
      values.length = fields.length →
      (∀ fd ∈ fields, 0 < fd.field_length ∧ fd.field_length ≤ 511) →
      (∀ p ∈ fields.zip values, p.2.wf ∧ cell_compatible p.1 p.2 ∧ cell_fits env p.1 p.2) →
      read_size = (pre ++ (fields.zip values).flatMap (fun p => cell_bytes env p.1 p.2)).length →
      read_row_fields env read_size
          (pre ++ (fields.zip values).flatMap (fun p => cell_bytes env p.1 p.2)) fields pre.length
        = some (some ((fields.zip values).map (fun p => read_back_cell env p.1 p.2))) := by
  induction fields with
  | nil => intro values pre read_size _ _ _ _; rfl
  | cons fd fs ih =>
    intro values pre read_size hlen hL hcells hrs
    cases values with
    | nil => simp at hlen
    | cons v vs =>
      have hfd := hL fd (List.mem_cons_self _ _)
      have hcell := hcells (fd, v) (by simp)
      have hcl := cell_bytes_length env fd v hfd.2 hcell.2.1 hcell.2.2
      simp only [List.zip_cons_cons, List.flatMap_cons, List.map_cons] at hrs ⊢
      have hrs' : read_size = pre.length + fd.field_length
          + ((fs.zip vs).flatMap (fun p => cell_bytes env p.1 p.2)).length := by
        rw [hrs]; simp only [List.length_append, hcl]; omega
      unfold read_row_fields
      rw [if_neg (by omega), if_neg (by omega)]
      dsimp only
      rw [List.drop_left, List.take_left' hcl,
        read_cell_written env fd v hfd.2 hcell.1 hcell.2.1 hcell.2.2]
      dsimp only
      have hpre : pre.length + fd.field_length = (pre ++ cell_bytes env fd v).length := by
        rw [List.length_append, hcl]
      rw [hpre, ← List.append_assoc,
        ih vs (pre ++ cell_bytes env fd v) read_size (by simpa using hlen)
          (fun x hx => hL x (List.mem_cons_of_mem _ hx))
          (fun p hp => hcells p (by
            simp only [List.zip_cons_cons]; exact List.mem_cons_of_mem _ hp))
          (by rw [hrs, List.append_assoc])]

theorem row_record_length (env : libc) (fields : List dbffield_def) :
    ∀ (values : List dbffield_value), values.length = fields.length →
      (∀ fd ∈ fields, fd.field_length ≤ 511) →
      (∀ p ∈ fields.zip values, cell_compatible p.1 p.2 ∧ cell_fits env p.1 p.2) →
      ((fields.zip values).flatMap (fun p => cell_bytes env p.1 p.2)).length
        = fields_length fields := by
  induction fields with
  | nil => intro values _ _ _; rfl
  | cons fd fs ih =>
    intro values hlen hL hcells
    cases values with
    | nil => simp at hlen
    | cons v vs =>
      have hcell := hcells (fd, v) (by simp)
      simp only [List.zip_cons_cons, List.flatMap_cons, List.length_append,
        fields_length_cons,
        cell_bytes_length env fd v (hL fd (List.mem_cons_self _ _)) hcell.1 hcell.2]
      rw [ih vs (by simpa using hlen) (fun x hx => hL x (List.mem_cons_of_mem _ hx))
        (fun p hp => hcells p (by
          simp only [List.zip_cons_cons]; exact List.mem_cons_of_mem _ hp))]

theorem read_rows_loop_written (env : libc) (fields : List dbffield_def)
    (hL : ∀ fd ∈ fields, 0 < fd.field_length ∧ fd.field_length ≤ 511) (rest : List Nat) :
    ∀ (rows : List dbfrow),
      (∀ row ∈ rows, row.values.length = fields.length
        ∧ ∀ p ∈ fields.zip row.values,
            p.2.wf ∧ cell_compatible p.1 p.2 ∧ cell_fits env p.1 p.2) →
      read_rows_loop env (1 + fields_length fields) fields rows.length
          (rows.flatMap (row_record env fields) ++ rest)
        = some (true, rows.map (read_back_row env fields)) := by
  intro rows
  induction rows with
  | nil => intro _; rfl
  | cons row rows ih =>
    intro h
    have hrow := h row (List.mem_cons_self _ _)
    have hlen := row_record_length env fields row.values hrow.1 (fun fd hfd => (hL fd hfd).2)
      (fun p hp => (hrow.2 p hp).2)
    have hrl : (row_record env fields row).length = 1 + fields_length fields := by
      unfold row_record
      rw [List.length_cons, hlen, Nat.add_comm]
    simp only [List.flatMap_cons, List.length_cons, List.map_cons, List.append_assoc]
    unfold read_rows_loop
    rw [if_neg (by omega), fread_append _ _ _ hrl]
    dsimp only
    have h0 : ¬ (row_record env fields row).getD 0 0 ≠ 0x20 := by
      unfold row_record; simp
    rw [if_neg h0]
    have hr : read_row_fields env (1 + fields_length fields)
        ([32] ++ (fields.zip row.values).flatMap (fun p => cell_bytes env p.1 p.2)) fields 1
        = some (some ((fields.zip row.values).map (fun p => read_back_cell env p.1 p.2))) :=
      read_row_fields_written env fields row.values [32] (1 + fields_length fields)
        hrow.1 hL hrow.2 (by rw [List.length_append, hlen]; rfl)
    have e : row_record env fields row
        = [32] ++ (fields.zip row.values).flatMap (fun p => cell_bytes env p.1 p.2) := rfl
    rw [e, hr]
    dsimp only
    rw [ih (fun r hr => h r (List.mem_cons_of_mem _ hr))]
    rfl

theorem map_getD_range (name : List Nat) :
    (List.range name.length).map (fun i => name.getD i 0) = name := by
  apply List.ext_getElem
  · simp
  · intro i h1 h2
    simp only [List.getElem_map, List.getElem_range, List.getD_eq_getElem?_getD]
    rw [List.getElem?_eq_getElem h2]
    rfl

theorem write_field_name_plain (env : libc) (idx : Nat) (name : List Nat)
    (h0 : 0 ∉ name) (hlen : name.length ≤ 11) :
    c_str (write_field_name env idx name) = name := by
  unfold write_field_name
  rw [c_str_of_no_nul name h0, List.take_of_length_le hlen]
  dsimp only
  obtain ⟨k, hk⟩ : ∃ k, 11 = name.length + k := ⟨11 - name.length, by omega⟩
  rw [hk, List.range_add, List.map_append, List.map_map]
  have e1 : (List.range name.length).map (fun i =>
      if i < name.length then name.getD i 0
      else if i = name.length then 0 else env.fname_uninit idx i) = name := by
    conv_rhs => rw [← map_getD_range name]
    apply List.map_congr_left
    intro i hi
    rw [if_pos (List.mem_range.mp hi)]
  rw [e1]
  cases k with
  | zero => simp only [List.range_zero, List.map_nil, List.append_nil]
            exact c_str_of_no_nul name h0
  | succ k =>
    rw [List.range_succ_eq_map, List.map_cons]
    simp only [Function.comp, Nat.add_zero, Nat.lt_irrefl, if_false, if_true]
    exact c_str_append_nul name _ h0

theorem read_fielddesc_written (env : libc) (idx : Nat) (fd : dbffield_def)
    (hvalid : field_valid fd) (hname : name_plain fd.field_name)
    (hdec : fd.field_type = [78] → fd.field_decimal_count = 0) :
    read_fielddesc (write_fielddesc env idx fd) = fd := by
  obtain ⟨hl, h0, hh, hg⟩ := hname
  have hnl : (write_field_name env idx fd.field_name).length = 11 := by
    simp [write_field_name]
  have e : write_fielddesc env idx fd
      = write_field_name env idx fd.field_name
        ++ ((c_str fd.field_type).getD 0 0 :: 0 :: 0 :: 0 :: 0 :: fd.field_length
          :: fd.field_decimal_count :: List.replicate 14 0) := by
    simp [write_fielddesc]
  have g11 : (write_fielddesc env idx fd).getD 11 0 = (c_str fd.field_type).getD 0 0 := by
    rw [e, List.getD_eq_getElem?_getD, List.getElem?_append_right (by omega), hnl]; rfl
  have g16 : (write_fielddesc env idx fd).getD 16 0 = fd.field_length := by
    rw [e, List.getD_eq_getElem?_getD, List.getElem?_append_right (by omega), hnl]; rfl
  have g17 : (write_fielddesc env idx fd).getD 17 0 = fd.field_decimal_count := by
    rw [e, List.getD_eq_getElem?_getD, List.getElem?_append_right (by omega), hnl]; rfl
  have t11 : (write_fielddesc env idx fd).take 11 = write_field_name env idx fd.field_name := by
    rw [e, List.take_left' hnl]
  unfold read_fielddesc
  simp only [g11, g16, g17, t11, write_field_name_plain env idx _ h0 hl,
    trim_plain _ hh hg]
  obtain ⟨name, ty, len, dc⟩ := fd
  simp only at hdec hvalid ⊢
  rcases hvalid.2.2 with hC | hN | hF
  · simp only at hC; subst hC
    simp [c_str]
  · simp only at hN; subst hN
    have := hdec rfl
    subst this
    simp [c_str]
  · simp only at hF; subst hF
    simp [c_str]

theorem read_field_descriptors_loop_written (env : libc) (rest : List Nat) :
    ∀ (fields : List dbffield_def) (idx : Nat),
      (∀ fd ∈ fields, field_valid fd ∧ name_plain fd.field_name
        ∧ (fd.field_type = [78] → fd.field_decimal_count = 0)) →
      read_field_descriptors_loop fields.length
          ((write_field_descriptors_loop env idx fields).2 ++ rest)
        = (true, fields, rest) := by
  intro fields
  induction fields with
  | nil => intro idx _; rfl
  | cons fd fs ih =>
    intro idx h
    obtain ⟨hv, hn, hd⟩ := h fd (List.mem_cons_self _ _)
    have hw : (write_field_descriptors_loop env idx (fd :: fs)).2
        = write_fielddesc env idx fd ++ (write_field_descriptors_loop env (idx + 1) fs).2 := by
      rw [write_field_descriptors_loop, if_neg hv.1, if_neg (by have := hv.2.1; omega), if_neg (by
        intro hh
        rcases hv.2.2 with h1 | h1 | h1
        · exact hh.1 h1
        · exact hh.2.1 h1
        · exact hh.2.2 h1)]
    rw [hw, List.length_cons, List.append_assoc]
    unfold read_field_descriptors_loop
    rw [fread_append _ _ 32 (write_fielddesc_length _ _ _)]
    dsimp only
    rw [ih (idx + 1) (fun x hx => h x (List.mem_cons_of_mem _ hx)),
      read_fielddesc_written env idx fd hv hn hd]

theorem number_fields_eq (n : Nat) (h : n ≤ 2046) :
    (to_int32 ((((33 + 32 * n : Nat) : Int) - 32 - 1) % 18446744073709551616 / 32)).toNat
      = n := by
  unfold to_int32
  omega

theorem read_field_descriptors_written (env : libc) (fields : List dbffield_def)
    (rest : List Nat) (raw : dBASE_header)
    (hraw : raw.header_bytes = 33 + 32 * fields.length) (hn : fields.length ≤ 2046)
    (h : ∀ fd ∈ fields, field_valid fd ∧ name_plain fd.field_name
        ∧ (fd.field_type = [78] → fd.field_decimal_count = 0)) :
    read_field_descriptors raw
        ((write_field_descriptors_loop env 0 fields).2 ++ ([0x0d] ++ rest))
      = (true, fields, rest) := by
  unfold read_field_descriptors
  dsimp only
  rw [hraw, number_fields_eq _ hn, read_field_descriptors_loop_written env _ fields 0 h]
  dsimp only
  rw [fread_append [0x0d] rest 1 rfl]
  rfl

theorem read_dbf_header (env : libc) (hd : dBASE_header) (rest : List Nat) :
    read_dbf env (write_header hd ++ rest)
      = (let raw_header : dBASE_header :=
          { version := (write_header hd).getD 0 0
            lastupdate := ((write_header hd).getD 1 0, (write_header hd).getD 2 0,
              (write_header hd).getD 3 0)
            table_records := hd.table_records % 4294967296
            header_bytes := hd.header_bytes % 65536
            record_bytes := hd.record_bytes % 65536 }
        let fd := read_field_descriptors raw_header rest
        if !fd.1 then some (false, ⟨⟨fd.2.1⟩, []⟩)
        else
          match read_rows_loop env raw_header.record_bytes fd.2.1 raw_header.table_records
              fd.2.2 with
          | none => none
          | some (status, rows) => some (status, ⟨⟨fd.2.1⟩, rows⟩)) := by
  obtain ⟨e1, e2, e3⟩ := stored_fields_header hd []
  rw [List.append_nil] at e1 e2 e3
  unfold stored_table_records at e1
  unfold stored_header_bytes at e2
  unfold stored_record_bytes at e3
  unfold read_dbf
  rw [fread_append _ _ 32 (write_header_length _)]
  dsimp only
  rw [e1, e2, e3]

theorem read_dbf_dbf_file (env : libc) (table : dbftable) (hwf : table.wf)
    (hpre : write_preconditions table)
    (hbound : 1 + fields_length table.header.fields ≤ 65535)
    (hfields : table.header.fields.length ≤ 2046)
    (hrows : table.rows.length < 4294967296)
    (hnames : ∀ fd ∈ table.header.fields, name_plain fd.field_name)
    (hdec : ∀ fd ∈ table.header.fields, fd.field_type = [78] → fd.field_decimal_count = 0)
    (hcells : ∀ row ∈ table.rows, ∀ p ∈ table.header.fields.zip row.values,
      cell_fits env p.1 p.2) :
    read_dbf env (dbf_file env table) = some (true, read_back_table env table) := by
  obtain ⟨-, -, hvalid, hrowsok⟩ := hpre
  have hsum := sum_record_bytes_eq table.header.fields 1 (by decide)
  unfold dbf_file
  simp only [List.append_assoc]
  rw [read_dbf_header]
  dsimp only
  rw [read_field_descriptors_written env table.header.fields _ _
    (by
      show (1 + 32 + 32 * table.header.fields.length) % 65536 % 65536 = _
      omega) hfields
    (fun fd hfd => ⟨hvalid fd hfd, hnames fd hfd, hdec fd hfd⟩)]
  dsimp only
  have hrb : (make_header env table).record_bytes % 65536
      = 1 + fields_length table.header.fields := by
    show sum_record_bytes table.header.fields 1 % 65536 = _
    rw [hsum, Nat.mod_mod, Nat.mod_eq_of_lt (by omega)]
  have htr : (make_header env table).table_records % 4294967296 = table.rows.length := by
    show table.rows.length % 4294967296 % 4294967296 = _
    omega
  rw [hrb, htr, read_rows_loop_written env table.header.fields
    (fun fd hfd => ⟨(hvalid fd hfd).2.1, by have := (hwf.1 fd hfd).1; omega⟩) [0x1a] table.rows
    (fun row hrow => ⟨(hrowsok row hrow).1, fun p hp =>
      ⟨hwf.2 row hrow p.2 (List.of_mem_zip hp).2, (hrowsok row hrow).2 p hp,
        hcells row hrow p hp⟩⟩)]
  rfl

theorem text_fits_of_cell_fits (env : libc) (fd : dbffield_def) (v : dbffield_value)
    (hL : fd.field_length < 256) (hf : cell_fits env fd v) : text_fits env fd v := by
  cases v with
  | str value => have h : (c_str value).length ≤ fd.field_length := hf
                 show (c_str value).length ≤ 511
                 omega
  | sint i value => trivial
  | uint u value => trivial
  | dbl d value =>
    have h : (env.sprintf_e fd.field_decimal_count d).length ≤ fd.field_length := hf.2.1
    show (env.sprintf_e fd.field_decimal_count d).length ≤ 511
    omega

/-- Claim C2, amended. For every table that satisfies the write preconditions, whose record
length fits 16 bits, with at most 2046 columns and fewer than `2 ^ 32` rows, whose field names
have at most 11 bytes, no NUL and no space at either end, whose `N` columns have a decimal
count of 0, and whose cells are formatted to texts not longer than their columns (and, for a
`dbl` cell, to a text that `strtod` converts back to the same double): `write_dbf` succeeds,
and `read_dbf` applied to the file succeeds and returns the same field definitions and, cell
by cell, the rows of `read_back_table`: a `str` as its text up to the first NUL without the
spaces at either end, a negative `sint` and every `uint` and `dbl` with the same number, a
non-negative `sint` as the `uint` of the same number, the raw text of a numeric cell being
the text written. -/
theorem read_dbf_write_dbf (env : libc) (table : dbftable) (hwf : table.wf)
    (hpre : write_preconditions table)
    (hbound : 1 + fields_length table.header.fields ≤ 65535)
    (hfields : table.header.fields.length ≤ 2046)
    (hrows : table.rows.length < 4294967296)
    (hnames : ∀ fd ∈ table.header.fields, name_plain fd.field_name)
    (hdec : ∀ fd ∈ table.header.fields, fd.field_type = [78] → fd.field_decimal_count = 0)
    (hcells : ∀ row ∈ table.rows, ∀ p ∈ table.header.fields.zip row.values,
      cell_fits env p.1 p.2) :
    ∃ file, write_dbf env table = some ⟨true, some file⟩
      ∧ read_dbf env file = some (true, read_back_table env table) :=
  ⟨dbf_file env table,
    write_dbf_accepts env table hwf hpre hbound (fun row hrow p hp =>
      text_fits_of_cell_fits env p.1 p.2 (hwf.1 p.1 (List.of_mem_zip hp).1).1
        (hcells row hrow p hp)),
    read_dbf_dbf_file env table hwf hpre hbound hfields hrows hnames hdec hcells⟩

set_option maxRecDepth 100000 in
/-- Witness of claim C2 (amended): a table with a column of each kind and two rows. -/
theorem read_dbf_write_dbf_witness :
    survey_table.wf ∧ write_preconditions survey_table
      ∧ 1 + fields_length survey_table.header.fields ≤ 65535
      ∧ survey_table.header.fields.length ≤ 2046
      ∧ survey_table.rows.length < 4294967296
      ∧ (∀ fd ∈ survey_table.header.fields, name_plain fd.field_name)
      ∧ (∀ fd ∈ survey_table.header.fields,
          fd.field_type = [78] → fd.field_decimal_count = 0)
      ∧ (∀ row ∈ survey_table.rows, ∀ p ∈ survey_table.header.fields.zip row.values,
          cell_fits zero_libc p.1 p.2)
      ∧ ∃ file, write_dbf zero_libc survey_table = some ⟨true, some file⟩
          ∧ read_dbf zero_libc file = some (true, read_back_table zero_libc survey_table) :=
  ⟨by decide, by decide, by decide, by decide, by decide, by decide, by decide, by decide,
    read_dbf_write_dbf zero_libc survey_table (by decide) (by decide) (by decide) (by decide)
      (by decide) (by decide) (by decide) (by decide)⟩

set_option maxRecDepth 100000 in
theorem survey_table_read_back :
    read_back_table zero_libc survey_table
      = ⟨survey_table.header,
        [⟨[.str (str_bytes "Oslo"), .uint 3 (str_bytes "3"), .sint (-7) (str_bytes "-7"),
            .dbl 0 (str_bytes "0.0e+00")]⟩,
         ⟨[.str (str_bytes "Rio"), .uint 120 (str_bytes "120"), .uint 45 (str_bytes "45"),
            .dbl 0 (str_bytes "0.0e+00")]⟩]⟩ := by
  decide

set_option maxRecDepth 100000 in
/-- Counterexample to claim C2 as stated: five one-cell tables that `write_dbf` accepts and
that `read_dbf` reads back, with success, as a different table. The `sint` 5 comes back as
the `uint` 5. The `str` "abc" in a column of length 2 comes back as "ab". The `uint` 123 in
a column of length 2 comes back as 12. The 12-byte field name "Temperature1" comes back as
"Temperature". The `N` column with a decimal count of 2 comes back as an `F` column and its
`uint` 0 as the `dbl` 0.0. -/
theorem read_dbf_write_dbf_fails :
    (write_dbf zero_libc (one_cell_table ⟨str_bytes "n", str_bytes "N", 5, 0⟩ (.sint 5 []))
        = some ⟨true, some (dbf_file zero_libc
            (one_cell_table ⟨str_bytes "n", str_bytes "N", 5, 0⟩ (.sint 5 [])))⟩
      ∧ read_dbf zero_libc (dbf_file zero_libc
            (one_cell_table ⟨str_bytes "n", str_bytes "N", 5, 0⟩ (.sint 5 [])))
        = some (true, one_cell_table ⟨str_bytes "n", str_bytes "N", 5, 0⟩
            (.uint 5 (str_bytes "5"))))
    ∧ (write_dbf zero_libc
          (one_cell_table ⟨str_bytes "c", str_bytes "C", 2, 0⟩ (.str (str_bytes "abc")))
        = some ⟨true, some (dbf_file zero_libc
            (one_cell_table ⟨str_bytes "c", str_bytes "C", 2, 0⟩ (.str (str_bytes "abc"))))⟩
      ∧ read_dbf zero_libc (dbf_file zero_libc
            (one_cell_table ⟨str_bytes "c", str_bytes "C", 2, 0⟩ (.str (str_bytes "abc"))))
        = some (true, one_cell_table ⟨str_bytes "c", str_bytes "C", 2, 0⟩
            (.str (str_bytes "ab"))))
    ∧ (write_dbf zero_libc (one_cell_table ⟨str_bytes "n", str_bytes "N", 2, 0⟩ (.uint 123 []))
        = some ⟨true, some (dbf_file zero_libc
            (one_cell_table ⟨str_bytes "n", str_bytes "N", 2, 0⟩ (.uint 123 [])))⟩
      ∧ read_dbf zero_libc (dbf_file zero_libc
            (one_cell_table ⟨str_bytes "n", str_bytes "N", 2, 0⟩ (.uint 123 [])))
        = some (true, one_cell_table ⟨str_bytes "n", str_bytes "N", 2, 0⟩
            (.uint 12 (str_bytes "12"))))
    ∧ (write_dbf zero_libc
          (one_cell_table ⟨str_bytes "Temperature1", str_bytes "C", 3, 0⟩ (.str (str_bytes "x")))
        = some ⟨true, some (dbf_file zero_libc (one_cell_table
            ⟨str_bytes "Temperature1", str_bytes "C", 3, 0⟩ (.str (str_bytes "x"))))⟩
      ∧ read_dbf zero_libc (dbf_file zero_libc (one_cell_table
            ⟨str_bytes "Temperature1", str_bytes "C", 3, 0⟩ (.str (str_bytes "x"))))
        = some (true, one_cell_table ⟨str_bytes "Temperature", str_bytes "C", 3, 0⟩
            (.str (str_bytes "x"))))
    ∧ (write_dbf zero_libc (one_cell_table ⟨str_bytes "n", str_bytes "N", 5, 2⟩ (.uint 0 []))
        = some ⟨true, some (dbf_file zero_libc
            (one_cell_table ⟨str_bytes "n", str_bytes "N", 5, 2⟩ (.uint 0 [])))⟩
      ∧ read_dbf zero_libc (dbf_file zero_libc
            (one_cell_table ⟨str_bytes "n", str_bytes "N", 5, 2⟩ (.uint 0 [])))
        = some (true, one_cell_table ⟨str_bytes "n", str_bytes "F", 5, 2⟩
            (.dbl 0 (str_bytes "0")))) :=
  ⟨by decide, by decide, by decide, by decide, by decide⟩

/-! ## The path of the index file -/

theorem regex_replace_scan_match (c : Nat) (tl : List Nat)
    (h : c ≠ 10 ∧ c ≠ 13 ∧ tl.take 3 = [115, 104, 112]) :
    regex_replace_scan 0 (c :: tl) = 46 :: 115 :: 104 :: 120 :: regex_replace_scan 0 (tl.drop 3)
      ∧ c :: tl = c :: 115 :: 104 :: 112 :: tl.drop 3 := by
  have htl : tl = [115, 104, 112] ++ tl.drop 3 := by
    conv_lhs => rw [← List.take_append_drop 3 tl, h.2.2]
  refine ⟨?_, congrArg (List.cons c) htl⟩
  rw [regex_replace_scan, if_pos h]
  conv_lhs => rw [htl]
  rfl

theorem regex_replace_scan_eq_iff (l : List Nat) :
    regex_replace_scan 0 l = l ↔ regex_search l = false := by
  induction l with
  | nil => simp [regex_replace_scan, regex_search]
  | cons c tl ih =>
    by_cases h : c ≠ 10 ∧ c ≠ 13 ∧ tl.take 3 = [115, 104, 112]
    · obtain ⟨e1, e2⟩ := regex_replace_scan_match c tl h
      have hs : regex_search (c :: tl) = true := by
        rw [regex_search, decide_eq_true h]; rfl
      rw [hs, e1]
      constructor
      · intro e
        rw [e2] at e
        simp at e
      · intro e; simp at e
    · have hs : regex_search (c :: tl) = regex_search tl := by
        rw [regex_search, decide_eq_false h]; rfl
      rw [hs, ← ih, regex_replace_scan, if_neg h]
      simp

theorem regex_search_suffix (stem : List Nat) :
    regex_search (stem ++ [46, 115, 104, 112]) = true := by
  induction stem with
  | nil => decide
  | cons c stem ih => rw [List.cons_append, regex_search, ih, Bool.or_true]

theorem regex_replace_shp_suffix_ne (stem : List Nat) :
    regex_replace_shp (stem ++ [46, 115, 104, 112]) ≠ stem ++ [46, 115, 104, 112] := by
  intro h
  have := (regex_replace_scan_eq_iff _).1 h
  rw [regex_search_suffix] at this
  exact absurd this (by decide)

theorem regex_replace_scan_stem (stem : List Nat) (h : regex_search stem = false) :
    regex_replace_scan 0 (stem ++ [46, 115, 104, 112]) = stem ++ [46, 115, 104, 120] := by
  induction stem with
  | nil => rfl
  | cons c stem ih =>
    rw [regex_search, Bool.or_eq_false_iff, decide_eq_false_iff_not] at h
    have hn : ¬ (c ≠ 10 ∧ c ≠ 13 ∧ (stem ++ [46, 115, 104, 112]).take 3 = [115, 104, 112]) := by
      intro hc
      apply h.1
      refine ⟨hc.1, hc.2.1, ?_⟩
      have h3 := hc.2.2
      match stem, h3 with
      | [], h3 => simp at h3
      | [a], h3 => simp at h3
      | [a, b], h3 => simp at h3
      | a :: b :: d :: r, h3 => simpa using h3
    rw [List.cons_append, regex_replace_scan, if_neg hn, ih h.2]
    rfl


theorem determine_shape_type_mixed (shpfile : shapefile) (s t : shape)
    (hs : s ∈ shpfile.shapes) (ht : t ∈ shpfile.shapes)
    (hsn : s.stype ≠ shape_type.null_shape) (htn : t.stype ≠ shape_type.null_shape)
    (hst : s.stype ≠ t.stype) :
    determine_shape_type shpfile = shape_type.null_shape := by
  by_contra hne
  obtain ⟨-, hall⟩ := (dst_loop_null shpfile.shapes _ hne).1 rfl
  exact hst ((hall s hs hsn).trans (hall t ht htn).symm)

/-- Claim C11. For every path that ends in `.shp` and every collection that holds two shapes
of different kinds, neither of them null (a point and a polyline, say), `write_shp` returns
`false`, and both files are opened and left empty: no header and no record is written to
the `.shp` or to the `.shx`. -/
theorem write_shp_mixed_kinds (stem : List Nat) (shpfile : shapefile) (s t : shape)
    (hs : s ∈ shpfile.shapes) (ht : t ∈ shpfile.shapes)
    (hsn : s.stype ≠ shape_type.null_shape) (htn : t.stype ≠ shape_type.null_shape)
    (hst : s.stype ≠ t.stype) :
    write_shp (stem ++ str_bytes ".shp") shpfile
      = some ⟨false, regex_replace_shp (stem ++ str_bytes ".shp"), some [], some []⟩ := by
  have hk := determine_shape_type_mixed shpfile s t hs ht hsn htn hst
  have hp : regex_replace_shp (stem ++ str_bytes ".shp") ≠ stem ++ str_bytes ".shp" :=
    regex_replace_shp_suffix_ne stem
  unfold write_shp
  simp only [if_neg hp, hk]

set_option maxRecDepth 100000 in
/-- Witness of claim C11: a point and a polyline, written to `p.shp`. -/
theorem write_shp_mixed_kinds_witness :
    shape.point ⟨0, 0⟩ ∈ point_and_polyline.shapes
      ∧ shape.polyline [⟨[⟨0, 0⟩, ⟨0x3ff0000000000000, 0x3ff0000000000000⟩]⟩]
          ∈ point_and_polyline.shapes
      ∧ write_shp (str_bytes "p" ++ str_bytes ".shp") point_and_polyline
          = some ⟨false, regex_replace_shp (str_bytes "p" ++ str_bytes ".shp"), some [], some []⟩
      ∧ regex_replace_shp (str_bytes "p" ++ str_bytes ".shp") = str_bytes "p.shx" :=
  ⟨by decide, by decide,
    write_shp_mixed_kinds (str_bytes "p") point_and_polyline (shape.point ⟨0, 0⟩)
      (shape.polyline [⟨[⟨0, 0⟩, ⟨0x3ff0000000000000, 0x3ff0000000000000⟩]⟩])
      (by decide) (by decide) (by decide) (by decide) (by decide),
    by decide⟩

set_option maxRecDepth 100000 in
/-- Claim C12 at a path where it fails. `regex_replace` replaces every match of the
pattern `.shp`, whose dot stands for any character: for the path `ashp.shp` the index file
is `.shx.shx`, not `ashp.shx`, and for `a.shp.shp` it is `a.shx.shx`. For a path
`stem.shp` whose stem has no match of the pattern, the index file is `stem.shx`. -/
theorem shx_path_replaces_every_match :
    (write_shp (str_bytes "ashp.shp") single_point).map (fun r => (r.status, r.shxpath))
        = some (true, str_bytes ".shx.shx")
      ∧ regex_replace_shp (str_bytes "a.shp.shp") = str_bytes "a.shx.shx"
      ∧ ∀ stem, regex_search stem = false →
          regex_replace_shp (stem ++ str_bytes ".shp") = stem ++ str_bytes ".shx" :=
  ⟨by decide, by decide, fun stem h => regex_replace_scan_stem stem h⟩

set_option maxRecDepth 100000 in
/-- Claim C13 at a path where it fails. The path `a.shp.bak` does not end in `.shp`, and
`write_shp` succeeds on it: it creates and writes `a.shp.bak` (128 bytes for one point) and
the index file `a.shx.bak` (108 bytes). `write_shp` returns `false` without opening a file
exactly for the paths in which no character other than a line terminator is followed by
`shp`. -/
theorem write_shp_accepts_inner_match :
    (write_shp (str_bytes "a.shp.bak") single_point).map
        (fun r => (r.status, r.shxpath, r.shp.map List.length, r.shx.map List.length))
        = some (true, str_bytes "a.shx.bak", some 128, some 108)
      ∧ (∀ path shpfile, regex_search path = false →
          write_shp path shpfile = some ⟨false, path, none, none⟩)
      ∧ ∀ path shpfile r, regex_search path = true → write_shp path shpfile = some r →
          r.shp ≠ none ∧ r.shx ≠ none := by
  refine ⟨by decide, ?_, ?_⟩
  · intro path shpfile h
    have hp : regex_replace_shp path = path := (regex_replace_scan_eq_iff path).2 h
    unfold write_shp
    simp only [hp, if_true]
  · intro path shpfile r h hr
    have hp : regex_replace_shp path ≠ path := by
      intro e
      have := (regex_replace_scan_eq_iff path).1 e
      rw [h] at this
      exact absurd this (by decide)
    unfold write_shp at hr
    simp only [if_neg hp] at hr
    split at hr
    · simp only [Option.some.injEq] at hr
      subst hr
      exact ⟨by simp, by simp⟩
    · simp at hr

/-! ## Decoding numeric cells -/

theorem dropWhile_space_replicate (k : Nat) (t : List Nat) :
    (List.replicate k 32 ++ t).dropWhile (fun c => decide (c = 32))
      = t.dropWhile (fun c => decide (c = 32)) := by
  induction k with
  | zero => rfl
  | succ k ih => simp [List.replicate_succ, ih]

theorem dropWhile_space_none (t : List Nat) (h : 32 ∉ t) :
    t.dropWhile (fun c => decide (c = 32)) = t := by
  cases t with
  | nil => rfl
  | cons a t =>
    have : a ≠ 32 := fun e => h (e ▸ List.mem_cons_self _ _)
    simp [List.dropWhile_cons, this]

theorem trim_padded (a b : Nat) (t : List Nat) (h : 32 ∉ t) :
    trim_leading_and_trailing_whitespace (List.replicate a 32 ++ t ++ List.replicate b 32)
      = t := by
  unfold trim_leading_and_trailing_whitespace
  rw [List.append_assoc, dropWhile_space_replicate]
  cases t with
  | nil =>
    have := dropWhile_space_replicate b []
    simp only [List.append_nil, List.dropWhile_nil] at this
    simp only [List.nil_append, this, List.reverse_nil, List.dropWhile_nil]
  | cons x t =>
    have hx : x ≠ 32 := fun e => h (e ▸ List.mem_cons_self _ _)
    have e1 : (x :: t ++ List.replicate b 32).dropWhile (fun c => decide (c = 32))
        = x :: t ++ List.replicate b 32 := by
      simp [List.dropWhile_cons, hx]
    rw [e1, List.reverse_append, List.reverse_replicate, dropWhile_space_replicate,
      dropWhile_space_none _ (by rw [List.mem_reverse]; exact h), List.reverse_reverse]

theorem read_vbuf_padded (a b : Nat) (t : List Nat) (h0 : 0 ∉ t) (h32 : 32 ∉ t) :
    trim_leading_and_trailing_whitespace
        (c_str (List.replicate a 32 ++ t ++ List.replicate b 32 ++ [0])) = t := by
  rw [c_str_append_nul _ _ (by
    intro h
    simp only [List.mem_append, List.mem_replicate] at h
    rcases h with (h | h) | h
    · omega
    · exact h0 h
    · omega), trim_padded a b t h32]

theorem parse_int32_minus (n : Nat) (h : n ≤ 2147483648) :
    parse_int32 (45 :: sprintf_u n) = (true, -(n : Int)) := by
  have hs : strto_subject (45 :: sprintf_u n) = some (true, n, (45 :: sprintf_u n).length) := by
    by_cases hn : n = 0
    · subst hn; rfl
    · exact strto_subject_minus_sprintf_u n (by omega)
  unfold parse_int32 strtol
  rw [hs]
  dsimp only
  rw [if_pos rfl, if_neg (by omega)]
  simp only [List.length_cons, Nat.add_one_ne_zero, decide_False, ne_eq, not_true_eq_false,
    Bool.or_self, Bool.not_false, to_int32_of_range (-(n : Int)) (by omega) (by omega)]

set_option maxRecDepth 100000 in
/-- Claim C14, amended. In an `N` column, a cell that holds, between spaces, the decimal
digits of a number `n` without leading zeros is decoded as `uint n` when `n < 2 ^ 32`, and one
that holds `-` followed by those digits as `sint (-n)` when `n ≤ 2 ^ 31`; the text kept in
`value` is the cell without the spaces. In particular the cells `-42`, `42` and ` 42 ` of
an active record are read by `read_dbf` as `sint (-42)` with text `-42` and `uint 42` with
text `42`. -/
theorem read_numeric_cell (env : libc) (fd : dbffield_def) (a b n : Nat)
    (hN : fd.field_type = [78]) :
    (n ≤ 2147483648 →
      read_cell env fd (trim_leading_and_trailing_whitespace
        (c_str (List.replicate a 32 ++ (45 :: sprintf_u n) ++ List.replicate b 32 ++ [0])))
        = some (.sint (-(n : Int)) (45 :: sprintf_u n)))
    ∧ (n < 4294967296 →
      read_cell env fd (trim_leading_and_trailing_whitespace
        (c_str (List.replicate a 32 ++ sprintf_u n ++ List.replicate b 32 ++ [0])))
        = some (.uint n (sprintf_u n)))
    ∧ sprintf_u 42 = str_bytes "42"
    ∧ read_dbf zero_libc numeric_cells_file
        = some (true, ⟨⟨[⟨str_bytes "n", str_bytes "N", 4, 0⟩]⟩,
            [⟨[.sint (-42) (str_bytes "-42")]⟩, ⟨[.uint 42 (str_bytes "42")]⟩,
              ⟨[.uint 42 (str_bytes "42")]⟩]⟩) := by
  have hu := sprintf_u_chars n
  have h0 : 0 ∉ sprintf_u n := fun h => by have := hu 0 h; omega
  have h32 : 32 ∉ sprintf_u n := fun h => by have := hu 32 h; omega
  have h45 : 45 ∉ sprintf_u n := fun h => by have := hu 45 h; omega
  refine ⟨?_, ?_, by decide, by decide⟩
  · intro hn
    rw [read_vbuf_padded a b (45 :: sprintf_u n)
      (fun h => by rcases List.mem_cons.mp h with h | h
                   · omega
                   · exact h0 h)
      (fun h => by rcases List.mem_cons.mp h with h | h
                   · omega
                   · exact h32 h)]
    unfold read_cell
    rw [if_pos hN, if_pos (List.mem_cons_self _ _)]
    dsimp only
    rw [parse_int32_minus n hn]
    rfl
  · intro hn
    rw [read_vbuf_padded a b (sprintf_u n) h0 h32]
    unfold read_cell
    rw [if_pos hN, if_neg h45]
    dsimp only
    rw [parse_uint32_sprintf_u n hn]
    rfl

set_option maxRecDepth 100000 in
/-- Witness of claim C14 (amended): the cell ` 42 ` of a column of length 4. -/
theorem read_numeric_cell_witness :
    (⟨str_bytes "n", str_bytes "N", 4, 0⟩ : dbffield_def).field_type = [78]
      ∧ read_cell zero_libc ⟨str_bytes "n", str_bytes "N", 4, 0⟩
          (trim_leading_and_trailing_whitespace
            (c_str (List.replicate 1 32 ++ sprintf_u 42 ++ List.replicate 1 32 ++ [0])))
        = some (.uint 42 (sprintf_u 42)) :=
  ⟨by decide,
    (read_numeric_cell zero_libc ⟨str_bytes "n", str_bytes "N", 4, 0⟩ 1 1 42 (by decide)).2.1
      (by decide)⟩

set_option maxRecDepth 100000 in
/-- Counterexample to claim C14 as stated: three cells of an `N` column of length 11 that
hold decimal digits. `strtoul` with base 0 reads `042` as an octal number, 34. The number
4294967296 fits the 64-bit `unsigned long` and is cut to 32 bits: the cell is decoded, with
success, as `uint 0`. In the same way `-2147483649` is decoded as `sint 2147483647`. -/
theorem read_numeric_cell_fails :
    read_dbf zero_libc wide_numeric_cells_file
      = some (true, ⟨⟨[⟨str_bytes "n", str_bytes "N", 11, 0⟩]⟩,
          [⟨[.uint 34 (str_bytes "042")]⟩, ⟨[.uint 0 (str_bytes "4294967296")]⟩,
            ⟨[.sint 2147483647 (str_bytes "-2147483649")]⟩]⟩) := by
  decide

/-! ## Deleted records -/

theorem read_rows_loop_records (env : libc) (read_size : Nat) (fields : List dbffield_def)
    (hrs : 0 < read_size) (rest : List Nat) :
    ∀ (records : List (List Nat)),
      (∀ record ∈ records, record.length = read_size) →
      (∀ record ∈ records, record_active record = true →
        (decode_record env read_size fields record).isSome) →
      ∃ rows, read_rows_loop env read_size fields records.length (records.flatten ++ rest)
          = some (true, rows)
        ∧ rows.map some
            = (records.filter record_active).map (decode_record env read_size fields) := by
  intro records
  induction records with
  | nil => intro _ _; exact ⟨[], rfl, rfl⟩
  | cons record records ih =>
    intro hlen hdec
    obtain ⟨rows, hrows, hmap⟩ := ih (fun r hr => hlen r (List.mem_cons_of_mem _ hr))
      (fun r hr => hdec r (List.mem_cons_of_mem _ hr))
    have hl := hlen record (List.mem_cons_self _ _)
    simp only [List.flatten_cons, List.length_cons, List.append_assoc]
    unfold read_rows_loop
    rw [if_neg (by omega), fread_append _ _ _ hl]
    dsimp only
    by_cases ha : record.getD 0 0 = 0x20
    · have hact : record_active record = true := by
        unfold record_active; exact decide_eq_true ha
      have hsome := hdec record (List.mem_cons_self _ _) hact
      rw [if_neg (by simpa using ha)]
      unfold decode_record at hsome
      cases hr : read_row_fields env read_size record fields 1 with
      | none => rw [hr] at hsome; simp at hsome
      | some o =>
        cases o with
        | none => rw [hr] at hsome; simp at hsome
        | some values =>
          dsimp only
          rw [hrows]
          refine ⟨⟨values⟩ :: rows, rfl, ?_⟩
          rw [List.filter_cons_of_pos hact, List.map_cons, List.map_cons, hmap]
          congr 1
          unfold decode_record
          rw [hr]
    · have hact : record_active record = false := by
        unfold record_active; exact decide_eq_false ha
      rw [if_pos (by simpa using ha), hrows]
      refine ⟨rows, rfl, ?_⟩
      rw [List.filter_cons_of_neg (by simp [hact]), hmap]


theorem filter_length_add (records : List (List Nat)) :
    (records.filter record_active).length
      + (records.filter (fun r => !record_active r)).length = records.length := by
  induction records with
  | nil => rfl
  | cons r rs ih =>
    cases h : record_active r
    · rw [List.filter_cons_of_neg (by simp [h]), List.filter_cons_of_pos (by simp [h])]
      simp only [List.length_cons]; omega
    · rw [List.filter_cons_of_pos (by simp [h]), List.filter_cons_of_neg (by simp [h])]
      simp only [List.length_cons]; omega

theorem read_field_descriptors_loop_any (rest : List Nat) :
    ∀ (descriptors : List (List Nat)), (∀ d ∈ descriptors, d.length = 32) →
      read_field_descriptors_loop descriptors.length (descriptors.flatten ++ rest)
        = (true, descriptors.map read_fielddesc, rest) := by
  intro descriptors
  induction descriptors with
  | nil => intro _; rfl
  | cons d ds ih =>
    intro h
    simp only [List.flatten_cons, List.length_cons, List.append_assoc, List.map_cons]
    unfold read_field_descriptors_loop
    rw [fread_append _ _ 32 (h d (List.mem_cons_self _ _))]
    dsimp only
    rw [ih (fun x hx => h x (List.mem_cons_of_mem _ hx))]

theorem read_field_descriptors_any (descriptors : List (List Nat)) (rest : List Nat)
    (raw : dBASE_header) (hraw : raw.header_bytes = 33 + 32 * descriptors.length)
    (hn : descriptors.length ≤ 2046) (h : ∀ d ∈ descriptors, d.length = 32) :
    read_field_descriptors raw (descriptors.flatten ++ ([0x0d] ++ rest))
      = (true, descriptors.map read_fielddesc, rest) := by
  unfold read_field_descriptors
  dsimp only
  rw [hraw, number_fields_eq _ hn, read_field_descriptors_loop_any _ descriptors h]
  dsimp only
  rw [fread_append [0x0d] rest 1 rfl]
  rfl

/-- Claim C15. A table file is laid out as a header, one 32-byte descriptor for each field,
the terminator 0x0D and `table_records` records of `record_bytes` bytes each (and whatever
follows them). When every record whose status byte is 0x20 decodes, `read_dbf` succeeds and
returns exactly the rows decoded from those records, in file order; every record with
another status byte is skipped. The number of rows and the number of skipped records add up
to the number of records. -/
theorem read_dbf_skips_deleted (env : libc) (hd : dBASE_header)
    (descriptors records : List (List Nat)) (tail : List Nat)
    (hdesc : ∀ d ∈ descriptors, d.length = 32)
    (hhb : hd.header_bytes = 33 + 32 * descriptors.length) (hhb' : hd.header_bytes < 65536)
    (hrb : 0 < hd.record_bytes) (hrb' : hd.record_bytes < 65536)
    (htr : hd.table_records = records.length) (htr' : hd.table_records < 4294967296)
    (hlen : ∀ record ∈ records, record.length = hd.record_bytes)
    (hdec : ∀ record ∈ records, record_active record = true →
      (decode_record env hd.record_bytes (descriptors.map read_fielddesc) record).isSome) :
    ∃ rows, read_dbf env (write_header hd ++ descriptors.flatten ++ [0x0d]
          ++ records.flatten ++ tail)
        = some (true, ⟨⟨descriptors.map read_fielddesc⟩, rows⟩)
      ∧ rows.map some = (records.filter record_active).map
          (decode_record env hd.record_bytes (descriptors.map read_fielddesc))
      ∧ rows.length + (records.filter (fun r => !record_active r)).length
          = records.length := by
  obtain ⟨rows, hrows, hmap⟩ := read_rows_loop_records env hd.record_bytes
    (descriptors.map read_fielddesc) hrb tail records hlen hdec
  refine ⟨rows, ?_, hmap, ?_⟩
  · simp only [List.append_assoc]
    rw [read_dbf_header]
    dsimp only
    rw [Nat.mod_eq_of_lt hhb', Nat.mod_eq_of_lt hrb', Nat.mod_eq_of_lt htr',
      read_field_descriptors_any descriptors _
        ⟨(write_header hd).getD 0 0, ((write_header hd).getD 1 0, (write_header hd).getD 2 0,
          (write_header hd).getD 3 0), hd.table_records, hd.header_bytes, hd.record_bytes⟩
        hhb (by omega) hdesc]
    dsimp only
    rw [htr, hrows]
    rfl
  · have h1 : rows.length = (records.filter record_active).length := by
      have := congrArg List.length hmap
      simpa using this
    rw [h1]
    exact filter_length_add records

set_option maxRecDepth 100000 in
/-- Witness of claim C15: three records, the second one deleted, give two rows. -/
theorem read_dbf_skips_deleted_witness :
    ∃ rows, read_dbf zero_libc (write_header ⟨3, (122, 1, 1), 3, 65, 5⟩
          ++ [write_fielddesc zero_libc 0 ⟨str_bytes "n", str_bytes "N", 4, 0⟩].flatten
          ++ [0x0d] ++ deleted_second_records.flatten ++ [0x1a])
        = some (true, ⟨⟨[write_fielddesc zero_libc 0
              ⟨str_bytes "n", str_bytes "N", 4, 0⟩].map read_fielddesc⟩, rows⟩)
      ∧ rows.map some = (deleted_second_records.filter record_active).map
          (decode_record zero_libc 5
            ([write_fielddesc zero_libc 0 ⟨str_bytes "n", str_bytes "N", 4, 0⟩].map
              read_fielddesc))
      ∧ rows.length + (deleted_second_records.filter (fun r => !record_active r)).length
          = deleted_second_records.length :=
  read_dbf_skips_deleted zero_libc ⟨3, (122, 1, 1), 3, 65, 5⟩
    [write_fielddesc zero_libc 0 ⟨str_bytes "n", str_bytes "N", 4, 0⟩]
    deleted_second_records [0x1a]
    (by decide) (by decide) (by decide) (by decide) (by decide) (by decide) (by decide)
    (by decide) (by decide)

set_option maxRecDepth 100000 in
theorem deleted_second_record_rows :
    read_dbf zero_libc (write_header ⟨3, (122, 1, 1), 3, 65, 5⟩
          ++ [write_fielddesc zero_libc 0 ⟨str_bytes "n", str_bytes "N", 4, 0⟩].flatten
          ++ [0x0d] ++ deleted_second_records.flatten ++ [0x1a])
        = some (true, ⟨⟨[⟨str_bytes "n", str_bytes "N", 4, 0⟩]⟩,
            [⟨[.sint (-42) (str_bytes "-42")]⟩, ⟨[.uint 42 (str_bytes "42")]⟩]⟩)
      ∧ deleted_second_records.length = 3 := by
  decide

/-! ## Null records, header checks and the size of the sample table -/

set_option maxRecDepth 100000 in
/-- Claim C16 at a file where it fails. In a point file, a null shape record in its standard
form (content length 2) makes `read_shp` return `false` with only the points before it:
`read_point_shapes` compares the content length with 10 before it looks at the type code. The
same record is skipped in a multipoint, a polyline and a polygon file, and in a point file
when it is padded to the content length 10. -/
theorem read_shp_null_record_in_point_file :
    (null_middle_file shape_type.point
        (shape.point ⟨0x3ff0000000000000, 0x4000000000000000⟩)
        (shape.point ⟨0x4008000000000000, 0x4010000000000000⟩)).map read_shp
      = some (some (false, ⟨[shape.point ⟨0x3ff0000000000000, 0x4000000000000000⟩]⟩))
    ∧ read_shp padded_null_file
      = some (true, ⟨[shape.point ⟨0x3ff0000000000000, 0x4000000000000000⟩,
          shape.point ⟨0x4008000000000000, 0x4010000000000000⟩]⟩)
    ∧ (null_middle_file shape_type.multipoint
        (shape.multipoint [⟨0x3ff0000000000000, 0x4000000000000000⟩])
        (shape.multipoint [⟨0x4008000000000000, 0x4010000000000000⟩])).map read_shp
      = some (some (true, ⟨[shape.multipoint [⟨0x3ff0000000000000, 0x4000000000000000⟩],
          shape.multipoint [⟨0x4008000000000000, 0x4010000000000000⟩]]⟩))
    ∧ (null_middle_file shape_type.polyline
        (shape.polyline [⟨[⟨0, 0⟩, ⟨0x3ff0000000000000, 0x4000000000000000⟩]⟩])
        (shape.polyline [⟨[⟨0, 0⟩, ⟨0x4008000000000000, 0x4010000000000000⟩]⟩])).map read_shp
      = some (some (true,
          ⟨[shape.polyline [⟨[⟨0, 0⟩, ⟨0x3ff0000000000000, 0x4000000000000000⟩]⟩],
            shape.polyline [⟨[⟨0, 0⟩, ⟨0x4008000000000000, 0x4010000000000000⟩]⟩]]⟩))
    ∧ (null_middle_file shape_type.polygon
        (shape.polygon [⟨[⟨0, 0⟩, ⟨0x3ff0000000000000, 0x4000000000000000⟩, ⟨0, 0⟩]⟩])
        (shape.polygon [⟨[⟨0, 0⟩, ⟨0x4008000000000000, 0x4010000000000000⟩, ⟨0, 0⟩]⟩])).map
          read_shp
      = some (some (true,
          ⟨[shape.polygon [⟨[⟨0, 0⟩, ⟨0x3ff0000000000000, 0x4000000000000000⟩, ⟨0, 0⟩]⟩],
            shape.polygon [⟨[⟨0, 0⟩, ⟨0x4008000000000000, 0x4010000000000000⟩, ⟨0, 0⟩]⟩]]⟩)) :=
  ⟨by decide, by decide, by decide, by decide, by decide⟩

theorem read_main_header_fields (file : List Nat) (hb : shapefile_main_header_base)
    (bb : shapefile_main_header_boundingbox) (fp : List Nat)
    (h : read_main_header file = some (hb, bb, fp)) :
    stored_file_code file = SHAPEFILE_FILE_CODE ∧ stored_version file = SHAPEFILE_VERSION
      ∧ hb.shape_type = stored_shape_type file := by
  unfold read_main_header at h
  unfold fread at h
  by_cases h36 : 36 ≤ file.length
  · rw [if_pos h36] at h
    dsimp only at h
    by_cases h64 : 64 ≤ (file.drop 36).length
    · rw [if_pos h64] at h
      dsimp only at h
      have e1 : (file.take 36).take 4 = file.take 4 := by
        rw [List.take_take]; rfl
      have e2 : ((file.take 36).drop 28).take 4 = (file.drop 28).take 4 := by
        rw [List.drop_take, List.take_take]; rfl
      have e3 : ((file.take 36).drop 32).take 4 = (file.drop 32).take 4 := by
        rw [List.drop_take, List.take_take]; rfl
      rw [e1, e2, e3] at h
      by_cases hc : int32_of_BE (file.take 4) ≠ SHAPEFILE_FILE_CODE
      · rw [if_pos hc] at h; simp at h
      · rw [if_neg hc] at h
        by_cases hv : int32_of_LE ((file.drop 28).take 4) ≠ SHAPEFILE_VERSION
        · rw [if_pos hv] at h; simp at h
        · rw [if_neg hv] at h
          simp only [Option.some.injEq, Prod.mk.injEq] at h
          refine ⟨not_not.mp hc, not_not.mp hv, ?_⟩
          rw [← h.1]
          rfl
    · rw [if_neg h64] at h; simp at h
  · rw [if_neg h36] at h; simp at h

/-- Claim C17. `read_shp` returns `false`, and the collection stays empty, for every file
whose main header holds a file code (big-endian) other than 9994, or a version
(little-endian) other than 1000, or a shape type other than 1, 3, 5 and 8 (point, polyline,
polygon, multipoint): so for the null shape and for the Z and M kinds. -/
theorem read_shp_rejects_header (file : List Nat)
    (h : stored_file_code file ≠ 9994 ∨ stored_version file ≠ 1000
      ∨ (stored_shape_type file ≠ 1 ∧ stored_shape_type file ≠ 3
          ∧ stored_shape_type file ≠ 5 ∧ stored_shape_type file ≠ 8)) :
    read_shp file = some (false, ⟨[]⟩) := by
  unfold read_shp
  cases hr : read_main_header file with
  | none => rfl
  | some p =>
    obtain ⟨hb, bb, fp⟩ := p
    obtain ⟨e1, e2, e3⟩ := read_main_header_fields file hb bb fp hr
    rcases h with h | h | h
    · exact absurd e1 h
    · exact absurd e2 h
    · dsimp only
      rw [e3]
      rw [if_neg (by exact h.1), if_neg (by exact h.2.1), if_neg (by exact h.2.2.1),
        if_neg (by exact h.2.2.2)]

set_option maxRecDepth 100000 in
/-- Witness of claim C17: a header with the shape type 11 (PointZ). -/
theorem read_shp_rejects_header_witness :
    (stored_file_code (write_main_header ⟨9994, 50, 1000, shape_type.pointz.code⟩ zero_bb)
          ≠ 9994
        ∨ stored_version (write_main_header ⟨9994, 50, 1000, shape_type.pointz.code⟩ zero_bb)
          ≠ 1000
        ∨ (stored_shape_type (write_main_header ⟨9994, 50, 1000, shape_type.pointz.code⟩ zero_bb)
            ≠ 1
          ∧ stored_shape_type (write_main_header ⟨9994, 50, 1000, shape_type.pointz.code⟩
              zero_bb) ≠ 3
          ∧ stored_shape_type (write_main_header ⟨9994, 50, 1000, shape_type.pointz.code⟩
              zero_bb) ≠ 5
          ∧ stored_shape_type (write_main_header ⟨9994, 50, 1000, shape_type.pointz.code⟩
              zero_bb) ≠ 8))
      ∧ read_shp (write_main_header ⟨9994, 50, 1000, shape_type.pointz.code⟩ zero_bb)
          = some (false, ⟨[]⟩) :=
  ⟨by decide,
    read_shp_rejects_header (write_main_header ⟨9994, 50, 1000, shape_type.pointz.code⟩ zero_bb)
      (by decide)⟩

set_option maxRecDepth 100000 in
theorem read_shp_bad_magic_and_version :
    read_shp (write_main_header ⟨9995, 50, 1000, shape_type.point.code⟩ zero_bb)
        = some (false, ⟨[]⟩)
      ∧ read_shp (write_main_header ⟨9994, 50, 999, shape_type.point.code⟩ zero_bb)
        = some (false, ⟨[]⟩)
      ∧ read_shp (write_main_header ⟨9994, 50, 1000, shape_type.null_shape.code⟩ zero_bb)
        = some (false, ⟨[]⟩) := by
  decide

/-- Claim C18, amended. Writing the seven-city table of the sample program produces a file
of exactly 1135 bytes, `32 + 4 * 32 + 1 + 7 * (1 + 50 + 50 + 19 + 19) + 1`, whatever
`sprintf` prints for a double within 511 characters. -/
theorem seven_city_file_size (env : libc)
    (henv : ∀ prec d, (env.sprintf_e prec d).length ≤ 511) :
    ∃ file, write_dbf env world_cities_dbf = some ⟨true, some file⟩ ∧ file.length = 1135
      ∧ 32 + 4 * 32 + 1 + 7 * (1 + 50 + 50 + 19 + 19) + 1 = 1135 := by
  have h := world_cities_accepted env henv
  have hL : ∀ fd ∈ world_cities_dbf.header.fields, fd.field_length ≤ 512 := by decide
  refine ⟨_, h, ?_, by decide⟩
  rw [dbf_file_length env world_cities_dbf _ hL h]
  decide

/-- Witness of claim C18 (amended), in the environment that prints `0.0e+00`. -/
theorem seven_city_file_size_witness :
    (∀ prec d, (null_libc.sprintf_e prec d).length ≤ 511)
      ∧ ∃ file, write_dbf null_libc world_cities_dbf = some ⟨true, some file⟩
          ∧ file.length = 1135
          ∧ 32 + 4 * 32 + 1 + 7 * (1 + 50 + 50 + 19 + 19) + 1 = 1135 :=
  ⟨null_libc_short, seven_city_file_size null_libc null_libc_short⟩

/-- Counterexample to claim C18 as stated: the file written for the seven-city table has
1135 bytes, not 1168. -/
theorem seven_city_file_size_fails :
    ∃ file, write_dbf null_libc world_cities_dbf = some ⟨true, some file⟩
      ∧ file.length = 1135 ∧ file.length ≠ 1168 := by
  have h := world_cities_accepted null_libc null_libc_short
  have hL : ∀ fd ∈ world_cities_dbf.header.fields, fd.field_length ≤ 512 := by decide
  have hl : (dbf_file null_libc world_cities_dbf).length = 1135 := by
    rw [dbf_file_length null_libc world_cities_dbf _ hL h]
    decide
  exact ⟨_, h, hl, by rw [hl]; decide⟩

/-! ## The bytes of a cell in the file -/

theorem cell_bytes_length_of_format (env : libc) (fd : dbffield_def) (v : dbffield_value)
    (hL : fd.field_length ≤ 512) (h : ∃ b, format_cell env fd v = some (some b)) :
    (cell_bytes env fd v).length = fd.field_length := by
  obtain ⟨b, hb⟩ := h
  unfold cell_bytes
  rw [hb]
  dsimp only
  rw [List.length_take, format_cell_length env fd v b hb]
  omega

theorem cells_length_of_format (env : libc) (fields : List dbffield_def) :
    ∀ (values : List dbffield_value), values.length = fields.length →
      (∀ fd ∈ fields, fd.field_length ≤ 512) →
      (∀ p ∈ fields.zip values, ∃ b, format_cell env p.1 p.2 = some (some b)) →
      ((fields.zip values).flatMap (fun p => cell_bytes env p.1 p.2)).length
        = fields_length fields := by
  induction fields with
  | nil => intro values _ _ _; rfl
  | cons fd fs ih =>
    intro values hlen hL hcells
    cases values with
    | nil => simp at hlen
    | cons v vs =>
      simp only [List.zip_cons_cons, List.flatMap_cons, List.length_append,
        fields_length_cons,
        cell_bytes_length_of_format env fd v (hL fd (List.mem_cons_self _ _))
          (hcells (fd, v) (by simp))]
      rw [ih vs (by simpa using hlen) (fun x hx => hL x (List.mem_cons_of_mem _ hx))
        (fun p hp => hcells p (by
          simp only [List.zip_cons_cons]; exact List.mem_cons_of_mem _ hp))]

theorem records_length_of_format (env : libc) (fields : List dbffield_def)
    (hL : ∀ fd ∈ fields, fd.field_length ≤ 512) :
    ∀ (rows : List dbfrow),
      (∀ row ∈ rows, row.values.length = fields.length
        ∧ ∀ p ∈ fields.zip row.values, ∃ b, format_cell env p.1 p.2 = some (some b)) →
      (rows.flatMap (row_record env fields)).length = rows.length * (1 + fields_length fields) := by
  intro rows
  induction rows with
  | nil => intro _; simp
  | cons row rows ih =>
    intro h
    have hrow := h row (List.mem_cons_self _ _)
    simp only [List.flatMap_cons, List.length_append, List.length_cons,
      ih (fun r hr => h r (List.mem_cons_of_mem _ hr))]
    unfold row_record
    rw [List.length_cons, cells_length_of_format env fields row.values hrow.1 hL hrow.2]
    ring

/-- The bytes of a cell in a written table: at its offset, the file holds the first
`field_length` bytes of the text formatted for the cell. -/
theorem stored_cell (env : libc) (table : dbftable) (file : List Nat)
    (hwf : table.wf) (h : write_dbf env table = some ⟨true, some file⟩)
    (fs1 fs2 : List dbffield_def) (fd : dbffield_def) (rs1 rs2 : List dbfrow) (row : dbfrow)
    (vs1 vs2 : List dbffield_value) (v : dbffield_value)
    (hf : table.header.fields = fs1 ++ fd :: fs2) (hr : table.rows = rs1 ++ row :: rs2)
    (hv : row.values = vs1 ++ v :: vs2) (hl : vs1.length = fs1.length) :
    (file.drop (cell_offset table.header.fields fs1 rs1.length)).take fd.field_length
      = cell_bytes env fd v := by
  have hL := wf_field_length_le table hwf
  obtain ⟨-, -, hvalid, hbound, hrows, rfl⟩ := (write_dbf_success env table file hL).1 h
  have hdl := ((write_field_descriptors_loop_ok env table.header.fields 0).2
    (((write_field_descriptors_loop_ok env table.header.fields 0).1).2 hvalid))
  have hrs1 : ∀ r ∈ rs1, r.values.length = table.header.fields.length
      ∧ ∀ p ∈ table.header.fields.zip r.values, ∃ b, format_cell env p.1 p.2 = some (some b) :=
    fun r hr' => hrows r (by rw [hr]; exact List.mem_append_left _ hr')
  have hrow := hrows row (by rw [hr]; simp)
  have hlen1 := records_length_of_format env table.header.fields hL rs1 hrs1
  have hzip : table.header.fields.zip row.values
      = fs1.zip vs1 ++ (fd, v) :: fs2.zip vs2 := by
    rw [hf, hv, List.zip_append hl.symm, List.zip_cons_cons]
  have hcells1 : ((fs1.zip vs1).flatMap (fun p => cell_bytes env p.1 p.2)).length
      = fields_length fs1 :=
    cells_length_of_format env fs1 vs1 hl
      (fun x hx => hL x (by rw [hf]; exact List.mem_append_left _ hx))
      (fun p hp => hrow.2 p (by rw [hzip]; exact List.mem_append_left _ hp))
  have hcell : (cell_bytes env fd v).length = fd.field_length :=
    cell_bytes_length_of_format env fd v (hL fd (by rw [hf]; simp))
      (hrow.2 (fd, v) (by rw [hzip]; simp))
  have e : dbf_file env table
      = (write_header (make_header env table)
          ++ (write_field_descriptors_loop env 0 table.header.fields).2 ++ [0x0d]
          ++ rs1.flatMap (row_record env table.header.fields)
          ++ [32] ++ (fs1.zip vs1).flatMap (fun p => cell_bytes env p.1 p.2))
        ++ (cell_bytes env fd v
          ++ ((fs2.zip vs2).flatMap (fun p => cell_bytes env p.1 p.2)
            ++ rs2.flatMap (row_record env table.header.fields) ++ [0x1a])) := by
    unfold dbf_file
    rw [hr, List.flatMap_append, List.flatMap_cons]
    conv_lhs => rw [show row_record env table.header.fields row
      = [32] ++ (table.header.fields.zip row.values).flatMap
          (fun p => cell_bytes env p.1 p.2) from rfl]
    rw [hzip, List.flatMap_append, List.flatMap_cons]
    simp only [List.append_assoc]
  rw [e, List.drop_left' (by
    simp only [List.length_append, write_header_length, hdl, List.length_singleton, hlen1,
      hcells1, cell_offset]), List.take_left' hcell]

theorem format_cell_compatible (env : libc) (table : dbftable) (file : List Nat)
    (hwf : table.wf) (h : write_dbf env table = some ⟨true, some file⟩)
    (row : dbfrow) (hrow : row ∈ table.rows) (p : dbffield_def × dbffield_value)
    (hp : p ∈ table.header.fields.zip row.values) :
    cell_compatible p.1 p.2 ∧ text_fits env p.1 p.2 := by
  have hL := wf_field_length_le table hwf
  obtain ⟨-, -, hvalid, -, hrows, -⟩ := (write_dbf_success env table file hL).1 h
  have hfd := (List.of_mem_zip hp).1
  exact (format_ok_iff env p.1 p.2 (hvalid p.1 hfd) (hwf.1 p.1 hfd).1
    (hwf.2 row hrow p.2 (List.of_mem_zip hp).2)).1 ((hrows row hrow).2 p hp)

/-- Claim C19, amended. In a written table, the `field_length` bytes stored for a `str`
value whose text (up to its first NUL) is not longer than the column are spaces followed by
the text: the text is right-aligned and padded on the left. -/
theorem str_cell_padded_left (env : libc) (table : dbftable) (file : List Nat)
    (hwf : table.wf) (h : write_dbf env table = some ⟨true, some file⟩)
    (fs1 fs2 : List dbffield_def) (fd : dbffield_def) (rs1 rs2 : List dbfrow) (row : dbfrow)
    (vs1 vs2 : List dbffield_value) (value : List Nat)
    (hf : table.header.fields = fs1 ++ fd :: fs2) (hr : table.rows = rs1 ++ row :: rs2)
    (hv : row.values = vs1 ++ .str value :: vs2) (hl : vs1.length = fs1.length)
    (hshort : (c_str value).length ≤ fd.field_length) :
    fd.field_type = [67]
      ∧ (file.drop (cell_offset table.header.fields fs1 rs1.length)).take fd.field_length
        = List.replicate (fd.field_length - (c_str value).length) 32 ++ c_str value := by
  have hzip : (fd, dbffield_value.str value) ∈ table.header.fields.zip row.values := by
    rw [hf, hv, List.zip_append hl.symm, List.zip_cons_cons]; simp
  have hc := (format_cell_compatible env table file hwf h row (by rw [hr]; simp) _ hzip).1
  have hfd : fd ∈ table.header.fields := by rw [hf]; simp
  refine ⟨hc, ?_⟩
  rw [stored_cell env table file hwf h fs1 fs2 fd rs1 rs2 row vs1 vs2 _ hf hr hv hl,
    cell_bytes_short env fd _ hc (by have := (hwf.1 fd hfd).1; omega) hshort]
  rfl

set_option maxRecDepth 100000 in
/-- Witness of claim C19 (amended): the text `Oslo` in the column `Name` of length 8. -/
theorem str_cell_padded_left_witness :
    survey_table.wf
      ∧ write_dbf zero_libc survey_table = some ⟨true, some (dbf_file zero_libc survey_table)⟩
      ∧ (c_str (str_bytes "Oslo")).length ≤ 8
      ∧ ((dbf_file zero_libc survey_table).drop
            (cell_offset survey_table.header.fields [] 0)).take 8
          = List.replicate (8 - (c_str (str_bytes "Oslo")).length) 32 ++ c_str (str_bytes "Oslo")
      ∧ List.replicate (8 - (c_str (str_bytes "Oslo")).length) 32 ++ c_str (str_bytes "Oslo")
          = str_bytes "    Oslo" :=
  ⟨by decide, by decide, by decide,
    (str_cell_padded_left zero_libc survey_table (dbf_file zero_libc survey_table) (by decide)
      (by decide) [] _ (dbffield_def.of_type (str_bytes "Name") (str_bytes "C") 8) [] _ _ [] _
      (str_bytes "Oslo") rfl rfl rfl rfl (by decide)).2,
    by decide⟩

set_option maxRecDepth 100000 in
/-- Counterexample to claim C19 as stated: for the text `ab` in a character column of
length 5, the five bytes stored in the file are three spaces and then `ab`, not `ab` and then
three spaces. -/
theorem str_cell_padded_right_fails :
    (write_dbf zero_libc
        (one_cell_table ⟨str_bytes "c", str_bytes "C", 5, 0⟩ (.str (str_bytes "ab")))).map
        (fun r => (r.status, r.file.map (fun f => (f.drop 66).take 5)))
      = some (true, some (str_bytes "   ab"))
    ∧ cell_offset [⟨str_bytes "c", str_bytes "C", 5, 0⟩] [] 0 = 66
    ∧ str_bytes "   ab" ≠ str_bytes "ab" ++ List.replicate 3 32 := by
  decide


set_option maxRecDepth 100000 in
theorem long_text_table_record :
    (write_dbf zero_libc long_text_table).map
        (fun r => (r.status, r.file.map (fun f => (f.drop 129).take 10)))
      = some (true, some (str_bytes "   xabc yz")) := by
  decide

/-! ## Numeric cells and field descriptors in the file -/

/-- Claim C21. In a written table, the `field_length` bytes stored for a `sint` or `uint`
value of an `N` column whose decimal text (`%d` for a `sint`, `%u` for a `uint`) is not longer
than the column are spaces followed by that text: the number is right-justified and padded on
the left with 0x20. -/
theorem numeric_cell_right_justified (env : libc) (table : dbftable) (file : List Nat)
    (hwf : table.wf) (h : write_dbf env table = some ⟨true, some file⟩)
    (fs1 fs2 : List dbffield_def) (fd : dbffield_def) (rs1 rs2 : List dbfrow) (row : dbfrow)
    (vs1 vs2 : List dbffield_value) (v : dbffield_value)
    (hf : table.header.fields = fs1 ++ fd :: fs2) (hr : table.rows = rs1 ++ row :: rs2)
    (hv : row.values = vs1 ++ v :: vs2) (hl : vs1.length = fs1.length)
    (hN : fd.field_type = [78])
    (hshort : (cell_text env fd v).length ≤ fd.field_length) :
    ((∃ i t, v = .sint i t ∧ cell_text env fd v = sprintf_d i)
        ∨ (∃ u t, v = .uint u t ∧ cell_text env fd v = sprintf_u u))
      ∧ (file.drop (cell_offset table.header.fields fs1 rs1.length)).take fd.field_length
        = List.replicate (fd.field_length - (cell_text env fd v).length) 32
            ++ cell_text env fd v := by
  have hzip : (fd, v) ∈ table.header.fields.zip row.values := by
    rw [hf, hv, List.zip_append hl.symm, List.zip_cons_cons]; simp
  have hc := (format_cell_compatible env table file hwf h row (by rw [hr]; simp) _ hzip).1
  have hfd : fd ∈ table.header.fields := by rw [hf]; simp
  refine ⟨?_, ?_⟩
  · cases v with
    | str value =>
      have : fd.field_type = [67] := hc
      rw [hN] at this
      exact absurd this (by decide)
    | sint i t => exact Or.inl ⟨i, t, rfl, rfl⟩
    | uint u t => exact Or.inr ⟨u, t, rfl, rfl⟩
    | dbl d t =>
      have : fd.field_type = [70] := hc
      rw [hN] at this
      exact absurd this (by decide)
  · rw [stored_cell env table file hwf h fs1 fs2 fd rs1 rs2 row vs1 vs2 _ hf hr hv hl,
      cell_bytes_short env fd _ hc (by have := (hwf.1 fd hfd).1; omega) hshort]

set_option maxRecDepth 100000 in
/-- Witness of claim C21: the numbers 120 and 45 in the second row of the survey table. -/
theorem numeric_cell_right_justified_witness :
    survey_table.wf
      ∧ write_dbf zero_libc survey_table = some ⟨true, some (dbf_file zero_libc survey_table)⟩
      ∧ ((dbf_file zero_libc survey_table).drop
            (cell_offset survey_table.header.fields
              [dbffield_def.of_type (str_bytes "Name") (str_bytes "C") 8,
                dbffield_def.of_type (str_bytes "Count") (str_bytes "N") 5] 1)).take 5
          = List.replicate (5 - (cell_text zero_libc
                (dbffield_def.of_type (str_bytes "Delta") (str_bytes "N") 5)
                (.sint 45 [])).length) 32
              ++ cell_text zero_libc
                (dbffield_def.of_type (str_bytes "Delta") (str_bytes "N") 5) (.sint 45 [])
      ∧ List.replicate (5 - (cell_text zero_libc
                (dbffield_def.of_type (str_bytes "Delta") (str_bytes "N") 5)
                (.sint 45 [])).length) 32
              ++ cell_text zero_libc
                (dbffield_def.of_type (str_bytes "Delta") (str_bytes "N") 5) (.sint 45 [])
          = str_bytes "   45" :=
  ⟨by decide, by decide,
    (numeric_cell_right_justified zero_libc survey_table (dbf_file zero_libc survey_table)
      (by decide) (by decide)
      [dbffield_def.of_type (str_bytes "Name") (str_bytes "C") 8,
        dbffield_def.of_type (str_bytes "Count") (str_bytes "N") 5] _
      (dbffield_def.of_type (str_bytes "Delta") (str_bytes "N") 5)
      [⟨[.str (str_bytes "Oslo"), .uint 3 [], .sint (-7) [], .dbl 0 []]⟩] [] _
      [.str (str_bytes " Rio "), .uint 120 []] _ (.sint 45 []) rfl rfl rfl rfl (by decide)
      (by decide)).2,
    by decide⟩

set_option maxRecDepth 100000 in
theorem negative_cell_right_justified :
    (write_dbf zero_libc
        (one_cell_table ⟨str_bytes "n", str_bytes "N", 6, 0⟩ (.sint (-42) []))).map
        (fun r => (r.status, r.file.map (fun f => (f.drop 66).take 6)))
      = some (true, some (str_bytes "   -42")) := by
  decide

theorem write_field_descriptors_loop_cons (env : libc) (idx : Nat) (fd : dbffield_def)
    (fs : List dbffield_def) (hv : field_valid fd) :
    (write_field_descriptors_loop env idx (fd :: fs)).2
      = write_fielddesc env idx fd ++ (write_field_descriptors_loop env (idx + 1) fs).2 := by
  rw [write_field_descriptors_loop, if_neg hv.1, if_neg (by have := hv.2.1; omega), if_neg (by
    intro hh
    rcases hv.2.2 with h1 | h1 | h1
    · exact hh.1 h1
    · exact hh.2.1 h1
    · exact hh.2.2 h1)]

theorem write_field_descriptors_loop_append (env : libc) (rest : List dbffield_def) :
    ∀ (fs1 : List dbffield_def) (idx : Nat), (∀ f ∈ fs1, field_valid f) →
      (write_field_descriptors_loop env idx (fs1 ++ rest)).2
        = (write_field_descriptors_loop env idx fs1).2
          ++ (write_field_descriptors_loop env (idx + fs1.length) rest).2 := by
  intro fs1
  induction fs1 with
  | nil => intro idx _; simp [write_field_descriptors_loop]
  | cons f fs ih =>
    intro idx h
    have hf := h f (List.mem_cons_self _ _)
    rw [List.cons_append, write_field_descriptors_loop_cons env idx f _ hf,
      write_field_descriptors_loop_cons env idx f _ hf,
      ih (idx + 1) (fun x hx => h x (List.mem_cons_of_mem _ hx)), List.append_assoc,
      List.length_cons, show idx + 1 + fs.length = idx + (fs.length + 1) by omega]

/-- The descriptor of a field in a written table: the 32 bytes at offset `32 + 32 * j` for
the field with index `j`. -/
theorem stored_descriptor (env : libc) (table : dbftable) (file : List Nat)
    (hwf : table.wf) (h : write_dbf env table = some ⟨true, some file⟩)
    (fs1 fs2 : List dbffield_def) (fd : dbffield_def)
    (hf : table.header.fields = fs1 ++ fd :: fs2) :
    (file.drop (32 + 32 * fs1.length)).take 32 = write_fielddesc env fs1.length fd := by
  have hL := wf_field_length_le table hwf
  obtain ⟨-, -, hvalid, -, -, rfl⟩ := (write_dbf_success env table file hL).1 h
  have hv1 : ∀ f ∈ fs1, field_valid f :=
    fun f hf1 => hvalid f (by rw [hf]; exact List.mem_append_left _ hf1)
  have hl1 := ((write_field_descriptors_loop_ok env fs1 0).2
    (((write_field_descriptors_loop_ok env fs1 0).1).2 hv1))
  have e : dbf_file env table
      = (write_header (make_header env table) ++ (write_field_descriptors_loop env 0 fs1).2)
        ++ (write_fielddesc env fs1.length fd
          ++ ((write_field_descriptors_loop env (fs1.length + 1) fs2).2 ++ [0x0d]
            ++ table.rows.flatMap (row_record env table.header.fields) ++ [0x1a])) := by
    unfold dbf_file
    conv_lhs => rw [hf]
    rw [write_field_descriptors_loop_append env _ fs1 0 hv1, Nat.zero_add,
      write_field_descriptors_loop_cons env _ fd fs2 (hvalid fd (by rw [hf]; simp))]
    simp only [List.append_assoc]
    rw [← hf]
  rw [e, List.drop_left' (by
    simp only [List.length_append, write_header_length, hl1]),
    List.take_left' (write_fielddesc_length _ _ _)]

theorem write_fielddesc_tail (env : libc) (idx : Nat) (fd : dbffield_def) :
    write_fielddesc env idx fd
      = write_field_name env idx fd.field_name
        ++ ((c_str fd.field_type).getD 0 0 :: 0 :: 0 :: 0 :: 0 :: fd.field_length
          :: fd.field_decimal_count :: List.replicate 14 0)
    ∧ (write_field_name env idx fd.field_name).length = 11 := by
  constructor
  · simp [write_fielddesc]
  · simp [write_field_name]

theorem write_fielddesc_getD (env : libc) (idx : Nat) (fd : dbffield_def) (i dflt : Nat)
    (hi : 11 ≤ i) :
    (write_fielddesc env idx fd).getD i dflt
      = ((c_str fd.field_type).getD 0 0 :: 0 :: 0 :: 0 :: 0 :: fd.field_length
          :: fd.field_decimal_count :: List.replicate 14 0).getD (i - 11) dflt := by
  obtain ⟨e, hnl⟩ := write_fielddesc_tail env idx fd
  rw [e, List.getD_eq_getElem?_getD, List.getElem?_append_right (by omega), hnl]
  exact (List.getD_eq_getElem?_getD _ _ _).symm

/-- Claim C26, amended. In a written table, the decimals byte (byte 17) of the descriptor
of every field, of a character column in particular, is the decimal count the field
definition holds in memory; it is 0 for a definition built by the constructor
`dbffield_def(fname, ftype, flen)`. -/
theorem descriptor_decimals_byte (env : libc) (table : dbftable) (file : List Nat)
    (hwf : table.wf) (h : write_dbf env table = some ⟨true, some file⟩)
    (fs1 fs2 : List dbffield_def) (fd : dbffield_def)
    (hf : table.header.fields = fs1 ++ fd :: fs2) :
    ((file.drop (32 + 32 * fs1.length)).take 32).getD 17 1 = fd.field_decimal_count
      ∧ (file.drop (32 + 32 * fs1.length + 17)).head? = some fd.field_decimal_count
      ∧ ∀ fname ftype flen, (dbffield_def.of_type fname ftype flen).field_decimal_count = 0 := by
  have hd := stored_descriptor env table file hwf h fs1 fs2 fd hf
  have h17 : ((file.drop (32 + 32 * fs1.length)).take 32).getD 17 1
      = fd.field_decimal_count := by
    rw [hd, write_fielddesc_getD env _ fd 17 1 (by omega)]; rfl
  refine ⟨h17, ?_, fun _ _ _ => rfl⟩
  rw [← List.drop_drop, List.head?_drop]
  rw [List.getD_eq_getElem?_getD, List.getElem?_take_of_lt (by omega)] at h17
  have hlen : ((file.drop (32 + 32 * fs1.length)).take 32).length = 32 := by
    rw [hd]; exact write_fielddesc_length _ _ _
  rw [List.length_take] at hlen
  cases hg : (file.drop (32 + 32 * fs1.length))[17]? with
  | none =>
    rw [List.getElem?_eq_none_iff] at hg
    omega
  | some x =>
    rw [hg] at h17
    simp only [Option.getD_some] at h17
    rw [h17]

set_option maxRecDepth 100000 in
/-- Witness of claim C26 (amended): the character column `Name` of the survey table, built
by the constructor that sets the decimal count to 0. -/
theorem descriptor_decimals_byte_witness :
    survey_table.wf
      ∧ write_dbf zero_libc survey_table = some ⟨true, some (dbf_file zero_libc survey_table)⟩
      ∧ (((dbf_file zero_libc survey_table).drop (32 + 32 * 0)).take 32).getD 17 1
          = (dbffield_def.of_type (str_bytes "Name") (str_bytes "C") 8).field_decimal_count :=
  ⟨by decide, by decide,
    (descriptor_decimals_byte zero_libc survey_table (dbf_file zero_libc survey_table)
      (by decide) (by decide) [] _ (dbffield_def.of_type (str_bytes "Name") (str_bytes "C") 8)
      rfl).1⟩

set_option maxRecDepth 100000 in
/-- Counterexample to claim C26 as stated: for a character column whose definition holds the
decimal count 5 in memory, the decimals byte of the written descriptor (byte 49 of the
file) is 5, not 0. -/
theorem character_decimals_byte_not_zero :
    (write_dbf zero_libc
        (one_cell_table ⟨str_bytes "c", str_bytes "C", 3, 5⟩ (.str (str_bytes "x")))).map
        (fun r => (r.status, r.file.map (fun f => f.getD 49 0)))
      = some (true, some 5) := by
  decide

/-- Claim C22. The field definition `read_dbf` builds from a descriptor whose type code is
`N` has the kind `F` when the decimals byte is greater than 0 and the kind `N` when it is 0;
its length and its decimal count are the bytes 16 and 17 of the descriptor, unchanged. So the
descriptor `write_dbf` writes for a column of kind `N` with a decimal count greater than 0
is read back as a column of kind `F` with the same length and decimal count. -/
theorem read_fielddesc_promotes (env : libc) (idx : Nat) (fd : dbffield_def) (d : List Nat)
    (hN : d.getD 11 0 = 78) :
    (0 < d.getD 17 0 → (read_fielddesc d).field_type = [70])
      ∧ (d.getD 17 0 = 0 → (read_fielddesc d).field_type = [78])
      ∧ (read_fielddesc d).field_length = d.getD 16 0
      ∧ (read_fielddesc d).field_decimal_count = d.getD 17 0
      ∧ (fd.field_type = [78] → 0 < fd.field_decimal_count →
          (read_fielddesc (write_fielddesc env idx fd)).field_type = [70]
            ∧ (read_fielddesc (write_fielddesc env idx fd)).field_length = fd.field_length
            ∧ (read_fielddesc (write_fielddesc env idx fd)).field_decimal_count
                = fd.field_decimal_count) := by
  have hF : ∀ d : List Nat, d.getD 11 0 = 78 → 0 < d.getD 17 0 →
      (read_fielddesc d).field_type = [70] := by
    intro d h1 h2
    unfold read_fielddesc
    dsimp only
    rw [if_pos ⟨h1, h2⟩]
    rfl
  refine ⟨hF d hN, ?_, rfl, rfl, ?_⟩
  · intro h0
    unfold read_fielddesc
    dsimp only
    rw [if_neg (by omega), hN]
    rfl
  · intro hty hdc
    have g11 : (write_fielddesc env idx fd).getD 11 0 = 78 := by
      rw [write_fielddesc_getD env idx fd 11 0 (le_refl _), hty]; rfl
    have g16 : (write_fielddesc env idx fd).getD 16 0 = fd.field_length := by
      rw [write_fielddesc_getD env idx fd 16 0 (by omega)]; rfl
    have g17 : (write_fielddesc env idx fd).getD 17 0 = fd.field_decimal_count := by
      rw [write_fielddesc_getD env idx fd 17 0 (by omega)]; rfl
    exact ⟨hF _ g11 (by rw [g17]; exact hdc), g16, g17⟩

set_option maxRecDepth 100000 in
/-- Witness of claim C22: the descriptor written for an `N` column of length 5 with the
decimal count 2, and a table with that column read back. -/
theorem read_fielddesc_promotes_witness :
    (write_fielddesc zero_libc 0 ⟨str_bytes "n", str_bytes "N", 5, 2⟩).getD 11 0 = 78
      ∧ read_fielddesc (write_fielddesc zero_libc 0 ⟨str_bytes "n", str_bytes "N", 5, 2⟩)
          = ⟨str_bytes "n", str_bytes "F", 5, 2⟩
      ∧ ((read_dbf zero_libc (dbf_file zero_libc
            (one_cell_table ⟨str_bytes "n", str_bytes "N", 5, 2⟩ (.uint 0 [])))).map
          (fun r => r.2.header.fields)) = some [⟨str_bytes "n", str_bytes "F", 5, 2⟩]
      ∧ (read_fielddesc (write_fielddesc zero_libc 0
            ⟨str_bytes "n", str_bytes "N", 5, 2⟩)).field_type = [70] :=
  ⟨by decide, by decide, by decide,
    ((read_fielddesc_promotes zero_libc 0 ⟨str_bytes "n", str_bytes "N", 5, 2⟩
      (write_fielddesc zero_libc 0 ⟨str_bytes "n", str_bytes "N", 5, 2⟩) (by decide)).2.2.2.2
      (by decide) (by decide)).1⟩

/-! ## Numeric cells that do not parse -/

theorem parse_fails_of_not_whole (str : List Nat) (h : strto_whole str = false) :
    (parse_int32 str).1 = false ∧ (parse_uint32 str).1 = false := by
  unfold strto_whole at h
  unfold parse_int32 parse_uint32 strtol strtoul
  cases hs : strto_subject str with
  | none => simp
  | some p =>
    obtain ⟨neg, mag, e⟩ := p
    rw [hs] at h
    simp only [decide_eq_false_iff_not] at h
    dsimp only
    constructor
    · by_cases hn : neg = true
      · rw [if_pos hn]
        split <;> simp [h]
      · rw [if_neg hn]
        split <;> simp [h]
    · split
      · simp [h]
      · split <;> simp [h]

theorem read_cell_numeric_fails (env : libc) (fd : dbffield_def) (str : List Nat)
    (hN : fd.field_type = [78]) (h : strto_whole str = false) :
    read_cell env fd str = none := by
  obtain ⟨h1, h2⟩ := parse_fails_of_not_whole str h
  unfold read_cell
  rw [if_pos hN]
  by_cases hm : 45 ∈ str
  · rw [if_pos hm]
    dsimp only
    rw [h1]
    rfl
  · rw [if_neg hm]
    dsimp only
    rw [h2]
    rfl

theorem fields_length_append (fs1 fs2 : List dbffield_def) :
    fields_length (fs1 ++ fs2) = fields_length fs1 + fields_length fs2 := by
  simp [fields_length]

/-- The field loop of a record never leaves the record buffer when the fields fit the
record. -/
theorem read_row_fields_defined (env : libc) (read_size : Nat) (record : List Nat) :
    ∀ (fields : List dbffield_def) (off : Nat), off + fields_length fields ≤ read_size →
      read_row_fields env read_size record fields off ≠ none := by
  intro fields
  induction fields with
  | nil => intro off _; simp [read_row_fields]
  | cons f fs ih =>
    intro off h
    rw [fields_length_cons] at h
    unfold read_row_fields
    by_cases h1 : off ≥ read_size
    · rw [if_pos h1]; simp
    · rw [if_neg h1, if_neg (by omega)]
      dsimp only
      cases read_cell env f _ with
      | none => simp
      | some fval =>
        dsimp only
        have := ih (off + f.field_length) (by omega)
        cases hr : read_row_fields env read_size record fs (off + f.field_length) with
        | none => exact absurd hr this
        | some o => cases o <;> simp

theorem read_row_fields_bad_cell (env : libc) (read_size : Nat) (record : List Nat)
    (fd : dbffield_def) (fs2 : List dbffield_def) (hN : fd.field_type = [78]) :
    ∀ (fs1 : List dbffield_def) (off : Nat),
      off + fields_length (fs1 ++ fd :: fs2) ≤ read_size →
      strto_whole (trim_leading_and_trailing_whitespace
        (c_str ((record.drop (off + fields_length fs1)).take fd.field_length ++ [0]))) = false →
      read_row_fields env read_size record (fs1 ++ fd :: fs2) off = some none := by
  intro fs1
  induction fs1 with
  | nil =>
    intro off h hbad
    rw [List.nil_append, fields_length_cons] at h
    rw [show fields_length [] = 0 from rfl, Nat.add_zero] at hbad
    rw [List.nil_append]
    unfold read_row_fields
    by_cases h1 : off ≥ read_size
    · rw [if_pos h1]
    · rw [if_neg h1, if_neg (by omega)]
      dsimp only
      rw [read_cell_numeric_fails env fd _ hN hbad]
  | cons f fs ih =>
    intro off h hbad
    rw [List.cons_append, fields_length_cons] at h
    rw [fields_length_cons, ← Nat.add_assoc] at hbad
    rw [List.cons_append]
    unfold read_row_fields
    by_cases h1 : off ≥ read_size
    · rw [if_pos h1]
    · rw [if_neg h1, if_neg (by omega)]
      dsimp only
      cases read_cell env f _ with
      | none => rfl
      | some fval =>
        dsimp only
        rw [ih (off + f.field_length) (by omega) hbad]

theorem read_rows_loop_bad_record (env : libc) (read_size : Nat) (fields : List dbffield_def)
    (hrs : 0 < read_size) (hfit : 1 + fields_length fields ≤ read_size)
    (record : List Nat) (records2 : List (List Nat)) (rest : List Nat)
    (hlen : record.length = read_size)
    (hact : record_active record = true)
    (hbad : read_row_fields env read_size record fields 1 = some none) :
    ∀ (records1 : List (List Nat)) (n : Nat),
      (∀ r ∈ records1, r.length = read_size) → records1.length < n →
      ∃ rows, read_rows_loop env read_size fields n
          ((records1 ++ record :: records2).flatten ++ rest) = some (false, rows) := by
  have ha : record.getD 0 0 = 0x20 := by
    unfold record_active at hact
    exact of_decide_eq_true hact
  intro records1
  induction records1 with
  | nil =>
    intro n _ hn
    obtain ⟨m, rfl⟩ : ∃ m, n = m + 1 := ⟨n - 1, by simp at hn; omega⟩
    simp only [List.nil_append, List.flatten_cons, List.append_assoc]
    unfold read_rows_loop
    rw [if_neg (by omega), fread_append _ _ _ hlen]
    dsimp only
    rw [if_neg (by simpa using ha), hbad]
    exact ⟨[], rfl⟩
  | cons r rs ih =>
    intro n hl hn
    obtain ⟨m, rfl⟩ : ∃ m, n = m + 1 := ⟨n - 1, by simp at hn; omega⟩
    obtain ⟨rows, hrows⟩ := ih m (fun x hx => hl x (List.mem_cons_of_mem _ hx))
      (by simp at hn; omega)
    simp only [List.cons_append, List.flatten_cons, List.append_assoc] at hrows ⊢
    unfold read_rows_loop
    rw [if_neg (by omega), fread_append _ _ _ (hl r (List.mem_cons_self _ _))]
    dsimp only
    by_cases hr0 : r.getD 0 0 ≠ 0x20
    · rw [if_pos hr0, hrows]
      exact ⟨rows, rfl⟩
    · rw [if_neg hr0]
      have hdef := read_row_fields_defined env read_size r fields 1 hfit
      cases hr : read_row_fields env read_size r fields 1 with
      | none => exact absurd hr hdef
      | some o =>
        cases o with
        | none => exact ⟨[], rfl⟩
        | some values =>
          dsimp only
          rw [hrows]
          exact ⟨_, rfl⟩

theorem read_rows_loop_deleted (env : libc) (read_size : Nat) (fields : List dbffield_def)
    (deleted deleted' : List Nat) (records2 : List (List Nat)) (rest : List Nat)
    (hl : deleted.length = read_size) (hl' : deleted'.length = read_size)
    (ha : record_active deleted = false) (ha' : record_active deleted' = false) :
    ∀ (records1 : List (List Nat)) (n : Nat), (∀ r ∈ records1, r.length = read_size) →
      read_rows_loop env read_size fields n
          ((records1 ++ deleted :: records2).flatten ++ rest)
        = read_rows_loop env read_size fields n
          ((records1 ++ deleted' :: records2).flatten ++ rest) := by
  have h0 : deleted.getD 0 0 ≠ 0x20 := by
    unfold record_active at ha
    exact of_decide_eq_false ha
  have h0' : deleted'.getD 0 0 ≠ 0x20 := by
    unfold record_active at ha'
    exact of_decide_eq_false ha'
  intro records1
  induction records1 with
  | nil =>
    intro n _
    cases n with
    | zero => rfl
    | succ m =>
      simp only [List.nil_append, List.flatten_cons, List.append_assoc]
      unfold read_rows_loop
      by_cases hz : read_size = 0
      · rw [if_pos hz, if_pos hz]
      · rw [if_neg hz, if_neg hz, fread_append _ _ _ hl, fread_append _ _ _ hl']
        dsimp only
        rw [if_pos h0, if_pos h0']
  | cons r rs ih =>
    intro n hlen
    cases n with
    | zero => rfl
    | succ m =>
      have := ih m (fun x hx => hlen x (List.mem_cons_of_mem _ hx))
      simp only [List.cons_append, List.flatten_cons, List.append_assoc] at this ⊢
      unfold read_rows_loop
      by_cases hz : read_size = 0
      · rw [if_pos hz, if_pos hz]
      · rw [if_neg hz, if_neg hz, fread_append _ _ _ (hlen r (List.mem_cons_self _ _)),
          fread_append _ _ _ (hlen r (List.mem_cons_self _ _))]
        dsimp only
        rw [this]

theorem read_dbf_layout (env : libc) (hd : dBASE_header) (descriptors : List (List Nat))
    (rest : List Nat) (hdesc : ∀ d ∈ descriptors, d.length = 32)
    (hhb : hd.header_bytes = 33 + 32 * descriptors.length) (hhb' : hd.header_bytes < 65536)
    (hrb' : hd.record_bytes < 65536) (htr' : hd.table_records < 4294967296) :
    read_dbf env (write_header hd ++ descriptors.flatten ++ [0x0d] ++ rest)
      = match read_rows_loop env hd.record_bytes (descriptors.map read_fielddesc)
          hd.table_records rest with
        | none => none
        | some (status, rows) => some (status, ⟨⟨descriptors.map read_fielddesc⟩, rows⟩) := by
  simp only [List.append_assoc]
  rw [read_dbf_header]
  dsimp only
  rw [Nat.mod_eq_of_lt hhb', Nat.mod_eq_of_lt hrb', Nat.mod_eq_of_lt htr',
    read_field_descriptors_any descriptors _
      ⟨(write_header hd).getD 0 0, ((write_header hd).getD 1 0, (write_header hd).getD 2 0,
        (write_header hd).getD 3 0), hd.table_records, hd.header_bytes, hd.record_bytes⟩
      hhb (by omega) hdesc]
  rfl

set_option maxRecDepth 100000 in
/-- Claim C23. In a table file laid out as a header, the descriptors, the terminator and
the records, whose fields fit the record: if an active record holds, in a column of kind
`N`, a cell whose text without the spaces at its ends is not converted in its entirety by
`strtol`/`strtoul` with base 0, then `read_dbf` returns `false`. What a deleted record holds
behind its status byte does not change what `read_dbf` returns. An empty text, `12a` and
`4-2` are such texts: the cell `12a` makes `read_dbf` fail in an active record and not in a
deleted one. -/
theorem read_dbf_numeric_parse_failure (env : libc) (hd : dBASE_header)
    (descriptors records1 records2 : List (List Nat)) (record tail : List Nat)
    (fs1 fs2 : List dbffield_def) (fd : dbffield_def)
    (hdesc : ∀ d ∈ descriptors, d.length = 32)
    (hhb : hd.header_bytes = 33 + 32 * descriptors.length) (hhb' : hd.header_bytes < 65536)
    (hrb' : hd.record_bytes < 65536)
    (htr : records1.length < hd.table_records) (htr' : hd.table_records < 4294967296)
    (hlen1 : ∀ r ∈ records1, r.length = hd.record_bytes)
    (hlen : record.length = hd.record_bytes)
    (hfields : descriptors.map read_fielddesc = fs1 ++ fd :: fs2)
    (hfit : 1 + fields_length (descriptors.map read_fielddesc) ≤ hd.record_bytes)
    (hN : fd.field_type = [78]) (hact : record_active record = true)
    (hbad : strto_whole (trim_leading_and_trailing_whitespace
      (c_str ((record.drop (1 + fields_length fs1)).take fd.field_length ++ [0]))) = false) :
    (∃ t, read_dbf env (write_header hd ++ descriptors.flatten ++ [0x0d]
        ++ ((records1 ++ record :: records2).flatten ++ tail)) = some (false, t))
    ∧ (∀ deleted deleted' : List Nat, deleted.length = hd.record_bytes →
        deleted'.length = hd.record_bytes → record_active deleted = false →
        record_active deleted' = false →
        read_dbf env (write_header hd ++ descriptors.flatten ++ [0x0d]
            ++ ((records1 ++ deleted :: records2).flatten ++ tail))
          = read_dbf env (write_header hd ++ descriptors.flatten ++ [0x0d]
            ++ ((records1 ++ deleted' :: records2).flatten ++ tail)))
    ∧ strto_whole [] = false ∧ strto_whole (str_bytes "12a") = false
    ∧ strto_whole (str_bytes "4-2") = false
    ∧ read_dbf zero_libc (two_cells_file 0x20 "12a " 0x20 "  42")
        = some (false, ⟨⟨[⟨str_bytes "n", str_bytes "N", 4, 0⟩]⟩, []⟩)
    ∧ read_dbf zero_libc (two_cells_file 0x2a "12a " 0x20 "  42")
        = some (true, ⟨⟨[⟨str_bytes "n", str_bytes "N", 4, 0⟩]⟩,
            [⟨[.uint 42 (str_bytes "42")]⟩]⟩) := by
  refine ⟨?_, ?_, by decide, by decide, by decide, by decide, by decide⟩
  · have hb := read_row_fields_bad_cell env hd.record_bytes record fd fs2 hN fs1 1
      (by rw [← hfields]; exact hfit) hbad
    rw [← hfields] at hb
    obtain ⟨rows, hrows⟩ := read_rows_loop_bad_record env hd.record_bytes
      (descriptors.map read_fielddesc) (by omega) hfit record records2 tail hlen hact hb
      records1 hd.table_records hlen1 htr
    rw [read_dbf_layout env hd descriptors _ hdesc hhb hhb' hrb' htr', hrows]
    exact ⟨_, rfl⟩
  · intro deleted deleted' hl hl' ha ha'
    rw [read_dbf_layout env hd descriptors _ hdesc hhb hhb' hrb' htr',
      read_dbf_layout env hd descriptors _ hdesc hhb hhb' hrb' htr',
      read_rows_loop_deleted env hd.record_bytes (descriptors.map read_fielddesc)
        deleted deleted' records2 tail hl hl' ha ha' records1 hd.table_records hlen1]

set_option maxRecDepth 100000 in
/-- Witness of claim C23: the cell `4-2` in the second of two active records. -/
theorem read_dbf_numeric_parse_failure_witness :
    ∃ t, read_dbf zero_libc (write_header ⟨3, (122, 1, 1), 2, 65, 5⟩
        ++ [write_fielddesc zero_libc 0 ⟨str_bytes "n", str_bytes "N", 4, 0⟩].flatten ++ [0x0d]
        ++ (([32 :: str_bytes "  42"] ++ (32 :: str_bytes " 4-2") :: []).flatten ++ [0x1a]))
      = some (false, t) :=
  (read_dbf_numeric_parse_failure zero_libc ⟨3, (122, 1, 1), 2, 65, 5⟩
    [write_fielddesc zero_libc 0 ⟨str_bytes "n", str_bytes "N", 4, 0⟩]
    [32 :: str_bytes "  42"] [] (32 :: str_bytes " 4-2") [0x1a]
    [] [] ⟨str_bytes "n", str_bytes "N", 4, 0⟩
    (by decide) (by decide) (by decide) (by decide) (by decide) (by decide) (by decide)
    (by decide) (by decide) (by decide) (by decide) (by decide) (by decide)).1

/-! ## The main header of a written shape file -/

theorem bb_step_zm (st : Bool × shapefile_main_header_boundingbox) (ps : pointshape) :
    zm_slots (bb_step st ps).2 = zm_slots st.2 := by
  unfold bb_step zm_slots
  dsimp only
  split_ifs <;> rfl

theorem foldl_bb_step_zm (points : List pointshape) :
    ∀ st : Bool × shapefile_main_header_boundingbox,
      zm_slots (points.foldl bb_step st).2 = zm_slots st.2 := by
  induction points with
  | nil => intro st; rfl
  | cons p ps ih => intro st; rw [List.foldl_cons, ih, bb_step_zm]

theorem foldl_point_bb_step_zm (shapes : List shape) :
    ∀ st : Bool × shapefile_main_header_boundingbox,
      zm_slots (shapes.foldl point_bb_step st).2 = zm_slots st.2 := by
  induction shapes with
  | nil => intro st; rfl
  | cons s ss ih =>
    intro st
    rw [List.foldl_cons, ih]
    cases s <;> first | rfl | exact bb_step_zm _ _

theorem foldl_polypart_bb_step_zm (parts : List polypart) :
    ∀ st : Int × Bool × shapefile_main_header_boundingbox,
      zm_slots (parts.foldl polypart_bb_step st).2.2 = zm_slots st.2.2 := by
  induction parts with
  | nil => intro st; rfl
  | cons p ps ih =>
    intro st
    rw [List.foldl_cons, ih]
    exact foldl_bb_step_zm _ _

theorem main_header_bb_zm (k : shape_type) (shpfile : shapefile) :
    zm_slots (main_header_bb k shpfile) = [0, 0, 0, 0] := by
  have hp : zm_slots (determine_point_shape_bb shpfile) = [0, 0, 0, 0] :=
    foldl_point_bb_step_zm _ _
  have hm : zm_slots (determine_multipoint_shape_bb shpfile).2 = [0, 0, 0, 0] :=
    foldl_bb_step_zm _ _
  have hq : zm_slots (determine_polypart_bb_file shpfile).2 = [0, 0, 0, 0] :=
    foldl_polypart_bb_step_zm _ _
  cases k <;> first | exact hp | exact hm | exact hq

theorem write_shp_header_box (path : List Nat) (shpfile : shapefile) (r : write_shp_result)
    (h : write_shp path shpfile = some r) (hst : r.status = true) :
    ∃ fp, r.shp = some (write_main_header
        ⟨SHAPEFILE_FILE_CODE, Int.tdiv (to_int32 ((shp_size shpfile.shapes : Nat) : Int)) 2,
          SHAPEFILE_VERSION, (determine_shape_type shpfile).code⟩
        (main_header_bb (determine_shape_type shpfile) shpfile) ++ fp) := by
  unfold write_shp at h
  by_cases hp : regex_replace_shp path = path
  · simp [hp] at h; subst h; simp at hst
  · simp only [hp, if_false] at h
    cases hk : determine_shape_type shpfile <;> simp only [hk] at h <;>
      try (simp only [Option.some.injEq] at h; subst h; simp at hst)
    · simp only [write_point_shapes, write_point_records_eq] at h
      cases hw : write_records encode_point shpfile.shapes 100 1 with
      | none => simp [hw] at h
      | some p =>
        obtain ⟨fp, shx⟩ := p
        simp only [hw, Option.some.injEq] at h
        subst h
        have hall := write_records_kind shape_type.point _ _ _ _ hw
        exact ⟨fp, by simp only [file_length_point _ hall]; rfl⟩
    · simp only [write_polyline_shapes, write_polypart_shapes, write_polypart_records_eq] at h
      cases hw : write_records (encode_polypart shape_type.polyline) shpfile.shapes 100 1 with
      | none => simp [hw] at h
      | some p =>
        obtain ⟨fp, shx⟩ := p
        simp only [hw, Option.some.injEq] at h
        subst h
        have hall := write_records_kind shape_type.polyline _ _ _ _ hw
        exact ⟨fp, by simp only [file_length_polypart _ (Or.inl rfl) _ hall]; rfl⟩
    · simp only [write_polygon_shapes, write_polypart_shapes, write_polypart_records_eq] at h
      cases hw : write_records (encode_polypart shape_type.polygon) shpfile.shapes 100 1 with
      | none => simp [hw] at h
      | some p =>
        obtain ⟨fp, shx⟩ := p
        simp only [hw, Option.some.injEq] at h
        subst h
        have hall := write_records_kind shape_type.polygon _ _ _ _ hw
        exact ⟨fp, by simp only [file_length_polypart _ (Or.inr rfl) _ hall]; rfl⟩
    · simp only [write_multipoint_shapes, write_multipoint_records_eq] at h
      cases hw : write_records encode_multipoint shpfile.shapes 100 1 with
      | none => simp [hw] at h
      | some p =>
        obtain ⟨fp, shx⟩ := p
        simp only [hw, Option.some.injEq] at h
        subst h
        have hall := write_records_kind shape_type.multipoint _ _ _ _ hw
        exact ⟨fp, by simp only [file_length_multipoint _ hall]; rfl⟩

set_option maxRecDepth 100000 in
theorem single_point_header :
    (write_shp (str_bytes "p.shp") single_point).map
        (fun r => r.shp.map (fun shp => (shp.take 36, (shp.drop 36).take 32)))
      = some (some ([0, 0, 0x27, 0x0a, 0, 0, 0, 0, 0, 0, 0, 0, 0, 0, 0, 0, 0, 0, 0, 0, 0, 0, 0, 0,
            0, 0, 0, 64, 0xe8, 3, 0, 0, 1, 0, 0, 0],
          double_LE 0xc05280624dd2f1aa ++ double_LE 0x40445b3d07c84b5e
            ++ double_LE 0xc05280624dd2f1aa ++ double_LE 0x40445b3d07c84b5e)) := by
  decide

/-! ## Records the reader stops at -/

theorem read_shape_record_nonpositive (reader : shapefile_record_reader) (num cl : Int)
    (rest : List Nat) (h : reader.fp = write_record_header ⟨num, cl⟩ ++ rest)
    (hcl : to_int32 cl ≤ 0) : read_shape_record reader = none := by
  unfold read_shape_record
  split
  · rfl
  · rw [h, read_record_header_nonpositive num cl rest hcl]

set_option maxRecDepth 100000 in
/-- Claim C27 at a file where it fails. When the next record header holds a content length
that is not positive, `read_record_header` returns `false`, the record loop ends as at the
end of the file, and `read_shp` returns `true` with the shapes decoded so far: for the point
file whose second record header holds the content length 0, the result is success with the
first point. -/
theorem read_shp_bogus_content_length :
    read_shp bogus_length_file
        = some (true, ⟨[shape.point ⟨0x3ff0000000000000, 0x4000000000000000⟩]⟩)
      ∧ ∀ (body : shapefile_record_reader → record_action) (fuel : Nat)
          (reader : shapefile_record_reader) (acc : List shape) (num cl : Int)
          (rest : List Nat),
          reader.fp = write_record_header ⟨num, cl⟩ ++ rest → to_int32 cl ≤ 0 →
          read_loop body (fuel + 1) reader acc = some (true, acc) :=
  ⟨by decide, fun body fuel reader acc num cl rest h hcl =>
    read_loop_stop body fuel reader acc (read_shape_record_nonpositive reader num cl rest h hcl)⟩

theorem read_loop_prefix (enc : shape → Option (Int × List Nat))
    (body : shapefile_record_reader → record_action) (shapes : List shape)
    (hspec : ∀ s ∈ shapes, ∀ cl c, enc s = some (cl, c) →
      0 < cl ∧ cl < 1073741824 ∧ (c.length : Int) = 2 * cl
      ∧ ∀ rd : shapefile_record_reader, (∃ tail, rd.record_buf = c ++ tail) →
          rd.current_record_header.content_length = cl → body rd = record_action.push s) :
    ∀ (pos : Nat) (recnum : Int) (fp shx : List Nat),
      write_records enc shapes pos recnum = some (fp, shx) →
      ∀ (reader : shapefile_record_reader) (acc : List shape) (fuel : Nat) (rest : List Nat),
        reader.fp = fp ++ rest →
        reader.total_bytes_read + fp.length < reader.file_length_bytes →
        reader.file_length_bytes < 4294967296 →
        ∃ rd, read_loop body (shapes.length + fuel) reader acc
            = read_loop body fuel rd (acc ++ shapes)
          ∧ rd.fp = rest ∧ rd.total_bytes_read = reader.total_bytes_read + fp.length
          ∧ rd.file_length_bytes = reader.file_length_bytes := by
  induction shapes with
  | nil =>
    intro pos recnum fp shx hw reader acc fuel rest hfp _ _
    simp only [write_records, Option.some.injEq, Prod.mk.injEq] at hw
    obtain ⟨rfl, rfl⟩ := hw
    refine ⟨reader, ?_, by simpa using hfp, by simp, rfl⟩
    simp
  | cons s ss ih =>
    intro pos recnum fp shx hw reader acc fuel rest hfp htot hflb
    simp only [write_records] at hw
    cases he : enc s with
    | none => simp [he] at hw
    | some p =>
      obtain ⟨cl, c⟩ := p
      simp only [he] at hw
      cases hr : write_records enc ss (pos + 8 + c.length) (to_int32 (recnum + 1)) with
      | none => simp [hr] at hw
      | some q =>
        obtain ⟨fp', shx'⟩ := q
        simp only [hr, Option.some.injEq, Prod.mk.injEq] at hw
        obtain ⟨rfl, rfl⟩ := hw
        obtain ⟨h1, h2, h3, h4⟩ := hspec s (List.mem_cons_self _ _) cl c he
        simp only [List.length_append, write_record_header_length] at htot
        obtain ⟨rd, e1, e2, e3, e4, e5, e6⟩ := read_shape_record_written reader recnum cl c
          (fp' ++ rest) (by rw [hfp]; simp only [List.append_assoc]) h1 h2 h3 (by omega)
          (by omega)
        obtain ⟨rd', g1, g2, g3, g4⟩ := ih
          (fun t ht => hspec t (List.mem_cons_of_mem _ ht)) _ _ _ _ hr rd (acc ++ [s]) fuel
          rest e4 (by rw [e5, e6]; omega) (by rw [e6]; exact hflb)
        refine ⟨rd', ?_, g2, ?_, by rw [g4, e6]⟩
        · rw [show (s :: ss).length + fuel = (ss.length + fuel) + 1 by
            simp only [List.length_cons]; omega]
          simp only [read_loop, e1, h4 rd e2 e3]
          rw [g1]
          simp
        · rw [g3, e5]
          simp only [List.length_append, write_record_header_length]
          omega

theorem fetch_LEint32_content (content tail : List Nat) (h : 4 ≤ content.length) :
    fetch_LEint32 (content ++ tail) 0 = some (int32_of_LE (content.take 4)) := by
  unfold fetch_LEint32
  rw [if_pos (by rw [List.length_append]; omega), List.drop_zero,
    List.take_append_of_le_length h]

theorem body_of_foreign_type (k : shape_type)
    (hk4 : k = shape_type.point ∨ k = shape_type.polyline ∨ k = shape_type.polygon
      ∨ k = shape_type.multipoint)
    (rd : shapefile_record_reader) (content tail : List Nat)
    (hbuf : rd.record_buf = content ++ tail) (hlen : 4 ≤ content.length)
    (h0 : int32_of_LE (content.take 4) ≠ 0) (hk : int32_of_LE (content.take 4) ≠ k.code) :
    body_of k rd = record_action.fail := by
  have hf := fetch_LEint32_content content tail hlen
  have h0' : int32_of_LE (content.take 4) ≠ shape_type.null_shape.code := h0
  rcases hk4 with rfl | rfl | rfl | rfl
  · simp only [body_of, point_body]
    split
    · rfl
    · rw [hbuf, hf]
      dsimp only
      rw [if_neg h0', if_pos hk]
  · simp only [body_of, polypart_body]
    rw [hbuf, hf]
    dsimp only
    rw [if_neg h0', if_pos hk]
  · simp only [body_of, polypart_body]
    rw [hbuf, hf]
    dsimp only
    rw [if_neg h0', if_pos hk]
  · simp only [body_of, multipoint_body]
    rw [hbuf, hf]
    dsimp only
    rw [if_neg h0', if_pos hk]

theorem read_loop_foreign_record (k : shape_type)
    (hk4 : k = shape_type.point ∨ k = shape_type.polyline ∨ k = shape_type.polygon
      ∨ k = shape_type.multipoint)
    (num cl : Int) (content rest : List Nat)
    (hcl : 0 < cl) (hcl2 : cl < 1073741824) (hlen : (content.length : Int) = 2 * cl)
    (hbad : (2 ≤ cl ∧ int32_of_LE (content.take 4) ≠ 0
        ∧ int32_of_LE (content.take 4) ≠ k.code)
      ∨ (k = shape_type.point ∧ cl ≠ 10))
    (reader : shapefile_record_reader) (acc : List shape) (fuel : Nat)
    (hfp : reader.fp = write_record_header ⟨num, cl⟩ ++ content ++ rest)
    (hlt : reader.total_bytes_read < reader.file_length_bytes)
    (hbound : reader.total_bytes_read + 8 + content.length < 4294967296) :
    read_loop (body_of k) (fuel + 1) reader acc = some (false, acc) := by
  obtain ⟨rd2, e1, ⟨tail, e2⟩, e3, -, -, -⟩ := read_shape_record_written reader num cl content
    rest hfp hcl hcl2 hlen hlt hbound
  have hfail : body_of k rd2 = record_action.fail := by
    rcases hbad with ⟨h2, h0, hk⟩ | ⟨rfl, h10⟩
    · exact body_of_foreign_type k hk4 rd2 content tail e2 (by omega) h0 hk
    · simp only [body_of, point_body]
      rw [if_pos (by rw [e3]; exact h10)]
  simp only [read_loop, e1, hfail]

/-- A record the reader can read and rejects. A file of one of the four supported kinds
holds the records the writer gives a list of shapes and then, still within the byte budget of
the header, one more record with a positive content length below 2^30 and all of its content.
If the type code of that record is neither 0 nor the code of the main header, or if the file
is a point file and the content length of that record is not 10, then `read_shp` returns
`false` (with the shapes of the records before it). Whatever was read before it, the loop of
the reader returns `false` when it meets such a record within the byte budget. -/
theorem read_shp_rejects_foreign_record (k : shape_type)
    (hk4 : k = shape_type.point ∨ k = shape_type.polyline ∨ k = shape_type.polygon
      ∨ k = shape_type.multipoint)
    (shapes : List shape) (fp shx : List Nat) (fl num cl : Int)
    (bb : shapefile_main_header_boundingbox) (content rest : List Nat)
    (hw : write_records (encode_of k) shapes 100 1 = some (fp, shx))
    (hwf : ∀ s ∈ shapes, s.wf) (hpart : ∀ s ∈ shapes, s.has_part)
    (hrec : ∀ s ∈ shapes, content_bytes s < 2147483648)
    (hfl : 0 ≤ fl ∧ fl < 2147483648) (hbudget : ((100 + fp.length : Nat) : Int) < 2 * fl)
    (hcl : 0 < cl) (hcl2 : cl < 1073741824) (hlen : (content.length : Int) = 2 * cl)
    (hsize : 100 + fp.length + 8 + content.length < 4294967296)
    (hbad : (2 ≤ cl ∧ int32_of_LE (content.take 4) ≠ 0
        ∧ int32_of_LE (content.take 4) ≠ k.code)
      ∨ (k = shape_type.point ∧ cl ≠ 10)) :
    read_shp (write_main_header ⟨SHAPEFILE_FILE_CODE, fl, SHAPEFILE_VERSION, k.code⟩ bb
        ++ (fp ++ (write_record_header ⟨num, cl⟩ ++ content ++ rest)))
      = some (false, ⟨shapes⟩)
    ∧ ∀ (reader : shapefile_record_reader) (acc : List shape) (fuel : Nat),
        reader.fp = write_record_header ⟨num, cl⟩ ++ content ++ rest →
        reader.total_bytes_read < reader.file_length_bytes →
        reader.total_bytes_read + 8 + content.length < 4294967296 →
        read_loop (body_of k) (fuel + 1) reader acc = some (false, acc) := by
  refine ⟨?_, fun reader acc fuel hfp hlt hbound =>
    read_loop_foreign_record k hk4 num cl content rest hcl hcl2 hlen hbad reader acc fuel hfp
      hlt hbound⟩
  rw [read_shp_dispatch k hk4]
  obtain ⟨hlenfp, -, -⟩ := write_records_spec (encode_of k)
    (fun s cl c hc => (encode_of_spec k s cl c hc).2) _ _ _ _ _ hw
  have hge := records_size_ge shapes
  have hflb : (init_record_reader (fp ++ (write_record_header ⟨num, cl⟩ ++ content ++ rest))
      ⟨SHAPEFILE_FILE_CODE, to_int32 fl, SHAPEFILE_VERSION, to_int32 k.code⟩).file_length_bytes
        = (2 * fl).toNat := by
    simp only [init_record_reader]
    rw [to_int32_of_range fl (by omega) hfl.2]
    have := to_uint32_of_range (2 * fl) (by omega) (by omega)
    omega
  obtain ⟨m, hm⟩ : ∃ m, (fp ++ (write_record_header ⟨num, cl⟩ ++ content ++ rest)).length + 1
      = shapes.length + (m + 1) := by
    refine ⟨(fp ++ (write_record_header ⟨num, cl⟩ ++ content ++ rest)).length - shapes.length, ?_⟩
    simp only [List.length_append, write_record_header_length]
    omega
  rw [hm]
  obtain ⟨rd, g1, g2, g3, g4⟩ := read_loop_prefix (encode_of k) (body_of k) shapes
    (fun s hs cl c hc => body_of_spec k s (hwf s hs) (hpart s hs) (hrec s hs) cl c hc)
    100 1 fp shx hw _ [] (m + 1) _ rfl
    (by rw [hflb]; simp only [init_record_reader]; omega)
    (by rw [hflb]; omega)
  rw [g1]
  rw [hflb] at g4
  simp only [init_record_reader] at g3
  obtain ⟨rd2, e1, ⟨tail, e2⟩, e3, -, -, -⟩ := read_shape_record_written rd num cl content rest
    g2 hcl hcl2 hlen (by rw [g3, g4]; omega) (by rw [g3]; omega)
  have hfail : body_of k rd2 = record_action.fail := by
    rcases hbad with ⟨h2, h0, hk⟩ | ⟨rfl, h10⟩
    · exact body_of_foreign_type k hk4 rd2 content tail e2 (by omega) h0 hk
    · simp only [body_of, point_body]
      rw [if_pos (by rw [e3]; exact h10)]
  simp only [read_loop, e1, hfail, List.nil_append]

set_option maxRecDepth 100000 in
/-- An instance: a point file whose second record carries the type code 3. -/
theorem read_shp_rejects_foreign_record_witness :
    write_records (encode_of shape_type.point)
        [shape.point ⟨0x3ff0000000000000, 0x4000000000000000⟩] 100 1
      = some (write_record_header ⟨1, 10⟩ ++ (int32_LE 1
          ++ write_xy ⟨0x3ff0000000000000, 0x4000000000000000⟩) ++ [],
        write_record_header ⟨50, 10⟩ ++ [])
    ∧ ((2 : Int) ≤ 10 ∧ int32_of_LE ((int32_LE 3 ++ List.replicate 16 0).take 4) ≠ 0
        ∧ int32_of_LE ((int32_LE 3 ++ List.replicate 16 0).take 4) ≠ shape_type.point.code)
    ∧ read_shp (write_main_header
          ⟨SHAPEFILE_FILE_CODE, 78, SHAPEFILE_VERSION, shape_type.point.code⟩ zero_bb
        ++ ((write_record_header ⟨1, 10⟩ ++ (int32_LE 1
              ++ write_xy ⟨0x3ff0000000000000, 0x4000000000000000⟩) ++ [])
          ++ (write_record_header ⟨2, 10⟩ ++ (int32_LE 3 ++ List.replicate 16 0) ++ [])))
      = some (false, ⟨[shape.point ⟨0x3ff0000000000000, 0x4000000000000000⟩]⟩) :=
  ⟨by decide, by decide,
    (read_shp_rejects_foreign_record shape_type.point (Or.inl rfl)
      [shape.point ⟨0x3ff0000000000000, 0x4000000000000000⟩] _
      (write_record_header ⟨50, 10⟩ ++ []) 78 2 10 zero_bb
      (int32_LE 3 ++ List.replicate 16 0) [] (by decide) (by decide) (by decide) (by decide)
      (by decide) (by decide) (by decide) (by decide) (by decide) (by decide)
      (Or.inl (by decide))).1⟩

set_option maxRecDepth 100000 in
theorem point_record_of_other_length :
    read_shp (write_main_header
          ⟨SHAPEFILE_FILE_CODE, 76, SHAPEFILE_VERSION, shape_type.point.code⟩ zero_bb
        ++ (write_record_header ⟨1, 10⟩ ++ (int32_LE 1
              ++ write_xy ⟨0x3ff0000000000000, 0x4000000000000000⟩)
          ++ (write_record_header ⟨2, 8⟩ ++ (int32_LE 1 ++ List.replicate 12 0))))
      = some (false, ⟨[shape.point ⟨0x3ff0000000000000, 0x4000000000000000⟩]⟩) := by
  decide

/-! ## Record headers and part indices -/

theorem records_size_append (a b : List shape) :
    records_size (a ++ b) = records_size a + records_size b := by
  simp [records_size]

theorem records_size_take_succ (shapes : List shape) (i : Nat) (hi : i < shapes.length) :
    records_size (shapes.take (i + 1))
      = records_size (shapes.take i) + (8 + content_bytes (shapes.getD i shape.null)) := by
  induction shapes generalizing i with
  | nil => simp at hi
  | cons s rest ih =>
    cases i with
    | zero => simp [records_size]
    | succ j =>
      simp only [List.length_cons] at hi
      rw [List.take_succ_cons, records_size_cons, ih j (by omega), List.take_succ_cons,
        records_size_cons]
      simp only [List.getD_cons_succ]
      omega

/-- The content of each record lies behind its header in the bytes the record loop
writes. -/
theorem write_records_content (enc : shape → Option (Int × List Nat))
    (henc : ∀ s cl c, enc s = some (cl, c) → c.length = content_bytes s)
    (shapes : List shape) :
    ∀ (pos : Nat) (recnum : Int) (fp shx : List Nat),
      write_records enc shapes pos recnum = some (fp, shx) →
      ∀ i, i < shapes.length →
        ∃ cl c, enc (shapes.getD i shape.null) = some (cl, c)
          ∧ (fp.drop (records_size (shapes.take i) + 8)).take
              (content_bytes (shapes.getD i shape.null)) = c := by
  induction shapes with
  | nil => intro pos recnum fp shx _ i hi; simp at hi
  | cons s rest ih =>
    intro pos recnum fp shx hw i hi
    simp only [write_records] at hw
    cases he : enc s with
    | none => simp [he] at hw
    | some p =>
      obtain ⟨cl, c⟩ := p
      simp only [he] at hw
      cases hr : write_records enc rest (pos + 8 + c.length) (to_int32 (recnum + 1)) with
      | none => simp [hr] at hw
      | some q =>
        obtain ⟨fp', shx'⟩ := q
        simp only [hr, Option.some.injEq, Prod.mk.injEq] at hw
        obtain ⟨rfl, rfl⟩ := hw
        have hc := henc s cl c he
        cases i with
        | zero =>
          refine ⟨cl, c, he, ?_⟩
          simp only [List.take_zero, List.getD_cons_zero]
          rw [show records_size [] + 8 = (write_record_header ⟨recnum, cl⟩).length by
            rw [write_record_header_length]; rfl]
          rw [List.append_assoc, List.drop_left, ← hc, List.take_left]
        | succ j =>
          simp only [List.length_cons] at hi
          obtain ⟨cl', c', h1, h2⟩ := ih _ _ _ _ hr j (by omega)
          refine ⟨cl', c', by simpa using h1, ?_⟩
          simp only [List.take_succ_cons, List.getD_cons_succ, records_size_cons]
          rw [show 8 + content_bytes s + records_size (rest.take j) + 8
              = (write_record_header ⟨recnum, cl⟩ ++ c).length
                + (records_size (rest.take j) + 8) by
            rw [List.length_append, write_record_header_length, hc]; omega]
          rw [← List.drop_drop, List.drop_left]
          exact h2

/-- Claim C29, amended. In a successfully written `.shp` with fewer than `2 ^ 31` records,
each of fewer than `2 ^ 31` content bytes, the record with index `i` (from 0) has, at its
offset, a header with the record number `i + 1` and the content length `content_bytes / 2`
(both big-endian). `content_bytes` is 20 for a point, `40 + 16 * points` for a multipoint
and `44 + 4 * parts + 16 * points` for a polyline or polygon; it is even, and exactly
`content_bytes` bytes of content, those the writer encodes the shape to, follow the header:
the next record begins right behind them, and the file ends behind the last record. For the
polyline of two parts with 2 and 3 points, `content_bytes` is 132. -/
theorem shp_record_headers (path : List Nat) (shpfile : shapefile) (r : write_shp_result)
    (shp : List Nat) (h : write_shp path shpfile = some r) (hst : r.status = true)
    (hshp : r.shp = some shp)
    (hrec : ∀ s ∈ shpfile.shapes, content_bytes s < 2147483648)
    (hn : shpfile.shapes.length < 2147483648) :
    (∀ i, i < shpfile.shapes.length →
      stored_BE shp (record_offset shpfile.shapes i) = (i : Int) + 1
      ∧ 2 * stored_BE shp (record_offset shpfile.shapes i + 4)
          = (content_bytes (shpfile.shapes.getD i shape.null) : Nat)
      ∧ content_bytes (shpfile.shapes.getD i shape.null) % 2 = 0
      ∧ (∃ cl c, encode_of (determine_shape_type shpfile) (shpfile.shapes.getD i shape.null)
            = some (cl, c)
          ∧ (shp.drop (record_offset shpfile.shapes i + 8)).take
              (content_bytes (shpfile.shapes.getD i shape.null)) = c)
      ∧ record_offset shpfile.shapes (i + 1)
          = record_offset shpfile.shapes i + 8
            + content_bytes (shpfile.shapes.getD i shape.null))
    ∧ shp.length = record_offset shpfile.shapes shpfile.shapes.length
    ∧ (∀ ps, content_bytes (shape.point ps) = 20)
    ∧ (∀ points, content_bytes (shape.multipoint points) = 40 + 16 * points.length)
    ∧ (∀ parts, content_bytes (shape.polyline parts)
        = 44 + 4 * parts.length + 16 * (parts.map (fun p => p.points.length)).sum)
    ∧ (∀ rings, content_bytes (shape.polygon rings)
        = 44 + 4 * rings.length + 16 * (rings.map (fun p => p.points.length)).sum)
    ∧ ∀ s ∈ two_part_polyline.shapes, content_bytes s = 132 := by
  obtain ⟨k, bb, fp, shx, hk4, -, hk, hw, e1, e2⟩ := write_shp_form path shpfile r h hst
  rw [hshp, Option.some.injEq] at e1
  obtain ⟨shx', hshx⟩ : ∃ shx', r.shx = some shx' := ⟨_, e2⟩
  obtain ⟨hlen, -, -, -, hall⟩ := write_shp_layout path shpfile r shp shx' h hst hshp hshx
  refine ⟨?_, ?_, fun _ => rfl, fun _ => rfl, fun _ => rfl, fun _ => rfl, by decide⟩
  · intro i hi
    obtain ⟨a1, a2, -, -⟩ := hall i hi
    have hmem : shpfile.shapes.getD i shape.null ∈ shpfile.shapes := by
      rw [List.getD_eq_getElem _ _ hi]
      exact List.getElem_mem _
    have hsmall := hrec _ hmem
    have hev := content_bytes_even (shpfile.shapes.getD i shape.null)
    refine ⟨?_, ?_, hev, ?_, ?_⟩
    · rw [a1, to_int32_of_range _ (by omega) (by omega)]; omega
    · rw [a2, to_int32_of_range ((content_bytes _ : Nat) : Int) (by omega) (by omega), tdiv_two,
        if_pos (by omega), to_int32_of_range _ (by omega) (by omega)]
      omega
    · obtain ⟨cl, c, h1, h2⟩ := write_records_content (encode_of k)
        (fun s cl c hc => (encode_of_spec k s cl c hc).2.1) _ _ _ _ _ hw i hi
      refine ⟨cl, c, by rw [hk]; exact h1, ?_⟩
      rw [e1, show record_offset shpfile.shapes i + 8
          = (write_main_header ⟨SHAPEFILE_FILE_CODE,
              Int.tdiv (to_int32 ((shp_size shpfile.shapes : Nat) : Int)) 2,
              SHAPEFILE_VERSION, k.code⟩ bb).length
            + (records_size (shpfile.shapes.take i) + 8) by
        rw [write_main_header_length]; simp only [record_offset, shp_size]; omega]
      rw [← List.drop_drop, List.drop_left]
      exact h2
    · simp only [record_offset, shp_size]
      rw [records_size_take_succ _ i hi]
      omega
  · rw [hlen]
    simp only [record_offset, List.take_length]

set_option maxRecDepth 100000 in
/-- Witness of claim C29 (amended): the record of the polyline of two parts. -/
theorem shp_record_headers_witness :
    ∃ r shp, write_shp (str_bytes "p.shp") two_part_polyline = some r ∧ r.status = true
      ∧ r.shp = some shp
      ∧ (∀ s ∈ two_part_polyline.shapes, content_bytes s < 2147483648)
      ∧ two_part_polyline.shapes.length < 2147483648
      ∧ (∀ i, i < two_part_polyline.shapes.length →
          stored_BE shp (record_offset two_part_polyline.shapes i) = (i : Int) + 1
          ∧ 2 * stored_BE shp (record_offset two_part_polyline.shapes i + 4)
              = (content_bytes (two_part_polyline.shapes.getD i shape.null) : Nat))
      ∧ shp.length = record_offset two_part_polyline.shapes two_part_polyline.shapes.length
      ∧ record_offset two_part_polyline.shapes two_part_polyline.shapes.length = 240 := by
  have hst : (write_shp (str_bytes "p.shp") two_part_polyline).map (fun r => r.status)
      = some true := by decide
  have hshp : ((write_shp (str_bytes "p.shp") two_part_polyline).bind
      (fun r => r.shp)).isSome = true := by decide
  cases hr : write_shp (str_bytes "p.shp") two_part_polyline with
  | none => rw [hr] at hst; simp at hst
  | some r =>
    rw [hr] at hst hshp
    simp only [Option.map_some', Option.some.injEq, Option.some_bind] at hst hshp
    obtain ⟨shp, hs⟩ := Option.isSome_iff_exists.1 hshp
    have hT := shp_record_headers _ _ r shp hr hst hs (by decide) (by decide)
    exact ⟨r, shp, rfl, hst, hs, by decide, by decide,
      fun i hi => ⟨(hT.1 i hi).1, (hT.1 i hi).2.1⟩, hT.2.1, by decide⟩

theorem origin_multipoint_facts (n : Nat) :
    0 < (origin_multipoint n).shapes.length
      ∧ record_offset (origin_multipoint n).shapes 0 = 100
      ∧ content_bytes ((origin_multipoint n).shapes.getD 0 shape.null) = 40 + 16 * n := by
  refine ⟨?_, ?_, ?_⟩
  · simp [origin_multipoint]
  · simp [record_offset, shp_size, records_size]
  · simp [origin_multipoint, content_bytes]

/-- Counterexample to claim C29 as stated: for one multipoint of 134 217 726 points,
`content_bytes` is 2 147 483 656, which does not fit the `int32_t` it is computed in, and the
content length stored in the record header is -1 073 741 820, not 1 073 741 828. -/
theorem shp_record_header_overflow :
    ∃ r shp, write_shp (str_bytes "p.shp") (origin_multipoint 134217726) = some r
      ∧ r.status = true ∧ r.shp = some shp
      ∧ stored_BE shp (record_offset (origin_multipoint 134217726).shapes 0 + 4) = -1073741820
      ∧ record_offset (origin_multipoint 134217726).shapes 0 = 100
      ∧ content_bytes ((origin_multipoint 134217726).shapes.getD 0 shape.null)
          = 40 + 16 * 134217726
      ∧ 40 + 16 * 134217726 = 2147483656 := by
  obtain ⟨r, fp, h, hst, ⟨bb, hshp⟩, -⟩ := origin_multipoint_written 134217726
  obtain ⟨k, bb', fp', shx, -, -, -, -, -, hshx⟩ := write_shp_form _ _ r h hst
  obtain ⟨-, -, -, -, hall⟩ := write_shp_layout _ _ r _ _ h hst hshp hshx
  obtain ⟨hlen, hoff, hcb⟩ := origin_multipoint_facts 134217726
  refine ⟨r, _, h, hst, hshp, ?_, hoff, hcb, by decide⟩
  obtain ⟨-, a2, -, -⟩ := hall 0 hlen
  rw [a2, hcb]
  decide



theorem int32_LE_to_int32_add (a b : Int) : int32_LE (to_int32 a + b) = int32_LE (a + b) := by
  unfold int32_LE
  congr 1
  unfold to_uint32 to_int32
  omega

theorem write_part_indices_eq (parts : List polypart) :
    ∀ start : Int, write_part_indices parts start
      = (List.range parts.length).flatMap (fun k =>
          int32_LE (start + (((parts.take k).map (fun p => p.points.length)).sum : Nat))) := by
  induction parts with
  | nil => intro start; rfl
  | cons p ps ih =>
    intro start
    rw [write_part_indices, ih, List.length_cons, List.range_succ_eq_map, List.flatMap_cons,
      List.flatMap_map]
    congr 1
    · simp
    · apply List.flatMap_congr
      intro k _
      simp only [Function.comp, List.take_succ_cons, List.map_cons, List.sum_cons]
      rw [int32_LE_to_int32_add]
      congr 1
      push_cast
      ring

theorem write_part_indices_starts (parts : List polypart) :
    write_part_indices parts 0 = (part_starts parts).flatMap (fun i => int32_LE (i : Int)) := by
  rw [write_part_indices_eq, part_starts, List.flatMap_map]
  apply List.flatMap_congr
  intro k _
  simp

theorem sum_take_mono (l : List Nat) (i j : Nat) (h : i ≤ j) :
    (l.take i).sum ≤ (l.take j).sum := by
  induction l generalizing i j with
  | nil => simp
  | cons a t ih =>
    cases i with
    | zero => simp
    | succ i =>
      cases j with
      | zero => omega
      | succ j =>
        simp only [List.take_succ_cons, List.sum_cons]
        have := ih i j (by omega)
        omega

theorem part_starts_spec (parts : List polypart) :
    (part_starts parts).length = parts.length
      ∧ (∀ k, k < parts.length →
          (part_starts parts).getD k 0 = ((parts.take k).map (fun p => p.points.length)).sum)
      ∧ (parts ≠ [] → (part_starts parts).head? = some 0)
      ∧ (part_starts parts).Pairwise (fun a b => a ≤ b)
      ∧ ∀ i ∈ part_starts parts, i ≤ (parts.map (fun p => p.points.length)).sum := by
  refine ⟨by simp [part_starts], ?_, ?_, ?_, ?_⟩
  · intro k hk
    unfold part_starts
    rw [List.getD_eq_getElem _ _ (by simpa using hk)]
    simp
  · intro hne
    cases parts with
    | nil => exact absurd rfl hne
    | cons p ps => simp [part_starts, List.range_succ_eq_map]
  · unfold part_starts
    rw [List.pairwise_map]
    refine List.Pairwise.imp_of_mem ?_ (List.pairwise_lt_range _)
    intro a b _ _ hab
    rw [List.map_take, List.map_take]
    exact sum_take_mono _ a b (by omega)
  · intro i hi
    unfold part_starts at hi
    rw [List.mem_map] at hi
    obtain ⟨k, hk, rfl⟩ := hi
    rw [List.mem_range] at hk
    rw [List.map_take]
    have := sum_take_mono (parts.map (fun p => p.points.length)) k parts.length (by omega)
    have e : (parts.map (fun p => p.points.length)).take parts.length
        = parts.map (fun p => p.points.length) := List.take_of_length_le (by simp)
    rw [e] at this
    exact this

theorem flatMap_chunk (f : Nat → List Nat) (hf : ∀ x, (f x).length = 4) (l : List Nat) :
    ∀ k, k < l.length → ((l.flatMap f).drop (4 * k)).take 4 = f (l.getD k 0) := by
  induction l with
  | nil => intro k hk; simp at hk
  | cons a t ih =>
    intro k hk
    cases k with
    | zero =>
      simp only [List.flatMap_cons, Nat.mul_zero, List.drop_zero, List.getD_cons_zero]
      exact List.take_left' (hf a)
    | succ j =>
      simp only [List.length_cons] at hk
      rw [List.flatMap_cons, show 4 * (j + 1) = (f a).length + 4 * j by rw [hf]; omega,
        ← List.drop_drop, List.drop_left, List.getD_cons_succ]
      exact ih j (by omega)

theorem encode_polypart_layout (stype : shape_type) (s : shape) (parts : List polypart)
    (hcast : polypart_cast stype s = some parts) :
    ∃ cl pre, pre.length = 44
      ∧ encode_polypart stype s = some (cl, pre ++ (write_part_indices parts 0
          ++ parts.flatMap (fun part => part.points.flatMap write_xy))) := by
  unfold encode_polypart
  rw [hcast]
  dsimp only
  refine ⟨Int.tdiv (to_int32 (POLY_BASE_RECORD_SIZE + 4 * to_int32 (parts.length : Int)
      + 2 * 8 * (determine_polypart_bb parts).1)) 2, int32_LE stype.code
      ++ double_LE (determine_polypart_bb parts).2.xmin
      ++ double_LE (determine_polypart_bb parts).2.ymin
      ++ double_LE (determine_polypart_bb parts).2.xmax
      ++ double_LE (determine_polypart_bb parts).2.ymax
      ++ int32_LE (to_int32 parts.length) ++ int32_LE (determine_polypart_bb parts).1, ?_, ?_⟩
  · simp only [List.length_append, int32_LE_length, double_LE_length]
  · simp only [List.append_assoc]

/-- Claim C30, amended. In the record `write_polypart_shapes` writes for a polyline or
polygon with the parts `p_0 .. p_(m-1)` and fewer than `2 ^ 31` points in all, the `m` part
indices stored behind the 44 bytes that precede them are `index[k] = Σ_(j<k) |p_j.points|`:
`index[0]` is 0, the indices do not decrease, none exceeds the number of points, and the
points follow in the order of the parts. For parts of 2 and 3 points the indices are
`[0, 2]`. -/
theorem part_indices_prefix_sums (stype : shape_type) (s : shape) (parts : List polypart)
    (hcast : polypart_cast stype s = some parts)
    (hsmall : (parts.map (fun p => p.points.length)).sum < 2147483648) :
    ∃ cl c, encode_polypart stype s = some (cl, c)
      ∧ (c.drop 44).take (4 * parts.length)
          = (part_starts parts).flatMap (fun i => int32_LE (i : Int))
      ∧ (∀ k, k < parts.length →
          int32_of_LE ((c.drop (44 + 4 * k)).take 4)
            = (((parts.take k).map (fun p => p.points.length)).sum : Nat))
      ∧ (parts ≠ [] → (part_starts parts).head? = some 0)
      ∧ (part_starts parts).Pairwise (fun a b => a ≤ b)
      ∧ (∀ i ∈ part_starts parts, i ≤ (parts.map (fun p => p.points.length)).sum)
      ∧ c.drop (44 + 4 * parts.length)
          = parts.flatMap (fun part => part.points.flatMap write_xy)
      ∧ part_starts [⟨[⟨0, 0⟩, ⟨1, 0⟩]⟩, ⟨[⟨5, 5⟩, ⟨5, 6⟩, ⟨5, 7⟩]⟩] = [0, 2] := by
  obtain ⟨cl, pre, hpre, henc⟩ := encode_polypart_layout stype s parts hcast
  obtain ⟨hl, hget, hhead, hpw, hle⟩ := part_starts_spec parts
  have hidx := write_part_indices_starts parts
  have hilen := write_part_indices_length parts 0
  refine ⟨cl, _, henc, ?_, ?_, hhead, hpw, hle, ?_, by decide⟩
  · rw [List.drop_left' hpre, ← hilen, List.take_left, hidx]
  · intro k hk
    rw [show 44 + 4 * k = pre.length + 4 * k by rw [hpre], ← List.drop_drop,
      List.drop_left, hidx]
    have hk' : k < (part_starts parts).length := by rw [hl]; exact hk
    have hlen4 : 4 * k + 4 ≤ ((part_starts parts).flatMap (fun i => int32_LE (i : Int))).length := by
      rw [← hidx, hilen]; omega
    rw [List.drop_append_of_le_length (by omega), List.take_append_of_le_length (by
      rw [List.length_drop]; omega),
      flatMap_chunk (fun i => int32_LE (i : Int)) (fun x => int32_LE_length _) _ k hk',
      int32_of_LE_int32_LE, hget k hk]
    have hmem : (part_starts parts).getD k 0 ∈ part_starts parts := by
      rw [List.getD_eq_getElem _ _ hk']
      exact List.getElem_mem _
    have hb := hle _ hmem
    rw [hget k hk] at hb
    exact to_int32_of_range _ (by omega) (by omega)
  · rw [show 44 + 4 * parts.length = pre.length + (write_part_indices parts 0).length by
      rw [hpre, hilen], ← List.drop_drop, List.drop_left, List.drop_left]

set_option maxRecDepth 100000 in
/-- Witness of claim C30 (amended): the polyline of two parts with 2 and 3 points. -/
theorem part_indices_prefix_sums_witness :
    polypart_cast shape_type.polyline
        (shape.polyline [⟨[⟨0, 0⟩, ⟨0x3ff0000000000000, 0⟩]⟩,
          ⟨[⟨0x4014000000000000, 0x4014000000000000⟩, ⟨0x4014000000000000, 0x4018000000000000⟩,
            ⟨0x4014000000000000, 0x401c000000000000⟩]⟩])
      = some [⟨[⟨0, 0⟩, ⟨0x3ff0000000000000, 0⟩]⟩,
          ⟨[⟨0x4014000000000000, 0x4014000000000000⟩, ⟨0x4014000000000000, 0x4018000000000000⟩,
            ⟨0x4014000000000000, 0x401c000000000000⟩]⟩]
    ∧ ∃ cl c, encode_polypart shape_type.polyline
          (shape.polyline [⟨[⟨0, 0⟩, ⟨0x3ff0000000000000, 0⟩]⟩,
            ⟨[⟨0x4014000000000000, 0x4014000000000000⟩,
              ⟨0x4014000000000000, 0x4018000000000000⟩,
              ⟨0x4014000000000000, 0x401c000000000000⟩]⟩]) = some (cl, c)
        ∧ (c.drop 44).take (4 * 2) = int32_LE 0 ++ int32_LE 2 := by
  refine ⟨by decide, ?_⟩
  obtain ⟨cl, c, h1, h2, -⟩ := part_indices_prefix_sums shape_type.polyline
    (shape.polyline [⟨[⟨0, 0⟩, ⟨0x3ff0000000000000, 0⟩]⟩,
      ⟨[⟨0x4014000000000000, 0x4014000000000000⟩, ⟨0x4014000000000000, 0x4018000000000000⟩,
        ⟨0x4014000000000000, 0x401c000000000000⟩]⟩])
    [⟨[⟨0, 0⟩, ⟨0x3ff0000000000000, 0⟩]⟩,
      ⟨[⟨0x4014000000000000, 0x4014000000000000⟩, ⟨0x4014000000000000, 0x4018000000000000⟩,
        ⟨0x4014000000000000, 0x401c000000000000⟩]⟩] (by decide) (by decide)
  exact ⟨cl, c, h1, h2⟩

theorem write_part_indices_long_first (n : Nat) :
    write_part_indices (long_first_part n) 0 = int32_LE 0 ++ int32_LE (n : Int) := by
  unfold long_first_part
  rw [write_part_indices, write_part_indices, write_part_indices, List.length_replicate,
    List.append_nil]
  have e := int32_LE_to_int32_add (0 + (n : Int)) 0
  rw [Int.add_zero, Int.add_zero, Int.zero_add] at e
  rw [Int.zero_add, e]

/-- Counterexample to claim C30 as stated: for a polyline whose first part has `2 ^ 31`
points, the start index stored for the second part is `-2 ^ 31`: it is not the number of
points of the first part, and it is less than the first index, 0. -/
theorem part_index_overflow :
    ∃ cl c, encode_polypart shape_type.polyline
          (shape.polyline (long_first_part 2147483648)) = some (cl, c)
      ∧ int32_of_LE ((c.drop 44).take 4) = 0
      ∧ int32_of_LE ((c.drop (44 + 4 * 1)).take 4) = -2147483648
      ∧ (long_first_part 2147483648).length = 2
      ∧ ∀ p ∈ (long_first_part 2147483648).take 1, p.points.length = 2147483648 := by
  obtain ⟨cl, pre, hpre, henc⟩ := encode_polypart_layout shape_type.polyline
    (shape.polyline (long_first_part 2147483648)) (long_first_part 2147483648) rfl
  rw [write_part_indices_long_first] at henc
  refine ⟨cl, _, henc, ?_, ?_, rfl, ?_⟩
  · rw [List.drop_left' hpre, List.append_assoc, List.take_left' (int32_LE_length _),
      int32_of_LE_int32_LE]
    decide
  · rw [show 44 + 4 * 1 = pre.length + (int32_LE 0).length by rw [hpre, int32_LE_length],
      ← List.drop_drop, List.drop_left, List.append_assoc, List.drop_left,
      List.take_left' (int32_LE_length _), int32_of_LE_int32_LE]
    decide
  · intro p hp
    simp only [long_first_part, List.take_succ_cons, List.take_zero, List.mem_singleton] at hp
    rw [hp]
    exact List.length_replicate _ _

/-! ## The bounding box of a sequence of points -/

theorem bb_step_first (bb : shapefile_main_header_boundingbox) (ps : pointshape) :
    bb_step (true, bb) ps
      = (false, ⟨ps.x, ps.y, ps.x, ps.y, bb.zmin, bb.zmax, bb.mmin, bb.mmax⟩) := by
  simp [bb_step]

theorem bb_step_next (bb : shapefile_main_header_boundingbox) (ps : pointshape) :
    bb_step (false, bb) ps
      = (false, ⟨if dbl_lt ps.x bb.xmin then ps.x else bb.xmin,
          if dbl_lt ps.y bb.ymin then ps.y else bb.ymin,
          if dbl_gt ps.x bb.xmax then ps.x else bb.xmax,
          if dbl_gt ps.y bb.ymax then ps.y else bb.ymax,
          bb.zmin, bb.zmax, bb.mmin, bb.mmax⟩) := by
  unfold bb_step
  dsimp only
  simp only [Bool.false_or]
  split_ifs <;> rfl

theorem foldl_bb_step_next (points : List pointshape) :
    ∀ bb : shapefile_main_header_boundingbox,
      points.foldl bb_step (false, bb)
        = (false, ⟨points.foldl (fun m p => if dbl_lt p.x m then p.x else m) bb.xmin,
            points.foldl (fun m p => if dbl_lt p.y m then p.y else m) bb.ymin,
            points.foldl (fun m p => if dbl_gt p.x m then p.x else m) bb.xmax,
            points.foldl (fun m p => if dbl_gt p.y m then p.y else m) bb.ymax,
            bb.zmin, bb.zmax, bb.mmin, bb.mmax⟩) := by
  induction points with
  | nil => intro bb; rfl
  | cons p ps ih =>
    intro bb
    rw [List.foldl_cons, bb_step_next, ih]
    rfl

theorem dbl_lt_of_not_nan (a b : Nat) (ha : dbl_is_nan a = false) (hb : dbl_is_nan b = false) :
    dbl_lt a b = decide (dbl_key a < dbl_key b) := by
  simp [dbl_lt, ha, hb]

/-- The running minimum of the loop: it is the seed or a value of the sequence, and it is
a lower bound of the seed and of every value. -/
theorem foldl_min (g : pointshape → Nat) (points : List pointshape)
    (hnan : ∀ p ∈ points, dbl_is_nan (g p) = false) :
    ∀ m : Nat, dbl_is_nan m = false →
      (points.foldl (fun m p => if dbl_lt (g p) m then g p else m) m = m
          ∨ ∃ p ∈ points, points.foldl (fun m p => if dbl_lt (g p) m then g p else m) m = g p)
        ∧ dbl_key (points.foldl (fun m p => if dbl_lt (g p) m then g p else m) m) ≤ dbl_key m
        ∧ (∀ p ∈ points,
            dbl_key (points.foldl (fun m p => if dbl_lt (g p) m then g p else m) m)
              ≤ dbl_key (g p))
        ∧ dbl_is_nan (points.foldl (fun m p => if dbl_lt (g p) m then g p else m) m)
            = false := by
  induction points with
  | nil => intro m hm; exact ⟨Or.inl rfl, le_refl _, fun p hp => by simp at hp, hm⟩
  | cons q qs ih =>
    intro m hm
    have hq := hnan q (List.mem_cons_self _ _)
    have ih' := ih (fun p hp => hnan p (List.mem_cons_of_mem _ hp))
    rw [List.foldl_cons, dbl_lt_of_not_nan _ _ hq hm]
    by_cases hlt : dbl_key (g q) < dbl_key m
    · rw [decide_eq_true hlt, if_pos rfl]
      obtain ⟨h1, h2, h3, h4⟩ := ih' (g q) hq
      refine ⟨Or.inr ?_, by omega, ?_, h4⟩
      · rcases h1 with h1 | ⟨p, hp, h1⟩
        · exact ⟨q, List.mem_cons_self _ _, h1⟩
        · exact ⟨p, List.mem_cons_of_mem _ hp, h1⟩
      · intro p hp
        rcases List.mem_cons.mp hp with rfl | hp
        · exact h2
        · exact h3 p hp
    · rw [decide_eq_false hlt, if_neg (by simp)]
      obtain ⟨h1, h2, h3, h4⟩ := ih' m hm
      refine ⟨?_, h2, ?_, h4⟩
      · rcases h1 with h1 | ⟨p, hp, h1⟩
        · exact Or.inl h1
        · exact Or.inr ⟨p, List.mem_cons_of_mem _ hp, h1⟩
      · intro p hp
        rcases List.mem_cons.mp hp with rfl | hp
        · omega
        · exact h3 p hp

/-- The running maximum of the loop: it is the seed or a value of the sequence, and it is
an upper bound of the seed and of every value. -/
theorem foldl_max (g : pointshape → Nat) (points : List pointshape)
    (hnan : ∀ p ∈ points, dbl_is_nan (g p) = false) :
    ∀ m : Nat, dbl_is_nan m = false →
      (points.foldl (fun m p => if dbl_gt (g p) m then g p else m) m = m
          ∨ ∃ p ∈ points, points.foldl (fun m p => if dbl_gt (g p) m then g p else m) m = g p)
        ∧ dbl_key m ≤ dbl_key (points.foldl (fun m p => if dbl_gt (g p) m then g p else m) m)
        ∧ (∀ p ∈ points, dbl_key (g p)
            ≤ dbl_key (points.foldl (fun m p => if dbl_gt (g p) m then g p else m) m))
        ∧ dbl_is_nan (points.foldl (fun m p => if dbl_gt (g p) m then g p else m) m)
            = false := by
  induction points with
  | nil => intro m hm; exact ⟨Or.inl rfl, le_refl _, fun p hp => by simp at hp, hm⟩
  | cons q qs ih =>
    intro m hm
    have hq := hnan q (List.mem_cons_self _ _)
    have ih' := ih (fun p hp => hnan p (List.mem_cons_of_mem _ hp))
    rw [List.foldl_cons, dbl_gt, dbl_lt_of_not_nan _ _ hm hq]
    by_cases hlt : dbl_key m < dbl_key (g q)
    · rw [decide_eq_true hlt, if_pos rfl]
      obtain ⟨h1, h2, h3, h4⟩ := ih' (g q) hq
      refine ⟨Or.inr ?_, by omega, ?_, h4⟩
      · rcases h1 with h1 | ⟨p, hp, h1⟩
        · exact ⟨q, List.mem_cons_self _ _, h1⟩
        · exact ⟨p, List.mem_cons_of_mem _ hp, h1⟩
      · intro p hp
        rcases List.mem_cons.mp hp with rfl | hp
        · exact h2
        · exact h3 p hp
    · rw [decide_eq_false hlt, if_neg (by simp)]
      obtain ⟨h1, h2, h3, h4⟩ := ih' m hm
      refine ⟨?_, h2, ?_, h4⟩
      · rcases h1 with h1 | ⟨p, hp, h1⟩
        · exact Or.inl h1
        · exact Or.inr ⟨p, List.mem_cons_of_mem _ hp, h1⟩
      · intro p hp
        rcases List.mem_cons.mp hp with rfl | hp
        · omega
        · exact h3 p hp

theorem determine_multipoint_bb_cons (p : pointshape) (ps : List pointshape) :
    determine_multipoint_bb (p :: ps)
      = ⟨ps.foldl (fun m p => if dbl_lt p.x m then p.x else m) p.x,
          ps.foldl (fun m p => if dbl_lt p.y m then p.y else m) p.y,
          ps.foldl (fun m p => if dbl_gt p.x m then p.x else m) p.x,
          ps.foldl (fun m p => if dbl_gt p.y m then p.y else m) p.y, 0, 0, 0, 0⟩ := by
  unfold determine_multipoint_bb
  rw [List.foldl_cons, bb_step_first, foldl_bb_step_next]
  rfl

theorem foldl_point_bb_step_eq (shapes : List shape) :
    ∀ st : Bool × shapefile_main_header_boundingbox,
      shapes.foldl point_bb_step st = (point_shapes ⟨shapes⟩).foldl bb_step st := by
  induction shapes with
  | nil => intro st; rfl
  | cons s ss ih =>
    intro st
    rw [List.foldl_cons, ih]
    cases s <;> rfl

theorem foldl_polypart_bb_step_eq (parts : List polypart) :
    ∀ st : Int × Bool × shapefile_main_header_boundingbox,
      (parts.foldl polypart_bb_step st).2 = (part_points parts).foldl bb_step st.2 := by
  induction parts with
  | nil => intro st; rfl
  | cons p ps ih =>
    intro st
    rw [List.foldl_cons, ih]
    simp only [part_points, List.flatMap_cons, List.foldl_append, polypart_bb_step]

theorem dbl_le_of_not_nan (a b : Nat) (ha : dbl_is_nan a = false) (hb : dbl_is_nan b = false)
    (h : dbl_key a ≤ dbl_key b) : dbl_le a b = true := by
  simp [dbl_le, ha, hb, h]

/-- Claim C31. The three loops that compute a bounding box compute the same box from the
sequence of points they run over: the point shapes of a collection, the points of a
multipoint, the points of all parts of a polyline or polygon. For a non-empty sequence
without NaN, `xmin` and `ymin` are the least and `xmax` and `ymax` the greatest coordinate
of the sequence (a coordinate that occurs, and a bound of all), so `xmin <= xmax`,
`ymin <= ymax` and every point lies inside the box. For the empty sequence all fields are 0,
and the Z and M fields are 0 for every sequence. -/
theorem bounding_box_min_max (points : List pointshape) :
    (∀ shpfile, point_shapes shpfile = points →
        determine_point_shape_bb shpfile = determine_multipoint_bb points)
      ∧ (∀ parts, part_points parts = points →
        (determine_polypart_bb parts).2 = determine_multipoint_bb points)
      ∧ (points = [] → determine_multipoint_bb points = zero_bb)
      ∧ zm_slots (determine_multipoint_bb points) = [0, 0, 0, 0]
      ∧ (points ≠ [] →
          (∀ p ∈ points, dbl_is_nan p.x = false ∧ dbl_is_nan p.y = false) →
          (∃ p ∈ points, (determine_multipoint_bb points).xmin = p.x)
            ∧ (∀ p ∈ points, dbl_le (determine_multipoint_bb points).xmin p.x = true)
            ∧ (∃ p ∈ points, (determine_multipoint_bb points).xmax = p.x)
            ∧ (∀ p ∈ points, dbl_le p.x (determine_multipoint_bb points).xmax = true)
            ∧ (∃ p ∈ points, (determine_multipoint_bb points).ymin = p.y)
            ∧ (∀ p ∈ points, dbl_le (determine_multipoint_bb points).ymin p.y = true)
            ∧ (∃ p ∈ points, (determine_multipoint_bb points).ymax = p.y)
            ∧ (∀ p ∈ points, dbl_le p.y (determine_multipoint_bb points).ymax = true)
            ∧ dbl_le (determine_multipoint_bb points).xmin
                (determine_multipoint_bb points).xmax = true
            ∧ dbl_le (determine_multipoint_bb points).ymin
                (determine_multipoint_bb points).ymax = true
            ∧ ∀ p ∈ points, inside_bb (determine_multipoint_bb points) p = true) := by
  refine ⟨?_, ?_, ?_, foldl_bb_step_zm _ _, ?_⟩
  · intro shpfile h
    unfold determine_point_shape_bb determine_multipoint_bb
    rw [foldl_point_bb_step_eq, show (⟨shpfile.shapes⟩ : shapefile) = shpfile from rfl, h]
  · intro parts h
    unfold determine_polypart_bb determine_multipoint_bb
    dsimp only
    rw [← h]
    exact congrArg Prod.snd (foldl_polypart_bb_step_eq parts (0, true, zero_bb))
  · intro h
    rw [h]
    rfl
  · intro hne hnan
    obtain ⟨q, qs, rfl⟩ := List.exists_cons_of_ne_nil hne
    have hq := hnan q (List.mem_cons_self _ _)
    have hqs : ∀ p ∈ qs, dbl_is_nan p.x = false ∧ dbl_is_nan p.y = false :=
      fun p hp => hnan p (List.mem_cons_of_mem _ hp)
    obtain ⟨a1, a2, a3, a4⟩ := foldl_min (fun p => p.x) qs (fun p hp => (hqs p hp).1) q.x hq.1
    obtain ⟨b1, b2, b3, b4⟩ := foldl_max (fun p => p.x) qs (fun p hp => (hqs p hp).1) q.x hq.1
    obtain ⟨c1, c2, c3, c4⟩ := foldl_min (fun p => p.y) qs (fun p hp => (hqs p hp).2) q.y hq.2
    obtain ⟨d1, d2, d3, d4⟩ := foldl_max (fun p => p.y) qs (fun p hp => (hqs p hp).2) q.y hq.2
    rw [determine_multipoint_bb_cons]
    dsimp only at a1 a2 a3 a4 b1 b2 b3 b4 c1 c2 c3 c4 d1 d2 d3 d4 ⊢
    have hmem : ∀ (g : pointshape → Nat) (r : Nat),
        (r = g q ∨ ∃ p ∈ qs, r = g p) → ∃ p ∈ q :: qs, r = g p := by
      intro g r h
      rcases h with h | ⟨p, hp, h⟩
      · exact ⟨q, List.mem_cons_self _ _, h⟩
      · exact ⟨p, List.mem_cons_of_mem _ hp, h⟩
    have hxl : ∀ p ∈ q :: qs, dbl_le
        (qs.foldl (fun m p => if dbl_lt p.x m then p.x else m) q.x) p.x = true := by
      intro p hp
      refine dbl_le_of_not_nan _ _ a4 (hnan p hp).1 ?_
      rcases List.mem_cons.mp hp with rfl | hp
      · exact a2
      · exact a3 p hp
    have hxu : ∀ p ∈ q :: qs, dbl_le p.x
        (qs.foldl (fun m p => if dbl_gt p.x m then p.x else m) q.x) = true := by
      intro p hp
      refine dbl_le_of_not_nan _ _ (hnan p hp).1 b4 ?_
      rcases List.mem_cons.mp hp with rfl | hp
      · exact b2
      · exact b3 p hp
    have hyl : ∀ p ∈ q :: qs, dbl_le
        (qs.foldl (fun m p => if dbl_lt p.y m then p.y else m) q.y) p.y = true := by
      intro p hp
      refine dbl_le_of_not_nan _ _ c4 (hnan p hp).2 ?_
      rcases List.mem_cons.mp hp with rfl | hp
      · exact c2
      · exact c3 p hp
    have hyu : ∀ p ∈ q :: qs, dbl_le p.y
        (qs.foldl (fun m p => if dbl_gt p.y m then p.y else m) q.y) = true := by
      intro p hp
      refine dbl_le_of_not_nan _ _ (hnan p hp).2 d4 ?_
      rcases List.mem_cons.mp hp with rfl | hp
      · exact d2
      · exact d3 p hp
    refine ⟨hmem (fun p => p.x) _ a1, hxl, hmem (fun p => p.x) _ b1, hxu,
      hmem (fun p => p.y) _ c1, hyl, hmem (fun p => p.y) _ d1, hyu,
      dbl_le_of_not_nan _ _ a4 b4 (by omega), dbl_le_of_not_nan _ _ c4 d4 (by omega), ?_⟩
    intro p hp
    simp only [inside_bb, hxl p hp, hxu p hp, hyl p hp, hyu p hp, Bool.and_self]

set_option maxRecDepth 100000 in
/-- Witness of claim C31: the five points of the polyline with the parts [(0,0),(1,0)] and
[(5,5),(5,6),(5,7)], whose box is (0, 0) to (5, 7). -/
theorem bounding_box_min_max_witness :
    part_points [⟨[⟨0, 0⟩, ⟨0x3ff0000000000000, 0⟩]⟩,
        ⟨[⟨0x4014000000000000, 0x4014000000000000⟩, ⟨0x4014000000000000, 0x4018000000000000⟩,
          ⟨0x4014000000000000, 0x401c000000000000⟩]⟩]
      = [⟨0, 0⟩, ⟨0x3ff0000000000000, 0⟩, ⟨0x4014000000000000, 0x4014000000000000⟩,
          ⟨0x4014000000000000, 0x4018000000000000⟩, ⟨0x4014000000000000, 0x401c000000000000⟩]
    ∧ (determine_polypart_bb [⟨[⟨0, 0⟩, ⟨0x3ff0000000000000, 0⟩]⟩,
        ⟨[⟨0x4014000000000000, 0x4014000000000000⟩, ⟨0x4014000000000000, 0x4018000000000000⟩,
          ⟨0x4014000000000000, 0x401c000000000000⟩]⟩]).2
      = ⟨0, 0, 0x4014000000000000, 0x401c000000000000, 0, 0, 0, 0⟩
    ∧ (∀ p ∈ [(⟨0, 0⟩ : pointshape), ⟨0x3ff0000000000000, 0⟩,
          ⟨0x4014000000000000, 0x4014000000000000⟩, ⟨0x4014000000000000, 0x4018000000000000⟩,
          ⟨0x4014000000000000, 0x401c000000000000⟩],
        dbl_is_nan p.x = false ∧ dbl_is_nan p.y = false)
    ∧ ∀ p ∈ [(⟨0, 0⟩ : pointshape), ⟨0x3ff0000000000000, 0⟩,
          ⟨0x4014000000000000, 0x4014000000000000⟩, ⟨0x4014000000000000, 0x4018000000000000⟩,
          ⟨0x4014000000000000, 0x401c000000000000⟩],
        inside_bb (determine_multipoint_bb [⟨0, 0⟩, ⟨0x3ff0000000000000, 0⟩,
          ⟨0x4014000000000000, 0x4014000000000000⟩, ⟨0x4014000000000000, 0x4018000000000000⟩,
          ⟨0x4014000000000000, 0x401c000000000000⟩]) p = true :=
  ⟨by decide, by decide, by decide,
    ((bounding_box_min_max [⟨0, 0⟩, ⟨0x3ff0000000000000, 0⟩,
      ⟨0x4014000000000000, 0x4014000000000000⟩, ⟨0x4014000000000000, 0x4018000000000000⟩,
      ⟨0x4014000000000000, 0x401c000000000000⟩]).2.2.2.2
        (by decide) (by decide)).2.2.2.2.2.2.2.2.2.2⟩

/-! ## The field descriptors of a table file -/

theorem read_dbf_raw (env : libc) (h rest : List Nat) (hh : h.length = 32) :
    read_dbf env (h ++ rest)
      = (let raw_header : dBASE_header :=
          { version := h.getD 0 0
            lastupdate := (h.getD 1 0, h.getD 2 0, h.getD 3 0)
            table_records := stored_table_records h
            header_bytes := stored_header_bytes h
            record_bytes := stored_record_bytes h }
        let fd := read_field_descriptors raw_header rest
        if !fd.1 then some (false, ⟨⟨fd.2.1⟩, []⟩)
        else
          match read_rows_loop env raw_header.record_bytes fd.2.1 raw_header.table_records
              fd.2.2 with
          | none => none
          | some (status, rows) => some (status, ⟨⟨fd.2.1⟩, rows⟩)) := by
  unfold read_dbf
  rw [fread_append _ _ 32 hh]
  rfl

theorem number_fields_of_header (hb : Nat) (h1 : 33 ≤ hb) (h2 : hb < 65536) :
    (to_int32 ((((hb : Nat) : Int) - 32 - 1) % 18446744073709551616 / 32)).toNat
      = (hb - 32 - 1) / 32 := by
  unfold to_int32
  omega

theorem read_field_descriptors_count (raw : dBASE_header) (descriptors : List (List Nat))
    (rest : List Nat) (h1 : 33 ≤ raw.header_bytes) (h2 : raw.header_bytes < 65536)
    (hdesc : ∀ d ∈ descriptors, d.length = 32)
    (hn : descriptors.length = (raw.header_bytes - 32 - 1) / 32) :
    read_field_descriptors raw (descriptors.flatten ++ rest)
      = match rest with
        | [] => (false, descriptors.map read_fielddesc, [])
        | c :: tail => (decide (c = 0x0d), descriptors.map read_fielddesc, tail) := by
  unfold read_field_descriptors
  dsimp only
  rw [number_fields_of_header _ h1 h2, ← hn, read_field_descriptors_loop_any rest descriptors hdesc]
  dsimp only
  cases rest with
  | nil => rfl
  | cons c tail =>
    simp [fread]

/-- Claim C32. For a file whose header holds a header length of at least 33, `read_dbf` reads
`(header length - 32 - 1) / 32` field descriptors (rounded down) in the order of the file: the
fields of the table it leaves are those of the 32-byte blocks behind the header. It then reads
one byte: when the file ends there, or the byte is not 0x0D, `read_dbf` returns `false`; when
the byte is 0x0D, the records are read from the byte behind it. -/
theorem read_dbf_descriptor_count (env : libc) (h : List Nat) (descriptors : List (List Nat))
    (rest : List Nat) (hh : h.length = 32)
    (h1 : 33 ≤ stored_header_bytes h) (h2 : stored_header_bytes h < 65536)
    (hdesc : ∀ d ∈ descriptors, d.length = 32)
    (hn : descriptors.length = (stored_header_bytes h - 32 - 1) / 32) :
    (rest = [] → read_dbf env (h ++ (descriptors.flatten ++ rest))
        = some (false, ⟨⟨descriptors.map read_fielddesc⟩, []⟩))
      ∧ (∀ c tail, rest = c :: tail → c ≠ 0x0d →
          read_dbf env (h ++ (descriptors.flatten ++ rest))
            = some (false, ⟨⟨descriptors.map read_fielddesc⟩, []⟩))
      ∧ (∀ tail, rest = 0x0d :: tail →
          read_dbf env (h ++ (descriptors.flatten ++ rest))
            = match read_rows_loop env (stored_record_bytes h)
                (descriptors.map read_fielddesc) (stored_table_records h) tail with
              | none => none
              | some (status, rows) =>
                some (status, ⟨⟨descriptors.map read_fielddesc⟩, rows⟩)) := by
  have e := read_field_descriptors_count
    ⟨h.getD 0 0, (h.getD 1 0, h.getD 2 0, h.getD 3 0), stored_table_records h,
      stored_header_bytes h, stored_record_bytes h⟩ descriptors rest h1 h2 hdesc hn
  rw [read_dbf_raw env h _ hh]
  dsimp only
  rw [e]
  refine ⟨?_, ?_, ?_⟩
  · intro hr
    subst hr
    rfl
  · intro c tail hr hc
    subst hr
    simp [hc]
  · intro tail hr
    subst hr
    rfl


set_option maxRecDepth 100000 in
/-- Witness of claim C32: with a header length of 80, `(80 - 32 - 1) / 32 = 1` descriptor
is read and the terminator is expected right behind it. -/
theorem read_dbf_descriptor_count_witness :
    header_of_80_bytes.length = 32 ∧ stored_header_bytes header_of_80_bytes = 80
      ∧ [write_fielddesc zero_libc 0 ⟨str_bytes "n", str_bytes "N", 4, 0⟩].length
          = (stored_header_bytes header_of_80_bytes - 32 - 1) / 32
      ∧ read_dbf zero_libc (header_of_80_bytes
          ++ ([write_fielddesc zero_libc 0 ⟨str_bytes "n", str_bytes "N", 4, 0⟩].flatten
            ++ 0x0d :: ((32 :: str_bytes " 42 ") ++ [0x1a])))
        = some (true, ⟨⟨[⟨str_bytes "n", str_bytes "N", 4, 0⟩]⟩,
            [⟨[.uint 42 (str_bytes "42")]⟩]⟩) :=
  ⟨by decide, by decide, by decide,
    ((read_dbf_descriptor_count zero_libc header_of_80_bytes
      [write_fielddesc zero_libc 0 ⟨str_bytes "n", str_bytes "N", 4, 0⟩]
      (0x0d :: ((32 :: str_bytes " 42 ") ++ [0x1a])) (by decide) (by decide) (by decide)
      (by decide) (by decide)).2.2 _ rfl).trans (by decide)⟩

set_option maxRecDepth 100000 in
theorem read_dbf_without_terminator :
    read_dbf zero_libc (header_of_80_bytes
        ++ ([write_fielddesc zero_libc 0 ⟨str_bytes "n", str_bytes "N", 4, 0⟩].flatten
          ++ 0x20 :: ((32 :: str_bytes " 42 ") ++ [0x1a])))
      = some (false, ⟨⟨[⟨str_bytes "n", str_bytes "N", 4, 0⟩]⟩, []⟩)
    ∧ read_dbf zero_libc (header_of_80_bytes
        ++ [write_fielddesc zero_libc 0 ⟨str_bytes "n", str_bytes "N", 4, 0⟩].flatten)
      = some (false, ⟨⟨[⟨str_bytes "n", str_bytes "N", 4, 0⟩]⟩, []⟩) := by
  decide

/-! ## Splitting the points of a record into parts -/

theorem read_points_length (content : List Nat) :
    ∀ (n off : Nat) (pts : List pointshape), read_points content n off = some pts →
      pts.length = n := by
  intro n
  induction n with
  | zero =>
    intro off pts h
    simp only [read_points, Option.some.injEq] at h
    rw [← h]
    rfl
  | succ n ih =>
    intro off pts h
    unfold read_points at h
    cases hx : fetch_LEdouble content off with
    | none => simp [hx] at h
    | some x =>
      cases hy : fetch_LEdouble content (off + 8) with
      | none => simp [hx, hy] at h
      | some y =>
        cases hr : read_points content n (off + 16) with
        | none => simp [hx, hy, hr] at h
        | some rest =>
          simp only [hx, hy, hr, Option.some.injEq] at h
          rw [← h, List.length_cons, ih _ _ hr]

/-- The splitting loop of the readers computes the straightforward slicing of the indices
that remain, the first of them being `prev_part_start`. -/
theorem split_parts_slices (content : List Nat) (allparts : List pointshape) :
    ∀ (later : List Int) (k : Nat) (prev : Int),
      (∀ j, j < later.length →
        fetch_LEint32 content (44 + 4 * (k + j)) = some (later.getD j 0)) →
      0 ≤ prev → (prev :: later).Chain' (fun a b => a ≤ b) →
      (∀ i ∈ prev :: later, i ≤ (allparts.length : Int)) →
      split_parts content 44 allparts later.length (k : Int) prev
        = some (slice_parts (prev :: later) (allparts.length : Int) allparts) := by
  intro later
  induction later with
  | nil =>
    intro k prev _ h0 _ hle
    have hp := hle prev (List.mem_cons_self _ _)
    simp only [List.length_nil, split_parts, points_range, slice_parts]
    rw [if_pos ⟨h0, hp, le_refl _⟩]
  | cons a later ih =>
    intro k prev hidx h0 hch hle
    have hpa : prev ≤ a := (List.chain'_cons.mp hch).1
    have ha := hle a (List.mem_cons_of_mem _ (List.mem_cons_self _ _))
    have hf := hidx 0 (by simp)
    simp only [Nat.add_zero, List.getD_cons_zero] at hf
    simp only [List.length_cons, split_parts, slice_parts]
    rw [show (44 + ((k : Int) * 4).toNat) = 44 + 4 * k by omega, hf]
    dsimp only
    have hrec := ih (k + 1) a
      (fun j hj => by
        have := hidx (j + 1) (by simp; omega)
        simp only [List.getD_cons_succ] at this
        rw [← this]
        congr 1
        omega)
      (by omega) (List.chain'_cons.mp hch).2
      (fun i hi => hle i (List.mem_cons_of_mem _ hi))
    rw [show ((k : Int) + 1) = ((k + 1 : Nat) : Int) by push_cast; rfl, hrec]
    simp only [points_range]
    rw [if_pos ⟨h0, hpa, ha⟩]

/-- Claim C33. For a polyline or polygon record with `num_parts >= 1` whose part indices
start with 0, do not decrease and do not exceed `num_points`, the parts the splitter of the
readers produces are those of the straightforward slicing `slice_parts`, in which part `i`
is the flat point array restricted to `[index[i], index[i+1])` and the last part ends at
`num_points`; the polyline reader and the polygon reader push the same parts. -/
theorem read_polyparts_slices (content : List Nat) (num_parts num_points : Int)
    (index : List Int) (allparts : List pointshape)
    (hparts : fetch_LEint32 content (4 + 4 * 8) = some num_parts)
    (hpoints : fetch_LEint32 content (4 + 4 * 8 + 4) = some num_points)
    (hread : read_points content num_points.toNat
      (to_uint32 (((4 + 4 * 8 + 4 + 4 : Nat) : Int) + num_parts * 4)) = some allparts)
    (hindex : ∀ k, k < index.length →
      fetch_LEint32 content (44 + 4 * k) = some (index.getD k 0))
    (hlen : (index.length : Int) = num_parts) (h1 : 1 ≤ num_parts)
    (h0 : index.head? = some 0) (hsorted : index.Chain' (fun a b => a ≤ b))
    (hle : ∀ i ∈ index, i ≤ num_points) :
    read_polyparts content = some (slice_parts index num_points allparts)
      ∧ (∀ rd : shapefile_record_reader, rd.record_buf = content →
          fetch_LEint32 content 0 = some shape_type.polyline.code →
          body_of shape_type.polyline rd
            = record_action.push (shape.polyline (slice_parts index num_points allparts)))
      ∧ (∀ rd : shapefile_record_reader, rd.record_buf = content →
          fetch_LEint32 content 0 = some shape_type.polygon.code →
          body_of shape_type.polygon rd
            = record_action.push (shape.polygon (slice_parts index num_points allparts))) := by
  have hmain : read_polyparts content = some (slice_parts index num_points allparts) := by
    obtain ⟨i0, later, rfl⟩ : ∃ i0 later, index = i0 :: later := by
      cases index with
      | nil => simp at h0
      | cons a l => exact ⟨a, l, rfl⟩
    simp only [List.head?_cons, Option.some.injEq] at h0
    subst h0
    have hm0 : 0 ≤ num_points := hle 0 (List.mem_cons_self _ _)
    have hal : (allparts.length : Int) = num_points := by
      rw [read_points_length _ _ _ _ hread]
      omega
    unfold read_polyparts
    rw [hparts, hpoints]
    dsimp only
    rw [hread]
    dsimp only
    by_cases hone : num_parts = 1
    · rw [if_pos hone]
      have hl : later = [] := by
        rw [hone] at hlen
        simp only [List.length_cons] at hlen
        exact List.length_eq_zero.mp (by omega)
      subst hl
      simp only [slice_parts, Int.toNat_zero, List.drop_zero, Int.sub_zero]
      rw [List.take_of_length_le (by omega)]
    · rw [if_neg hone]
      have hl : (num_parts - 1).toNat = later.length := by
        simp only [List.length_cons] at hlen
        omega
      rw [hl, ← hal]
      have := split_parts_slices content allparts later 1 0
        (fun j hj => by
          have := hindex (j + 1) (by simp; omega)
          simp only [List.getD_cons_succ] at this
          rw [← this]
          congr 1
          omega)
        (le_refl _) hsorted (fun i hi => by rw [hal]; exact hle i hi)
      exact this
  refine ⟨hmain, ?_, ?_⟩
  · intro rd hbuf hty
    simp only [body_of, polypart_body]
    rw [hbuf, hty]
    dsimp only
    rw [if_neg (by decide), if_neg (by simp), hmain]
  · intro rd hbuf hty
    simp only [body_of, polypart_body]
    rw [hbuf, hty]
    dsimp only
    rw [if_neg (by decide), if_neg (by simp), hmain]


set_option maxRecDepth 100000 in
/-- Witness of claim C33: a record with the part indices 0, 2, 2 and five points. -/
theorem read_polyparts_slices_witness :
    fetch_LEint32 three_part_record (4 + 4 * 8) = some 3
      ∧ fetch_LEint32 three_part_record (4 + 4 * 8 + 4) = some 5
      ∧ (∀ k, k < [(0 : Int), 2, 2].length →
          fetch_LEint32 three_part_record (44 + 4 * k) = some ([(0 : Int), 2, 2].getD k 0))
      ∧ read_polyparts three_part_record
          = some [⟨[⟨0, 0⟩, ⟨0x3ff0000000000000, 0⟩]⟩, ⟨[]⟩,
              ⟨[⟨0x4014000000000000, 0x4014000000000000⟩,
                ⟨0x4014000000000000, 0x4018000000000000⟩,
                ⟨0x4014000000000000, 0x401c000000000000⟩]⟩] :=
  ⟨by decide, by decide, by decide,
    (read_polyparts_slices three_part_record 3 5 [0, 2, 2]
      [⟨0, 0⟩, ⟨0x3ff0000000000000, 0⟩, ⟨0x4014000000000000, 0x4014000000000000⟩,
        ⟨0x4014000000000000, 0x4018000000000000⟩, ⟨0x4014000000000000, 0x401c000000000000⟩]
      (by decide) (by decide) (by decide) (by decide) (by decide) (by decide) (by decide)
      (by simp) (by decide)).1.trans (by decide)⟩

/-- The readers build one part that holds all points when `num_parts` is 0 or 1. -/
theorem read_polyparts_single (content : List Nat) (num_parts num_points : Int)
    (allparts : List pointshape)
    (hparts : fetch_LEint32 content (4 + 4 * 8) = some num_parts)
    (hpoints : fetch_LEint32 content (4 + 4 * 8 + 4) = some num_points)
    (h01 : num_parts = 0 ∨ num_parts = 1)
    (hread : read_points content num_points.toNat (44 + 4 * num_parts.toNat) = some allparts) :
    read_polyparts content = some [⟨allparts⟩] := by
  unfold read_polyparts
  rw [hparts, hpoints]
  dsimp only
  rcases h01 with rfl | rfl
  · rw [show to_uint32 (((4 + 4 * 8 + 4 + 4 : Nat) : Int) + 0 * 4) = 44 + 4 * (0 : Int).toNat
      by decide, hread]
    dsimp only
    rw [if_neg (by decide)]
    simp only [show ((0 : Int) - 1).toNat = 0 by decide, split_parts, points_range]
    rw [if_pos ⟨le_refl _, by omega, le_refl _⟩]
    simp
  · rw [show to_uint32 (((4 + 4 * 8 + 4 + 4 : Nat) : Int) + 1 * 4) = 44 + 4 * (1 : Int).toNat
      by decide, hread]
    dsimp only
    rw [if_pos rfl]

theorem read_polyparts_written_empty (content tail : List Nat) (code : Int)
    (bx bz bX bY : Nat)
    (hbuf : content = (int32_LE code
        ++ double_LE bx ++ double_LE bz ++ double_LE bX ++ double_LE bY
        ++ int32_LE (to_int32 (([] : List polypart).length : Int))
        ++ int32_LE (determine_polypart_bb []).1
        ++ write_part_indices [] 0
        ++ ([] : List polypart).flatMap (fun part => part.points.flatMap write_xy)) ++ tail) :
    fetch_LEint32 content 0 = some (to_int32 code)
      ∧ fetch_LEint32 content (4 + 4 * 8) = some 0
      ∧ read_polyparts content = some [⟨[]⟩] := by
  have e0 : content = int32_LE code ++ (double_LE bx ++ double_LE bz ++ double_LE bX
      ++ double_LE bY ++ int32_LE 0 ++ int32_LE 0 ++ tail) := by
    rw [hbuf]
    simp only [List.append_assoc, List.length_nil, List.flatMap_nil, List.append_nil,
      write_part_indices, List.nil_append]
    rfl
  have e1 : content = (int32_LE code ++ double_LE bx ++ double_LE bz ++ double_LE bX
      ++ double_LE bY) ++ (int32_LE 0 ++ (int32_LE 0 ++ tail)) := by
    rw [e0]; simp only [List.append_assoc]
  have e2 : content = (int32_LE code ++ double_LE bx ++ double_LE bz ++ double_LE bX
      ++ double_LE bY ++ int32_LE 0) ++ (int32_LE 0 ++ tail) := by
    rw [e0]; simp only [List.append_assoc]
  have f0 : fetch_LEint32 content 0 = some (to_int32 code) := by
    rw [e0, fetch_LEint32_head]
  have f1 : fetch_LEint32 content (4 + 4 * 8) = some 0 := by
    rw [e1, fetch_LEint32_at _ _ _ (4 + 4 * 8) (by simp)]
    rfl
  have f2 : fetch_LEint32 content (4 + 4 * 8 + 4) = some 0 := by
    rw [e2, fetch_LEint32_at _ _ _ (4 + 4 * 8 + 4) (by simp)]
    rfl
  exact ⟨f0, f1, read_polyparts_single content 0 0 [] f1 f2 (Or.inl rfl) rfl⟩

theorem read_back_shape_of_has_part (s : shape) (h : s.has_part) : read_back_shape s = s := by
  cases s with
  | polyline parts =>
    cases parts with
    | nil => exact absurd rfl h
    | cons p ps => rfl
  | polygon rings =>
    cases rings with
    | nil => exact absurd rfl h
    | cons p ps => rfl
  | _ => rfl

theorem body_of_read_back (k : shape_type) (s : shape) (hwf : s.wf)
    (hsmall : content_bytes s < 2147483648) (cl : Int) (c : List Nat)
    (henc : encode_of k s = some (cl, c)) :
    0 < cl ∧ cl < 1073741824 ∧ (c.length : Int) = 2 * cl
      ∧ ∀ rd : shapefile_record_reader, (∃ tail, rd.record_buf = c ++ tail) →
          rd.current_record_header.content_length = cl →
          body_of k rd = record_action.push (read_back_shape s) := by
  by_cases hp : s.has_part
  · rw [read_back_shape_of_has_part s hp]
    exact body_of_spec k s hwf hp hsmall cl c henc
  · obtain ⟨hk, hlen, hcl⟩ := encode_of_spec k s cl c henc
    cases s with
    | polyline parts =>
      cases parts with
      | cons p ps => exact absurd (by simp [shape.has_part]) hp
      | nil =>
        simp only [shape.stype] at hk
        subst hk
        simp only [content_bytes, List.length_nil, List.map_nil, List.sum_nil] at hlen hcl
        refine ⟨by rw [hcl]; decide, by rw [hcl]; decide, by rw [hlen, hcl]; decide, ?_⟩
        rintro rd ⟨tail, hbuf⟩ -
        simp only [encode_of, encode_polypart, polypart_cast, if_true, Option.some.injEq,
          Prod.mk.injEq] at henc
        obtain ⟨-, rfl⟩ := henc
        obtain ⟨f0, -, f1⟩ := read_polyparts_written_empty rd.record_buf tail _ _ _ _ _ hbuf
        simp only [body_of, polypart_body, f0, f1, read_back_shape]
        rw [if_neg (by decide), if_neg (by decide)]
    | polygon rings =>
      cases rings with
      | cons p ps => exact absurd (by simp [shape.has_part]) hp
      | nil =>
        simp only [shape.stype] at hk
        subst hk
        simp only [content_bytes, List.length_nil, List.map_nil, List.sum_nil] at hlen hcl
        refine ⟨by rw [hcl]; decide, by rw [hcl]; decide, by rw [hlen, hcl]; decide, ?_⟩
        rintro rd ⟨tail, hbuf⟩ -
        have hc : polypart_cast shape_type.polygon (shape.polygon []) = some [] := by
          simp [polypart_cast]
        simp only [encode_of, encode_polypart, hc, Option.some.injEq, Prod.mk.injEq] at henc
        obtain ⟨-, rfl⟩ := henc
        obtain ⟨f0, -, f1⟩ := read_polyparts_written_empty rd.record_buf tail _ _ _ _ _ hbuf
        simp only [body_of, polypart_body, f0, f1, read_back_shape]
        rw [if_neg (by decide), if_neg (by decide)]
    | null => exact absurd trivial hp
    | point ps => exact absurd trivial hp
    | multipoint pts => exact absurd trivial hp

/-- The record loop of a reader on the records of a writer, when the body pushes the shape
`f s` for the record of `s`. -/
theorem read_loop_write_records_map (enc : shape → Option (Int × List Nat))
    (body : shapefile_record_reader → record_action) (f : shape → shape) (shapes : List shape)
    (hspec : ∀ s ∈ shapes, ∀ cl c, enc s = some (cl, c) →
      0 < cl ∧ cl < 1073741824 ∧ (c.length : Int) = 2 * cl
      ∧ ∀ rd : shapefile_record_reader, (∃ tail, rd.record_buf = c ++ tail) →
          rd.current_record_header.content_length = cl →
          body rd = record_action.push (f s)) :
    ∀ (pos : Nat) (recnum : Int) (fp shx : List Nat),
      write_records enc shapes pos recnum = some (fp, shx) →
      ∀ (reader : shapefile_record_reader) (acc : List shape) (fuel : Nat),
        reader.fp = fp → reader.total_bytes_read + fp.length = reader.file_length_bytes →
        reader.file_length_bytes < 4294967296 → shapes.length < fuel →
        read_loop body fuel reader acc = some (true, acc ++ shapes.map f) := by
  induction shapes with
  | nil =>
    intro pos recnum fp shx hw reader acc fuel hfp htot _ hfuel
    simp only [write_records, Option.some.injEq, Prod.mk.injEq] at hw
    obtain ⟨rfl, rfl⟩ := hw
    cases fuel with
    | zero => simp at hfuel
    | succ g =>
      have : read_shape_record reader = none := by
        unfold read_shape_record
        rw [if_pos (by simp at htot; omega)]
      simp only [read_loop, this, List.map_nil, List.append_nil]
  | cons s rest ih =>
    intro pos recnum fp shx hw reader acc fuel hfp htot hflb hfuel
    simp only [write_records] at hw
    cases he : enc s with
    | none => simp [he] at hw
    | some p =>
      obtain ⟨cl, c⟩ := p
      simp only [he] at hw
      cases hr : write_records enc rest (pos + 8 + c.length) (to_int32 (recnum + 1)) with
      | none => simp [hr] at hw
      | some q =>
        obtain ⟨fp', shx'⟩ := q
        simp only [hr, Option.some.injEq, Prod.mk.injEq] at hw
        obtain ⟨rfl, rfl⟩ := hw
        obtain ⟨h1, h2, h3, h4⟩ := hspec s (List.mem_cons_self _ _) cl c he
        simp only [List.length_append, write_record_header_length] at htot
        obtain ⟨rd, e1, e2, e3, e4, e5, e6⟩ := read_shape_record_written reader recnum cl c fp'
          hfp h1 h2 h3 (by omega) (by omega)
        cases fuel with
        | zero => simp at hfuel
        | succ g =>
          simp only [read_loop, e1, h4 rd e2 e3]
          rw [ih (fun t ht => hspec t (List.mem_cons_of_mem _ ht)) _ _ _ _ hr rd _ g e4
            (by rw [e5, e6]; omega) (by rw [e6]; exact hflb)
            (by simp only [List.length_cons] at hfuel; omega)]
          simp

/-- Claim C34. A record whose `num_parts` field is 0 is decoded, by the polyline reader and
by the polygon reader, to one part that holds all `num_points` points, as a record whose
`num_parts` field is 1 is. The writer gives a polyline without parts (a polygon without
rings) a record whose `num_parts` field is 0. So in every collection of one kind that is
written and read back, with or without such shapes, each shape comes back as
`read_back_shape` gives it: a polyline without parts and a polygon without rings with one
empty part, which is not the shape that was written, every other shape as it was. -/
theorem read_polyparts_no_parts :
    (∀ (content : List Nat) (num_parts num_points : Int) (allparts : List pointshape),
        fetch_LEint32 content (4 + 4 * 8) = some num_parts →
        fetch_LEint32 content (4 + 4 * 8 + 4) = some num_points →
        num_parts = 0 ∨ num_parts = 1 →
        read_points content num_points.toNat (44 + 4 * num_parts.toNat) = some allparts →
        read_polyparts content = some [⟨allparts⟩]
          ∧ (∀ rd : shapefile_record_reader, rd.record_buf = content →
              fetch_LEint32 content 0 = some shape_type.polyline.code →
              body_of shape_type.polyline rd
                = record_action.push (shape.polyline [⟨allparts⟩]))
          ∧ (∀ rd : shapefile_record_reader, rd.record_buf = content →
              fetch_LEint32 content 0 = some shape_type.polygon.code →
              body_of shape_type.polygon rd
                = record_action.push (shape.polygon [⟨allparts⟩])))
      ∧ (∀ (stype : shape_type) (s : shape), polypart_cast stype s = some [] →
          ∃ cl c, encode_polypart stype s = some (cl, c)
            ∧ fetch_LEint32 c (4 + 4 * 8) = some 0)
      ∧ (∀ (path : List Nat) (shpfile : shapefile) (k : shape_type),
          k = shape_type.point ∨ k = shape_type.polyline ∨ k = shape_type.polygon
            ∨ k = shape_type.multipoint →
          regex_replace_shp path ≠ path → shpfile.shapes ≠ [] →
          (∀ s ∈ shpfile.shapes, s.stype = k) → (∀ s ∈ shpfile.shapes, s.wf) →
          (∀ s ∈ shpfile.shapes, content_bytes s < 2147483648) →
          shp_size shpfile.shapes < 4294967296 →
          ∃ r shp, write_shp path shpfile = some r ∧ r.status = true ∧ r.shp = some shp
            ∧ read_shp shp = some (true, ⟨shpfile.shapes.map read_back_shape⟩))
      ∧ read_back_shape (shape.polyline []) = shape.polyline [⟨[]⟩]
      ∧ read_back_shape (shape.polygon []) = shape.polygon [⟨[]⟩]
      ∧ (∀ s, s.has_part → read_back_shape s = s) := by
  refine ⟨?_, ?_, ?_, rfl, rfl, read_back_shape_of_has_part⟩
  · intro content num_parts num_points allparts hparts hpoints h01 hread
    have hmain := read_polyparts_single content num_parts num_points allparts hparts hpoints
      h01 hread
    refine ⟨hmain, ?_, ?_⟩
    · intro rd hbuf hty
      simp only [body_of, polypart_body]
      rw [hbuf, hty]
      dsimp only
      rw [if_neg (by decide), if_neg (by simp), hmain]
    · intro rd hbuf hty
      simp only [body_of, polypart_body]
      rw [hbuf, hty]
      dsimp only
      rw [if_neg (by decide), if_neg (by simp), hmain]
  · intro stype s hcast
    simp only [encode_polypart, hcast]
    refine ⟨_, _, rfl, ?_⟩
    exact (read_polyparts_written_empty _ [] stype.code _ _ _ _ (List.append_nil _).symm).2.1
  · intro path shpfile k hk4 hpath hne hall hwf hrec hsize
    have hknull : k ≠ shape_type.null_shape := by
      rcases hk4 with rfl | rfl | rfl | rfl <;> decide
    obtain ⟨s0, hs0⟩ := List.exists_mem_of_ne_nil _ hne
    have hdst : determine_shape_type shpfile = k :=
      (dst_loop_null _ k hknull).2 ⟨⟨s0, hs0, by rw [hall s0 hs0]; exact hknull⟩,
        fun s hs _ => hall s hs⟩
    have hsome : ∀ s ∈ shpfile.shapes, (encode_of k s).isSome := by
      intro s hs
      have hst := hall s hs
      rcases hk4 with rfl | rfl | rfl | rfl <;> cases s <;>
        simp [shape.stype] at hst <;>
        simp [encode_of, encode_point, encode_multipoint, encode_polypart, polypart_cast]
    obtain ⟨⟨fp, shx⟩, hw⟩ := write_records_total _ _ hsome 100 1
    obtain ⟨r, h1, h2, bb, h3⟩ := write_shp_of_records path shpfile k fp shx hk4 hpath hdst hw
    refine ⟨r, _, h1, h2, h3, ?_⟩
    obtain ⟨hlen, -, -⟩ := write_records_spec (encode_of k)
      (fun s cl c hc => (encode_of_spec k s cl c hc).2) _ _ _ _ _ hw
    rw [read_shp_dispatch k hk4]
    have hflb : (init_record_reader fp ⟨SHAPEFILE_FILE_CODE,
        to_int32 (Int.tdiv (to_int32 ((shp_size shpfile.shapes : Nat) : Int)) 2),
        SHAPEFILE_VERSION, to_int32 k.code⟩).file_length_bytes = shp_size shpfile.shapes := by
      simp only [init_record_reader]
      exact file_length_bytes_written _ hsize
        (by have := records_size_even shpfile.shapes; simp only [shp_size]; omega)
    have hge := records_size_ge shpfile.shapes
    rw [read_loop_write_records_map (encode_of k) (body_of k) read_back_shape shpfile.shapes
      (fun s hs cl c hc => body_of_read_back k s (hwf s hs) (hrec s hs) cl c hc)
      100 1 fp shx hw _ [] (fp.length + 1) rfl
      (by rw [hflb, hlen]; simp only [init_record_reader, shp_size])
      (by rw [hflb]; exact hsize) (by rw [hlen]; omega)]
    rfl

set_option maxRecDepth 100000 in
/-- Witness of claim C34: a polygon without rings between two triangles comes back with
one empty ring. -/
theorem read_polyparts_no_parts_witness :
    regex_replace_shp (str_bytes "p.shp") ≠ str_bytes "p.shp"
      ∧ empty_polygon_between.shapes ≠ []
      ∧ (∀ s ∈ empty_polygon_between.shapes, s.stype = shape_type.polygon)
      ∧ (∀ s ∈ empty_polygon_between.shapes, s.wf)
      ∧ (∀ s ∈ empty_polygon_between.shapes, content_bytes s < 2147483648)
      ∧ shp_size empty_polygon_between.shapes < 4294967296
      ∧ (∃ r shp, write_shp (str_bytes "p.shp") empty_polygon_between = some r
          ∧ r.status = true ∧ r.shp = some shp
          ∧ read_shp shp = some (true, ⟨empty_polygon_between.shapes.map read_back_shape⟩))
      ∧ empty_polygon_between.shapes.map read_back_shape
          = [shape.polygon
              [⟨[⟨0, 0⟩, ⟨0x3ff0000000000000, 0⟩, ⟨0, 0x3ff0000000000000⟩, ⟨0, 0⟩]⟩],
            shape.polygon [⟨[]⟩],
            shape.polygon
              [⟨[⟨0, 0⟩, ⟨0x4000000000000000, 0⟩, ⟨0, 0x4000000000000000⟩, ⟨0, 0⟩]⟩]] :=
  ⟨by decide, by decide, by decide, by decide, by decide, by decide,
    read_polyparts_no_parts.2.2.1 (str_bytes "p.shp") empty_polygon_between shape_type.polygon
      (Or.inr (Or.inr (Or.inl rfl))) (by decide) (by decide) (by decide) (by decide)
      (by decide) (by decide), by decide⟩

/-! ## Files that end inside a record -/

theorem read_shape_record_truncated (reader : shapefile_record_reader)
    (h : truncated_record reader.fp) : read_shape_record reader = none := by
  unfold read_shape_record
  split
  · rfl
  · rcases h with h | ⟨num, cl, part, h, hcl, hcl2, hlen⟩
    · have : read_record_header reader.fp = none := by
        unfold read_record_header fread
        rw [if_neg (by omega)]
      rw [this]
    · have hrh : read_record_header reader.fp = some (⟨to_int32 num, cl⟩, part) := by
        unfold read_record_header
        rw [h, fread_append _ _ 8 (write_record_header_length _)]
        simp only [write_record_header]
        rw [List.take_left' (int32_BE_length _), List.drop_left' (int32_BE_length _),
          List.take_of_length_le (by rw [int32_BE_length]), int32_of_BE_int32_BE,
          int32_of_BE_int32_BE, to_int32_of_range cl (by omega) (by omega)]
        rw [if_neg (by omega)]
      have hccb : to_uint32 (cl * 2) = (2 * cl).toNat := by
        have := to_uint32_of_range (cl * 2) (by omega) (by omega)
        omega
      rw [hrh]
      dsimp only
      have : fread (to_uint32 (cl * 2)) part = none := by
        unfold fread
        rw [if_neg (by rw [hccb]; omega)]
      rw [this]

/-- Claim C36. When the record loop of a reader finds the file cut off before the next
record header or before the end of the content a header announces, it stops and returns
`true` with the shapes decoded so far. So for each of the four kinds, on a file made of a
main header, the records the writer gives a list of shapes, and the beginning of one more
record inside the byte budget of the header, `read_shp` returns `true` with exactly those
shapes. -/
theorem read_shp_short_read (k : shape_type)
    (hk4 : k = shape_type.point ∨ k = shape_type.polyline ∨ k = shape_type.polygon
      ∨ k = shape_type.multipoint)
    (shapes : List shape) (fp shx : List Nat) (fl : Int)
    (bb : shapefile_main_header_boundingbox) (trunc : List Nat)
    (hw : write_records (encode_of k) shapes 100 1 = some (fp, shx))
    (hwf : ∀ s ∈ shapes, s.wf) (hpart : ∀ s ∈ shapes, s.has_part)
    (hrec : ∀ s ∈ shapes, content_bytes s < 2147483648)
    (hfl : 0 ≤ fl ∧ fl < 2147483648) (hbudget : ((100 + fp.length : Nat) : Int) < 2 * fl)
    (hshort : truncated_record trunc) :
    read_shp (write_main_header ⟨SHAPEFILE_FILE_CODE, fl, SHAPEFILE_VERSION, k.code⟩ bb
        ++ (fp ++ trunc))
      = some (true, ⟨shapes⟩)
    ∧ ∀ (body : shapefile_record_reader → record_action) (reader : shapefile_record_reader)
        (acc : List shape) (fuel : Nat), reader.fp = trunc →
        read_loop body (fuel + 1) reader acc = some (true, acc) := by
  refine ⟨?_, fun body reader acc fuel hfp =>
    read_loop_stop body fuel reader acc
      (read_shape_record_truncated reader (by rw [hfp]; exact hshort))⟩
  rw [read_shp_dispatch k hk4]
  have hflb : (init_record_reader (fp ++ trunc)
      ⟨SHAPEFILE_FILE_CODE, to_int32 fl, SHAPEFILE_VERSION, to_int32 k.code⟩).file_length_bytes
        = (2 * fl).toNat := by
    simp only [init_record_reader]
    rw [to_int32_of_range fl (by omega) hfl.2]
    have := to_uint32_of_range (2 * fl) (by omega) (by omega)
    omega
  obtain ⟨hlenfp, -, -⟩ := write_records_spec (encode_of k)
    (fun s cl c hc => (encode_of_spec k s cl c hc).2) _ _ _ _ _ hw
  have hge := records_size_ge shapes
  obtain ⟨m, hm⟩ : ∃ m, (fp ++ trunc).length + 1 = shapes.length + (m + 1) := by
    refine ⟨(fp ++ trunc).length - shapes.length, ?_⟩
    simp only [List.length_append]
    omega
  rw [hm]
  obtain ⟨rd, g1, g2, g3, g4⟩ := read_loop_prefix (encode_of k) (body_of k) shapes
    (fun s hs cl c hc => body_of_spec k s (hwf s hs) (hpart s hs) (hrec s hs) cl c hc)
    100 1 fp shx hw _ [] (m + 1) _ rfl
    (by rw [hflb]; simp only [init_record_reader]; omega)
    (by rw [hflb]; omega)
  rw [g1, read_loop_stop _ _ _ _ (read_shape_record_truncated rd (by rw [g2]; exact hshort))]
  rfl

set_option maxRecDepth 100000 in
/-- Witness of claim C36: a point file cut off inside the content of its second record. -/
theorem read_shp_short_read_witness :
    write_records (encode_of shape_type.point)
        [shape.point ⟨0x3ff0000000000000, 0x4000000000000000⟩] 100 1
      = some (write_record_header ⟨1, 10⟩ ++ (int32_LE 1
          ++ write_xy ⟨0x3ff0000000000000, 0x4000000000000000⟩) ++ [],
        write_record_header ⟨50, 10⟩ ++ [])
    ∧ truncated_record
        (write_record_header ⟨2, 10⟩ ++ (int32_LE 1 ++ double_LE 0x4008000000000000))
    ∧ read_shp cut_point_file
        = some (true, ⟨[shape.point ⟨0x3ff0000000000000, 0x4000000000000000⟩]⟩) :=
  ⟨by decide, Or.inr ⟨2, 10, _, rfl, by decide, by decide, by decide⟩,
    (read_shp_short_read shape_type.point (Or.inl rfl)
      [shape.point ⟨0x3ff0000000000000, 0x4000000000000000⟩] _
      (write_record_header ⟨50, 10⟩ ++ []) 78 zero_bb
      (write_record_header ⟨2, 10⟩ ++ (int32_LE 1 ++ double_LE 0x4008000000000000))
      (by decide) (by decide) (by decide) (by decide) (by decide) (by decide)
      (Or.inr ⟨2, 10, _, rfl, by decide, by decide, by decide⟩)).1⟩

/-! ## Numeric cells read back from a written table -/

theorem write_field_descriptors_loop_flatten (env : libc) :
    ∀ (fields : List dbffield_def) (idx : Nat), (∀ f ∈ fields, field_valid f) →
      (write_field_descriptors_loop env idx fields).2
        = ((fields.enumFrom idx).map (fun p => write_fielddesc env p.1 p.2)).flatten := by
  intro fields
  induction fields with
  | nil => intro idx _; rfl
  | cons fd fs ih =>
    intro idx h
    rw [write_field_descriptors_loop_cons env idx fd fs (h fd (List.mem_cons_self _ _)),
      ih (idx + 1) (fun f hf => h f (List.mem_cons_of_mem _ hf))]
    rfl

theorem read_write_fielddesc (env : libc) (idx : Nat) (fd : dbffield_def) :
    (read_fielddesc (write_fielddesc env idx fd)).field_length = fd.field_length
      ∧ (read_fielddesc (write_fielddesc env idx fd)).field_decimal_count
          = fd.field_decimal_count
      ∧ (fd.field_type = [78] → fd.field_decimal_count = 0 →
          (read_fielddesc (write_fielddesc env idx fd)).field_type = [78])
      ∧ (fd.field_type = [78] → 0 < fd.field_decimal_count →
          (read_fielddesc (write_fielddesc env idx fd)).field_type = [70]) := by
  have g16 : (write_fielddesc env idx fd).getD 16 0 = fd.field_length := by
    rw [write_fielddesc_getD env idx fd 16 0 (by omega)]; rfl
  have g17 : (write_fielddesc env idx fd).getD 17 0 = fd.field_decimal_count := by
    rw [write_fielddesc_getD env idx fd 17 0 (by omega)]; rfl
  have g11 : (write_fielddesc env idx fd).getD 11 0 = (c_str fd.field_type).getD 0 0 := by
    rw [write_fielddesc_getD env idx fd 11 0 (le_refl _)]; rfl
  refine ⟨?_, ?_, ?_, ?_⟩
  · unfold read_fielddesc; exact g16
  · unfold read_fielddesc; exact g17
  · intro hN hd
    unfold read_fielddesc
    dsimp only
    rw [g11, g17, hN, hd, if_neg (by simp)]
    rfl
  · intro hN hd
    unfold read_fielddesc
    dsimp only
    rw [g11, g17, hN, if_pos ⟨rfl, hd⟩]
    rfl

theorem read_back_fields_append (env : libc) (fs1 fs2 : List dbffield_def) (idx : Nat) :
    read_back_fields env idx (fs1 ++ fs2)
      = read_back_fields env idx fs1 ++ read_back_fields env (idx + fs1.length) fs2 := by
  unfold read_back_fields
  rw [List.enumFrom_append, List.map_append]

theorem read_back_fields_length (env : libc) (fields : List dbffield_def) (idx : Nat) :
    (read_back_fields env idx fields).length = fields.length := by
  unfold read_back_fields
  rw [List.length_map, List.enumFrom_length]

theorem fields_length_read_back (env : libc) :
    ∀ (fields : List dbffield_def) (idx : Nat),
      fields_length (read_back_fields env idx fields) = fields_length fields := by
  intro fields
  induction fields with
  | nil => intro idx; rfl
  | cons fd fs ih =>
    intro idx
    have : read_back_fields env idx (fd :: fs)
        = read_fielddesc (write_fielddesc env idx fd) :: read_back_fields env (idx + 1) fs := rfl
    rw [this, fields_length_cons, fields_length_cons, ih, (read_write_fielddesc env idx fd).1]

/-- What `read_dbf` does with a written table: the fields are read back from the
descriptors, and the record loop runs over the records of the rows. -/
theorem read_dbf_written_layout (env : libc) (table : dbftable) (file : List Nat)
    (hwf : table.wf) (h : write_dbf env table = some ⟨true, some file⟩)
    (hfields : table.header.fields.length ≤ 2046)
    (hrows : table.rows.length < 4294967296) :
    read_dbf env file
      = match read_rows_loop env (1 + fields_length table.header.fields)
          (read_back_fields env 0 table.header.fields) table.rows.length
          ((table.rows.map (row_record env table.header.fields)).flatten ++ [0x1a]) with
        | none => none
        | some (status, rows) =>
          some (status, ⟨⟨read_back_fields env 0 table.header.fields⟩, rows⟩) := by
  have hL := wf_field_length_le table hwf
  obtain ⟨-, -, hvalid, hbound, -, rfl⟩ := (write_dbf_success env table file hL).1 h
  have hsum := sum_record_bytes_eq table.header.fields 1 (by decide)
  have hrb : (make_header env table).record_bytes = 1 + fields_length table.header.fields := by
    show sum_record_bytes table.header.fields 1 = _
    rw [hsum, Nat.mod_eq_of_lt (by omega)]
  have htr : (make_header env table).table_records = table.rows.length := by
    show table.rows.length % 4294967296 = _
    omega
  have hhb : (make_header env table).header_bytes
      = 33 + 32 * ((table.header.fields.enumFrom 0).map
          (fun p => write_fielddesc env p.1 p.2)).length := by
    rw [List.length_map, List.enumFrom_length]
    show (1 + 32 + 32 * table.header.fields.length) % 65536 = _
    omega
  have e : dbf_file env table
      = write_header (make_header env table)
        ++ ((table.header.fields.enumFrom 0).map
          (fun p => write_fielddesc env p.1 p.2)).flatten ++ [0x0d]
        ++ ((table.rows.map (row_record env table.header.fields)).flatten ++ [0x1a]) := by
    unfold dbf_file
    rw [write_field_descriptors_loop_flatten env _ 0 hvalid, List.flatMap_def]
    simp only [List.append_assoc]
  rw [e, read_dbf_layout env (make_header env table) _ _
    (by
      intro d hd
      obtain ⟨p, -, rfl⟩ := List.mem_map.mp hd
      exact write_fielddesc_length _ _ _)
    hhb (by rw [hhb, List.length_map, List.enumFrom_length]; omega) (by rw [hrb]; omega)
    (by rw [htr]; exact hrows), hrb, htr, List.map_map]
  rfl

theorem read_row_fields_length (env : libc) (read_size : Nat) (record : List Nat) :
    ∀ (fields : List dbffield_def) (off : Nat) (values : List dbffield_value),
      read_row_fields env read_size record fields off = some (some values) →
      values.length = fields.length := by
  intro fields
  induction fields with
  | nil =>
    intro off values h
    simp only [read_row_fields, Option.some.injEq] at h
    rw [← h]
    rfl
  | cons f fs ih =>
    intro off values h
    unfold read_row_fields at h
    split at h
    · simp at h
    · split at h
      · simp at h
      · dsimp only at h
        cases hc : read_cell env f (trim_leading_and_trailing_whitespace
            (c_str ((record.drop off).take f.field_length ++ [0]))) with
        | none => rw [hc] at h; simp at h
        | some w =>
          rw [hc] at h
          dsimp only at h
          cases hr : read_row_fields env read_size record fs (off + f.field_length) with
          | none => rw [hr] at h; simp at h
          | some o =>
            cases o with
            | none => rw [hr] at h; simp at h
            | some vs =>
              rw [hr] at h
              simp only [Option.some.injEq] at h
              subst h
              rw [List.length_cons, List.length_cons, ih _ _ hr]

theorem read_row_fields_cell (env : libc) (read_size : Nat) (record : List Nat)
    (fd : dbffield_def) (fs2 : List dbffield_def) :
    ∀ (fs1 : List dbffield_def) (off : Nat) (values : List dbffield_value),
      read_row_fields env read_size record (fs1 ++ fd :: fs2) off = some (some values) →
      values.length = (fs1 ++ fd :: fs2).length
        ∧ values.get? fs1.length
          = decoded_cell env fd ((record.drop (off + fields_length fs1)).take fd.field_length)
        ∧ (values.get? fs1.length).isSome := by
  intro fs1
  induction fs1 with
  | nil =>
    intro off values h
    rw [List.nil_append] at h
    unfold read_row_fields at h
    split at h
    · simp at h
    · split at h
      · simp at h
      · dsimp only at h
        rw [show fields_length [] = 0 from rfl, Nat.add_zero]
        unfold decoded_cell
        cases hc : read_cell env fd (trim_leading_and_trailing_whitespace
            (c_str ((record.drop off).take fd.field_length ++ [0]))) with
        | none => rw [hc] at h; simp at h
        | some w =>
          rw [hc] at h
          dsimp only at h
          cases hr : read_row_fields env read_size record fs2 (off + fd.field_length) with
          | none => rw [hr] at h; simp at h
          | some o =>
            cases o with
            | none => rw [hr] at h; simp at h
            | some vs =>
              rw [hr] at h
              simp only [Option.some.injEq] at h
              subst h
              refine ⟨?_, rfl, rfl⟩
              rw [List.nil_append, List.length_cons, List.length_cons,
                read_row_fields_length env read_size record fs2 _ vs hr]
  | cons f fs ih =>
    intro off values h
    rw [List.cons_append] at h
    unfold read_row_fields at h
    split at h
    · simp at h
    · split at h
      · simp at h
      · dsimp only at h
        cases hc : read_cell env f (trim_leading_and_trailing_whitespace
            (c_str ((record.drop off).take f.field_length ++ [0]))) with
        | none => rw [hc] at h; simp at h
        | some w =>
          rw [hc] at h
          dsimp only at h
          cases hr : read_row_fields env read_size record (fs ++ fd :: fs2)
              (off + f.field_length) with
          | none => rw [hr] at h; simp at h
          | some o =>
            cases o with
            | none => rw [hr] at h; simp at h
            | some vs =>
              rw [hr] at h
              simp only [Option.some.injEq] at h
              subst h
              obtain ⟨i1, i2, i3⟩ := ih (off + f.field_length) vs hr
              rw [fields_length_cons, ← Nat.add_assoc]
              refine ⟨by simp only [List.length_cons, List.cons_append, i1], ?_, ?_⟩
              · simpa using i2
              · simpa using i3

theorem read_row_fields_cell_none (env : libc) (read_size : Nat) (record : List Nat)
    (fd : dbffield_def) (fs2 : List dbffield_def) :
    ∀ (fs1 : List dbffield_def) (off : Nat),
      off + fields_length (fs1 ++ fd :: fs2) ≤ read_size →
      decoded_cell env fd ((record.drop (off + fields_length fs1)).take fd.field_length)
        = none →
      read_row_fields env read_size record (fs1 ++ fd :: fs2) off = some none := by
  intro fs1
  induction fs1 with
  | nil =>
    intro off h hbad
    rw [List.nil_append, fields_length_cons] at h
    rw [show fields_length [] = 0 from rfl, Nat.add_zero] at hbad
    unfold decoded_cell at hbad
    rw [List.nil_append]
    unfold read_row_fields
    by_cases h1 : off ≥ read_size
    · rw [if_pos h1]
    · rw [if_neg h1, if_neg (by omega)]
      dsimp only
      rw [hbad]
  | cons f fs ih =>
    intro off h hbad
    rw [List.cons_append, fields_length_cons] at h
    rw [fields_length_cons, ← Nat.add_assoc] at hbad
    rw [List.cons_append]
    unfold read_row_fields
    by_cases h1 : off ≥ read_size
    · rw [if_pos h1]
    · rw [if_neg h1, if_neg (by omega)]
      dsimp only
      cases read_cell env f _ with
      | none => rfl
      | some fval =>
        dsimp only
        rw [ih (off + f.field_length) (by omega) hbad]

theorem read_rows_loop_row (env : libc) (read_size : Nat) (fields : List dbffield_def)
    (record : List Nat) (records2 : List (List Nat)) (rest : List Nat)
    (hlen : record.length = read_size) (hact : record.getD 0 0 = 0x20) :
    ∀ (records1 : List (List Nat)) (n : Nat) (rows : List dbfrow),
      (∀ r ∈ records1, r.length = read_size ∧ r.getD 0 0 = 0x20) → records1.length < n →
      read_rows_loop env read_size fields n
          ((records1 ++ record :: records2).flatten ++ rest) = some (true, rows) →
      ∃ row, rows.get? records1.length = some row
        ∧ read_row_fields env read_size record fields 1 = some (some row.values) := by
  intro records1
  induction records1 with
  | nil =>
    intro n rows _ hn h
    obtain ⟨m, rfl⟩ : ∃ m, n = m + 1 := ⟨n - 1, by simp at hn; omega⟩
    simp only [List.nil_append, List.flatten_cons, List.append_assoc] at h
    unfold read_rows_loop at h
    split at h
    · simp at h
    · rw [fread_append _ _ _ hlen] at h
      dsimp only at h
      rw [if_neg (by simpa using hact)] at h
      cases hr : read_row_fields env read_size record fields 1 with
      | none => rw [hr] at h; simp at h
      | some o =>
        cases o with
        | none => rw [hr] at h; simp at h
        | some values =>
          rw [hr] at h
          dsimp only at h
          cases hq : read_rows_loop env read_size fields m (records2.flatten ++ rest) with
          | none => rw [hq] at h; simp at h
          | some q =>
            obtain ⟨st, rows'⟩ := q
            rw [hq] at h
            simp only [Option.some.injEq, Prod.mk.injEq] at h
            obtain ⟨-, rfl⟩ := h
            exact ⟨⟨values⟩, rfl, rfl⟩
  | cons r rs ih =>
    intro n rows hl hn h
    obtain ⟨m, rfl⟩ : ∃ m, n = m + 1 := ⟨n - 1, by simp at hn; omega⟩
    obtain ⟨hrl, hra⟩ := hl r (List.mem_cons_self _ _)
    simp only [List.cons_append, List.flatten_cons, List.append_assoc] at h
    unfold read_rows_loop at h
    split at h
    · simp at h
    · rw [fread_append _ _ _ hrl] at h
      dsimp only at h
      rw [if_neg (by simpa using hra)] at h
      cases hr : read_row_fields env read_size r fields 1 with
      | none => rw [hr] at h; simp at h
      | some o =>
        cases o with
        | none => rw [hr] at h; simp at h
        | some values =>
          rw [hr] at h
          dsimp only at h
          cases hq : read_rows_loop env read_size fields m
              ((rs ++ record :: records2).flatten ++ rest) with
          | none =>
            rw [hq] at h; simp at h
          | some q =>
            obtain ⟨st, rows'⟩ := q
            rw [hq] at h
            simp only [Option.some.injEq, Prod.mk.injEq] at h
            obtain ⟨rfl, rfl⟩ := h
            obtain ⟨row, g1, g2⟩ := ih m rows'
              (fun x hx => hl x (List.mem_cons_of_mem _ hx))
              (by simp only [List.length_cons] at hn; omega) hq
            exact ⟨row, by simpa using g1, g2⟩

theorem row_record_cell (env : libc) (fields fs1 fs2 : List dbffield_def) (fd : dbffield_def)
    (row : dbfrow) (vs1 vs2 : List dbffield_value) (v : dbffield_value)
    (hf : fields = fs1 ++ fd :: fs2) (hv : row.values = vs1 ++ v :: vs2)
    (hl : vs1.length = fs1.length) (hL : ∀ f ∈ fields, f.field_length ≤ 512)
    (hlen : row.values.length = fields.length)
    (hfmt : ∀ p ∈ fields.zip row.values, ∃ b, format_cell env p.1 p.2 = some (some b)) :
    ((row_record env fields row).drop (1 + fields_length fs1)).take fd.field_length
        = cell_bytes env fd v
      ∧ (row_record env fields row).length = 1 + fields_length fields
      ∧ (row_record env fields row).getD 0 0 = 0x20 := by
  have hzip : fields.zip row.values = fs1.zip vs1 ++ (fd, v) :: fs2.zip vs2 := by
    rw [hf, hv, List.zip_append hl.symm, List.zip_cons_cons]
  have hcells1 : ((fs1.zip vs1).flatMap (fun p => cell_bytes env p.1 p.2)).length
      = fields_length fs1 :=
    cells_length_of_format env fs1 vs1 hl
      (fun x hx => hL x (by rw [hf]; exact List.mem_append_left _ hx))
      (fun p hp => hfmt p (by rw [hzip]; exact List.mem_append_left _ hp))
  have hcell : (cell_bytes env fd v).length = fd.field_length :=
    cell_bytes_length_of_format env fd v (hL fd (by rw [hf]; simp))
      (hfmt (fd, v) (by rw [hzip]; simp))
  have e : row_record env fields row
      = ([32] ++ (fs1.zip vs1).flatMap (fun p => cell_bytes env p.1 p.2))
        ++ (cell_bytes env fd v ++ (fs2.zip vs2).flatMap (fun p => cell_bytes env p.1 p.2)) := by
    unfold row_record
    rw [hzip, List.flatMap_append, List.flatMap_cons]
    rfl
  refine ⟨?_, ?_, ?_⟩
  · rw [e, List.drop_left' (by
      rw [List.length_append, List.length_singleton, hcells1]), List.take_left' hcell]
  · unfold row_record
    rw [List.length_cons, cells_length_of_format env fields row.values hlen hL hfmt]
    omega
  · unfold row_record
    rfl

/-- The cell of a written table in the table `read_dbf` returns: it is the value decoded
from the bytes stored for the cell, with the field definition read back from the descriptor
of its column; and when these bytes do not decode, `read_dbf` returns `false`. -/
theorem read_dbf_written_cell (env : libc) (table : dbftable) (file : List Nat)
    (hwf : table.wf) (h : write_dbf env table = some ⟨true, some file⟩)
    (hfields : table.header.fields.length ≤ 2046)
    (hrows : table.rows.length < 4294967296)
    (fs1 fs2 : List dbffield_def) (fd : dbffield_def) (rs1 rs2 : List dbfrow) (row : dbfrow)
    (vs1 vs2 : List dbffield_value) (v : dbffield_value)
    (hf : table.header.fields = fs1 ++ fd :: fs2) (hr : table.rows = rs1 ++ row :: rs2)
    (hv : row.values = vs1 ++ v :: vs2) (hl : vs1.length = fs1.length) :
    (∀ t, read_dbf env file = some (true, t) →
        cell_at t rs1.length fs1.length
          = decoded_cell env (read_fielddesc (write_fielddesc env fs1.length fd))
              (cell_bytes env fd v)
        ∧ (cell_at t rs1.length fs1.length).isSome)
      ∧ (decoded_cell env (read_fielddesc (write_fielddesc env fs1.length fd))
            (cell_bytes env fd v) = none →
          ∃ t, read_dbf env file = some (false, t)) := by
  have hL := wf_field_length_le table hwf
  have hlay := read_dbf_written_layout env table file hwf h hfields hrows
  obtain ⟨-, -, hvalid, hbound, hrowsok, -⟩ := (write_dbf_success env table file hL).1 h
  have hrec : ∀ r ∈ table.rows,
      (row_record env table.header.fields r).length = 1 + fields_length table.header.fields
        ∧ (row_record env table.header.fields r).getD 0 0 = 0x20 := by
    intro r hr'
    have e1 : (row_record env table.header.fields r).length
        = 1 + fields_length table.header.fields := by
      unfold row_record
      rw [List.length_cons, cells_length_of_format env table.header.fields r.values
        (hrowsok r hr').1 hL (hrowsok r hr').2]
      omega
    exact ⟨e1, rfl⟩
  have hrow := hrowsok row (by rw [hr]; simp)
  obtain ⟨c1, c2, c3⟩ := row_record_cell env table.header.fields fs1 fs2 fd row vs1 vs2 v hf hv
    hl hL hrow.1 hrow.2
  have hrecs : table.rows.map (row_record env table.header.fields)
      = rs1.map (row_record env table.header.fields)
        ++ row_record env table.header.fields row
          :: rs2.map (row_record env table.header.fields) := by
    rw [hr, List.map_append, List.map_cons]
  have hfs : read_back_fields env 0 table.header.fields
      = read_back_fields env 0 fs1
        ++ read_fielddesc (write_fielddesc env fs1.length fd)
          :: read_back_fields env (fs1.length + 1) fs2 := by
    rw [hf, read_back_fields_append, Nat.zero_add]
    rfl
  have hfl1 := fields_length_read_back env fs1 0
  have hfll := read_back_fields_length env fs1 0
  have hfdl := (read_write_fielddesc env fs1.length fd).1
  have hrs1 : ∀ r ∈ rs1.map (row_record env table.header.fields),
      r.length = 1 + fields_length table.header.fields ∧ r.getD 0 0 = 0x20 := by
    intro r hr'
    obtain ⟨x, hx, rfl⟩ := List.mem_map.mp hr'
    exact hrec x (by rw [hr]; exact List.mem_append_left _ hx)
  have hn : (rs1.map (row_record env table.header.fields)).length < table.rows.length := by
    rw [List.length_map, hr, List.length_append, List.length_cons]
    omega
  constructor
  · intro t ht
    rw [hlay] at ht
    cases hq : read_rows_loop env (1 + fields_length table.header.fields)
        (read_back_fields env 0 table.header.fields) table.rows.length
        ((table.rows.map (row_record env table.header.fields)).flatten ++ [0x1a]) with
    | none => rw [hq] at ht; simp at ht
    | some q =>
      obtain ⟨st, rows⟩ := q
      rw [hq] at ht
      simp only [Option.some.injEq, Prod.mk.injEq] at ht
      obtain ⟨rfl, rfl⟩ := ht
      rw [hrecs] at hq
      obtain ⟨row', g1, g2⟩ := read_rows_loop_row env _ _ _ _ _ c2 c3 _ _ rows hrs1 hn hq
      rw [List.length_map] at g1
      rw [hfs] at g2
      obtain ⟨-, i2, i3⟩ := read_row_fields_cell env _ _ _ _ _ _ _ g2
      rw [hfll, hfl1, hfdl, c1] at i2
      rw [hfll] at i3
      simp only [cell_at, g1]
      exact ⟨i2, i3⟩
  · intro hnone
    have hbad : read_row_fields env (1 + fields_length table.header.fields)
        (row_record env table.header.fields row)
        (read_back_fields env 0 table.header.fields) 1 = some none := by
      rw [hfs]
      refine read_row_fields_cell_none env _ _ _ _ _ 1 ?_ ?_
      · rw [← hfs, fields_length_read_back]
      · rw [hfl1, hfdl, c1]
        exact hnone
    obtain ⟨rows, hrows'⟩ := read_rows_loop_bad_record env
      (1 + fields_length table.header.fields) (read_back_fields env 0 table.header.fields)
      (by omega) (by rw [fields_length_read_back]) (row_record env table.header.fields row)
      (rs2.map (row_record env table.header.fields)) [0x1a] c2
      (by unfold record_active; rw [c3]; rfl) hbad
      (rs1.map (row_record env table.header.fields)) table.rows.length
      (fun r hr' => (hrs1 r hr').1) hn
    rw [hlay, hrecs, hrows']
    exact ⟨_, rfl⟩

theorem read_cell_type (env : libc) (fd fd' : dbffield_def) (str : List Nat)
    (h : fd'.field_type = fd.field_type) : read_cell env fd' str = read_cell env fd str := by
  unfold read_cell
  rw [h]

theorem write_preconditions_of_written (env : libc) (table : dbftable) (file : List Nat)
    (hwf : table.wf) (h : write_dbf env table = some ⟨true, some file⟩) :
    write_preconditions table ∧ 1 + fields_length table.header.fields ≤ 65535 := by
  have hL := wf_field_length_le table hwf
  obtain ⟨h1, h2, hvalid, hbound, hrows, -⟩ := (write_dbf_success env table file hL).1 h
  exact ⟨⟨h1, h2, hvalid, fun row hrow => ⟨(hrows row hrow).1, fun p hp =>
    (format_cell_compatible env table file hwf h row hrow p hp).1⟩⟩, hbound⟩

/-- Claim C35, amended. In a written table with at most 2046 columns and fewer than
`2 ^ 32` rows, take a cell of a column of kind `N` with a decimal count of 0 that is wide
enough for the text of its value. The bytes stored for the cell, decoded with the field
definition read back from the descriptor of the column, give: for a `sint` value `v >= 0`
the `uint` of the same number, for a `sint` value `v < 0` the `sint` of the same number, for
a `uint` value the same `uint`. Whenever `read_dbf` returns `true` on the file, the cell at
the same position of the table it returns is that value; and `read_dbf` does return `true`
when the names and cells of the table are such that the table is read back. -/
theorem numeric_cell_read_back (env : libc) (table : dbftable) (file : List Nat)
    (hwf : table.wf) (h : write_dbf env table = some ⟨true, some file⟩)
    (hfields : table.header.fields.length ≤ 2046)
    (hrows : table.rows.length < 4294967296)
    (fs1 fs2 : List dbffield_def) (fd : dbffield_def) (rs1 rs2 : List dbfrow) (row : dbfrow)
    (vs1 vs2 : List dbffield_value) (v : dbffield_value)
    (hf : table.header.fields = fs1 ++ fd :: fs2) (hr : table.rows = rs1 ++ row :: rs2)
    (hv : row.values = vs1 ++ v :: vs2) (hl : vs1.length = fs1.length)
    (hN : fd.field_type = [78]) (hdec : fd.field_decimal_count = 0)
    (hwide : (cell_text env fd v).length ≤ fd.field_length) :
    ∃ w, decoded_cell env (read_fielddesc ((file.drop (32 + 32 * fs1.length)).take 32))
          ((file.drop (cell_offset table.header.fields fs1 rs1.length)).take fd.field_length)
        = some w
      ∧ (∀ t, read_dbf env file = some (true, t) → cell_at t rs1.length fs1.length = some w)
      ∧ ((∀ f ∈ table.header.fields, name_plain f.field_name) →
          (∀ f ∈ table.header.fields, f.field_type = [78] → f.field_decimal_count = 0) →
          (∀ r ∈ table.rows, ∀ p ∈ table.header.fields.zip r.values, cell_fits env p.1 p.2) →
          ∃ t, read_dbf env file = some (true, t))
      ∧ (∀ i text, v = .sint i text → 0 ≤ i → w = .uint i.toNat (sprintf_u i.toNat))
      ∧ (∀ i text, v = .sint i text → i < 0 → w = .sint i (sprintf_d i))
      ∧ (∀ u text, v = .uint u text → w = .uint u (sprintf_u u))
      ∧ ((∃ i text, v = .sint i text) ∨ (∃ u text, v = .uint u text)) := by
  have hL := wf_field_length_le table hwf
  obtain ⟨hpre, hbound⟩ := write_preconditions_of_written env table file hwf h
  have hfd : fd ∈ table.header.fields := by rw [hf]; simp
  have hrow : row ∈ table.rows := by rw [hr]; simp
  have hzip : (fd, v) ∈ table.header.fields.zip row.values := by
    rw [hf, hv, List.zip_append hl.symm, List.zip_cons_cons]; simp
  have hvwf : v.wf := hwf.2 row hrow v (by rw [hv]; simp)
  have hc : cell_compatible fd v :=
    (format_cell_compatible env table file hwf h row hrow _ hzip).1
  have hfit : cell_fits env fd v := by
    cases v with
    | str value => simp [cell_compatible, hN] at hc
    | sint i value => exact hwide
    | uint u value => exact hwide
    | dbl d value => simp [cell_compatible, hN] at hc
  have hty := (read_write_fielddesc env fs1.length fd).2.2.1 hN hdec
  have hdecode : decoded_cell env (read_fielddesc (write_fielddesc env fs1.length fd))
      (cell_bytes env fd v) = some (read_back_cell env fd v) := by
    unfold decoded_cell
    rw [read_cell_type env fd _ _ (by rw [hty, hN]),
      read_cell_written env fd v (by have := (hwf.1 fd hfd).1; omega) hvwf hc hfit]
  obtain ⟨hcell, -⟩ := read_dbf_written_cell env table file hwf h hfields hrows fs1 fs2 fd
    rs1 rs2 row vs1 vs2 v hf hr hv hl
  refine ⟨read_back_cell env fd v, ?_, ?_, ?_, ?_, ?_, ?_, ?_⟩
  · rw [stored_descriptor env table file hwf h fs1 fs2 fd hf,
      stored_cell env table file hwf h fs1 fs2 fd rs1 rs2 row vs1 vs2 v hf hr hv hl]
    exact hdecode
  · intro t ht
    rw [(hcell t ht).1, hdecode]
  · intro hnames hdecs hcells
    have hfile : file = dbf_file env table :=
      ((write_dbf_success env table file hL).1 h).2.2.2.2.2
    rw [hfile]
    exact ⟨_, read_dbf_dbf_file env table hwf hpre hbound hfields hrows hnames hdecs hcells⟩
  · intro i text hvi hi
    subst hvi
    simp only [read_back_cell, if_neg (not_lt.mpr hi), sprintf_d]
  · intro i text hvi hi
    subst hvi
    simp only [read_back_cell, if_pos hi]
  · intro u text hvu
    subst hvu
    rfl
  · cases v with
    | str value => simp [cell_compatible, hN] at hc
    | sint i value => exact Or.inl ⟨i, value, rfl⟩
    | uint u value => exact Or.inr ⟨u, value, rfl⟩
    | dbl d value => simp [cell_compatible, hN] at hc

set_option maxRecDepth 100000 in
/-- Witness of claim C35 (amended): the value `sint 45` in the column `Delta` of the second
row of the survey table comes back as `uint 45`. -/
theorem numeric_cell_read_back_witness :
    survey_table.wf
      ∧ write_dbf zero_libc survey_table = some ⟨true, some (dbf_file zero_libc survey_table)⟩
      ∧ (cell_text zero_libc (dbffield_def.of_type (str_bytes "Delta") (str_bytes "N") 5)
          (.sint 45 [])).length ≤ 5
      ∧ ∃ t, read_dbf zero_libc (dbf_file zero_libc survey_table) = some (true, t)
          ∧ cell_at t 1 2 = some (.uint 45 (str_bytes "45")) := by
  obtain ⟨w, -, hcell, htotal, hpos, -, -, -⟩ := numeric_cell_read_back zero_libc survey_table
    (dbf_file zero_libc survey_table) (by decide) (by decide) (by decide) (by decide)
    [dbffield_def.of_type (str_bytes "Name") (str_bytes "C") 8,
      dbffield_def.of_type (str_bytes "Count") (str_bytes "N") 5]
    [dbffield_def.of_float (str_bytes "Height") 10 1]
    (dbffield_def.of_type (str_bytes "Delta") (str_bytes "N") 5)
    [⟨[.str (str_bytes "Oslo"), .uint 3 [], .sint (-7) [], .dbl 0 []]⟩] []
    ⟨[.str (str_bytes " Rio "), .uint 120 [], .sint 45 [], .dbl 0 []]⟩
    [.str (str_bytes " Rio "), .uint 120 []] [.dbl 0 []] (.sint 45 [])
    rfl rfl rfl rfl rfl rfl (by decide)
  obtain ⟨t, ht⟩ := htotal (by decide) (by decide) (by decide)
  have hw : w = .uint 45 (str_bytes "45") := (hpos 45 [] rfl (by decide)).trans (by decide)
  exact ⟨by decide, by decide, by decide, t, ht, by rw [← hw]; exact hcell t ht⟩

set_option maxRecDepth 100000 in
/-- Counterexample to claim C35 as stated: in a column of kind `N` with the decimal count
2 and the length 5, the value `sint 5` is written as four spaces and `5`; the descriptor is
read back as a column of kind `F`, and the cell comes back as a `dbl`, the result of
`strtod`, not as `uint 5`, whatever the C library is. -/
theorem numeric_cell_with_decimals_read_back :
    read_dbf zero_libc (dbf_file zero_libc
          (one_cell_table ⟨str_bytes "n", str_bytes "N", 5, 2⟩ (.sint 5 [])))
        = some (true, one_cell_table ⟨str_bytes "n", str_bytes "F", 5, 2⟩
            (.dbl 0 (str_bytes "5")))
      ∧ ∀ (env : libc) (t : dbftable),
          write_dbf env (one_cell_table ⟨str_bytes "n", str_bytes "N", 5, 2⟩ (.sint 5 []))
            = some ⟨true, some (dbf_file env
                (one_cell_table ⟨str_bytes "n", str_bytes "N", 5, 2⟩ (.sint 5 [])))⟩
          ∧ (read_dbf env (dbf_file env
                (one_cell_table ⟨str_bytes "n", str_bytes "N", 5, 2⟩ (.sint 5 [])))
              = some (true, t) →
            ∃ d, cell_at t 0 0 = some (.dbl d (str_bytes "5"))) := by
  refine ⟨by decide, ?_⟩
  intro env t
  have hwf : (one_cell_table ⟨str_bytes "n", str_bytes "N", 5, 2⟩ (.sint 5 [])).wf := by
    decide
  have hw : write_dbf env (one_cell_table ⟨str_bytes "n", str_bytes "N", 5, 2⟩ (.sint 5 []))
      = some ⟨true, some (dbf_file env
          (one_cell_table ⟨str_bytes "n", str_bytes "N", 5, 2⟩ (.sint 5 [])))⟩ :=
    write_dbf_accepts env _ hwf (by decide) (by decide) (by
      intro row hrow p hp
      simp only [one_cell_table, List.mem_singleton] at hrow
      subst hrow
      simp only [one_cell_table, List.zip_cons_cons, List.zip_nil_right, List.mem_singleton]
        at hp
      subst hp
      trivial)
  refine ⟨hw, ?_⟩
  intro ht
  obtain ⟨hcell, -⟩ := read_dbf_written_cell env _ _ hwf hw (by decide) (by decide)
    [] [] ⟨str_bytes "n", str_bytes "N", 5, 2⟩ [] [] ⟨[.sint 5 []]⟩ [] [] (.sint 5 [])
    rfl rfl rfl rfl
  obtain ⟨h1, h2⟩ := hcell t ht
  have hty := (read_write_fielddesc env 0 ⟨str_bytes "n", str_bytes "N", 5, 2⟩).2.2.2
    (by decide) (by decide)
  have hbytes : cell_bytes env ⟨str_bytes "n", str_bytes "N", 5, 2⟩ (.sint 5 [])
      = str_bytes "    5" := by
    rw [cell_bytes_short env _ _ (by decide) (by decide)
      (by show (sprintf_d 5).length ≤ 5; decide)]
    show List.replicate (5 - (sprintf_d 5).length) 32 ++ sprintf_d 5 = _
    decide
  simp only [List.length_nil] at h1 h2 hty
  rw [h1] at h2
  rw [h1]
  rw [hbytes] at h2 ⊢
  unfold decoded_cell read_cell at h2 ⊢
  rw [hty] at h2 ⊢
  rw [if_neg (by decide), if_pos rfl] at h2 ⊢
  rw [show trim_leading_and_trailing_whitespace (c_str (str_bytes "    5" ++ [0]))
    = str_bytes "5" by decide] at h2 ⊢
  dsimp only at h2 ⊢
  split
  · exact ⟨_, rfl⟩
  · rename_i hne
    rw [if_neg hne] at h2
    simp at h2

theorem digits_drop (k : Nat) : ∀ u : Nat,
    (Nat.digits 10 u).drop k = Nat.digits 10 (u / 10 ^ k) := by
  induction k with
  | zero => intro u; simp
  | succ k ih =>
    intro u
    by_cases hu : u = 0
    · subst hu; simp
    · rw [Nat.digits_def' (by decide) (by omega), List.drop_succ_cons, ih, pow_succ,
        Nat.div_div_eq_div_mul, Nat.mul_comm]

theorem sprintf_u_digits (u : Nat) (hu : 0 < u) :
    sprintf_u u = ((Nat.digits 10 u).reverse).map (fun d => d + 48) := by
  rw [sprintf_u, if_neg (by omega), decimal_digits_eq_digits u u (le_refl _), List.map_reverse]

theorem digits_take_reverse (u L : Nat) (hL : 0 < L)
    (hlen : L ≤ (Nat.digits 10 u).length) :
    ((Nat.digits 10 u).reverse.map (fun d => d + 48)).take L
        = (Nat.digits 10 (u / 10 ^ ((Nat.digits 10 u).length - L))).reverse.map
            (fun d => d + 48)
      ∧ 0 < u / 10 ^ ((Nat.digits 10 u).length - L) := by
  have hdrop := digits_drop ((Nat.digits 10 u).length - L) u
  constructor
  · rw [← hdrop, ← List.map_take, List.take_reverse]
  · by_contra h0
    have h0' : u / 10 ^ ((Nat.digits 10 u).length - L) = 0 := Nat.eq_zero_of_not_pos h0
    rw [h0', Nat.digits_zero] at hdrop
    have hl := congrArg List.length hdrop
    rw [List.length_drop, List.length_nil] at hl
    omega

/-- The first `L` characters of the decimal text of a positive number are the decimal text
of the number without its last digits. -/
theorem sprintf_u_take (u L : Nat) (hu : 0 < u) (hL : 0 < L)
    (hlen : L ≤ (sprintf_u u).length) :
    (sprintf_u u).take L = sprintf_u (u / 10 ^ ((sprintf_u u).length - L))
      ∧ 0 < u / 10 ^ ((sprintf_u u).length - L)
      ∧ (L < (sprintf_u u).length → u / 10 ^ ((sprintf_u u).length - L) < u) := by
  have hd := sprintf_u_digits u hu
  have hn : (sprintf_u u).length = (Nat.digits 10 u).length := by
    rw [hd, List.length_map, List.length_reverse]
  rw [hn] at hlen ⊢
  obtain ⟨h1, h2⟩ := digits_take_reverse u L hL hlen
  refine ⟨?_, h2, ?_⟩
  · rw [sprintf_u_digits _ h2, hd]
    exact h1
  · intro hlt
    exact Nat.div_lt_self hu (Nat.one_lt_pow (by omega) (by decide))



theorem decoded_digits (env : libc) (fd : dbffield_def) (u : Nat)
    (hN : fd.field_type = [78]) (hu : u < 4294967296) :
    decoded_cell env fd (sprintf_u u) = some (.uint u (sprintf_u u)) := by
  have hch := sprintf_u_chars u
  unfold decoded_cell
  rw [c_str_append_nul _ _ (fun h => by have := hch 0 h; omega),
    trim_no_space _ (fun h => by have := hch 32 h; omega)]
  unfold read_cell
  rw [if_pos hN, if_neg (fun h => by have := hch 45 h; omega)]
  dsimp only
  rw [parse_uint32_sprintf_u u hu]
  rfl

theorem decoded_minus_digits (env : libc) (fd : dbffield_def) (u : Nat)
    (hN : fd.field_type = [78]) (hu : u ≤ 2147483648) :
    decoded_cell env fd (45 :: sprintf_u u) = some (.sint (-(u : Int)) (45 :: sprintf_u u)) := by
  have hch := sprintf_u_chars u
  have h0 : 0 ∉ 45 :: sprintf_u u := by
    intro h
    rcases List.mem_cons.mp h with h | h
    · omega
    · have := hch 0 h; omega
  have h32 : 32 ∉ 45 :: sprintf_u u := by
    intro h
    rcases List.mem_cons.mp h with h | h
    · omega
    · have := hch 32 h; omega
  unfold decoded_cell
  rw [c_str_append_nul _ _ h0, trim_no_space _ h32]
  unfold read_cell
  rw [if_pos hN, if_pos (List.mem_cons_self _ _)]
  dsimp only
  rw [parse_int32_minus u hu]
  rfl

theorem decoded_minus (env : libc) (fd : dbffield_def) (hN : fd.field_type = [78]) :
    decoded_cell env fd [45] = none := by
  unfold decoded_cell
  exact read_cell_numeric_fails env fd _ hN (by decide)

theorem read_row_fields_reads (env : libc) (fields : List dbffield_def) :
    ∀ (values : List dbffield_value) (pre : List Nat) (read_size : Nat),
      values.length = fields.length →
      (∀ fd ∈ fields, 0 < fd.field_length) →
      (∀ p ∈ fields.zip values,
        (cell_bytes env p.1 p.2).length = p.1.field_length ∧ cell_reads env p.1 p.2) →
      read_size = (pre ++ (fields.zip values).flatMap (fun p => cell_bytes env p.1 p.2)).length →
      ∃ vals, read_row_fields env read_size
          (pre ++ (fields.zip values).flatMap (fun p => cell_bytes env p.1 p.2)) fields pre.length
        = some (some vals) := by
  induction fields with
  | nil => intro values pre read_size _ _ _ _; exact ⟨[], rfl⟩
  | cons fd fs ih =>
    intro values pre read_size hlen hL hcells hrs
    cases values with
    | nil => simp at hlen
    | cons v vs =>
      have hfd := hL fd (List.mem_cons_self _ _)
      obtain ⟨hcl, hreads⟩ := hcells (fd, v) (by simp)
      simp only [List.zip_cons_cons, List.flatMap_cons] at hrs ⊢
      have hrs' : read_size = pre.length + fd.field_length
          + ((fs.zip vs).flatMap (fun p => cell_bytes env p.1 p.2)).length := by
        rw [hrs]; simp only [List.length_append, hcl]; omega
      obtain ⟨w, hw⟩ := Option.isSome_iff_exists.mp hreads
      unfold decoded_cell at hw
      unfold read_row_fields
      rw [if_neg (by omega), if_neg (by omega)]
      dsimp only
      rw [List.drop_left, List.take_left' hcl, hw]
      dsimp only
      have hpre : pre.length + fd.field_length = (pre ++ cell_bytes env fd v).length := by
        rw [List.length_append, hcl]
      obtain ⟨vals, hvals⟩ := ih vs (pre ++ cell_bytes env fd v) read_size
        (by simpa using hlen) (fun x hx => hL x (List.mem_cons_of_mem _ hx))
        (fun p hp => hcells p (by
          simp only [List.zip_cons_cons]; exact List.mem_cons_of_mem _ hp))
        (by rw [hrs, List.append_assoc])
      rw [hpre, ← List.append_assoc, hvals]
      exact ⟨_, rfl⟩

theorem read_rows_loop_reads (env : libc) (fields : List dbffield_def)
    (hL : ∀ fd ∈ fields, 0 < fd.field_length ∧ fd.field_length ≤ 512) (rest : List Nat) :
    ∀ (rows : List dbfrow),
      (∀ row ∈ rows, row.values.length = fields.length
        ∧ (∀ p ∈ fields.zip row.values, ∃ b, format_cell env p.1 p.2 = some (some b))
        ∧ ∀ p ∈ fields.zip row.values, cell_reads env p.1 p.2) →
      ∃ rows', read_rows_loop env (1 + fields_length fields) fields rows.length
          (rows.flatMap (row_record env fields) ++ rest) = some (true, rows') := by
  intro rows
  induction rows with
  | nil => intro _; exact ⟨[], rfl⟩
  | cons row rows ih =>
    intro h
    obtain ⟨hlenv, hfmt, hreads⟩ := h row (List.mem_cons_self _ _)
    have hlen := cells_length_of_format env fields row.values hlenv
      (fun fd hfd => (hL fd hfd).2) hfmt
    have hrl : (row_record env fields row).length = 1 + fields_length fields := by
      unfold row_record
      rw [List.length_cons, hlen, Nat.add_comm]
    simp only [List.flatMap_cons, List.length_cons, List.append_assoc]
    unfold read_rows_loop
    rw [if_neg (by omega), fread_append _ _ _ hrl]
    dsimp only
    have h0 : ¬ (row_record env fields row).getD 0 0 ≠ 0x20 := by
      unfold row_record; simp
    rw [if_neg h0]
    obtain ⟨vals, hvals⟩ : ∃ vals, read_row_fields env (1 + fields_length fields)
        ([32] ++ (fields.zip row.values).flatMap (fun p => cell_bytes env p.1 p.2)) fields 1
        = some (some vals) := read_row_fields_reads env fields row.values [32]
      (1 + fields_length fields) hlenv (fun fd hfd => (hL fd hfd).1)
      (fun p hp => ⟨cell_bytes_length_of_format env p.1 p.2
        ((hL p.1 (List.of_mem_zip hp).1).2) (hfmt p hp), hreads p hp⟩)
      (by rw [List.length_append, hlen]; rfl)
    have e : row_record env fields row
        = [32] ++ (fields.zip row.values).flatMap (fun p => cell_bytes env p.1 p.2) := rfl
    rw [e, hvals]
    dsimp only
    obtain ⟨rows', hrows'⟩ := ih (fun r hr => h r (List.mem_cons_of_mem _ hr))
    rw [hrows']
    exact ⟨_, rfl⟩

/-- The function `read_dbf` returns `true` on a written table whose field definitions are
read back unchanged and whose stored cells all decode. -/
theorem read_dbf_reads (env : libc) (table : dbftable) (file : List Nat) (hwf : table.wf)
    (h : write_dbf env table = some ⟨true, some file⟩)
    (hfields : table.header.fields.length ≤ 2046)
    (hrows : table.rows.length < 4294967296)
    (hnames : ∀ fd ∈ table.header.fields, name_plain fd.field_name)
    (hdec : ∀ fd ∈ table.header.fields, fd.field_type = [78] → fd.field_decimal_count = 0)
    (hreads : ∀ row ∈ table.rows, ∀ p ∈ table.header.fields.zip row.values,
      cell_reads env p.1 p.2) :
    ∃ t, read_dbf env file = some (true, t) := by
  have hL := wf_field_length_le table hwf
  obtain ⟨-, -, hvalid, hbound, hrowsok, rfl⟩ := (write_dbf_success env table file hL).1 h
  have hsum := sum_record_bytes_eq table.header.fields 1 (by decide)
  unfold dbf_file
  simp only [List.append_assoc]
  rw [read_dbf_header]
  dsimp only
  rw [read_field_descriptors_written env table.header.fields _ _
    (by
      show (1 + 32 + 32 * table.header.fields.length) % 65536 % 65536 = _
      omega) hfields
    (fun fd hfd => ⟨hvalid fd hfd, hnames fd hfd, hdec fd hfd⟩)]
  dsimp only
  have hrb : (make_header env table).record_bytes % 65536
      = 1 + fields_length table.header.fields := by
    show sum_record_bytes table.header.fields 1 % 65536 = _
    rw [hsum, Nat.mod_mod, Nat.mod_eq_of_lt (by omega)]
  have htr : (make_header env table).table_records % 4294967296 = table.rows.length := by
    show table.rows.length % 4294967296 % 4294967296 = _
    omega
  obtain ⟨rows', hrows'⟩ := read_rows_loop_reads env table.header.fields
    (fun fd hfd => ⟨(hvalid fd hfd).2.1, hL fd hfd⟩) [0x1a] table.rows
    (fun row hrow => ⟨(hrowsok row hrow).1, (hrowsok row hrow).2, hreads row hrow⟩)
  rw [hrb, htr, hrows']
  exact ⟨_, rfl⟩

theorem sprintf_d_neg (i : Int) (hi : i < 0) : sprintf_d i = 45 :: sprintf_u (-i).toNat := by
  unfold sprintf_d
  rw [if_pos hi]

theorem sprintf_d_nat (u : Nat) : sprintf_d (u : Int) = sprintf_u u := by
  unfold sprintf_d
  rw [if_neg (by omega), Int.toNat_ofNat]

/-- Claim C37, amended. In a table that satisfies the write preconditions, with a record
length that fits 16 bits, at most 2046 columns and fewer than `2 ^ 32` rows, take a cell of
a column of kind `N`, decimal count 0 and length `L` whose value is formatted to a text of
more than `L` characters. Then `write_dbf` succeeds and the file holds, for the cell, the
first `L` characters of the text. Decoded by the reader, they give a number that differs
from the one written: for a `uint` or non-negative `sint` value `u` the `uint` of `u`
without its last digits, for a negative `sint` value in a column of length at least 2 the
`sint` of the value without its last digits; and whenever `read_dbf` returns `true` on the
file, the cell of the table it returns holds that number. For a negative value in a column
of length 1 the stored cell is `-` alone, and `read_dbf` returns `false`. `read_dbf` returns
`true` when the names are read back unchanged and every stored cell of the table decodes. -/
theorem long_numeric_cell_truncated (env : libc) (table : dbftable) (hwf : table.wf)
    (hpre : write_preconditions table)
    (hbound : 1 + fields_length table.header.fields ≤ 65535)
    (hfits : ∀ row ∈ table.rows, ∀ p ∈ table.header.fields.zip row.values,
      text_fits env p.1 p.2)
    (hfields : table.header.fields.length ≤ 2046)
    (hrows : table.rows.length < 4294967296)
    (fs1 fs2 : List dbffield_def) (fd : dbffield_def) (rs1 rs2 : List dbfrow) (row : dbfrow)
    (vs1 vs2 : List dbffield_value) (v : dbffield_value)
    (hf : table.header.fields = fs1 ++ fd :: fs2) (hr : table.rows = rs1 ++ row :: rs2)
    (hv : row.values = vs1 ++ v :: vs2) (hl : vs1.length = fs1.length)
    (hN : fd.field_type = [78]) (hdec : fd.field_decimal_count = 0)
    (hlong : fd.field_length < (cell_text env fd v).length) :
    ∃ file, write_dbf env table = some ⟨true, some file⟩
      ∧ (file.drop (cell_offset table.header.fields fs1 rs1.length)).take fd.field_length
          = (cell_text env fd v).take fd.field_length
      ∧ (read_fielddesc ((file.drop (32 + 32 * fs1.length)).take 32)).field_type = [78]
      ∧ (∀ u, ((∃ text, v = .uint u text) ∨ (∃ text, v = .sint (u : Int) text)) →
          u / 10 ^ ((cell_text env fd v).length - fd.field_length) < u
          ∧ decoded_cell env (read_fielddesc ((file.drop (32 + 32 * fs1.length)).take 32))
              ((file.drop (cell_offset table.header.fields fs1 rs1.length)).take
                fd.field_length)
            = some (.uint (u / 10 ^ ((cell_text env fd v).length - fd.field_length))
                ((cell_text env fd v).take fd.field_length))
          ∧ cell_reads env fd v
          ∧ ∀ t, read_dbf env file = some (true, t) →
              cell_at t rs1.length fs1.length
                = some (.uint (u / 10 ^ ((cell_text env fd v).length - fd.field_length))
                    ((cell_text env fd v).take fd.field_length)))
      ∧ (∀ i text, v = .sint i text → i < 0 → 2 ≤ fd.field_length →
          i < -(((-i).toNat / 10 ^ ((cell_text env fd v).length - fd.field_length) : Nat) : Int)
          ∧ decoded_cell env (read_fielddesc ((file.drop (32 + 32 * fs1.length)).take 32))
              ((file.drop (cell_offset table.header.fields fs1 rs1.length)).take
                fd.field_length)
            = some (.sint
                (-(((-i).toNat / 10 ^ ((cell_text env fd v).length - fd.field_length) : Nat)
                  : Int))
                ((cell_text env fd v).take fd.field_length))
          ∧ cell_reads env fd v
          ∧ ∀ t, read_dbf env file = some (true, t) →
              cell_at t rs1.length fs1.length
                = some (.sint
                    (-(((-i).toNat
                      / 10 ^ ((cell_text env fd v).length - fd.field_length) : Nat) : Int))
                    ((cell_text env fd v).take fd.field_length)))
      ∧ (∀ i text, v = .sint i text → i < 0 → fd.field_length = 1 →
          (file.drop (cell_offset table.header.fields fs1 rs1.length)).take fd.field_length
              = [45]
            ∧ ∃ t, read_dbf env file = some (false, t))
      ∧ ((∀ f ∈ table.header.fields, name_plain f.field_name) →
          (∀ f ∈ table.header.fields, f.field_type = [78] → f.field_decimal_count = 0) →
          (∀ r ∈ table.rows, ∀ p ∈ table.header.fields.zip r.values, cell_reads env p.1 p.2) →
          ∃ t, read_dbf env file = some (true, t)) := by
  have hw := write_dbf_accepts env table hwf hpre hbound hfits
  have hfd : fd ∈ table.header.fields := by rw [hf]; simp
  have hrow : row ∈ table.rows := by rw [hr]; simp
  have hzip : (fd, v) ∈ table.header.fields.zip row.values := by
    rw [hf, hv, List.zip_append hl.symm, List.zip_cons_cons]; simp
  have hvwf : v.wf := hwf.2 row hrow v (by rw [hv]; simp)
  have hc : cell_compatible fd v := (hpre.2.2.2 row hrow).2 (fd, v) hzip
  have hLpos : 0 < fd.field_length := (hpre.2.2.1 fd hfd).2.1
  have hL256 : fd.field_length < 256 := (hwf.1 fd hfd).1
  have hty := (read_write_fielddesc env fs1.length fd).2.2.1 hN hdec
  have hsd := stored_descriptor env table _ hwf hw fs1 fs2 fd hf
  have hsc := stored_cell env table _ hwf hw fs1 fs2 fd rs1 rs2 row vs1 vs2 v hf hr hv hl
  obtain ⟨hcell, hfail⟩ := read_dbf_written_cell env table _ hwf hw hfields hrows fs1 fs2 fd
    rs1 rs2 row vs1 vs2 v hf hr hv hl
  have ht511 : (cell_text env fd v).length ≤ 511 := by
    cases v with
    | str value => simp [cell_compatible, hN] at hc
    | sint i value => have := sprintf_d_length_le i hvwf.1 hvwf.2; simp only [cell_text]; omega
    | uint u value => have := sprintf_u_length_le u hvwf; simp only [cell_text]; omega
    | dbl d value => simp [cell_compatible, hN] at hc
  have hcb : cell_bytes env fd v = (cell_text env fd v).take fd.field_length :=
    cell_bytes_long env fd v hc (by omega) ht511 (by omega)
  have hdecty : ∀ stored, decoded_cell env (read_fielddesc (write_fielddesc env fs1.length fd))
      stored = decoded_cell env fd stored :=
    fun stored => by
      unfold decoded_cell
      exact read_cell_type env fd _ _ (by rw [hty, hN])
  -- the non-negative case, for the number `u` and the text `sprintf_u u`
  have hnonneg : ∀ u : Nat, u < 4294967296 → cell_text env fd v = sprintf_u u →
      u / 10 ^ ((cell_text env fd v).length - fd.field_length) < u
        ∧ decoded_cell env fd ((cell_text env fd v).take fd.field_length)
          = some (.uint (u / 10 ^ ((cell_text env fd v).length - fd.field_length))
              ((cell_text env fd v).take fd.field_length)) := by
    intro u hu htext
    rw [htext] at hlong ⊢
    have hupos : 0 < u := by
      by_contra h0
      have : u = 0 := by omega
      subst this
      simp [sprintf_u] at hlong
      omega
    obtain ⟨g1, g2, g3⟩ := sprintf_u_take u fd.field_length hupos hLpos (by omega)
    have g4 := g3 hlong
    refine ⟨g4, ?_⟩
    rw [g1]
    exact decoded_digits env fd _ hN (by omega)
  refine ⟨dbf_file env table, hw, by rw [hsc, hcb], by rw [hsd]; exact hty, ?_, ?_, ?_, ?_⟩
  · intro u hu
    have htext : cell_text env fd v = sprintf_u u := by
      rcases hu with ⟨text, rfl⟩ | ⟨text, rfl⟩
      · rfl
      · exact sprintf_d_nat u
    have hu32 : u < 4294967296 := by
      rcases hu with ⟨text, rfl⟩ | ⟨text, rfl⟩
      · exact hvwf
      · have := hvwf.2; omega
    obtain ⟨g1, g2⟩ := hnonneg u hu32 htext
    refine ⟨g1, by rw [hsd, hsc, hcb, hdecty]; exact g2, ?_, ?_⟩
    · unfold cell_reads
      rw [hcb, g2]
      rfl
    · intro t ht
      rw [(hcell t ht).1, hcb, hdecty]
      exact g2
  · intro i text hvi hi hL2
    subst hvi
    have htext : cell_text env fd (.sint i text) = 45 :: sprintf_u (-i).toNat :=
      sprintf_d_neg i hi
    have hm : 0 < (-i).toNat := by omega
    have hmle : (-i).toNat ≤ 2147483648 := by have := hvwf.1; omega
    rw [htext, List.length_cons] at hlong
    obtain ⟨g1, g2, g3⟩ := sprintf_u_take (-i).toNat (fd.field_length - 1) hm (by omega)
      (by omega)
    have g4 := g3 (by omega)
    have hexp : (cell_text env fd (.sint i text)).length - fd.field_length
        = (sprintf_u (-i).toNat).length - (fd.field_length - 1) := by
      rw [htext, List.length_cons]
      omega
    have htake : (cell_text env fd (.sint i text)).take fd.field_length
        = 45 :: sprintf_u ((-i).toNat / 10 ^ ((sprintf_u (-i).toNat).length
            - (fd.field_length - 1))) := by
      rw [htext, ← g1]
      obtain ⟨k, hk⟩ : ∃ k, fd.field_length = k + 1 := ⟨fd.field_length - 1, by omega⟩
      rw [hk, List.take_succ_cons, Nat.add_sub_cancel]
    have hdecoded : decoded_cell env fd ((cell_text env fd (.sint i text)).take fd.field_length)
        = some (.sint (-(((-i).toNat
            / 10 ^ ((cell_text env fd (.sint i text)).length - fd.field_length) : Nat) : Int))
          ((cell_text env fd (.sint i text)).take fd.field_length)) := by
      rw [htake, hexp]
      exact decoded_minus_digits env fd _ hN (by omega)
    refine ⟨by rw [hexp]; omega, by rw [hsd, hsc, hcb, hdecty]; exact hdecoded, ?_, ?_⟩
    · unfold cell_reads
      rw [hcb, hdecoded]
      rfl
    · intro t ht
      rw [(hcell t ht).1, hcb, hdecty]
      exact hdecoded
  · intro i text hvi hi hL1
    subst hvi
    have htake : (cell_text env fd (.sint i text)).take fd.field_length = [45] := by
      show (sprintf_d i).take fd.field_length = [45]
      rw [sprintf_d_neg i hi, hL1]
      rfl
    refine ⟨by rw [hsc, hcb, htake], hfail ?_⟩
    rw [hcb, htake, hdecty]
    exact decoded_minus env fd hN
  · intro hnames hdecs hreads
    exact read_dbf_reads env table _ hwf hw hfields hrows hnames hdecs hreads

set_option maxRecDepth 100000 in
/-- Witness of claim C37 (amended): the value `sint -4567` in a column of length 3 is stored
as `-45` and comes back as `sint -45`. -/
theorem long_numeric_cell_truncated_witness :
    long_numbers_table.wf ∧ write_preconditions long_numbers_table
      ∧ 1 + fields_length long_numbers_table.header.fields ≤ 65535
      ∧ (∀ row ∈ long_numbers_table.rows,
          ∀ p ∈ long_numbers_table.header.fields.zip row.values, text_fits zero_libc p.1 p.2)
      ∧ 3 < (cell_text zero_libc (dbffield_def.of_type (str_bytes "b") (str_bytes "N") 3)
          (.sint (-4567) [])).length
      ∧ ∃ file t, write_dbf zero_libc long_numbers_table = some ⟨true, some file⟩
          ∧ (file.drop (cell_offset long_numbers_table.header.fields
              [dbffield_def.of_type (str_bytes "a") (str_bytes "N") 2] 0)).take 3
            = str_bytes "-45"
          ∧ read_dbf zero_libc file = some (true, t)
          ∧ cell_at t 0 1 = some (.sint (-45) (str_bytes "-45")) := by
  obtain ⟨file, hw, hstored, -, -, hneg, -, htotal⟩ := long_numeric_cell_truncated zero_libc
    long_numbers_table (by decide) (by decide) (by decide) (by decide) (by decide) (by decide)
    [dbffield_def.of_type (str_bytes "a") (str_bytes "N") 2] []
    (dbffield_def.of_type (str_bytes "b") (str_bytes "N") 3)
    [] [⟨[.uint 7 [], .sint 12 []]⟩] ⟨[.uint 123 [], .sint (-4567) []]⟩
    [.uint 123 []] [] (.sint (-4567) []) rfl rfl rfl rfl rfl rfl (by decide)
  obtain ⟨t, ht⟩ := htotal (by decide) (by decide) (by decide)
  obtain ⟨-, -, -, hcell⟩ := hneg (-4567) [] rfl (by decide) (by decide)
  exact ⟨by decide, by decide, by decide, by decide, by decide, file, t, hw,
    hstored.trans (by decide), ht, (hcell t ht).trans (by decide)⟩

set_option maxRecDepth 100000 in
/-- Counterexample to claim C37 as stated: the value `sint -5` in a column of kind `N` and
length 1 has the text `-5`, longer than the column; `write_dbf` succeeds and stores `-`, and
`read_dbf` returns `false` on the file: no number is read back. -/
theorem long_negative_cell_not_read_back :
    write_dbf zero_libc (one_cell_table ⟨str_bytes "n", str_bytes "N", 1, 0⟩ (.sint (-5) []))
        = some ⟨true, some (dbf_file zero_libc
            (one_cell_table ⟨str_bytes "n", str_bytes "N", 1, 0⟩ (.sint (-5) [])))⟩
      ∧ ((dbf_file zero_libc
            (one_cell_table ⟨str_bytes "n", str_bytes "N", 1, 0⟩ (.sint (-5) []))).drop
          (cell_offset [⟨str_bytes "n", str_bytes "N", 1, 0⟩] [] 0)).take 1 = str_bytes "-"
      ∧ read_dbf zero_libc (dbf_file zero_libc
            (one_cell_table ⟨str_bytes "n", str_bytes "N", 1, 0⟩ (.sint (-5) [])))
          = some (false, ⟨⟨[⟨str_bytes "n", str_bytes "N", 1, 0⟩]⟩, []⟩) := by
  decide

/-! ## The main header and the vertices of the collection -/

theorem point_shapes_vertices (shapes : List shape)
    (h : ∀ s ∈ shapes, s.stype = shape_type.point) :
    point_shapes ⟨shapes⟩ = collection_vertices ⟨shapes⟩ := by
  induction shapes with
  | nil => rfl
  | cons s ss ih =>
    have hs := h s (List.mem_cons_self _ _)
    have ih' := ih (fun t ht => h t (List.mem_cons_of_mem _ ht))
    unfold point_shapes collection_vertices at ih' ⊢
    dsimp only at ih' ⊢
    cases s with
    | point ps =>
      rw [List.filterMap_cons, List.flatMap_cons]
      dsimp only
      rw [ih']
      rfl
    | _ => simp [shape.stype] at hs

theorem foldl_multipoint_collect (shapes : List shape) :
    ∀ st : Int × List pointshape,
      (shapes.foldl multipoint_collect_step st).2 = st.2 ++ shapes.flatMap shape_points := by
  induction shapes with
  | nil => intro st; simp
  | cons s ss ih =>
    intro st
    rw [List.foldl_cons, ih, List.flatMap_cons]
    cases s <;> simp [multipoint_collect_step, shape_points]

theorem multipoint_vertices (shapes : List shape)
    (h : ∀ s ∈ shapes, s.stype = shape_type.multipoint) :
    shapes.flatMap shape_points = collection_vertices ⟨shapes⟩ := by
  induction shapes with
  | nil => rfl
  | cons s ss ih =>
    have hs := h s (List.mem_cons_self _ _)
    have ih' := ih (fun t ht => h t (List.mem_cons_of_mem _ ht))
    unfold collection_vertices at ih' ⊢
    dsimp only at ih' ⊢
    rw [List.flatMap_cons, List.flatMap_cons, ih']
    cases s with
    | multipoint pts => rfl
    | _ => simp [shape.stype] at hs

theorem foldl_polypart_collect (shapes : List shape) :
    ∀ acc : List polypart,
      shapes.foldl polypart_collect_step acc = acc ++ shapes.flatMap shape_parts := by
  induction shapes with
  | nil => intro acc; simp
  | cons s ss ih =>
    intro acc
    rw [List.foldl_cons, ih, List.flatMap_cons]
    cases s <;> simp [polypart_collect_step, shape_parts]

theorem part_points_append (a b : List polypart) :
    part_points (a ++ b) = part_points a ++ part_points b := by
  unfold part_points
  exact List.flatMap_append _ _ _

theorem polypart_vertices (shapes : List shape)
    (h : ∀ s ∈ shapes, s.stype = shape_type.polyline ∨ s.stype = shape_type.polygon) :
    part_points (shapes.flatMap shape_parts) = collection_vertices ⟨shapes⟩ := by
  induction shapes with
  | nil => rfl
  | cons s ss ih =>
    have hs := h s (List.mem_cons_self _ _)
    have ih' := ih (fun t ht => h t (List.mem_cons_of_mem _ ht))
    unfold collection_vertices at ih' ⊢
    dsimp only at ih' ⊢
    rw [List.flatMap_cons, List.flatMap_cons, part_points_append, ih']
    cases s with
    | polyline parts => rfl
    | polygon rings => rfl
    | _ => simp [shape.stype] at hs

/-- The box a writer puts into the main header is the box of the vertices of the
collection, when every shape is of the kind of the collection. -/
theorem main_header_bb_vertices (k : shape_type)
    (hk4 : k = shape_type.point ∨ k = shape_type.polyline ∨ k = shape_type.polygon
      ∨ k = shape_type.multipoint)
    (shpfile : shapefile) (hall : ∀ s ∈ shpfile.shapes, s.stype = k) :
    main_header_bb k shpfile = determine_multipoint_bb (collection_vertices shpfile) := by
  obtain ⟨shapes⟩ := shpfile
  have hpoly : k = shape_type.polyline ∨ k = shape_type.polygon →
      (determine_polypart_bb_file ⟨shapes⟩).2
        = determine_multipoint_bb (collection_vertices ⟨shapes⟩) := by
    intro hk
    rw [← polypart_vertices shapes (fun s hs => by rw [hall s hs]; exact hk)]
    unfold determine_polypart_bb_file determine_polypart_bb determine_multipoint_bb
    dsimp only
    rw [foldl_polypart_collect, List.nil_append]
    exact congrArg Prod.snd (foldl_polypart_bb_step_eq _ (0, true, zero_bb))
  rcases hk4 with rfl | rfl | rfl | rfl
  · show determine_point_shape_bb ⟨shapes⟩ = _
    rw [← point_shapes_vertices shapes hall]
    unfold determine_point_shape_bb determine_multipoint_bb
    rw [foldl_point_bb_step_eq]
  · exact hpoly (Or.inl rfl)
  · exact hpoly (Or.inr rfl)
  · show (determine_multipoint_shape_bb ⟨shapes⟩).2 = _
    rw [← multipoint_vertices shapes hall]
    unfold determine_multipoint_shape_bb
    dsimp only
    rw [foldl_multipoint_collect, List.nil_append]

/-- The box of a non-empty sequence of points without NaN: each of its four fields is a
coordinate of the sequence and a bound of all of them. -/
theorem determine_multipoint_bb_bounds (points : List pointshape) (hne : points ≠ [])
    (hnan : ∀ p ∈ points, dbl_is_nan p.x = false ∧ dbl_is_nan p.y = false) :
    (∃ p ∈ points, (determine_multipoint_bb points).xmin = p.x)
      ∧ (∀ p ∈ points, dbl_le (determine_multipoint_bb points).xmin p.x = true)
      ∧ (∃ p ∈ points, (determine_multipoint_bb points).ymin = p.y)
      ∧ (∀ p ∈ points, dbl_le (determine_multipoint_bb points).ymin p.y = true)
      ∧ (∃ p ∈ points, (determine_multipoint_bb points).xmax = p.x)
      ∧ (∀ p ∈ points, dbl_le p.x (determine_multipoint_bb points).xmax = true)
      ∧ (∃ p ∈ points, (determine_multipoint_bb points).ymax = p.y)
      ∧ (∀ p ∈ points, dbl_le p.y (determine_multipoint_bb points).ymax = true) := by
  obtain ⟨q, qs, rfl⟩ := List.exists_cons_of_ne_nil hne
  have hq := hnan q (List.mem_cons_self _ _)
  have hqs : ∀ p ∈ qs, dbl_is_nan p.x = false ∧ dbl_is_nan p.y = false :=
    fun p hp => hnan p (List.mem_cons_of_mem _ hp)
  obtain ⟨a1, a2, a3, a4⟩ := foldl_min (fun p => p.x) qs (fun p hp => (hqs p hp).1) q.x hq.1
  obtain ⟨b1, b2, b3, b4⟩ := foldl_max (fun p => p.x) qs (fun p hp => (hqs p hp).1) q.x hq.1
  obtain ⟨c1, c2, c3, c4⟩ := foldl_min (fun p => p.y) qs (fun p hp => (hqs p hp).2) q.y hq.2
  obtain ⟨d1, d2, d3, d4⟩ := foldl_max (fun p => p.y) qs (fun p hp => (hqs p hp).2) q.y hq.2
  rw [determine_multipoint_bb_cons]
  dsimp only at a1 a2 a3 a4 b1 b2 b3 b4 c1 c2 c3 c4 d1 d2 d3 d4 ⊢
  have hmem : ∀ (g : pointshape → Nat) (r : Nat),
      (r = g q ∨ ∃ p ∈ qs, r = g p) → ∃ p ∈ q :: qs, r = g p := by
    intro g r h
    rcases h with h | ⟨p, hp, h⟩
    · exact ⟨q, List.mem_cons_self _ _, h⟩
    · exact ⟨p, List.mem_cons_of_mem _ hp, h⟩
  refine ⟨hmem (fun p => p.x) _ a1, ?_, hmem (fun p => p.y) _ c1, ?_,
    hmem (fun p => p.x) _ b1, ?_, hmem (fun p => p.y) _ d1, ?_⟩
  · intro p hp
    refine dbl_le_of_not_nan _ _ a4 (hnan p hp).1 ?_
    rcases List.mem_cons.mp hp with rfl | hp
    · exact a2
    · exact a3 p hp
  · intro p hp
    refine dbl_le_of_not_nan _ _ c4 (hnan p hp).2 ?_
    rcases List.mem_cons.mp hp with rfl | hp
    · exact c2
    · exact c3 p hp
  · intro p hp
    refine dbl_le_of_not_nan _ _ (hnan p hp).1 b4 ?_
    rcases List.mem_cons.mp hp with rfl | hp
    · exact b2
    · exact b3 p hp
  · intro p hp
    refine dbl_le_of_not_nan _ _ (hnan p hp).2 d4 ?_
    rcases List.mem_cons.mp hp with rfl | hp
    · exact d2
    · exact d3 p hp

/-- Claim C24. The first 100 bytes of every successfully written `.shp` are: the file code
9994 as the big-endian bytes 00 00 27 0A, 20 zero bytes, the file length as four
big-endian bytes, the version 1000 as the little-endian bytes E8 03 00 00, the code of the
kind of the collection as four little-endian bytes, `xmin`, `ymin`, `xmax`, `ymax` of the box
of the collection as little-endian doubles, and 32 zero bytes for `zmin`, `zmax`, `mmin`,
`mmax`. The box `bb` is the one the writer of the kind computes, and it is the box of the
vertices of all shapes of the collection: all zero when there is no vertex, and otherwise
(no coordinate being NaN) `xmin` and `ymin` are the least and `xmax` and `ymax` the greatest
coordinate of the vertices (a coordinate that occurs, and a bound of all). -/
theorem shp_main_header_bytes (path : List Nat) (shpfile : shapefile) (r : write_shp_result)
    (h : write_shp path shpfile = some r) (hst : r.status = true) :
    ∃ (shp : List Nat) (bb : shapefile_main_header_boundingbox), r.shp = some shp
      ∧ shp.take 100 = [0x00, 0x00, 0x27, 0x0a] ++ List.replicate 20 0
          ++ int32_BE (Int.tdiv (to_int32 ((shp_size shpfile.shapes : Nat) : Int)) 2)
          ++ [0xe8, 0x03, 0x00, 0x00] ++ int32_LE (determine_shape_type shpfile).code
          ++ double_LE bb.xmin ++ double_LE bb.ymin ++ double_LE bb.xmax ++ double_LE bb.ymax
          ++ List.replicate 32 0
      ∧ (determine_shape_type shpfile).code ∈ [(1 : Int), 3, 5, 8]
      ∧ bb = main_header_bb (determine_shape_type shpfile) shpfile
      ∧ bb = determine_multipoint_bb (collection_vertices shpfile)
      ∧ (collection_vertices shpfile = [] → bb = zero_bb)
      ∧ (collection_vertices shpfile ≠ [] →
          (∀ p ∈ collection_vertices shpfile,
            dbl_is_nan p.x = false ∧ dbl_is_nan p.y = false) →
          (∃ p ∈ collection_vertices shpfile, bb.xmin = p.x)
            ∧ (∀ p ∈ collection_vertices shpfile, dbl_le bb.xmin p.x = true)
            ∧ (∃ p ∈ collection_vertices shpfile, bb.ymin = p.y)
            ∧ (∀ p ∈ collection_vertices shpfile, dbl_le bb.ymin p.y = true)
            ∧ (∃ p ∈ collection_vertices shpfile, bb.xmax = p.x)
            ∧ (∀ p ∈ collection_vertices shpfile, dbl_le p.x bb.xmax = true)
            ∧ (∃ p ∈ collection_vertices shpfile, bb.ymax = p.y)
            ∧ (∀ p ∈ collection_vertices shpfile, dbl_le p.y bb.ymax = true)) := by
  obtain ⟨fp, hshp⟩ := write_shp_header_box path shpfile r h hst
  obtain ⟨k, -, fp2, shx, hk4, -, hk, hw, -, -⟩ := write_shp_form path shpfile r h hst
  have hall := write_records_kind k _ _ _ _ hw
  have hbox := main_header_bb_vertices k hk4 shpfile hall
  rw [← hk] at hbox
  have hzm := main_header_bb_zm (determine_shape_type shpfile) shpfile
  unfold zm_slots at hzm
  simp only [List.cons.injEq, and_true] at hzm
  obtain ⟨z1, z2, z3, z4⟩ := hzm
  refine ⟨_, main_header_bb (determine_shape_type shpfile) shpfile, hshp, ?_, ?_, rfl, hbox,
    ?_, ?_⟩
  · rw [List.take_left' (write_main_header_length _ _)]
    unfold write_main_header
    dsimp only
    rw [z1, z2, z3, z4]
    simp only [List.append_assoc]
    rfl
  · rw [hk]
    rcases hk4 with e | e | e | e <;> rw [e] <;> decide
  · intro he
    rw [hbox, he]
    rfl
  · intro hne hnan
    rw [hbox]
    exact determine_multipoint_bb_bounds _ hne hnan

set_option maxRecDepth 100000 in
/-- Witness of claim C24: the header of the file written for the polyline with the parts
[(0,0),(1,0)] and [(5,5),(5,6),(5,7)], whose box is (0, 0) to (5, 7). -/
theorem shp_main_header_bytes_witness :
    collection_vertices two_part_polyline
        = [⟨0, 0⟩, ⟨0x3ff0000000000000, 0⟩, ⟨0x4014000000000000, 0x4014000000000000⟩,
          ⟨0x4014000000000000, 0x4018000000000000⟩,
          ⟨0x4014000000000000, 0x401c000000000000⟩]
    ∧ ∃ r, write_shp (str_bytes "l.shp") two_part_polyline = some r ∧ r.status = true
      ∧ ∃ (shp : List Nat) (bb : shapefile_main_header_boundingbox), r.shp = some shp
        ∧ shp.take 100 = [0x00, 0x00, 0x27, 0x0a] ++ List.replicate 20 0
            ++ int32_BE (Int.tdiv (to_int32 ((shp_size two_part_polyline.shapes : Nat) : Int)) 2)
            ++ [0xe8, 0x03, 0x00, 0x00] ++ int32_LE (determine_shape_type two_part_polyline).code
            ++ double_LE bb.xmin ++ double_LE bb.ymin ++ double_LE bb.xmax ++ double_LE bb.ymax
            ++ List.replicate 32 0
        ∧ bb = ⟨0, 0, 0x4014000000000000, 0x401c000000000000, 0, 0, 0, 0⟩ := by
  refine ⟨by decide, ?_⟩
  have hst : (write_shp (str_bytes "l.shp") two_part_polyline).map (fun r => r.status)
      = some true := by decide
  cases hr : write_shp (str_bytes "l.shp") two_part_polyline with
  | none => rw [hr] at hst; simp at hst
  | some r =>
    rw [hr] at hst
    simp only [Option.map_some', Option.some.injEq] at hst
    obtain ⟨shp, bb, h1, h2, -, -, h5, -, -⟩ := shp_main_header_bytes _ _ r hr hst
    exact ⟨r, rfl, hst, shp, bb, h1, h2, h5.trans (by decide)⟩

set_option maxRecDepth 100000 in
theorem two_part_polyline_header :
    (write_shp (str_bytes "l.shp") two_part_polyline).map
        (fun r => r.shp.map (fun shp => (shp.take 36, (shp.drop 36).take 64)))
      = some (some ([0, 0, 0x27, 0x0a, 0, 0, 0, 0, 0, 0, 0, 0, 0, 0, 0, 0, 0, 0, 0, 0, 0, 0, 0, 0,
            0, 0, 0, 120, 0xe8, 3, 0, 0, 3, 0, 0, 0],
          double_LE 0 ++ double_LE 0 ++ double_LE 0x4014000000000000
            ++ double_LE 0x401c000000000000 ++ List.replicate 32 0)) := by
  decide

/-! ## Foreign records behind a content length that is not positive -/

set_option maxRecDepth 100000 in
/-- Claim C28 at a file where it fails. The point file whose only record holds the content
length -10 (not 10) and the type code 3 (neither 0 nor the code 1 of the main header) is
read with success and no shape: `read_record_header` returns `false` for the content length
that is not positive, and the record loop ends as at the end of the file. The same happens in
a polyline, polygon and multipoint file for a record with the type code 1. With the content
length 10 in the header, each of these records makes `read_shp` return `false`, and so does a
point record of content length 8 in a point file. -/
theorem read_shp_stray_record_bogus_length :
    read_shp (stray_record_file shape_type.point (-10) 3) = some (true, ⟨[]⟩)
      ∧ read_shp (stray_record_file shape_type.polyline (-10) 1) = some (true, ⟨[]⟩)
      ∧ read_shp (stray_record_file shape_type.polygon (-10) 1) = some (true, ⟨[]⟩)
      ∧ read_shp (stray_record_file shape_type.multipoint (-10) 1) = some (true, ⟨[]⟩)
      ∧ read_shp (stray_record_file shape_type.point 10 3) = some (false, ⟨[]⟩)
      ∧ read_shp (stray_record_file shape_type.polyline 10 1) = some (false, ⟨[]⟩)
      ∧ read_shp (stray_record_file shape_type.polygon 10 1) = some (false, ⟨[]⟩)
      ∧ read_shp (stray_record_file shape_type.multipoint 10 1) = some (false, ⟨[]⟩)
      ∧ read_shp (stray_record_file shape_type.point 8 1) = some (false, ⟨[]⟩) := by
  refine ⟨?_, ?_, ?_, ?_, ?_, ?_, ?_, ?_, ?_⟩ <;> decide
